import Mathlib

/-!
Mattes mutual-information metric and recursive B-spline transform implementation
(elastix): a shallow embedding.

Embedding of `itkMattesMutualInformationImageToImageMetricWithMask.hxx` and of
`itkRecursiveBSplineTransformImplementation.h` (the latter after the metric, see the
section "The recursive B-spline transform implementation"), followed by the sampling of
the fixed image domain of the metric, by `itkActiveRegistrationModelShapeMetric.hxx` and
by the parameter-map functions, the elapsed-time text and the library flag of
`elxBaseComponent.cxx`.

Conventions of the embedding.

* `double`/`float` values are elements of an arbitrary linearly ordered field `K`
  with a floor function (exact arithmetic; `ℚ` for evaluation, `ℝ` for analysis).
  Rounding, infinities and NaN are not modelled; in particular a division by zero
  is outside the faithful domain of the model.  The one exception is the bin size of
  `Initialize` at 4 bins, whose divisor is zero: `computeBinSizeQuotient` gives the
  result of that division as IEEE arithmetic defines it.
* `unsigned long` is 64 bits wide and `unsigned int` 32 bits wide; subtraction on
  `unsigned long` wraps around.  The conversion `static_cast<int>` of a bin index is
  exact: a bin index is below the bin count, and a joint PDF of `bins × bins` cells
  that fits in memory has fewer than `2^31` bins.
* The sample loops are folds over the container; a loop over a buffer that only sums is
  a finite sum.
* The C library function `log` is a parameter `log : K → K`.
* The external collaborators (transform, interpolator, masks, ITK kernel functions)
  are fields of a record of functions; the transform functions take the parameter
  vector installed by `SetParameters`.
* The dense ITK images holding the joint PDF and its derivatives are functions of
  their (signed) index; the buffered region of the joint PDF is
  `[0, bins) × [0, bins)`.  The marginal PDFs (`std::vector`) are functions of an
  unsigned index, of which the entries below `bins` exist.
-/

set_option linter.unusedSectionVars false

open Finset

namespace Elastix

/-! ## Machine integers -/

/-- Number of values of an `unsigned long`. -/
def ulongModulus : ℕ := 2 ^ 64

/-- Number of values of an `unsigned int`. -/
def uintModulus : ℕ := 2 ^ 32

/-- Subtraction `a - b` on `unsigned long` (wraps around). -/
def ulongSub (a b : ℕ) : ℕ := (a + ulongModulus - b % ulongModulus) % ulongModulus

/-- The conversion `static_cast<unsigned int>( z )` of an integral `double` value
(wrapping; the C++ conversion is only defined for `0 ≤ z < 2^32`). -/
def castToUnsignedInt (z : ℤ) : ℕ := (z % (uintModulus : ℤ)).toNat

section Engine

variable {K : Type} [LinearOrderedField K] [FloorRing K]

/-! ## Initialize: intensity range and binning parameters -/

/-- The value `NumericTraits<double>::max()`. -/
def doubleMax : K := 2 ^ 1024 - 2 ^ 971

/-- One step of the min/max scan of `Initialize` (lines 183-193): the state is
`(imageMin, imageMax)`. -/
def scanStep (acc : K × K) (sample : K) : K × K :=
  let imageMin := if sample < acc.1 then sample else acc.1
  let imageMax := if sample > acc.2 then sample else acc.2
  (imageMin, imageMax)

/-- The min/max scan of `Initialize` over the pixels of an image region, started from
`NumericTraits<double>::max()` and `NumericTraits<double>::NonpositiveMin()`. -/
def scanMinMax (pixels : List K) : K × K :=
  pixels.foldl scanStep (doubleMax, -doubleMax)

/-- The constant `padding` of `Initialize`: "this will pad by 2 bins". -/
def padding : ℕ := 2

/-- The divisor `static_cast<double>( m_NumberOfHistogramBins - 2 * padding )`,
computed on `unsigned long`. -/
def binDivisor (bins : ℕ) : ℕ := ulongSub bins (2 * padding)

/-- The bin size `( imageMax - imageMin ) / static_cast<double>( bins - 2 * padding )`
of `Initialize` (lines 249-250 and 254-255). -/
def computeBinSize (imageMin imageMax : K) (bins : ℕ) : K :=
  (imageMax - imageMin) / (binDivisor bins : K)

/-- The result of a `double` division whose divisor may be zero: a number, an infinity,
or not a number. -/
inductive DoubleQuotient (K : Type) where
  /-- An ordinary quotient. -/
  | number (value : K)
  /-- The quotient of a positive number and zero. -/
  | positiveInfinity
  /-- The quotient of a negative number and zero. -/
  | negativeInfinity
  /-- The quotient of zero and zero. -/
  | notANumber

/-- The comparison `0 < q` of a quotient: true for a positive number and for the positive
infinity, false otherwise. -/
def DoubleQuotient.isPositive : DoubleQuotient K → Bool
  | DoubleQuotient.number value => decide (0 < value)
  | DoubleQuotient.positiveInfinity => true
  | DoubleQuotient.negativeInfinity => false
  | DoubleQuotient.notANumber => false

/-- The bin size `( imageMax - imageMin ) / static_cast<double>( bins - 2 * padding )`
of `Initialize` (lines 249-250 and 254-255) as the `double` that the division yields, also
when the divisor is zero (4 bins; the divisor is the `double` of an unsigned number, so it
is `+0.0`): a positive range gives the positive infinity, a negative one the negative
infinity and a zero range not a number.  For any other divisor it is `computeBinSize`. -/
def computeBinSizeQuotient (imageMin imageMax : K) (bins : ℕ) : DoubleQuotient K :=
  if binDivisor bins = 0 then
    if 0 < imageMax - imageMin then DoubleQuotient.positiveInfinity
    else if imageMax - imageMin < 0 then DoubleQuotient.negativeInfinity
    else DoubleQuotient.notANumber
  else DoubleQuotient.number (computeBinSize imageMin imageMax bins)

/-- The offset `imageMin / binSize - static_cast<double>( padding )` of `Initialize`
(lines 251-252 and 256-257). -/
def computeNormalizedMin (imageMin binSize : K) : K :=
  imageMin / binSize - (padding : K)

/-- The binning parameters that `Initialize` stores in the metric. -/
structure BinningParameters (K : Type) where
  m_FixedImageBinSize : K
  m_FixedImageNormalizedMin : K
  m_MovingImageBinSize : K
  m_MovingImageNormalizedMin : K
  m_MovingImageTrueMin : K
  m_MovingImageTrueMax : K

/-- The part of `Initialize` (lines 172-257) that scans the fixed image region and the
moving image buffer and derives the binning parameters. -/
def InitializeBinning (bins : ℕ) (fixedPixels movingPixels : List K) :
    BinningParameters K :=
  let fixedImageMin := (scanMinMax fixedPixels).1
  let fixedImageMax := (scanMinMax fixedPixels).2
  let movingImageMin := (scanMinMax movingPixels).1
  let movingImageMax := (scanMinMax movingPixels).2
  let fixedImageBinSize := computeBinSize fixedImageMin fixedImageMax bins
  let movingImageBinSize := computeBinSize movingImageMin movingImageMax bins
  { m_FixedImageBinSize := fixedImageBinSize
    m_FixedImageNormalizedMin := computeNormalizedMin fixedImageMin fixedImageBinSize
    m_MovingImageBinSize := movingImageBinSize
    m_MovingImageNormalizedMin := computeNormalizedMin movingImageMin movingImageBinSize
    m_MovingImageTrueMin := movingImageMin
    m_MovingImageTrueMax := movingImageMax }

/-! ## Parzen window indices -/

/-- The Parzen window term `value / binSize - normalizedMin` (lines 582-583, 587-589). -/
def parzenWindowTerm (value binSize normalizedMin : K) : K :=
  value / binSize - normalizedMin

/-- The unclamped index `static_cast<unsigned int>( floor( term ) )`. -/
def parzenWindowIndex (term : K) : ℕ := castToUnsignedInt ⌊term⌋

/-- The clamping step "make sure the extreme values are in valid bins"
(lines 595-611); the index is an `unsigned int`, the bin count an `unsigned long`. -/
def clampParzenWindowIndex (bins index : ℕ) : ℕ :=
  if index < 2 then 2
  else if index > ulongSub bins 3 then ulongSub bins 3 % uintModulus
  else index

/-- The bin of an intensity: term, floor, conversion, clamping. -/
def binOfIntensity (bins : ℕ) (value binSize normalizedMin : K) : ℕ :=
  clampParzenWindowIndex bins (parzenWindowIndex (parzenWindowTerm value binSize normalizedMin))

/-- The four values `pdfMovingIndex` of the Parzen windowing loop (lines 633-635):
from `static_cast<int>( movingImageParzenWindowIndex ) - 1` up to that index `+ 2`. -/
def pdfMovingIndices (movingImageParzenWindowIndex : ℕ) : List ℤ :=
  [(movingImageParzenWindowIndex : ℤ) - 1, (movingImageParzenWindowIndex : ℤ),
   (movingImageParzenWindowIndex : ℤ) + 1, (movingImageParzenWindowIndex : ℤ) + 2]

/-! ## Collaborators and metric state -/

/-- A fixed image spatial sample: the fixed domain point and the fixed image value
at that point (class `FixedImageSpatialSample`). -/
structure FixedImageSpatialSample (K Pt : Type) where
  FixedImagePointValue : Pt
  FixedImageValue : K

/-- The output of the B-spline transform's `TransformPoint`. -/
structure BSplineTransformOutput (K Pt : Type) where
  mappedPoint : Pt
  weights : ℕ → K
  indices : ℕ → ℕ
  insideBSValidRegion : Bool

/-- The external collaborators of the metric, as functions.  The transform functions
take the parameter vector that `SetParameters` installed. -/
structure Collaborators (K Pt Par : Type) where
  /-- The call `m_Transform->TransformPoint( point )`. -/
  transformPoint : Par → Pt → Pt
  /-- The call `m_BSplineTransform->TransformPoint( point, mapped, weights, indices, inside )`. -/
  bsplineTransformPoint : Par → Pt → BSplineTransformOutput K Pt
  /-- The call `m_Transform->GetJacobian( point )`, read as `jacobian[dim][mu]`. -/
  getJacobian : Par → Pt → ℕ → ℕ → K
  /-- The call `m_Interpolator->IsInsideBuffer( point )`. -/
  isInsideBuffer : Pt → Bool
  /-- The call `m_Interpolator->Evaluate( point )`. -/
  evaluate : Pt → K
  /-- The call `m_BSplineInterpolator->EvaluateDerivative( point )`. -/
  bsplineEvaluateDerivative : Pt → ℕ → K
  /-- The call `m_DerivativeCalculator->Evaluate( point )` (central differencing). -/
  derivativeCalculatorEvaluate : Pt → ℕ → K
  /-- The member `m_MovingMask`, when set: `IsInMask( point )`. -/
  m_MovingMask : Option (Pt → Bool)
  /-- The member `m_FixedMask`, when set: `IsInMask( point )`. -/
  m_FixedMask : Option (Pt → Bool)
  /-- The call `m_CubicBSplineKernel->Evaluate( u )`. -/
  cubicBSplineKernel : K → K
  /-- The call `m_CubicBSplineDerivativeKernel->Evaluate( u )`. -/
  cubicBSplineDerivativeKernel : K → K

/-- The configuration and cached members of the metric that the evaluations read. -/
structure Metric (K Pt Par : Type) where
  m_NumberOfSpatialSamples : ℕ
  m_NumberOfHistogramBins : ℕ
  m_NumberOfParameters : ℕ
  FixedImageDimension : ℕ
  m_NumParametersPerDim : ℤ
  m_NumBSplineWeights : ℕ
  m_InterpolatorIsBSpline : Bool
  m_TransformIsBSpline : Bool
  m_UseExactDerivative : Bool
  binning : BinningParameters K
  collaborators : Collaborators K Pt Par
  /-- The sample container filled by `SampleFixedImageDomain`. -/
  m_FixedImageSamples : List (FixedImageSpatialSample K Pt)
  /-- The pixels of the fixed image region in iteration order, each with its physical
  point (`TransformIndexToPhysicalPoint`) and its value. -/
  fixedImageRegionPixels : List (FixedImageSpatialSample K Pt)

/-- The mutable PDF members of the metric. -/
structure PDFs (K : Type) where
  m_FixedImageMarginalPDF : ℕ → K
  m_MovingImageMarginalPDF : ℕ → K
  m_JointPDF : ℤ → ℤ → K
  m_JointPDFDerivatives : ℤ → ℤ → ℤ → K

/-- The failures raised by the evaluations (`itkExceptionMacro`). -/
inductive MetricError where
  /-- The failure "Too many samples map outside moving image buffer". -/
  | tooManySamplesOutside
  /-- The failure "Joint PDF summed to zero". -/
  | jointPDFSummedToZero
  /-- The failure "Fixed image marginal PDF summed to zero". -/
  | fixedPDFSummedToZero
  deriving DecidableEq

/-! ## TransformPoint -/

/-- The outputs of the metric's `TransformPoint`, together with the B-spline weights
and indices it caches.  `movingImageValue` is left unset by the source when the
interpolator is not evaluated; it is `0` here and not read in that case. -/
structure TransformPointOutput (K Pt : Type) where
  mappedPoint : Pt
  sampleOk : Bool
  movingImageValue : K
  weights : ℕ → K
  indices : ℕ → ℕ

/-- The metric's `TransformPoint` (lines 1507-1561). -/
def TransformPoint {Pt Par : Type} (M : Metric K Pt Par) (parameters : Par)
    (fixedImagePoint : Pt) : TransformPointOutput K Pt :=
  let bs := M.collaborators.bsplineTransformPoint parameters fixedImagePoint
  let mappedPoint :=
    if !M.m_TransformIsBSpline then M.collaborators.transformPoint parameters fixedImagePoint
    else bs.mappedPoint
  -- Check if mapped point inside image buffer
  let sampleOk₁ := M.collaborators.isInsideBuffer mappedPoint
  let sampleOk₂ :=
    if M.m_TransformIsBSpline then sampleOk₁ && bs.insideBSValidRegion else sampleOk₁
  let sampleOk₃ :=
    match M.collaborators.m_MovingMask with
    | some isInMask => if sampleOk₂ then isInMask mappedPoint else sampleOk₂
    | none => sampleOk₂
  if sampleOk₃ then
    let movingImageValue := M.collaborators.evaluate mappedPoint
    let sampleOk₄ :=
      if movingImageValue < M.binning.m_MovingImageTrueMin ∨
          movingImageValue > M.binning.m_MovingImageTrueMax then false else sampleOk₃
    { mappedPoint := mappedPoint, sampleOk := sampleOk₄, movingImageValue := movingImageValue,
      weights := bs.weights, indices := bs.indices }
  else
    { mappedPoint := mappedPoint, sampleOk := sampleOk₃, movingImageValue := 0,
      weights := bs.weights, indices := bs.indices }

/-! ## Histogram accumulation -/

/-- The buffered region of the joint PDF: `[0, bins) × [0, bins)`. -/
def inJointBuffer (bins : ℕ) (f m : ℤ) : Prop :=
  0 ≤ f ∧ f < (bins : ℤ) ∧ 0 ≤ m ∧ m < (bins : ℤ)

instance (bins : ℕ) (f m : ℤ) : Decidable (inJointBuffer bins f m) := by
  unfold inJointBuffer; infer_instance

/-- The resets at the start of `GetValue` (lines 535-542): both marginal PDFs are
zeroed for `j < bins`, the joint PDF buffer is filled with zero. -/
def resetPDFs (bins : ℕ) (pdfs : PDFs K) : PDFs K :=
  { pdfs with
    m_FixedImageMarginalPDF := fun j => if j < bins then 0 else pdfs.m_FixedImageMarginalPDF j
    m_MovingImageMarginalPDF := fun j => if j < bins then 0 else pdfs.m_MovingImageMarginalPDF j
    m_JointPDF := fun f m => if inJointBuffer bins f m then 0 else pdfs.m_JointPDF f m }

/-- The update `m_FixedImageMarginalPDF[index] += value`. -/
def addAtBin (pdf : ℕ → K) (index : ℕ) (value : K) : ℕ → K :=
  fun j => if j = index then pdf j + value else pdf j

/-- The update `m_JointPDF->GetPixel( {f, m} ) += value`. -/
def addAtJoint (pdf : ℤ → ℤ → K) (f m : ℤ) (value : K) : ℤ → ℤ → K :=
  fun a b => if a = f ∧ b = m then pdf a b + value else pdf a b

/-- The Parzen windowing loop of `GetValue` (lines 633-651) for one accepted sample. -/
def parzenWindowing (kernel : K → K) (fixedImageParzenWindowIndex movingImageParzenWindowIndex : ℕ)
    (movingImageParzenWindowTerm : K) (jointPDF : ℤ → ℤ → K) : ℤ → ℤ → K :=
  (pdfMovingIndices movingImageParzenWindowIndex).foldl
    (fun (pdf : ℤ → ℤ → K) (pdfMovingIndex : ℤ) =>
      let movingImageParzenWindowArg := ((pdfMovingIndex : ℤ) : K) - movingImageParzenWindowTerm
      addAtJoint pdf (fixedImageParzenWindowIndex : ℤ) pdfMovingIndex
        (kernel movingImageParzenWindowArg))
    jointPDF

/-- The loop state of the sample loop: the accepted-sample counter and the PDFs. -/
structure LoopState (K : Type) where
  nSamples : ℕ
  pdfs : PDFs K

/-- The body of the sample loop of `GetValue` (lines 559-655) for one sample. -/
def getValueSampleStep {Pt Par : Type} (M : Metric K Pt Par) (parameters : Par)
    (st : LoopState K) (sample : FixedImageSpatialSample K Pt) : LoopState K :=
  let tp := TransformPoint M parameters sample.FixedImagePointValue
  if tp.sampleOk then
    let movingImageParzenWindowTerm := parzenWindowTerm tp.movingImageValue
      M.binning.m_MovingImageBinSize M.binning.m_MovingImageNormalizedMin
    let fixedImageParzenWindowTerm := parzenWindowTerm sample.FixedImageValue
      M.binning.m_FixedImageBinSize M.binning.m_FixedImageNormalizedMin
    let fixedImageParzenWindowIndex := clampParzenWindowIndex M.m_NumberOfHistogramBins
      (parzenWindowIndex fixedImageParzenWindowTerm)
    let movingImageParzenWindowIndex := clampParzenWindowIndex M.m_NumberOfHistogramBins
      (parzenWindowIndex movingImageParzenWindowTerm)
    { nSamples := st.nSamples + 1
      pdfs := { st.pdfs with
        m_FixedImageMarginalPDF :=
          addAtBin st.pdfs.m_FixedImageMarginalPDF fixedImageParzenWindowIndex 1
        m_JointPDF := parzenWindowing M.collaborators.cubicBSplineKernel
          fixedImageParzenWindowIndex movingImageParzenWindowIndex
          movingImageParzenWindowTerm st.pdfs.m_JointPDF } }
  else st

/-- The sample loop of `GetValue` over `m_FixedImageSamples`, after the resets. -/
def getValueAccumulate {Pt Par : Type} (M : Metric K Pt Par) (parameters : Par)
    (pdfs : PDFs K) : LoopState K :=
  M.m_FixedImageSamples.foldl (getValueSampleStep M parameters)
    { nSamples := 0, pdfs := resetPDFs M.m_NumberOfHistogramBins pdfs }

/-! ## Normalisation and the metric value -/

/-- The joint PDF normalization factor `jointPDFSum` (lines 677-683): the sum of the
joint PDF over its buffer. -/
def jointPDFSum (bins : ℕ) (jointPDF : ℤ → ℤ → K) : K :=
  ∑ m in range bins, ∑ f in range bins, jointPDF (f : ℤ) (m : ℤ)

/-- The step "Normalize the PDF bins" (lines 692-697): every entry of the buffer is divided by
`jointPDFSum`. -/
def normalizeJointPDF (bins : ℕ) (jointPDF : ℤ → ℤ → K) (sum : K) : ℤ → ℤ → K :=
  fun f m => if inJointBuffer bins f m then jointPDF f m / sum else jointPDF f m

/-- The factor `fixedPDFSum` (lines 701-705). -/
def fixedPDFSum (bins : ℕ) (fixedPDF : ℕ → K) : K :=
  ∑ bin in range bins, fixedPDF bin

/-- The step "Normalize the fixed image marginal PDF" (lines 712-715). -/
def normalizeFixedPDF (bins : ℕ) (fixedPDF : ℕ → K) (sum : K) : ℕ → K :=
  fun bin => if bin < bins then fixedPDF bin / sum else fixedPDF bin

/-- The assignment `pdf[index] = value`. -/
def setAtBin (pdf : ℕ → K) (index : ℕ) (value : K) : ℕ → K :=
  fun j => if j = index then value else pdf j

/-- The step "Compute moving image marginal PDF by summing over fixed image bins"
(lines 719-742): the linear iterator walks the lines of direction 0 of the joint PDF
buffer; line number `movingIndex` is summed and stored at `movingIndex`. -/
def computeMovingMarginalPDF (bins : ℕ) (jointPDF : ℤ → ℤ → K) (movingPDF : ℕ → K) : ℕ → K :=
  (List.range bins).foldl
    (fun (pdf : ℕ → K) (movingIndex : ℕ) =>
      setAtBin pdf movingIndex (∑ f in range bins, jointPDF (f : ℤ) (movingIndex : ℤ)))
    movingPDF

/-- The normalisation step of the evaluations (lines 666-742), with its two failures. -/
def normalizePDFs (bins : ℕ) (pdfs : PDFs K) : Except MetricError (PDFs K) :=
  let sum := jointPDFSum bins pdfs.m_JointPDF
  if sum = 0 then Except.error MetricError.jointPDFSummedToZero
  else
    let jointPDF := normalizeJointPDF bins pdfs.m_JointPDF sum
    let fixedSum := fixedPDFSum bins pdfs.m_FixedImageMarginalPDF
    if fixedSum = 0 then Except.error MetricError.fixedPDFSummedToZero
    else
      Except.ok { pdfs with
        m_JointPDF := jointPDF
        m_FixedImageMarginalPDF := normalizeFixedPDF bins pdfs.m_FixedImageMarginalPDF fixedSum
        m_MovingImageMarginalPDF :=
          computeMovingMarginalPDF bins jointPDF pdfs.m_MovingImageMarginalPDF }

/-- The guard constant `1e-16`. -/
def pdfEpsilon : K := 1 / 10 ^ 16

/-- The body of the double summation (lines 755-767) for one bin pair: the amount
added to `sum`. -/
def metricTerm (log : K → K) (jointPDFValue movingImagePDFValue fixedImagePDFValue : K) : K :=
  if jointPDFValue > pdfEpsilon ∧ movingImagePDFValue > pdfEpsilon then
    let pRatio := log (jointPDFValue / movingImagePDFValue)
    if fixedImagePDFValue > pdfEpsilon then
      jointPDFValue * (pRatio - log fixedImagePDFValue)
    else 0
  else 0

/-- The step "Compute the metric by double summation over histogram" (lines 748-769). -/
def metricSum (log : K → K) (bins : ℕ) (pdfs : PDFs K) : K :=
  ∑ fixedIndex in range bins, ∑ movingIndex in range bins,
    metricTerm log (pdfs.m_JointPDF (fixedIndex : ℤ) (movingIndex : ℤ))
      (pdfs.m_MovingImageMarginalPDF movingIndex) (pdfs.m_FixedImageMarginalPDF fixedIndex)

/-- The evaluation `GetValue` (lines 526-773) together with the final contents of the
PDF members: resets, sample loop, sampling check, normalisation, summation. -/
def GetValueAndPDFs {Pt Par : Type} (M : Metric K Pt Par) (log : K → K) (pdfs : PDFs K)
    (parameters : Par) : Except MetricError (K × PDFs K) :=
  let st := getValueAccumulate M parameters pdfs
  if st.nSamples < M.m_NumberOfSpatialSamples / 4 then
    Except.error MetricError.tooManySamplesOutside
  else
    match normalizePDFs M.m_NumberOfHistogramBins st.pdfs with
    | Except.error e => Except.error e
    | Except.ok normalized =>
      Except.ok (-1 * metricSum log M.m_NumberOfHistogramBins normalized, normalized)

/-- The value returned by `GetValue`. -/
def GetValue {Pt Par : Type} (M : Metric K Pt Par) (log : K → K) (pdfs : PDFs K)
    (parameters : Par) : Except MetricError K :=
  (GetValueAndPDFs M log pdfs parameters).map Prod.fst

/-! ## GetApproximateValueAndDerivative -/

/-- The metric's `ComputeImageDerivatives` (lines 1479-1497). -/
def ComputeImageDerivatives {Pt Par : Type} (M : Metric K Pt Par) (mappedPoint : Pt) : ℕ → K :=
  if M.m_InterpolatorIsBSpline then M.collaborators.bsplineEvaluateDerivative mappedPoint
  else M.collaborators.derivativeCalculatorEvaluate mappedPoint

/-- The update `m_JointPDFDerivatives->GetPixel( {f, m, p} ) -= value`. -/
def subAtDerivative (d : ℤ → ℤ → ℤ → K) (f m p : ℤ) (value : K) : ℤ → ℤ → ℤ → K :=
  fun a b c => if a = f ∧ b = m ∧ c = p then d a b c - value else d a b c

/-- The metric's `ComputePDFDerivatives` (lines 1570-1652); `weights` and `indices`
are the members `m_BSplineTransformWeights` and `m_BSplineTransformIndices`. -/
def ComputePDFDerivatives {Pt Par : Type} (M : Metric K Pt Par) (parameters : Par)
    (weights : ℕ → K) (indices : ℕ → ℕ) (fixedImagePoint : Pt)
    (fixedImageParzenWindowIndex pdfMovingIndex : ℤ) (movingImageGradientValue : ℕ → K)
    (cubicBSplineDerivativeValue : K) (derivatives : ℤ → ℤ → ℤ → K) : ℤ → ℤ → ℤ → K :=
  if !M.m_TransformIsBSpline then
    let jacobian := M.collaborators.getJacobian parameters fixedImagePoint
    (List.range M.m_NumberOfParameters).foldl
      (fun (d : ℤ → ℤ → ℤ → K) (mu : ℕ) =>
        let innerProduct := (List.range M.FixedImageDimension).foldl
          (fun (acc : K) (dim : ℕ) => acc + jacobian dim mu * movingImageGradientValue dim) 0
        subAtDerivative d fixedImageParzenWindowIndex pdfMovingIndex (mu : ℤ)
          (innerProduct * cubicBSplineDerivativeValue))
      derivatives
  else
    (List.range M.FixedImageDimension).foldl
      (fun (d : ℤ → ℤ → ℤ → K) (dim : ℕ) =>
        let offset : ℤ := (dim : ℤ) * M.m_NumParametersPerDim
        (List.range M.m_NumBSplineWeights).foldl
          (fun (d : ℤ → ℤ → ℤ → K) (mu : ℕ) =>
            let innerProduct := movingImageGradientValue dim * weights mu
            subAtDerivative d fixedImageParzenWindowIndex pdfMovingIndex
              ((indices mu : ℤ) + offset) (innerProduct * cubicBSplineDerivativeValue))
          d)
      derivatives

/-- The Parzen windowing loop of `GetApproximateValueAndDerivative` (lines 936-962):
each of the four bins receives its kernel value and its PDF derivative contribution. -/
def parzenWindowingWithDerivatives {Pt Par : Type} (M : Metric K Pt Par) (parameters : Par)
    (tp : TransformPointOutput K Pt) (fixedImagePoint : Pt)
    (fixedImageParzenWindowIndex movingImageParzenWindowIndex : ℕ)
    (movingImageParzenWindowTerm : K) (movingImageGradientValue : ℕ → K) (pdfs : PDFs K) :
    PDFs K :=
  (pdfMovingIndices movingImageParzenWindowIndex).foldl
    (fun (p : PDFs K) (pdfMovingIndex : ℤ) =>
      let movingImageParzenWindowArg := ((pdfMovingIndex : ℤ) : K) - movingImageParzenWindowTerm
      let cubicBSplineDerivativeValue :=
        M.collaborators.cubicBSplineDerivativeKernel movingImageParzenWindowArg
      { p with
        m_JointPDF := addAtJoint p.m_JointPDF (fixedImageParzenWindowIndex : ℤ) pdfMovingIndex
          (M.collaborators.cubicBSplineKernel movingImageParzenWindowArg)
        m_JointPDFDerivatives := ComputePDFDerivatives M parameters tp.weights tp.indices
          fixedImagePoint (fixedImageParzenWindowIndex : ℤ) pdfMovingIndex
          movingImageGradientValue cubicBSplineDerivativeValue p.m_JointPDFDerivatives })
    pdfs

/-- The body of the sample loop of `GetApproximateValueAndDerivative`
(lines 856-966) for one sample. -/
def getValueAndDerivativeSampleStep {Pt Par : Type} (M : Metric K Pt Par) (parameters : Par)
    (st : LoopState K) (sample : FixedImageSpatialSample K Pt) : LoopState K :=
  let tp := TransformPoint M parameters sample.FixedImagePointValue
  if tp.sampleOk then
    let movingImageGradientValue := ComputeImageDerivatives M tp.mappedPoint
    let movingImageParzenWindowTerm := parzenWindowTerm tp.movingImageValue
      M.binning.m_MovingImageBinSize M.binning.m_MovingImageNormalizedMin
    let fixedImageParzenWindowTerm := parzenWindowTerm sample.FixedImageValue
      M.binning.m_FixedImageBinSize M.binning.m_FixedImageNormalizedMin
    let fixedImageParzenWindowIndex := clampParzenWindowIndex M.m_NumberOfHistogramBins
      (parzenWindowIndex fixedImageParzenWindowTerm)
    let movingImageParzenWindowIndex := clampParzenWindowIndex M.m_NumberOfHistogramBins
      (parzenWindowIndex movingImageParzenWindowTerm)
    let pdfs₁ := { st.pdfs with
      m_FixedImageMarginalPDF :=
        addAtBin st.pdfs.m_FixedImageMarginalPDF fixedImageParzenWindowIndex 1 }
    { nSamples := st.nSamples + 1
      pdfs := parzenWindowingWithDerivatives M parameters tp sample.FixedImagePointValue
        fixedImageParzenWindowIndex movingImageParzenWindowIndex movingImageParzenWindowTerm
        movingImageGradientValue pdfs₁ }
  else st

/-- The buffered region of the joint PDF derivatives:
`[0, bins) × [0, bins) × [0, numberOfParameters)`. -/
def inDerivativesBuffer (bins numberOfParameters : ℕ) (f m p : ℤ) : Prop :=
  inJointBuffer bins f m ∧ 0 ≤ p ∧ p < (numberOfParameters : ℤ)

instance (bins numberOfParameters : ℕ) (f m p : ℤ) :
    Decidable (inDerivativesBuffer bins numberOfParameters f m p) := by
  unfold inDerivativesBuffer; infer_instance

/-- The resets at the start of `GetApproximateValueAndDerivative` (lines 829-837). -/
def resetPDFsAndDerivatives (bins numberOfParameters : ℕ) (pdfs : PDFs K) : PDFs K :=
  { resetPDFs bins pdfs with
    m_JointPDFDerivatives := fun f m p =>
      if inDerivativesBuffer bins numberOfParameters f m p then 0
      else pdfs.m_JointPDFDerivatives f m p }

/-- The sample loop of `GetApproximateValueAndDerivative`, after the resets. -/
def getValueAndDerivativeAccumulate {Pt Par : Type} (M : Metric K Pt Par) (parameters : Par)
    (pdfs : PDFs K) : LoopState K :=
  M.m_FixedImageSamples.foldl (getValueAndDerivativeSampleStep M parameters)
    { nSamples := 0
      pdfs := resetPDFsAndDerivatives M.m_NumberOfHistogramBins M.m_NumberOfParameters pdfs }

/-- The step "Normalize the joint PDF derivatives by the test image binsize and nSamples"
(lines 1058-1071). -/
def scaleDerivatives (bins numberOfParameters : ℕ) (nFactor : K)
    (derivatives : ℤ → ℤ → ℤ → K) : ℤ → ℤ → ℤ → K :=
  fun f m p =>
    if inDerivativesBuffer bins numberOfParameters f m p then derivatives f m p * nFactor
    else derivatives f m p

/-- The update `derivative[parameter] -= value`. -/
def subAtBin (v : ℕ → K) (index : ℕ) (value : K) : ℕ → K :=
  fun j => if j = index then v j - value else v j

/-- The derivative part of the final double loop (lines 1078-1111), started from the
zero-filled `derivative`. -/
def metricDerivative (log : K → K) (bins numberOfParameters : ℕ) (pdfs : PDFs K) : ℕ → K :=
  (List.range bins).foldl
    (fun (derivative : ℕ → K) (fixedIndex : ℕ) =>
      (List.range bins).foldl
        (fun (derivative : ℕ → K) (movingIndex : ℕ) =>
          let movingImagePDFValue := pdfs.m_MovingImageMarginalPDF movingIndex
          let jointPDFValue := pdfs.m_JointPDF (fixedIndex : ℤ) (movingIndex : ℤ)
          if jointPDFValue > pdfEpsilon ∧ movingImagePDFValue > pdfEpsilon then
            let pRatio := log (jointPDFValue / movingImagePDFValue)
            (List.range numberOfParameters).foldl
              (fun (derivative : ℕ → K) (parameter : ℕ) =>
                subAtBin derivative parameter
                  (pdfs.m_JointPDFDerivatives (fixedIndex : ℤ) (movingIndex : ℤ)
                    (parameter : ℤ) * pRatio))
              derivative
          else derivative)
        derivative)
    (fun _ => 0)

/-- The outputs of `GetApproximateValueAndDerivative`, with the final PDF members. -/
structure ValueAndDerivative (K : Type) where
  value : K
  derivative : ℕ → K
  pdfs : PDFs K

/-- The evaluation `GetApproximateValueAndDerivative` (lines 812-1115). -/
def GetApproximateValueAndDerivative {Pt Par : Type} (M : Metric K Pt Par) (log : K → K)
    (pdfs : PDFs K) (parameters : Par) : Except MetricError (ValueAndDerivative K) :=
  let st := getValueAndDerivativeAccumulate M parameters pdfs
  if st.nSamples < M.m_NumberOfSpatialSamples / 4 then
    Except.error MetricError.tooManySamplesOutside
  else
    match normalizePDFs M.m_NumberOfHistogramBins st.pdfs with
    | Except.error e => Except.error e
    | Except.ok normalized =>
      let nFactor := 1 / (M.binning.m_MovingImageBinSize * (st.nSamples : K))
      let scaled := { normalized with
        m_JointPDFDerivatives := scaleDerivatives M.m_NumberOfHistogramBins
          M.m_NumberOfParameters nFactor normalized.m_JointPDFDerivatives }
      Except.ok
        { value := -1 * metricSum log M.m_NumberOfHistogramBins scaled
          derivative := metricDerivative log M.m_NumberOfHistogramBins
            M.m_NumberOfParameters scaled
          pdfs := scaled }

/-! ## The exact (all-pixel) evaluations -/

/-- The fixed mask check of the exact evaluations (lines 1190-1193, 1740-1743):
`sampleOk` starts as `true` and is replaced by `IsInMask( fixedImagePoint )` when a fixed
mask is set. -/
def fixedMaskAccepts {Pt Par : Type} (M : Metric K Pt Par) (fixedImagePoint : Pt) : Bool :=
  match M.collaborators.m_FixedMask with
  | some isInMask => isInMask fixedImagePoint
  | none => true

/-- The body of the pixel loop of `GetExactValue` (lines 1725-1836) for one pixel: after
the fixed mask check it is the body of the sample loop of `GetValue`. -/
def getExactValueSampleStep {Pt Par : Type} (M : Metric K Pt Par) (parameters : Par)
    (st : LoopState K) (pixel : FixedImageSpatialSample K Pt) : LoopState K :=
  if fixedMaskAccepts M pixel.FixedImagePointValue then
    getValueSampleStep M parameters st pixel
  else st

/-- The pixel loop of `GetExactValue` over the fixed image region, after the resets. -/
def getExactValueAccumulate {Pt Par : Type} (M : Metric K Pt Par) (parameters : Par)
    (pdfs : PDFs K) : LoopState K :=
  M.fixedImageRegionPixels.foldl (getExactValueSampleStep M parameters)
    { nSamples := 0, pdfs := resetPDFs M.m_NumberOfHistogramBins pdfs }

/-- The evaluation `GetExactValue` (lines 1688-1953) together with the final contents of
the PDF members. -/
def GetExactValueAndPDFs {Pt Par : Type} (M : Metric K Pt Par) (log : K → K) (pdfs : PDFs K)
    (parameters : Par) : Except MetricError (K × PDFs K) :=
  let st := getExactValueAccumulate M parameters pdfs
  if st.nSamples < M.m_NumberOfSpatialSamples / 4 then
    Except.error MetricError.tooManySamplesOutside
  else
    match normalizePDFs M.m_NumberOfHistogramBins st.pdfs with
    | Except.error e => Except.error e
    | Except.ok normalized =>
      Except.ok (-1 * metricSum log M.m_NumberOfHistogramBins normalized, normalized)

/-- The value returned by `GetExactValue`. -/
def GetExactValue {Pt Par : Type} (M : Metric K Pt Par) (log : K → K) (pdfs : PDFs K)
    (parameters : Par) : Except MetricError K :=
  (GetExactValueAndPDFs M log pdfs parameters).map Prod.fst

/-- The body of the pixel loop of `GetExactValueAndDerivative` (lines 1174-1300) for one
pixel: after the fixed mask check it is the body of the sample loop of
`GetApproximateValueAndDerivative`. -/
def getExactValueAndDerivativeSampleStep {Pt Par : Type} (M : Metric K Pt Par)
    (parameters : Par) (st : LoopState K) (pixel : FixedImageSpatialSample K Pt) :
    LoopState K :=
  if fixedMaskAccepts M pixel.FixedImagePointValue then
    getValueAndDerivativeSampleStep M parameters st pixel
  else st

/-- The pixel loop of `GetExactValueAndDerivative`, after the resets. -/
def getExactValueAndDerivativeAccumulate {Pt Par : Type} (M : Metric K Pt Par)
    (parameters : Par) (pdfs : PDFs K) : LoopState K :=
  M.fixedImageRegionPixels.foldl (getExactValueAndDerivativeSampleStep M parameters)
    { nSamples := 0
      pdfs := resetPDFsAndDerivatives M.m_NumberOfHistogramBins M.m_NumberOfParameters pdfs }

/-- The evaluation `GetExactValueAndDerivative` (lines 1125-1449). -/
def GetExactValueAndDerivative {Pt Par : Type} (M : Metric K Pt Par) (log : K → K)
    (pdfs : PDFs K) (parameters : Par) : Except MetricError (ValueAndDerivative K) :=
  let st := getExactValueAndDerivativeAccumulate M parameters pdfs
  if st.nSamples < M.m_NumberOfSpatialSamples / 4 then
    Except.error MetricError.tooManySamplesOutside
  else
    match normalizePDFs M.m_NumberOfHistogramBins st.pdfs with
    | Except.error e => Except.error e
    | Except.ok normalized =>
      let nFactor := 1 / (M.binning.m_MovingImageBinSize * (st.nSamples : K))
      let scaled := { normalized with
        m_JointPDFDerivatives := scaleDerivatives M.m_NumberOfHistogramBins
          M.m_NumberOfParameters nFactor normalized.m_JointPDFDerivatives }
      Except.ok
        { value := -1 * metricSum log M.m_NumberOfHistogramBins scaled
          derivative := metricDerivative log M.m_NumberOfHistogramBins
            M.m_NumberOfParameters scaled
          pdfs := scaled }

/-- The evaluation `GetValueAndDerivative` (lines 782-800): the exact evaluation when
`m_UseExactDerivative` is set, the sampled one otherwise. -/
def GetValueAndDerivative {Pt Par : Type} (M : Metric K Pt Par) (log : K → K)
    (pdfs : PDFs K) (parameters : Par) : Except MetricError (ValueAndDerivative K) :=
  if M.m_UseExactDerivative then GetExactValueAndDerivative M log pdfs parameters
  else GetApproximateValueAndDerivative M log pdfs parameters

/-! ## Notions used to state the properties -/

/-- Whether the metric's `TransformPoint` accepts a sample (`sampleOk`). -/
def sampleAccepted {Pt Par : Type} (M : Metric K Pt Par) (parameters : Par)
    (sample : FixedImageSpatialSample K Pt) : Bool :=
  (TransformPoint M parameters sample.FixedImagePointValue).sampleOk

/-- The number of accepted samples of the sample container. -/
def acceptedSampleCount {Pt Par : Type} (M : Metric K Pt Par) (parameters : Par) : ℕ :=
  M.m_FixedImageSamples.countP (sampleAccepted M parameters)

/-- The number of pixels of the fixed image region that the exact evaluations accept:
inside the fixed mask (when one is set) and accepted by `TransformPoint`. -/
def acceptedPixelCount {Pt Par : Type} (M : Metric K Pt Par) (parameters : Par) : ℕ :=
  M.fixedImageRegionPixels.countP
    (fun pixel => fixedMaskAccepts M pixel.FixedImagePointValue && sampleAccepted M parameters pixel)

/-- The clamped fixed bin of a sample. -/
def sampleFixedBin {Pt Par : Type} (M : Metric K Pt Par)
    (sample : FixedImageSpatialSample K Pt) : ℕ :=
  binOfIntensity M.m_NumberOfHistogramBins sample.FixedImageValue
    M.binning.m_FixedImageBinSize M.binning.m_FixedImageNormalizedMin

/-- The moving Parzen window term of a sample. -/
def sampleMovingTerm {Pt Par : Type} (M : Metric K Pt Par) (parameters : Par)
    (sample : FixedImageSpatialSample K Pt) : K :=
  parzenWindowTerm (TransformPoint M parameters sample.FixedImagePointValue).movingImageValue
    M.binning.m_MovingImageBinSize M.binning.m_MovingImageNormalizedMin

/-- The clamped moving bin of a sample. -/
def sampleMovingBin {Pt Par : Type} (M : Metric K Pt Par) (parameters : Par)
    (sample : FixedImageSpatialSample K Pt) : ℕ :=
  clampParzenWindowIndex M.m_NumberOfHistogramBins
    (parzenWindowIndex (sampleMovingTerm M parameters sample))

/-- The amount that the Parzen windowing loop of one sample adds to the joint PDF entry
`(a, b)`. -/
def windowContribution (kernel : K → K) (fixedIndex movingIndex : ℕ) (term : K)
    (a b : ℤ) : K :=
  ((pdfMovingIndices movingIndex).map
    (fun i : ℤ => if a = (fixedIndex : ℤ) ∧ b = i then kernel ((i : K) - term) else 0)).sum

/-- The metric with another sample container. -/
def Metric.withSamples {Pt Par : Type} (M : Metric K Pt Par)
    (samples : List (FixedImageSpatialSample K Pt)) : Metric K Pt Par :=
  { M with m_FixedImageSamples := samples }

/-! ## The ITK kernels and a small concrete metric -/

/-- Modelled from the spec: the cubic B-spline kernel that `m_CubicBSplineKernel`
evaluates (`itk::BSplineKernelFunction<3>` of the external ITK library, which is not part
of the sources): `(4 - 6 u² + 3 |u|³) / 6` for `|u| < 1`,
`(8 - 12 |u| + 6 u² - |u|³) / 6` for `1 ≤ |u| < 2`, and `0` otherwise. -/
def itkCubicBSplineKernel (u : K) : K :=
  let absValue := |u|
  let sqrValue := u * u
  if absValue < 1 then (4 - 6 * sqrValue + 3 * sqrValue * absValue) / 6
  else if absValue < 2 then (8 - 12 * absValue + 6 * sqrValue - sqrValue * absValue) / 6
  else 0

/-- Modelled from the spec: the quadratic B-spline kernel
(`itk::BSplineKernelFunction<2>` of the external ITK library). -/
def itkQuadraticBSplineKernel (u : K) : K :=
  let absValue := |u|
  if absValue < 1 / 2 then 3 / 4 - absValue * absValue
  else if absValue < 3 / 2 then (9 - 12 * absValue + 4 * (absValue * absValue)) / 8
  else 0

/-- Modelled from the spec: the derivative of the cubic B-spline kernel that
`m_CubicBSplineDerivativeKernel` evaluates (`itk::BSplineDerivativeKernelFunction<3>` of
the external ITK library): the difference of two shifted quadratic kernels. -/
def itkCubicBSplineDerivativeKernel (u : K) : K :=
  itkQuadraticBSplineKernel (u + 1 / 2) - itkQuadraticBSplineKernel (u - 1 / 2)

/-- PDF members holding zero everywhere. -/
def zeroPDFs : PDFs K :=
  { m_FixedImageMarginalPDF := fun _ => 0
    m_MovingImageMarginalPDF := fun _ => 0
    m_JointPDF := fun _ _ => 0
    m_JointPDFDerivatives := fun _ _ _ => 0 }

/-- Collaborators of a one-dimensional example: the transform is the translation by the
parameter, the moving image is the ramp `x ↦ x` buffered on `[0, 1]`, there are no masks,
and the kernels are the ITK cubic B-spline kernel and its derivative. -/
def exampleCollaborators : Collaborators ℚ ℚ ℚ :=
  { transformPoint := fun t x => x + t
    bsplineTransformPoint := fun t x =>
      { mappedPoint := x + t, weights := fun _ => 0, indices := fun _ => 0,
        insideBSValidRegion := true }
    getJacobian := fun _ _ _ _ => 1
    isInsideBuffer := fun x => decide (0 ≤ x ∧ x ≤ 1)
    evaluate := fun x => x
    bsplineEvaluateDerivative := fun _ _ => 1
    derivativeCalculatorEvaluate := fun _ _ => 1
    m_MovingMask := none
    m_FixedMask := none
    cubicBSplineKernel := itkCubicBSplineKernel
    cubicBSplineDerivativeKernel := itkCubicBSplineDerivativeKernel }

/-- A one-dimensional example metric with 6 histogram bins, a generic (translation)
transform with one parameter, fixed and moving images equal to the ramp `x ↦ x` on
`[0, 1]` (binning parameters as derived by `Initialize` from the pixels `0` and `1`), a
configured sample count and a sample container drawn at the given points.  The fixed
image region has the two pixels `0` and `1`. -/
def exampleMetric (numberOfSpatialSamples : ℕ) (points : List ℚ) : Metric ℚ ℚ ℚ :=
  { m_NumberOfSpatialSamples := numberOfSpatialSamples
    m_NumberOfHistogramBins := 6
    m_NumberOfParameters := 1
    FixedImageDimension := 1
    m_NumParametersPerDim := 0
    m_NumBSplineWeights := 0
    m_InterpolatorIsBSpline := false
    m_TransformIsBSpline := false
    m_UseExactDerivative := false
    binning := InitializeBinning 6 [0, 1] [0, 1]
    collaborators := exampleCollaborators
    m_FixedImageSamples :=
      points.map (fun x => { FixedImagePointValue := x, FixedImageValue := x })
    fixedImageRegionPixels :=
      [{ FixedImagePointValue := 0, FixedImageValue := 0 },
       { FixedImagePointValue := 1, FixedImageValue := 1 }] }

/-! ## The state after `Initialize` -/

/-- The metric is in the state that `Initialize` leaves for its fixed image region and
the given moving-buffer pixels: there are at least 5 histogram bins, the bin count fits the
`unsigned int` bin indices, the binning parameters are the ones `Initialize` derives, the
moving image is not constant, and the Parzen kernel is the ITK cubic B-spline kernel. -/
structure Metric.IsInitialized {Pt Par : Type} (M : Metric K Pt Par)
    (movingPixels : List K) : Prop where
  bins_ge : 5 ≤ M.m_NumberOfHistogramBins
  bins_le : M.m_NumberOfHistogramBins ≤ uintModulus
  binning_eq : M.binning = InitializeBinning M.m_NumberOfHistogramBins
    (M.fixedImageRegionPixels.map (fun pixel => pixel.FixedImageValue)) movingPixels
  moving_range : M.binning.m_MovingImageTrueMin < M.binning.m_MovingImageTrueMax
  kernel_eq : M.collaborators.cubicBSplineKernel = itkCubicBSplineKernel

/-- The summand of the mutual-information sum as the specification states it: for a bin
pair with `P(f,m) > 1e-16` and `P_moving(m) > 1e-16` the term `P(f,m) * log(P(f,m) /
P_moving(m))`, minus `P(f,m) * log(P_fixed(f))` only when additionally
`P_fixed(f) > 1e-16`. -/
def specMetricTerm (log : K → K) (jointPDFValue movingImagePDFValue fixedImagePDFValue : K) :
    K :=
  if jointPDFValue > pdfEpsilon ∧ movingImagePDFValue > pdfEpsilon then
    jointPDFValue * log (jointPDFValue / movingImagePDFValue)
      - (if fixedImagePDFValue > pdfEpsilon then jointPDFValue * log fixedImagePDFValue else 0)
  else 0

/-- The sum over all bin pairs of the summand as the specification states it. -/
def specMetricSum (log : K → K) (bins : ℕ) (pdfs : PDFs K) : K :=
  ∑ f in range bins, ∑ m in range bins,
    specMetricTerm log (pdfs.m_JointPDF (f : ℤ) (m : ℤ))
      (pdfs.m_MovingImageMarginalPDF m) (pdfs.m_FixedImageMarginalPDF f)

/-! ## Notions used to state the properties of the derivative evaluation -/

/-- The amount that one call of `ComputePDFDerivatives` subtracts from the entry of
parameter slice `c` of the bin pair it addresses. -/
def pdfDerivativeAmount {Pt Par : Type} (M : Metric K Pt Par) (parameters : Par)
    (weights : ℕ → K) (indices : ℕ → ℕ) (fixedImagePoint : Pt)
    (movingImageGradientValue : ℕ → K) (cubicBSplineDerivativeValue : K) (c : ℤ) : K :=
  if !M.m_TransformIsBSpline then
    ((List.range M.m_NumberOfParameters).map (fun mu : ℕ =>
      if c = (mu : ℤ) then
        (List.range M.FixedImageDimension).foldl
          (fun (acc : K) (dim : ℕ) =>
            acc + M.collaborators.getJacobian parameters fixedImagePoint dim mu
              * movingImageGradientValue dim) 0
          * cubicBSplineDerivativeValue
      else 0)).sum
  else
    ((List.range M.FixedImageDimension).map (fun dim : ℕ =>
      ((List.range M.m_NumBSplineWeights).map (fun mu : ℕ =>
        if c = (indices mu : ℤ) + (dim : ℤ) * M.m_NumParametersPerDim then
          movingImageGradientValue dim * weights mu * cubicBSplineDerivativeValue
        else 0)).sum)).sum

/-- The amount that the Parzen windowing loop of one sample subtracts from the entry
`(a, b, c)` of the joint PDF derivatives. -/
def sampleDerivativeAmount {Pt Par : Type} (M : Metric K Pt Par) (parameters : Par)
    (sample : FixedImageSpatialSample K Pt) (a b c : ℤ) : K :=
  ((pdfMovingIndices (sampleMovingBin M parameters sample)).map (fun i : ℤ =>
    if a = (sampleFixedBin M sample : ℤ) ∧ b = i then
      pdfDerivativeAmount M parameters
        (TransformPoint M parameters sample.FixedImagePointValue).weights
        (TransformPoint M parameters sample.FixedImagePointValue).indices
        sample.FixedImagePointValue
        (ComputeImageDerivatives M
          (TransformPoint M parameters sample.FixedImagePointValue).mappedPoint)
        (M.collaborators.cubicBSplineDerivativeKernel
          ((i : K) - sampleMovingTerm M parameters sample)) c
    else 0)).sum

/-- Two contents of the PDF members agree on what the summations read of the marginal
PDFs and of the joint PDF: the entries below `bins` and the entries of the buffer. -/
def PDFs.ValueAgree (bins : ℕ) (p q : PDFs K) : Prop :=
  (∀ j : ℕ, j < bins → p.m_FixedImageMarginalPDF j = q.m_FixedImageMarginalPDF j) ∧
  (∀ j : ℕ, j < bins → p.m_MovingImageMarginalPDF j = q.m_MovingImageMarginalPDF j) ∧
  (∀ f m : ℤ, inJointBuffer bins f m → p.m_JointPDF f m = q.m_JointPDF f m)

/-- Two contents of the PDF members agree on the buffer of the joint PDF derivatives. -/
def PDFs.DerivativesAgree (bins numberOfParameters : ℕ) (p q : PDFs K) : Prop :=
  ∀ f m c : ℤ, inDerivativesBuffer bins numberOfParameters f m c →
    p.m_JointPDFDerivatives f m c = q.m_JointPDFDerivatives f m c

/-- The value that the evaluations return from the state left by their sample loop:
sampling check, normalisation and double summation (the code common to lines 657-773,
968-1115, 1302-1449 and 1837-1953). -/
def valueOfAccumulation {Pt Par : Type} (M : Metric K Pt Par) (log : K → K)
    (st : LoopState K) : Except MetricError K :=
  if st.nSamples < M.m_NumberOfSpatialSamples / 4 then
    Except.error MetricError.tooManySamplesOutside
  else
    match normalizePDFs M.m_NumberOfHistogramBins st.pdfs with
    | Except.error e => Except.error e
    | Except.ok normalized =>
      Except.ok (-1 * metricSum log M.m_NumberOfHistogramBins normalized)

/-- The derivative that the derivative evaluations return from the state left by their
sample loop: sampling check, normalisation, scaling of the joint PDF derivatives and the
final loops. -/
def derivativeOfAccumulation {Pt Par : Type} (M : Metric K Pt Par) (log : K → K)
    (st : LoopState K) : Except MetricError (ℕ → K) :=
  if st.nSamples < M.m_NumberOfSpatialSamples / 4 then
    Except.error MetricError.tooManySamplesOutside
  else
    match normalizePDFs M.m_NumberOfHistogramBins st.pdfs with
    | Except.error e => Except.error e
    | Except.ok normalized =>
      Except.ok (metricDerivative log M.m_NumberOfHistogramBins M.m_NumberOfParameters
        { normalized with
          m_JointPDFDerivatives := scaleDerivatives M.m_NumberOfHistogramBins
            M.m_NumberOfParameters
            (1 / (M.binning.m_MovingImageBinSize * (st.nSamples : K)))
            normalized.m_JointPDFDerivatives })

/-- The container that `GetValueAndDerivative` loops over: in the exact mode the pixels of
the fixed region that lie inside the fixed mask (if one is configured), otherwise the
sample container. -/
def evaluatedSamples {Pt Par : Type} (M : Metric K Pt Par) :
    List (FixedImageSpatialSample K Pt) :=
  if M.m_UseExactDerivative then
    M.fixedImageRegionPixels.filter
      (fun pixel => fixedMaskAccepts M pixel.FixedImagePointValue)
  else M.m_FixedImageSamples

/-- The metric with the generic branch of `ComputePDFDerivatives` selected and a transform
whose `GetJacobian` returns the given matrix (row `dim`, column `mu`). -/
def Metric.withGenericJacobian {Pt Par : Type} (M : Metric K Pt Par)
    (jacobian : ℕ → ℕ → K) : Metric K Pt Par :=
  { M with
    m_TransformIsBSpline := false
    collaborators := { M.collaborators with getJacobian := fun _ _ => jacobian } }

/-- A metric configured for a B-spline transform with one image dimension, two parameters
and two weights. -/
def exampleBSplineMetric : Metric ℚ ℚ ℚ :=
  { exampleMetric 0 [] with
    m_TransformIsBSpline := true
    m_NumberOfParameters := 2
    m_NumParametersPerDim := 2
    m_NumBSplineWeights := 2 }

/-! ## The recursive B-spline transform implementation

Embedding of `itkRecursiveBSplineTransformImplementation.h`.  The template recursion on
`SpaceDimension`, terminated by the specialisations for `SpaceDimension = 0`, is a
structural recursion on `SpaceDimension`; the template parameters `OutputDimension` and
`SplineOrder` are arguments.  A pointer into the coefficient memory is the (signed)
address of an element and the coefficient memory a function of the address; an output
array is a function of the position, and a cursor into it a position.  A loop
`for k = 0 .. SplineOrder` is a fold over `List.range (SplineOrder + 1)`. -/

/-- The constant `HelperConstVariable = (SpaceDimension - 1) * (SplineOrder + 1)`. -/
def HelperConstVariable (SpaceDimension SplineOrder : ℕ) : ℕ :=
  (SpaceDimension - 1) * (SplineOrder + 1)

/-- What the scalar-form `TransformPoint` returns and leaves in its reference arguments:
the returned coordinate, the array `indices` and the counter `c`. -/
structure TransformPointResult (K : Type) where
  coord : K
  indices : ℕ → ℕ
  c : ℕ

/-- The scalar-form `RecursiveBSplineTransformImplementation::TransformPoint` (lines 50-62;
the end case for `SpaceDimension = 0`, lines 284-295, stores the offset of `mu` from the
base pointer as an `unsigned long`, advances the `unsigned int` counter and returns the
coefficient `*mu`). -/
def RecursiveBSplineTransformImplementation.TransformPoint (SplineOrder : ℕ)
    (memory : ℤ → K) (steps : ℕ → ℤ) (weights1D : ℕ → K) (coefBasePointer : ℤ) :
    (SpaceDimension : ℕ) → (mu : ℤ) → (indices : ℕ → ℕ) → (c : ℕ) → TransformPointResult K
  | 0, mu, indices, c =>
    { coord := memory mu
      indices := Function.update indices c
        (((mu - coefBasePointer) % (ulongModulus : ℤ)).toNat)
      c := (c + 1) % uintModulus }
  | SpaceDimension + 1, mu, indices, c =>
    (List.range (SplineOrder + 1)).foldl
      (fun (st : TransformPointResult K) (k : ℕ) =>
        let tmp_mu := mu + steps (k + HelperConstVariable (SpaceDimension + 1) SplineOrder)
        let r := RecursiveBSplineTransformImplementation.TransformPoint SplineOrder memory
          steps weights1D coefBasePointer SpaceDimension tmp_mu st.indices st.c
        { coord := st.coord
            + r.coord * weights1D (k + HelperConstVariable (SpaceDimension + 1) SplineOrder)
          indices := r.indices
          c := r.c })
      { coord := 0, indices := indices, c := c }

/-- An output array together with the cursor `jacobians` that `GetJacobian` writes
through and advances. -/
structure JacobianCursor (K : Type) where
  memory : ℕ → K
  jacobians : ℕ

/-- The scalar-form `RecursiveBSplineTransformImplementation::GetJacobian` (lines 66-74;
the end case for `SpaceDimension = 0`, lines 299-304, stores `value` at the cursor and
advances the cursor). -/
def RecursiveBSplineTransformImplementation.GetJacobian (SplineOrder : ℕ)
    (weights1D : ℕ → K) :
    (SpaceDimension : ℕ) → JacobianCursor K → (value : K) → JacobianCursor K
  | 0, st, value =>
    { memory := Function.update st.memory st.jacobians value
      jacobians := st.jacobians + 1 }
  | SpaceDimension + 1, st, value =>
    (List.range (SplineOrder + 1)).foldl
      (fun (st : JacobianCursor K) (k : ℕ) =>
        RecursiveBSplineTransformImplementation.GetJacobian SplineOrder weights1D
          SpaceDimension st
          (value * weights1D (k + HelperConstVariable (SpaceDimension + 1) SplineOrder)))
      st

/-- The vector-form `RecursiveBSplineTransformImplementation2::TransformPoint` (lines
115-136; the end case for `SpaceDimension = 0`, lines 335-343, copies the coefficients
`*(mu[j])` to `opp[j]`).  The local arrays `tmp_mu` and `tmp_opp` have `OutputDimension`
entries. -/
def RecursiveBSplineTransformImplementation2.TransformPoint
    (OutputDimension SplineOrder : ℕ) (memory : ℤ → K) (steps : ℕ → ℤ) (weights1D : ℕ → K) :
    (SpaceDimension : ℕ) → (opp : ℕ → K) → (mu : ℕ → ℤ) → (ℕ → K)
  | 0, opp, mu => fun j => if j < OutputDimension then memory (mu j) else opp j
  | SpaceDimension + 1, opp, mu =>
    (List.range (SplineOrder + 1)).foldl
      (fun (opp : ℕ → K) (k : ℕ) =>
        let tmp_opp : ℕ → K := fun _ => 0
        let tmp_mu : ℕ → ℤ := fun j =>
          mu j + steps (k + HelperConstVariable (SpaceDimension + 1) SplineOrder)
        let tmp_opp := RecursiveBSplineTransformImplementation2.TransformPoint
          OutputDimension SplineOrder memory steps weights1D SpaceDimension tmp_opp tmp_mu
        fun j =>
          if j < OutputDimension then
            opp j + tmp_opp j
              * weights1D (k + HelperConstVariable (SpaceDimension + 1) SplineOrder)
          else opp j)
      opp

/-- The state of `ComputeNonZeroJacobianIndices`: the array `nzji` and the counter `c`. -/
structure NonZeroJacobianIndices where
  nzji : ℕ → ℕ
  c : ℕ

/-- The vector-form `RecursiveBSplineTransformImplementation2::ComputeNonZeroJacobianIndices`
(lines 198-212; end case lines 386-398).  The constant `BSplineNumberOfIndices` is defined
by a header outside the sources at hand and is an argument.  The position
`c + j * BSplineNumberOfIndices` and the counter are `unsigned int`, the stored value
`currentIndex + j * parametersPerDim` and the running index are `unsigned long`; the
stride `bot` is a (signed) `OffsetValueType`. -/
def RecursiveBSplineTransformImplementation2.ComputeNonZeroJacobianIndices
    (OutputDimension SplineOrder BSplineNumberOfIndices : ℕ) (parametersPerDim : ℕ)
    (gridOffsetTable : ℕ → ℤ) :
    (SpaceDimension : ℕ) → (nzji : ℕ → ℕ) → (currentIndex : ℕ) → (c : ℕ) →
      NonZeroJacobianIndices
  | 0, nzji, currentIndex, c =>
    { nzji := (List.range OutputDimension).foldl
        (fun (nzji : ℕ → ℕ) (j : ℕ) =>
          Function.update nzji ((c + j * BSplineNumberOfIndices) % uintModulus)
            ((currentIndex + j * parametersPerDim) % ulongModulus))
        nzji
      c := (c + 1) % uintModulus }
  | SpaceDimension + 1, nzji, currentIndex, c =>
    let bot := gridOffsetTable (SpaceDimension + 1 - 1)
    let final := (List.range (SplineOrder + 1)).foldl
      (fun (st : NonZeroJacobianIndices × ℕ) (_ : ℕ) =>
        (RecursiveBSplineTransformImplementation2.ComputeNonZeroJacobianIndices
            OutputDimension SplineOrder BSplineNumberOfIndices parametersPerDim
            gridOffsetTable SpaceDimension st.1.nzji st.2 st.1.c,
          ((((st.2 : ℤ) + bot) % (ulongModulus : ℤ)).toNat)))
      ({ nzji := nzji, c := c }, currentIndex)
    final.1

/-- The digit of axis `d` of the leaf position `i`: `i = sum_d k_d * (SplineOrder + 1)^d`
has `k_d = leafDigit SplineOrder d i` (axis 0 varies fastest). -/
def leafDigit (SplineOrder d i : ℕ) : ℕ :=
  i / (SplineOrder + 1) ^ d % (SplineOrder + 1)

/-- The vector-form `RecursiveBSplineTransformImplementation2::TransformPoint2` (lines
140-168; the end case for `SpaceDimension = 0`, lines 347-356, copies the coefficients
`*(mu[j])` to `opp[j]`).  The coefficient pointers are moved by the stride
`bot = gridOffsetTable[SpaceDimension - 1]` after every step of the loop. -/
def RecursiveBSplineTransformImplementation2.TransformPoint2
    (OutputDimension SplineOrder : ℕ) (memory : ℤ → K) (gridOffsetTable : ℕ → ℤ)
    (weights1D : ℕ → K) :
    (SpaceDimension : ℕ) → (opp : ℕ → K) → (mu : ℕ → ℤ) → (ℕ → K)
  | 0, opp, mu => fun j => if j < OutputDimension then memory (mu j) else opp j
  | SpaceDimension + 1, opp, mu =>
    let bot := gridOffsetTable (SpaceDimension + 1 - 1)
    let final := (List.range (SplineOrder + 1)).foldl
      (fun (st : (ℕ → K) × (ℕ → ℤ)) (k : ℕ) =>
        let tmp_opp : ℕ → K := fun _ => 0
        let tmp_opp := RecursiveBSplineTransformImplementation2.TransformPoint2
          OutputDimension SplineOrder memory gridOffsetTable weights1D SpaceDimension
          tmp_opp st.2
        (fun j =>
          if j < OutputDimension then
            st.1 j + tmp_opp j
              * weights1D (k + HelperConstVariable (SpaceDimension + 1) SplineOrder)
          else st.1 j,
         fun j => st.2 j + bot))
      (opp, mu)
    final.1

/-- The assignment `a[index] += value` on an array. -/
def addAtIndex (a : ℕ → K) (index : ℕ) (value : K) : ℕ → K :=
  fun n => if n = index then a n + value else a n

/-- The state of the loop of `GetSpatialJacobian`: the output array `sj`, the local array
`tmp_sj` and the local coefficient pointers `tmp_mu`. -/
structure SpatialJacobianLoopState (K : Type) where
  sj : ℕ → K
  tmp_sj : ℕ → K
  tmp_mu : ℕ → ℤ

/-- The vector-form `RecursiveBSplineTransformImplementation2::GetSpatialJacobian` (lines
219-262; the end case for `SpaceDimension = 0`, lines 402-413, copies the coefficients
`*(mu[j])` to `sj[j]`).  The local array `tmp_sj` is not initialised by the caller; its
contents before the first recursive call are the argument `uninitialised`. -/
def RecursiveBSplineTransformImplementation2.GetSpatialJacobian
    (OutputDimension SplineOrder : ℕ) (memory : ℤ → K) (gridOffsetTable : ℕ → ℤ)
    (weights1D derivativeWeights1D : ℕ → K) (uninitialised : ℕ → K) :
    (SpaceDimension : ℕ) → (sj : ℕ → K) → (mu : ℕ → ℤ) → (ℕ → K)
  | 0, sj, mu => fun j => if j < OutputDimension then memory (mu j) else sj j
  | SpaceDimension + 1, sj, mu =>
    let sj : ℕ → K := fun n =>
      if n < OutputDimension * (SpaceDimension + 1 + 1) then 0 else sj n
    let bot := gridOffsetTable (SpaceDimension + 1 - 1)
    let final := (List.range (SplineOrder + 1)).foldl
      (fun (st : SpatialJacobianLoopState K) (k : ℕ) =>
        let tmp_sj := RecursiveBSplineTransformImplementation2.GetSpatialJacobian
          OutputDimension SplineOrder memory gridOffsetTable weights1D derivativeWeights1D
          uninitialised SpaceDimension st.tmp_sj st.tmp_mu
        let sj := (List.range OutputDimension).foldl
          (fun (sj : ℕ → K) (j : ℕ) =>
            let sj := (List.range (SpaceDimension + 1)).foldl
              (fun (sj : ℕ → K) (n : ℕ) =>
                addAtIndex sj (j + OutputDimension * n)
                  (tmp_sj (j + n * OutputDimension)
                    * weights1D (k + HelperConstVariable (SpaceDimension + 1) SplineOrder)))
              sj
            addAtIndex sj (j + OutputDimension * (SpaceDimension + 1))
              (tmp_sj j
                * derivativeWeights1D
                    (k + HelperConstVariable (SpaceDimension + 1) SplineOrder)))
          st.sj
        { sj := sj, tmp_sj := tmp_sj, tmp_mu := fun j => st.tmp_mu j + bot })
      { sj := sj, tmp_sj := uninitialised, tmp_mu := mu }
    final.sj

/-- The weighted sum over the leaves `i < (SplineOrder + 1) ^ D` of the coefficients at
`a + sum_d k_d * gridOffsetTable[d]`, the digit `k_d` of axis `d` weighted by `wt d k_d`. -/
def leafWeightedSum (SplineOrder : ℕ) (memory : ℤ → K) (gridOffsetTable : ℕ → ℤ)
    (wt : ℕ → ℕ → K) (D : ℕ) (a : ℤ) : K :=
  ∑ i in range ((SplineOrder + 1) ^ D),
    memory (a + ∑ d in range D, (leafDigit SplineOrder d i : ℤ) * gridOffsetTable d)
      * ∏ d in range D, wt d (leafDigit SplineOrder d i)

/-- The weight of the digit `k` of axis `d` in column `c` of the spatial Jacobian: the
derivative weight for the axis `d = c - 1` of the column, the value weight otherwise. -/
def spatialJacobianWeight (SplineOrder : ℕ) (weights1D derivativeWeights1D : ℕ → K)
    (c d k : ℕ) : K :=
  if d + 1 = c then derivativeWeights1D (k + d * (SplineOrder + 1))
  else weights1D (k + d * (SplineOrder + 1))

/-! ## Sampling of the fixed image domain

The random iterator over the fixed image region (`ImageMoreRandomConstIteratorWithIndex`,
whose header is not among the sources at hand) is the sequence of the locations it visits:
`GoToBegin()` puts it at location number `0` and every `++randIter` moves it to the next
location of the sequence.  The number set by `SetNumberOfSamples` is what `IsAtEnd()`
compares the number of jumps with; the sampling never calls `IsAtEnd()`.  A `do ... while`
loop without a bound is a recursion on a fuel argument; running out of fuel is `none`. -/

/-- What `SampleFixedImageDomain` reads of the fixed image and of the random iterator. -/
structure FixedImageSampler (K Idx Pt : Type) where
  /-- The index `randIter.GetIndex()` after the given number of jumps. -/
  randomIndex : ℕ → Idx
  /-- The pixel value `randIter.Get()` at an index. -/
  fixedImage : Idx → K
  /-- The call `m_FixedImage->TransformIndexToPhysicalPoint( index, point )`. -/
  TransformIndexToPhysicalPoint : Idx → Pt

/-- What `SampleFixedImageDomain` leaves: the sample container and, of the random
iterator, the number of samples requested and the number of jumps made. -/
structure SamplingResult (K Pt : Type) where
  samples : List (FixedImageSpatialSample K Pt)
  numberOfSamplesRequested : ℕ
  numberOfJumps : ℕ

/-- The loop `do { ++randIter; ... } while ( !m_FixedMask->IsInMask( point ) )` (lines
496-508), started after `position` jumps: the number of jumps after which it ends. -/
def drawUntilInMask {Idx Pt : Type} (sampler : FixedImageSampler K Idx Pt)
    (isInMask : Pt → Bool) : (fuel : ℕ) → (position : ℕ) → Option ℕ
  | 0, _ => none
  | fuel + 1, position =>
    let position := position + 1
    let point := sampler.TransformIndexToPhysicalPoint (sampler.randomIndex position)
    if !(isInMask point) then drawUntilInMask sampler isInMask fuel position
    else some position

/-- The loop over the sample container when a fixed mask is set (lines 493-513). -/
def sampleWithMask {Idx Pt : Type} (sampler : FixedImageSampler K Idx Pt)
    (isInMask : Pt → Bool) (fuel : ℕ) :
    List (FixedImageSpatialSample K Pt) → (position : ℕ) →
      Option (List (FixedImageSpatialSample K Pt) × ℕ)
  | [], position => some ([], position)
  | _ :: rest, position =>
    match drawUntilInMask sampler isInMask fuel position with
    | none => none
    | some position =>
      let index := sampler.randomIndex position
      match sampleWithMask sampler isInMask fuel rest position with
      | none => none
      | some (filled, final) =>
        some ({ FixedImagePointValue := sampler.TransformIndexToPhysicalPoint index
                FixedImageValue := sampler.fixedImage index } :: filled, final)

/-- The loop over the sample container when no fixed mask is set (lines 476-486). -/
def sampleWithoutMask {Idx Pt : Type} (sampler : FixedImageSampler K Idx Pt) :
    List (FixedImageSpatialSample K Pt) → (position : ℕ) →
      List (FixedImageSpatialSample K Pt) × ℕ
  | [], position => ([], position)
  | _ :: rest, position =>
    let index := sampler.randomIndex position
    let next := sampleWithoutMask sampler rest (position + 1)
    ({ FixedImagePointValue := sampler.TransformIndexToPhysicalPoint index
       FixedImageValue := sampler.fixedImage index } :: next.1, next.2)

/-- The function `SampleFixedImageDomain( samples )` (lines 444-517).  The smart sample
selection `SampleFixedImageDomainSmart` is an argument. -/
def SampleFixedImageDomain {Idx Pt Par : Type} (M : Metric K Pt Par)
    (sampler : FixedImageSampler K Idx Pt) (m_SmartSampleSelect : Bool)
    (SampleFixedImageDomainSmart :
      List (FixedImageSpatialSample K Pt) → List (FixedImageSpatialSample K Pt))
    (fuel : ℕ) (samples : List (FixedImageSpatialSample K Pt)) :
    Option (SamplingResult K Pt) :=
  if m_SmartSampleSelect then
    some { samples := SampleFixedImageDomainSmart samples
           numberOfSamplesRequested := 0
           numberOfJumps := 0 }
  else
    match M.collaborators.m_FixedMask with
    | none =>
      let filled := sampleWithoutMask sampler samples 0
      some { samples := filled.1
             numberOfSamplesRequested := M.m_NumberOfSpatialSamples
             numberOfJumps := filled.2 }
    | some isInMask =>
      match sampleWithMask sampler isInMask fuel samples 0 with
      | none => none
      | some (filled, final) =>
        some { samples := filled
               numberOfSamplesRequested := 50 * M.m_NumberOfSpatialSamples
               numberOfJumps := final }

/-- The example metric with one spatial sample and the given fixed mask. -/
def exampleMaskedMetric (isInMask : ℚ → Bool) : Metric ℚ ℚ ℚ :=
  { exampleMetric 1 [] with
    collaborators := { exampleCollaborators with m_FixedMask := some isInMask } }

/-- A sampler on a one-dimensional image whose pixel `i` lies at the point `i` and has
the value `i / 2`; the iterator visits the pixels `0, 1, 2, ...` in turn. -/
def exampleSampler : FixedImageSampler ℚ ℕ ℚ :=
  { randomIndex := fun t => t
    fixedImage := fun i => (i : ℚ) / 2
    TransformIndexToPhysicalPoint := fun i => (i : ℚ) }

/-! ## The shape metric of the active registration model

Embedding of `itkActiveRegistrationModelShapeMetric.hxx`.  A `vnl_vector` is its size and
its entries as a function of the index, a `vnl_matrix` its numbers of rows and columns and
its entries; the vector and matrix operations of `vnl` are the usual finite sums.  The
transform parameters are a list.  The transform is a function of the parameters installed
by `SetTransformParameters` and of the `FixedPointSetDimension` coordinates it is given;
the samples of `vnl_sample_normal` are a sequence, of which the state counts how many have
been drawn.  The containers are present (their pointers are not null). -/

/-- A `StatisticalModelVectorType` (`vnl_vector< double >`). -/
structure StatisticalModelVector (K : Type) where
  size : ℕ
  data : ℕ → K

/-- A `StatisticalModelMatrixType` (`vnl_matrix< double >`). -/
structure StatisticalModelMatrix (K : Type) where
  rows : ℕ
  cols : ℕ
  data : ℕ → ℕ → K

/-- The configuration errors that `Initialize` raises. -/
inductive ShapeMetricError where
  | transformIsNotPresent
  | meanVectorContainerIsEmpty
  | basisMatrixContainerIsEmpty
  | varianceContainerIsEmpty
  | noiseVarianceContainerIsEmpty

/-- The collaborators and members that `ActiveRegistrationModelShapeMetric` reads. -/
structure ShapeMetric (K : Type) where
  FixedPointSetDimension : ℕ
  /-- The call `GetTransform()->TransformPoint( point )`, when the transform is set, under
  the parameters installed last. -/
  transform : Option (List K → (ℕ → K) → (ℕ → K))
  meanVectorContainer : List (StatisticalModelVector K)
  basisMatrixContainer : List (StatisticalModelMatrix K)
  varianceContainer : List (StatisticalModelVector K)
  noiseVarianceContainer : List K
  /-- The values that successive calls of `vnl_sample_normal( 0., 1. )` return. -/
  vnl_sample_normal : ℕ → K

/-- The state that the evaluations change: the parameters of the transform and the number
of normal samples drawn so far. -/
structure ShapeMetricState (K : Type) where
  transformParameters : List K
  normalSamplesDrawn : ℕ

/-- The function `Initialize` (lines 47-76): the first failing check raises its error;
nothing is assigned. -/
def ShapeMetric.Initialize (metric : ShapeMetric K) (st : ShapeMetricState K) :
    Except ShapeMetricError (ShapeMetricState K) :=
  if metric.transform.isNone then Except.error ShapeMetricError.transformIsNotPresent
  else if metric.meanVectorContainer.length = 0 then
    Except.error ShapeMetricError.meanVectorContainerIsEmpty
  else if metric.basisMatrixContainer.length = 0 then
    Except.error ShapeMetricError.basisMatrixContainerIsEmpty
  else if metric.varianceContainer.length = 0 then
    Except.error ShapeMetricError.varianceContainerIsEmpty
  else if metric.noiseVarianceContainer.length = 0 then
    Except.error ShapeMetricError.noiseVarianceContainerIsEmpty
  else Except.ok st

/-- The function `Reconstruct` (lines 338-353): `movingVector * V * V^T + epsilon`, where
`epsilon` holds fresh normal samples if the noise variance is positive and zeros
otherwise.  Returns the vector and the number of normal samples drawn afterwards. -/
def ShapeMetric.Reconstruct (metric : ShapeMetric K) (movingVector : StatisticalModelVector K)
    (basisMatrix : StatisticalModelMatrix K) (noiseVariance : K) (normalSamplesDrawn : ℕ) :
    StatisticalModelVector K × ℕ :=
  let epsilon : ℕ → K :=
    if noiseVariance > 0 then
      fun i => if i < movingVector.size then metric.vnl_sample_normal (normalSamplesDrawn + i)
        else 0
    else fun _ => 0
  let drawn := if noiseVariance > 0 then normalSamplesDrawn + movingVector.size
    else normalSamplesDrawn
  let coefficients : ℕ → K := fun c =>
    ∑ r in range basisMatrix.rows, movingVector.data r * basisMatrix.data r c
  ({ size := movingVector.size
     data := fun r =>
       (∑ c in range basisMatrix.cols, coefficients c * basisMatrix.data r c) + epsilon r },
   drawn)

/-- The mean vector warped by the transform and minus the mean vector (lines 125-133,
283-290): the loop visits the blocks of `FixedPointSetDimension` coordinates (a positive
number: the dimension of a point set). -/
def ShapeMetric.warpedMinusMean (metric : ShapeMetric K)
    (TransformPoint : List K → (ℕ → K) → (ℕ → K)) (parameters : List K)
    (meanVector : StatisticalModelVector K) : StatisticalModelVector K :=
  let movingVector : ℕ → K :=
    (List.range ((meanVector.size + metric.FixedPointSetDimension - 1)
        / metric.FixedPointSetDimension)).foldl
      (fun (movingVector : ℕ → K) (block : ℕ) =>
        let i := block * metric.FixedPointSetDimension
        let transformedPoint := TransformPoint parameters (fun n => meanVector.data (i + n))
        fun n =>
          if i ≤ n ∧ n < i + metric.FixedPointSetDimension then transformedPoint (n - i)
          else movingVector n)
      (fun _ => 0)
  { size := meanVector.size
    data := fun n => movingVector n - meanVector.data n }

/-- What `GetModelValue` leaves: the accumulated model value and the state. -/
structure ModelValueResult (K : Type) where
  modelValue : K
  state : ShapeMetricState K

/-- The function `GetModelValue` (lines 113-136) for the transform `TransformPoint`. -/
def ShapeMetric.GetModelValue (metric : ShapeMetric K)
    (TransformPoint : List K → (ℕ → K) → (ℕ → K))
    (meanVector : StatisticalModelVector K) (basisMatrix : StatisticalModelMatrix K)
    (noiseVariance : K) (modelValue : K) (parameters : List K) (st : ShapeMetricState K) :
    ModelValueResult K :=
  let movingVector := metric.warpedMinusMean TransformPoint parameters meanVector
  let reconstructed := metric.Reconstruct movingVector basisMatrix noiseVariance
    st.normalSamplesDrawn
  let tmp : ℕ → K := fun n => movingVector.data n - reconstructed.1.data n
  let dot_product := ∑ n in range movingVector.size, tmp n * movingVector.data n
  { modelValue := modelValue
      + dot_product * (metric.FixedPointSetDimension : K) / (meanVector.size : K)
    state := { transformParameters := parameters, normalSamplesDrawn := reconstructed.2 } }

/-- The assignment `parameters[ i ] += h` on a copy of the parameters. -/
def addAtParameter (parameters : List K) (i : ℕ) (h : K) : List K :=
  parameters.set i (parameters.getD i 0 + h)

/-- What `GetModelFiniteDifferenceDerivative` leaves: the array `modelDerivative` and the
state. -/
structure ModelDerivativeResult (K : Type) where
  modelDerivative : ℕ → K
  state : ShapeMetricState K

/-- The function `GetModelFiniteDifferenceDerivative` (lines 189-219) for the transform
`TransformPoint`, with the step `h = 0.01`. -/
def ShapeMetric.GetModelFiniteDifferenceDerivative (metric : ShapeMetric K)
    (TransformPoint : List K → (ℕ → K) → (ℕ → K))
    (meanVector : StatisticalModelVector K) (basisMatrix : StatisticalModelMatrix K)
    (noiseVariance : K) (modelDerivative : ℕ → K) (parameters : List K)
    (st : ShapeMetricState K) : ModelDerivativeResult K :=
  let h : K := 1 / 100
  let final := (List.range parameters.length).foldl
    (fun (acc : ModelDerivativeResult K) (i : ℕ) =>
      let plusParameters := addAtParameter parameters i h
      let minusParameters := addAtParameter parameters i (-h)
      let plus := metric.GetModelValue TransformPoint meanVector basisMatrix noiseVariance 0
        plusParameters acc.state
      let minus := metric.GetModelValue TransformPoint meanVector basisMatrix noiseVariance 0
        minusParameters plus.state
      { modelDerivative := addAtIndex acc.modelDerivative i
          ((plus.modelValue - minus.modelValue) / (2 * h))
        state := minus.state })
    { modelDerivative := modelDerivative, state := st }
  { modelDerivative := final.modelDerivative
    state := { final.state with transformParameters := parameters } }

/-! ## Parameter maps as text (`elxBaseComponent.cxx`)

A `std::string` is the list of its characters.  A parameter map (`std::map` from the
parameter name to the vector of its values) is the list of its entries in the order in
which the map is iterated, the order of the keys.  The regular expression of `IsNumber`
is its syntax tree, and `std::regex_match` the matcher `RegularExpression.rmatch`. -/

/-- The lambda `isDigit` of `IsNumber`: `(ch >= '0') && (ch <= '9')`. -/
def isDigit (ch : Char) : Bool :=
  decide (ch ≥ '0') && decide (ch ≤ '9')

/-- The class `\d` of the regular expression. -/
def digitExpression : RegularExpression Char :=
  RegularExpression.char '0' + RegularExpression.char '1' + RegularExpression.char '2'
    + RegularExpression.char '3' + RegularExpression.char '4' + RegularExpression.char '5'
    + RegularExpression.char '6' + RegularExpression.char '7' + RegularExpression.char '8'
    + RegularExpression.char '9'

/-- The regular expression `(\.\d+)?e[+-]\d+` of the scientific notation. -/
def scientificExpression : RegularExpression Char :=
  (1 + RegularExpression.char '.' * (digitExpression * RegularExpression.star digitExpression))
    * RegularExpression.char 'e'
    * (RegularExpression.char '+' + RegularExpression.char '-')
    * (digitExpression * RegularExpression.star digitExpression)

/-- The part of `IsNumber` after the optional minus sign has been skipped (lines 231-255):
`str` is the whole string, `first :: rest` what follows the optional minus sign. -/
def isNumberAfterSign (last first : Char) (rest : List Char) : Bool :=
  if !(isDigit first && isDigit last) then false
  else
    let numberOfChars : ℤ := rest.length
    let numberOfDigits : ℤ := rest.countP isDigit
    if numberOfDigits = numberOfChars then true
    else if decide ('.' ∈ rest) && decide (numberOfDigits = numberOfChars - 1) then true
    else scientificExpression.rmatch rest

/-- The function `BaseComponent::IsNumber` (lines 210-256). -/
def IsNumber (str : List Char) : Bool :=
  match str with
  | [] => false
  | first :: rest =>
    let last := (first :: rest).getLast (List.cons_ne_nil first rest)
    if first = '-' then
      match rest with
      | [] => false
      | second :: rest => isNumberAfterSign last second rest
    else isNumberAfterSign last first rest

/-- The number of characters that `ParameterMapToString` computes in advance (lines
154-170). -/
def expectedNumberOfChars (parameterMap : List (List Char × List (List Char))) : ℕ :=
  parameterMap.foldl
    (fun (numberOfChars : ℕ) (parameter : List Char × List (List Char)) =>
      numberOfChars
        + parameter.2.foldl
            (fun (numberOfCharsPerParameter : ℕ) (value : List Char) =>
              numberOfCharsPerParameter + value.length + (if IsNumber value then 1 else 3))
            (parameter.1.length + 3))
    0

/-- The string that `ParameterMapToString` builds (lines 172-196). -/
def parameterMapText (parameterMap : List (List Char × List (List Char))) : List Char :=
  parameterMap.foldl
    (fun (result : List Char) (parameter : List Char × List (List Char)) =>
      let result := result ++ ['(']
      let result := result ++ parameter.1
      let result := parameter.2.foldl
        (fun (result : List Char) (value : List Char) =>
          let result := result ++ [' ']
          if IsNumber value then result ++ value
          else
            let result := result ++ ['"']
            let result := result ++ value
            result ++ ['"'])
        result
      result ++ [')', '\n'])
    []

/-- The function `BaseComponent::ParameterMapToString` (lines 151-201): the string built,
unless the assertion `result.size() == expectedNumberOfChars` fails (`none`). -/
def ParameterMapToString (parameterMap : List (List Char × List (List Char))) :
    Option (List Char) :=
  let result := parameterMapText parameterMap
  if result.length = expectedNumberOfChars parameterMap then some result else none

/-- The decimal digits. -/
def decimalDigits : List Char := ['0', '1', '2', '3', '4', '5', '6', '7', '8', '9']

/-- The strings that are numbers, as the specification describes them: an optional
leading `-` followed by one or more decimal digits (whole number), or by one or more
digits, a `.` and one or more digits (decimal notation), or by a single digit, optionally
a `.` and one or more digits, then `e`, a sign `+` or `-`, and one or more digits
(scientific notation). -/
def specIsNumber (s : List Char) : Prop :=
  ∃ body : List Char, (s = body ∨ s = '-' :: body) ∧
    ((body ≠ [] ∧ ∀ c ∈ body, c ∈ decimalDigits) ∨
      (∃ whole fraction : List Char, body = whole ++ '.' :: fraction ∧
        whole ≠ [] ∧ (∀ c ∈ whole, c ∈ decimalDigits) ∧
        fraction ≠ [] ∧ (∀ c ∈ fraction, c ∈ decimalDigits)) ∨
      (∃ (digit : Char) (fraction : List Char) (sign : Char) (exponent : List Char),
        body = digit :: (fraction ++ 'e' :: sign :: exponent) ∧
        digit ∈ decimalDigits ∧
        (fraction = [] ∨ ∃ digits : List Char, fraction = '.' :: digits ∧
          digits ≠ [] ∧ ∀ c ∈ digits, c ∈ decimalDigits) ∧
        (sign = '+' ∨ sign = '-') ∧
        exponent ≠ [] ∧ ∀ c ∈ exponent, c ∈ decimalDigits))

/-! ## Setters of the metric, and the summation without the guard on the fixed marginal -/

/-- The setter `SetNumberOfSpatialSamples`
(`itkSetClampMacro( NumberOfSpatialSamples, unsigned long, 1, NumericTraits<unsigned long>::max() )`,
lines 196-197 of the header): the argument, clamped to the range from `1` to the largest
`unsigned long`, is stored. -/
def Metric.SetNumberOfSpatialSamples {Pt Par : Type} (M : Metric K Pt Par) (_arg : ℕ) :
    Metric K Pt Par :=
  { M with
    m_NumberOfSpatialSamples :=
      if _arg < 1 then 1 else if _arg > ulongModulus - 1 then ulongModulus - 1 else _arg }

/-- The setter `SetUseExactDerivative` (lines 1960-1979): only when the flag changes it
is stored, and then, if it is set, the number of spatial samples is set to `1`. -/
def Metric.SetUseExactDerivative {Pt Par : Type} (M : Metric K Pt Par) (_arg : Bool) :
    Metric K Pt Par :=
  if M.m_UseExactDerivative != _arg then
    let M := { M with m_UseExactDerivative := _arg }
    if _arg then M.SetNumberOfSpatialSamples 1 else M
  else M

/-- The summand of the mutual-information sum without the guard on `P_fixed(f)`: for a
bin pair with `P(f,m) > 1e-16` and `P_moving(m) > 1e-16` the term
`P(f,m) * (log(P(f,m) / P_moving(m)) - log(P_fixed(f)))`. -/
def unguardedMetricTerm (log : K → K)
    (jointPDFValue movingImagePDFValue fixedImagePDFValue : K) : K :=
  if jointPDFValue > pdfEpsilon ∧ movingImagePDFValue > pdfEpsilon then
    jointPDFValue * (log (jointPDFValue / movingImagePDFValue) - log fixedImagePDFValue)
  else 0

/-- The sum over all bin pairs of the summand without the guard on `P_fixed(f)`. -/
def unguardedMetricSum (log : K → K) (bins : ℕ) (pdfs : PDFs K) : K :=
  ∑ f in range bins, ∑ m in range bins,
    unguardedMetricTerm log (pdfs.m_JointPDF (f : ℤ) (m : ℤ))
      (pdfs.m_MovingImageMarginalPDF m) (pdfs.m_FixedImageMarginalPDF f)

/-- The vector-form `RecursiveBSplineTransformImplementation2::GetJacobian` (lines 172-180;
the end case for `SpaceDimension = 0`, lines 360-370, stores `value` at
`jacobians + offset` with `offset = j * BSplineNumberOfIndices * (OutputDimension + 1)`
for every output dimension `j` and then advances the cursor).  The product is computed in
`unsigned int`. -/
def RecursiveBSplineTransformImplementation2.GetJacobian
    (OutputDimension SplineOrder BSplineNumberOfIndices : ℕ) (weights1D : ℕ → K) :
    (SpaceDimension : ℕ) → JacobianCursor K → (value : K) → JacobianCursor K
  | 0, st, value =>
    { memory := (List.range OutputDimension).foldl
        (fun (memory : ℕ → K) (j : ℕ) =>
          let offset := j * BSplineNumberOfIndices * (OutputDimension + 1) % uintModulus
          Function.update memory (st.jacobians + offset) value)
        st.memory
      jacobians := st.jacobians + 1 }
  | SpaceDimension + 1, st, value =>
    (List.range (SplineOrder + 1)).foldl
      (fun (st : JacobianCursor K) (k : ℕ) =>
        RecursiveBSplineTransformImplementation2.GetJacobian OutputDimension SplineOrder
          BSplineNumberOfIndices weights1D SpaceDimension st
          (value * weights1D (k + HelperConstVariable (SpaceDimension + 1) SplineOrder)))
      st

/-- The vector-form
`RecursiveBSplineTransformImplementation2::EvaluateJacobianWithImageGradientProduct`
(lines 184-194; the end case for `SpaceDimension = 0`, lines 374-382, stores
`value * movingImageGradient[j]` at `imageJacobian + j * BSplineNumberOfIndices` for every
output dimension `j` and then advances the cursor).  The cursor `imageJacobian` is the
field `jacobians` of the state; the product `j * BSplineNumberOfIndices` is computed in
`unsigned int`. -/
def RecursiveBSplineTransformImplementation2.EvaluateJacobianWithImageGradientProduct
    (OutputDimension SplineOrder BSplineNumberOfIndices : ℕ) (movingImageGradient : ℕ → K)
    (weights1D : ℕ → K) :
    (SpaceDimension : ℕ) → JacobianCursor K → (value : K) → JacobianCursor K
  | 0, st, value =>
    { memory := (List.range OutputDimension).foldl
        (fun (memory : ℕ → K) (j : ℕ) =>
          Function.update memory (st.jacobians + j * BSplineNumberOfIndices % uintModulus)
            (value * movingImageGradient j))
        st.memory
      jacobians := st.jacobians + 1 }
  | SpaceDimension + 1, st, value =>
    (List.range (SplineOrder + 1)).foldl
      (fun (st : JacobianCursor K) (k : ℕ) =>
        RecursiveBSplineTransformImplementation2.EvaluateJacobianWithImageGradientProduct
          OutputDimension SplineOrder BSplineNumberOfIndices movingImageGradient weights1D
          SpaceDimension st
          (value * weights1D (k + HelperConstVariable (SpaceDimension + 1) SplineOrder)))
      st

/-- The common shape of the vector-form `GetJacobian` and
`EvaluateJacobianWithImageGradientProduct`: at every leaf the entries `entry j value` are
stored at the cursor plus `offset j`, for `j` below `OutputDimension`, and the cursor
advances by one. -/
def writeLeaves (OutputDimension SplineOrder : ℕ) (offset : ℕ → ℕ) (entry : ℕ → K → K)
    (weights1D : ℕ → K) :
    (SpaceDimension : ℕ) → JacobianCursor K → (value : K) → JacobianCursor K
  | 0, st, value =>
    { memory := (List.range OutputDimension).foldl
        (fun (memory : ℕ → K) (j : ℕ) =>
          Function.update memory (st.jacobians + offset j) (entry j value))
        st.memory
      jacobians := st.jacobians + 1 }
  | SpaceDimension + 1, st, value =>
    (List.range (SplineOrder + 1)).foldl
      (fun (st : JacobianCursor K) (k : ℕ) =>
        writeLeaves OutputDimension SplineOrder offset entry weights1D SpaceDimension st
          (value * weights1D (k + HelperConstVariable (SpaceDimension + 1) SplineOrder)))
      st

/-! ## Elapsed time as text, and the library flag (`elxBaseComponent.cxx`)

`std::size_t` is 64 bits wide.  The text that the output stream makes of a `std::size_t`
is its decimal digits; the text it makes of a `double` under `std::showpoint`,
`std::fixed` and `std::setprecision(precision)` is a parameter.  The function-local
`static const bool` of the anonymous-namespace `IsElastixLibrary` is a state that is
either not yet initialised or holds its value. -/

/-- A floating-point value with its fraction dropped (rounding toward zero). -/
def truncate (x : K) : ℤ := if 0 ≤ x then ⌊x⌋ else ⌈x⌉

/-- The conversion `static_cast<std::size_t>` of a `double`: the value with its fraction
dropped, for a value in the range of `std::size_t` (the conversion of a value outside
that range is not defined by the language; it wraps around here). -/
def castToSizeT (x : K) : ℕ := (truncate x % (ulongModulus : ℤ)).toNat

/-- The C library function `fmod` in exact arithmetic: `x - n * y`, where `n` is `x / y`
with its fraction dropped. -/
def fmod (x y : K) : K := x - (truncate (x / y) : K) * y

/-- The function `BaseComponent::ConvertSecondsToDHMS` (lines 99-144). -/
def ConvertSecondsToDHMS (showFixed : ℕ → K → List Char) (totalSeconds : K)
    (precision : ℕ) : List Char :=
  /- Define days, hours, minutes. -/
  let secondsPerMinute : ℕ := 60
  let secondsPerHour : ℕ := 60 * secondsPerMinute
  let secondsPerDay : ℕ := 24 * secondsPerHour
  /- Convert total seconds. -/
  let iSeconds : ℕ := castToSizeT totalSeconds
  let days : ℕ := iSeconds / secondsPerDay
  let iSeconds : ℕ := iSeconds % secondsPerDay
  let hours : ℕ := iSeconds / secondsPerHour
  let iSeconds : ℕ := iSeconds % secondsPerHour
  let minutes : ℕ := iSeconds / secondsPerMinute
  let dSeconds : K := fmod totalSeconds 60
  /- Create a string in days, hours, minutes and seconds. -/
  let nonzero : Bool := false
  let make_string : List Char := []
  let afterDays : List Char × Bool :=
    if days ≠ 0 then (make_string ++ Nat.toDigits 10 days ++ ['d'], true)
    else (make_string, nonzero)
  let afterHours : List Char × Bool :=
    if hours ≠ 0 ∨ afterDays.2 = true then
      (afterDays.1 ++ Nat.toDigits 10 hours ++ ['h'], true)
    else afterDays
  let afterMinutes : List Char :=
    if minutes ≠ 0 ∨ afterHours.2 = true then
      afterHours.1 ++ Nat.toDigits 10 minutes ++ ['m']
    else afterHours.1
  afterMinutes ++ showFixed precision dSeconds ++ ['s']

/-- The anonymous-namespace function `IsElastixLibrary(initialValue)` (lines 32-42) as a
step on the state of its `static const bool isElastixLibrary`: the first call initialises
the variable with `initialValue`, every call returns the variable.  The result is the
returned value and the state left. -/
def IsElastixLibrary (initialValue : Bool) (isElastixLibrary : Option Bool) :
    Bool × Option Bool :=
  match isElastixLibrary with
  | none => (initialValue, some initialValue)
  | some value => (value, some value)

/-- The function `BaseComponent::IsElastixLibrary()` (lines 83-87): the call
`::IsElastixLibrary()` with the default argument `true`. -/
def BaseComponent.IsElastixLibrary (isElastixLibrary : Option Bool) : Bool × Option Bool :=
  Elastix.IsElastixLibrary true isElastixLibrary

/-- The function `BaseComponent::InitializeElastixExecutable()` (lines 89-93): the call
`::IsElastixLibrary(false)`, whose result is dropped. -/
def BaseComponent.InitializeElastixExecutable (isElastixLibrary : Option Bool) :
    Option Bool :=
  (Elastix.IsElastixLibrary false isElastixLibrary).2

/-- A call of one of the two operations on the flag. -/
inductive FlagCall where
  /-- A call of `BaseComponent::IsElastixLibrary()`. -/
  | IsElastixLibrary
  /-- A call of `BaseComponent::InitializeElastixExecutable()`. -/
  | InitializeElastixExecutable

/-- One call on the flag: the value returned (by a query) and the state left. -/
def FlagCall.run (isElastixLibrary : Option Bool) : FlagCall → Option Bool × Option Bool
  | FlagCall.IsElastixLibrary =>
    ((BaseComponent.IsElastixLibrary isElastixLibrary).1,
      (BaseComponent.IsElastixLibrary isElastixLibrary).2)
  | FlagCall.InitializeElastixExecutable =>
    (none, BaseComponent.InitializeElastixExecutable isElastixLibrary)

/-- A sequence of calls on the flag: the values returned by the queries, in order, and the
state left. -/
def runFlagCalls : List FlagCall → Option Bool → List Bool × Option Bool
  | [], isElastixLibrary => ([], isElastixLibrary)
  | call :: calls, isElastixLibrary =>
    let step := call.run isElastixLibrary
    let rest := runFlagCalls calls step.2
    (match step.1 with
      | some value => value :: rest.1
      | none => rest.1,
     rest.2)

/-! ## Machine integer lemmas -/

lemma ulongSub_eq_sub {a b : ℕ} (hba : b ≤ a) (ha : a < ulongModulus) :
    ulongSub a b = a - b := by
  unfold ulongSub ulongModulus at *
  have hb : b % 2 ^ 64 = b := Nat.mod_eq_of_lt (by omega)
  rw [hb]
  omega

lemma castToUnsignedInt_lt (z : ℤ) : castToUnsignedInt z < uintModulus := by
  unfold castToUnsignedInt uintModulus
  have h1 : 0 ≤ z % ((2 ^ 32 : ℕ) : ℤ) := Int.emod_nonneg _ (by norm_num)
  have h2 : z % ((2 ^ 32 : ℕ) : ℤ) < ((2 ^ 32 : ℕ) : ℤ) := Int.emod_lt_of_pos _ (by norm_num)
  omega

lemma castToUnsignedInt_eq {z : ℤ} (h0 : 0 ≤ z) (h1 : z < (uintModulus : ℤ)) :
    (castToUnsignedInt z : ℤ) = z := by
  unfold castToUnsignedInt
  rw [Int.emod_eq_of_lt h0 h1]
  exact Int.toNat_of_nonneg h0

lemma clampParzenWindowIndex_bounds {bins index : ℕ} (hB : 5 ≤ bins)
    (hB2 : bins < ulongModulus) (hi : index < uintModulus) :
    2 ≤ clampParzenWindowIndex bins index ∧ clampParzenWindowIndex bins index ≤ bins - 3 := by
  have h3 : ulongSub bins 3 = bins - 3 := ulongSub_eq_sub (by omega) hB2
  unfold clampParzenWindowIndex
  rw [h3]
  split_ifs with h1 h2
  · omega
  · have : (bins - 3) % uintModulus = bins - 3 := Nat.mod_eq_of_lt (by omega)
    rw [this]; omega
  · omega

lemma binDivisor_eq {bins : ℕ} (hB : 4 ≤ bins) (hB2 : bins < ulongModulus) :
    binDivisor bins = bins - 4 := by
  unfold binDivisor padding
  exact ulongSub_eq_sub hB hB2

/-! ## Binning lemmas -/

lemma binDivisor_cast_pos {bins : ℕ} (hB : 5 ≤ bins) (hB2 : bins < ulongModulus) :
    (0 : K) < (binDivisor bins : K) := by
  rw [binDivisor_eq (by omega) hB2]
  exact_mod_cast (by omega : 0 < bins - 4)

lemma computeBinSize_pos {bins : ℕ} {imageMin imageMax : K} (hB : 5 ≤ bins)
    (hB2 : bins < ulongModulus) (h : imageMin < imageMax) :
    0 < computeBinSize imageMin imageMax bins := by
  unfold computeBinSize
  exact div_pos (sub_pos.mpr h) (binDivisor_cast_pos hB hB2)

/-- With the parameters derived by `Initialize`, the Parzen window term of an
intensity `v` is `(v - min) / binSize + 2`. -/
lemma parzenWindowTerm_derived (bins : ℕ) (imageMin imageMax v : K) :
    parzenWindowTerm v (computeBinSize imageMin imageMax bins)
      (computeNormalizedMin imageMin (computeBinSize imageMin imageMax bins))
      = (v - imageMin) / computeBinSize imageMin imageMax bins + 2 := by
  unfold parzenWindowTerm computeNormalizedMin padding
  push_cast
  ring

/-- An intensity inside `[min, max]` has a Parzen window term in `[2, bins - 2]`. -/
lemma parzenWindowTerm_bounds {bins : ℕ} {imageMin imageMax v : K} (hB : 5 ≤ bins)
    (hB2 : bins < ulongModulus) (h : imageMin < imageMax) (hv1 : imageMin ≤ v)
    (hv2 : v ≤ imageMax) :
    2 ≤ parzenWindowTerm v (computeBinSize imageMin imageMax bins)
      (computeNormalizedMin imageMin (computeBinSize imageMin imageMax bins)) ∧
    parzenWindowTerm v (computeBinSize imageMin imageMax bins)
      (computeNormalizedMin imageMin (computeBinSize imageMin imageMax bins))
      ≤ ((bins - 2 : ℕ) : K) := by
  rw [parzenWindowTerm_derived]
  have hpos := computeBinSize_pos (K := K) hB hB2 h
  have hd := binDivisor_cast_pos (K := K) hB hB2
  constructor
  · have : 0 ≤ (v - imageMin) / computeBinSize imageMin imageMax bins :=
      div_nonneg (sub_nonneg.mpr hv1) hpos.le
    linarith
  · have h1 : (v - imageMin) / computeBinSize imageMin imageMax bins ≤ (binDivisor bins : K) := by
      rw [div_le_iff₀ hpos]
      unfold computeBinSize
      rw [mul_div_cancel₀ _ hd.ne']
      linarith
    have h2 : ((bins - 2 : ℕ) : K) = (binDivisor bins : K) + 2 := by
      rw [binDivisor_eq (by omega) hB2]
      have : bins - 2 = (bins - 4) + 2 := by omega
      rw [this]; push_cast; ring
    rw [h2]; linarith

/-! ## C2 -/

/-- C2: for every bin count `B ≥ 5` and every intensity range `min < max`, the bin size
`(max - min) / (B - 4)` derived by `Initialize` is positive, and for every intensity `v`
with `min ≤ v ≤ max` the Parzen window term `v / binSize - normalizedMin` lies in
`[2, B - 2]` and the bin index `floor(v / binSize - normalizedMin)`, after the clamping
step of `GetValue`, lies in `[2, B - 3]`. -/
theorem binSize_pos_and_clamped_bin_in_range (bins : ℕ) (imageMin imageMax v : K)
    (hB : 5 ≤ bins) (hB2 : bins < ulongModulus) (h : imageMin < imageMax)
    (hv1 : imageMin ≤ v) (hv2 : v ≤ imageMax) :
    0 < computeBinSize imageMin imageMax bins ∧
    computeBinSize imageMin imageMax bins = (imageMax - imageMin) / ((bins : K) - 4) ∧
    (2 ≤ parzenWindowTerm v (computeBinSize imageMin imageMax bins)
      (computeNormalizedMin imageMin (computeBinSize imageMin imageMax bins)) ∧
     parzenWindowTerm v (computeBinSize imageMin imageMax bins)
      (computeNormalizedMin imageMin (computeBinSize imageMin imageMax bins))
      ≤ ((bins - 2 : ℕ) : K)) ∧
    2 ≤ binOfIntensity bins v (computeBinSize imageMin imageMax bins)
      (computeNormalizedMin imageMin (computeBinSize imageMin imageMax bins)) ∧
    binOfIntensity bins v (computeBinSize imageMin imageMax bins)
      (computeNormalizedMin imageMin (computeBinSize imageMin imageMax bins)) ≤ bins - 3 := by
  refine ⟨computeBinSize_pos hB hB2 h, ?_, parzenWindowTerm_bounds hB hB2 h hv1 hv2, ?_⟩
  · unfold computeBinSize
    rw [binDivisor_eq (by omega) hB2, Nat.cast_sub (by omega)]
    norm_num
  · exact clampParzenWindowIndex_bounds hB hB2 (castToUnsignedInt_lt _)

/-- C2 (witness): 50 bins, range `[0, 255]`, intensity `100`. -/
theorem binSize_pos_and_clamped_bin_in_range_witness :
    0 < computeBinSize (0 : ℚ) 255 50 ∧
    computeBinSize (0 : ℚ) 255 50 = (255 - 0) / (((50 : ℕ) : ℚ) - 4) ∧
    (2 ≤ parzenWindowTerm (100 : ℚ) (computeBinSize 0 255 50)
      (computeNormalizedMin 0 (computeBinSize (0 : ℚ) 255 50)) ∧
     parzenWindowTerm (100 : ℚ) (computeBinSize 0 255 50)
      (computeNormalizedMin 0 (computeBinSize (0 : ℚ) 255 50)) ≤ ((50 - 2 : ℕ) : ℚ)) ∧
    2 ≤ binOfIntensity 50 (100 : ℚ) (computeBinSize 0 255 50)
      (computeNormalizedMin 0 (computeBinSize (0 : ℚ) 255 50)) ∧
    binOfIntensity 50 (100 : ℚ) (computeBinSize 0 255 50)
      (computeNormalizedMin 0 (computeBinSize (0 : ℚ) 255 50)) ≤ 50 - 3 :=
  binSize_pos_and_clamped_bin_in_range 50 0 255 100 (by norm_num)
    (by norm_num [ulongModulus]) (by norm_num) (by norm_num) (by norm_num)

/-! ## C3 -/

/-- The scan of `Initialize` returns a lower and an upper bound of the pixels. -/
lemma foldl_scanStep_bounds (pixels : List K) (acc : K × K) :
    (pixels.foldl scanStep acc).1 ≤ acc.1 ∧ acc.2 ≤ (pixels.foldl scanStep acc).2 ∧
    ∀ x ∈ pixels, (pixels.foldl scanStep acc).1 ≤ x ∧ x ≤ (pixels.foldl scanStep acc).2 := by
  induction pixels generalizing acc with
  | nil => simp
  | cons p ps ih =>
    obtain ⟨h1, h2, h3⟩ := ih (scanStep acc p)
    have hs1 : (scanStep acc p).1 ≤ acc.1 ∧ (scanStep acc p).1 ≤ p := by
      unfold scanStep; dsimp only; split_ifs with h <;> constructor <;> linarith
    have hs2 : acc.2 ≤ (scanStep acc p).2 ∧ p ≤ (scanStep acc p).2 := by
      unfold scanStep; dsimp only; split_ifs with h <;> constructor <;> linarith
    simp only [List.foldl_cons, List.mem_cons, forall_eq_or_imp]
    exact ⟨h1.trans hs1.1, hs2.1.trans h2, ⟨h1.trans hs1.2, hs2.2.trans h2⟩, h3⟩

/-- The scan of `Initialize` returns entries of the image, or its start values. -/
lemma foldl_scanStep_mem (pixels : List K) (acc : K × K) :
    ((pixels.foldl scanStep acc).1 = acc.1 ∨ (pixels.foldl scanStep acc).1 ∈ pixels) ∧
    ((pixels.foldl scanStep acc).2 = acc.2 ∨ (pixels.foldl scanStep acc).2 ∈ pixels) := by
  induction pixels generalizing acc with
  | nil => simp
  | cons p ps ih =>
    obtain ⟨h1, h2⟩ := ih (scanStep acc p)
    have hs1 : (scanStep acc p).1 = acc.1 ∨ (scanStep acc p).1 = p := by
      unfold scanStep; dsimp only; split_ifs <;> simp
    have hs2 : (scanStep acc p).2 = acc.2 ∨ (scanStep acc p).2 = p := by
      unfold scanStep; dsimp only; split_ifs <;> simp
    simp only [List.foldl_cons, List.mem_cons]
    constructor
    · rcases h1 with h | h
      · rcases hs1 with h' | h'
        · left; rw [h, h']
        · right; left; rw [h, h']
      · right; right; exact h
    · rcases h2 with h | h
      · rcases hs2 with h' | h'
        · left; rw [h, h']
        · right; left; rw [h, h']
      · right; right; exact h

/-- For a non-empty image whose pixels are finite `double` values, the scan of
`Initialize` returns the least and the greatest pixel value. -/
lemma scanMinMax_spec (pixels : List K) (hne : pixels ≠ [])
    (hfin : ∀ x ∈ pixels, -doubleMax ≤ x ∧ x ≤ doubleMax) :
    ((scanMinMax pixels).1 ∈ pixels ∧ ∀ x ∈ pixels, (scanMinMax pixels).1 ≤ x) ∧
    ((scanMinMax pixels).2 ∈ pixels ∧ ∀ x ∈ pixels, x ≤ (scanMinMax pixels).2) := by
  obtain ⟨b1, b2, b3⟩ := foldl_scanStep_bounds pixels ((doubleMax : K), -doubleMax)
  obtain ⟨m1, m2⟩ := foldl_scanStep_mem pixels ((doubleMax : K), -doubleMax)
  obtain ⟨p, hp⟩ := List.exists_mem_of_ne_nil pixels hne
  unfold scanMinMax
  refine ⟨⟨?_, fun x hx => (b3 x hx).1⟩, ⟨?_, fun x hx => (b3 x hx).2⟩⟩
  · rcases m1 with h | h
    · have : p = (pixels.foldl scanStep ((doubleMax : K), -doubleMax)).1 :=
        le_antisymm (by rw [h]; exact (hfin p hp).2) (b3 p hp).1
      rw [← this]; exact hp
    · exact h
  · rcases m2 with h | h
    · have : p = (pixels.foldl scanStep ((doubleMax : K), -doubleMax)).2 :=
        le_antisymm (b3 p hp).2 (by rw [h]; exact (hfin p hp).1)
      rw [← this]; exact hp
    · exact h

/-- C3 (counterexample): for 3 bins and an image with least pixel `0` and greatest pixel
`255`, `Initialize` derives the bin size `255 / (2^64 - 1)`, because the subtraction
`bins - 2 * padding` is made on `unsigned long` and wraps around; the formula
`(max - min) / (bins - 2 * padding)` gives `-255`. -/
theorem initialize_binning_formula_counterexample :
    (InitializeBinning 3 ([0, 255] : List ℚ) [0, 255]).m_FixedImageBinSize
      = 255 / (2 ^ 64 - 1) ∧
    (InitializeBinning 3 ([0, 255] : List ℚ) [0, 255]).m_FixedImageBinSize
      ≠ (255 - 0) / (((3 : ℕ) : ℚ) - 2 * 2) := by
  have h : (InitializeBinning 3 ([0, 255] : List ℚ) [0, 255]).m_FixedImageBinSize
      = 255 / (2 ^ 64 - 1) := by
    norm_num [InitializeBinning, computeBinSize, scanMinMax, scanStep, doubleMax, binDivisor,
      ulongSub, ulongModulus, padding]
  refine ⟨h, ?_⟩
  rw [h]
  norm_num

/-- C3 (amended): for every bin count `bins ≥ 5`, `Initialize` derives, for each image,
`binSize = (max - min) / (bins - 2 * padding)` and
`normalizedMin = min / binSize - padding` with `padding = 2`, where `min` and `max` are
the least and greatest pixel of the scanned region (for `bins ≤ 3` the subtraction
`bins - 2 * padding` is made on `unsigned long` and wraps around to `2^64 + bins - 4`, and
for `bins = 4` the divisor is zero); in particular for `bins = 50` and images with
`min = 0`, `max = 255` it yields `binSize = 255 / 46` and `normalizedMin = -2`, and a
sample of intensity `255` is then binned (after clamping) to bin `47`. -/
theorem initialize_binning_formula_and_scenario (bins : ℕ) (fixedPixels movingPixels : List K)
    (hB : 5 ≤ bins) (hB2 : bins < ulongModulus)
    (hf : fixedPixels ≠ []) (hm : movingPixels ≠ [])
    (hff : ∀ x ∈ fixedPixels, -doubleMax ≤ x ∧ x ≤ doubleMax)
    (hmf : ∀ x ∈ movingPixels, -doubleMax ≤ x ∧ x ≤ doubleMax) :
    (∃ fixedMin fixedMax movingMin movingMax : K,
        (fixedMin ∈ fixedPixels ∧ ∀ x ∈ fixedPixels, fixedMin ≤ x) ∧
        (fixedMax ∈ fixedPixels ∧ ∀ x ∈ fixedPixels, x ≤ fixedMax) ∧
        (movingMin ∈ movingPixels ∧ ∀ x ∈ movingPixels, movingMin ≤ x) ∧
        (movingMax ∈ movingPixels ∧ ∀ x ∈ movingPixels, x ≤ movingMax) ∧
        (InitializeBinning bins fixedPixels movingPixels).m_FixedImageBinSize
          = (fixedMax - fixedMin) / ((bins : K) - 2 * 2) ∧
        (InitializeBinning bins fixedPixels movingPixels).m_FixedImageNormalizedMin
          = fixedMin / ((fixedMax - fixedMin) / ((bins : K) - 2 * 2)) - 2 ∧
        (InitializeBinning bins fixedPixels movingPixels).m_MovingImageBinSize
          = (movingMax - movingMin) / ((bins : K) - 2 * 2) ∧
        (InitializeBinning bins fixedPixels movingPixels).m_MovingImageNormalizedMin
          = movingMin / ((movingMax - movingMin) / ((bins : K) - 2 * 2)) - 2 ∧
        (InitializeBinning bins fixedPixels movingPixels).m_MovingImageTrueMin = movingMin ∧
        (InitializeBinning bins fixedPixels movingPixels).m_MovingImageTrueMax = movingMax) ∧
    (∀ few : ℕ, few ≤ 3 → binDivisor few = ulongModulus + few - 4) ∧
    binDivisor 4 = 0 ∧
    (InitializeBinning 50 ([0, 128, 255] : List ℚ) [255, 0]).m_FixedImageBinSize = 255 / 46 ∧
    (InitializeBinning 50 ([0, 128, 255] : List ℚ) [255, 0]).m_FixedImageNormalizedMin = -2 ∧
    (InitializeBinning 50 ([0, 128, 255] : List ℚ) [255, 0]).m_MovingImageBinSize = 255 / 46 ∧
    (InitializeBinning 50 ([0, 128, 255] : List ℚ) [255, 0]).m_MovingImageNormalizedMin = -2 ∧
    binOfIntensity 50 (255 : ℚ) (255 / 46) (-2) = 47 := by
  have hB4 : 4 ≤ bins := by omega
  refine ⟨?_, ?_, ?_, ?_, ?_, ?_, ?_, ?_⟩
  · obtain ⟨⟨f1, f2⟩, f3, f4⟩ := scanMinMax_spec fixedPixels hf hff
    obtain ⟨⟨m1, m2⟩, m3, m4⟩ := scanMinMax_spec movingPixels hm hmf
    have hd : ((binDivisor bins : ℕ) : K) = (bins : K) - 2 * 2 := by
      rw [binDivisor_eq hB4 hB2, Nat.cast_sub hB4]; norm_num
    refine ⟨(scanMinMax fixedPixels).1, (scanMinMax fixedPixels).2,
      (scanMinMax movingPixels).1, (scanMinMax movingPixels).2,
      ⟨f1, f2⟩, ⟨f3, f4⟩, ⟨m1, m2⟩, ⟨m3, m4⟩, ?_, ?_, ?_, ?_, rfl, rfl⟩
    · simp only [InitializeBinning, computeBinSize, hd]
    · simp only [InitializeBinning, computeBinSize, computeNormalizedMin, hd, padding]
      norm_num
    · simp only [InitializeBinning, computeBinSize, hd]
    · simp only [InitializeBinning, computeBinSize, computeNormalizedMin, hd, padding]
      norm_num
  · intro few hfew
    unfold binDivisor padding ulongSub ulongModulus
    omega
  · decide
  · norm_num [InitializeBinning, computeBinSize, scanMinMax, scanStep, doubleMax, binDivisor,
      ulongSub, ulongModulus, padding]
  · norm_num [InitializeBinning, computeBinSize, computeNormalizedMin, scanMinMax, scanStep,
      doubleMax, binDivisor, ulongSub, ulongModulus, padding]
  · norm_num [InitializeBinning, computeBinSize, scanMinMax, scanStep, doubleMax, binDivisor,
      ulongSub, ulongModulus, padding]
  · norm_num [InitializeBinning, computeBinSize, computeNormalizedMin, scanMinMax, scanStep,
      doubleMax, binDivisor, ulongSub, ulongModulus, padding]
  · norm_num [binOfIntensity, clampParzenWindowIndex, parzenWindowIndex, parzenWindowTerm,
      castToUnsignedInt, uintModulus, ulongSub, ulongModulus]

/-- C3 (amended, witness): 50 bins, a fixed image with pixels `0, 128, 255` and a moving
image with pixels `255, 0`. -/
theorem initialize_binning_formula_and_scenario_witness :
    ∃ fixedMin fixedMax movingMin movingMax : ℚ,
      (InitializeBinning 50 ([0, 128, 255] : List ℚ) [255, 0]).m_FixedImageBinSize
        = (fixedMax - fixedMin) / (((50 : ℕ) : ℚ) - 2 * 2) ∧
      (InitializeBinning 50 ([0, 128, 255] : List ℚ) [255, 0]).m_MovingImageBinSize
        = (movingMax - movingMin) / (((50 : ℕ) : ℚ) - 2 * 2) := by
  obtain ⟨a, b, c, d, -, -, -, -, h1, -, h2, -⟩ :=
    (initialize_binning_formula_and_scenario 50 ([0, 128, 255] : List ℚ) [255, 0]
      (by norm_num) (by norm_num [ulongModulus]) (by simp) (by simp)
      (by norm_num [doubleMax]) (by norm_num [doubleMax])).1
  exact ⟨a, b, c, d, h1, h2⟩

/-! ## C4 -/

/-- C4: for every bin count `B ≥ 5` and every intensity (inside or outside `[min, max]`,
whatever the binning parameters are), the clamped fixed and moving bin indices lie in
`[2, B - 3]`, so every joint-histogram access made for an accepted sample, at
`(fixedBin, m)` for the four moving bins `m = movingBin - 1 .. movingBin + 2`, and the
fixed-marginal access at `fixedBin`, is inside `[0, B)`. -/
theorem parzen_window_accesses_in_bounds (bins : ℕ) (hB : 5 ≤ bins) (hB2 : bins < ulongModulus)
    (fixedValue fixedBinSize fixedNormalizedMin movingValue movingBinSize
      movingNormalizedMin : K) :
    (2 ≤ binOfIntensity bins fixedValue fixedBinSize fixedNormalizedMin ∧
      binOfIntensity bins fixedValue fixedBinSize fixedNormalizedMin ≤ bins - 3) ∧
    (2 ≤ binOfIntensity bins movingValue movingBinSize movingNormalizedMin ∧
      binOfIntensity bins movingValue movingBinSize movingNormalizedMin ≤ bins - 3) ∧
    binOfIntensity bins fixedValue fixedBinSize fixedNormalizedMin < bins ∧
    (pdfMovingIndices (binOfIntensity bins movingValue movingBinSize movingNormalizedMin)
      = [((binOfIntensity bins movingValue movingBinSize movingNormalizedMin : ℕ) : ℤ) - 1,
         ((binOfIntensity bins movingValue movingBinSize movingNormalizedMin : ℕ) : ℤ),
         ((binOfIntensity bins movingValue movingBinSize movingNormalizedMin : ℕ) : ℤ) + 1,
         ((binOfIntensity bins movingValue movingBinSize movingNormalizedMin : ℕ) : ℤ) + 2]) ∧
    ∀ m ∈ pdfMovingIndices (binOfIntensity bins movingValue movingBinSize movingNormalizedMin),
      inJointBuffer bins
        ((binOfIntensity bins fixedValue fixedBinSize fixedNormalizedMin : ℕ) : ℤ) m := by
  have hf := clampParzenWindowIndex_bounds hB hB2
    (castToUnsignedInt_lt ⌊parzenWindowTerm fixedValue fixedBinSize fixedNormalizedMin⌋)
  have hm := clampParzenWindowIndex_bounds hB hB2
    (castToUnsignedInt_lt ⌊parzenWindowTerm movingValue movingBinSize movingNormalizedMin⌋)
  refine ⟨hf, hm, ?_, rfl, ?_⟩
  · unfold binOfIntensity parzenWindowIndex; omega
  · intro m hmem
    unfold binOfIntensity parzenWindowIndex
    unfold binOfIntensity parzenWindowIndex pdfMovingIndices at hmem
    simp only [List.mem_cons, List.mem_singleton, List.not_mem_nil, or_false] at hmem
    unfold inJointBuffer
    omega

/-- C4 (witness): 5 bins; a fixed intensity far below and a moving intensity far above
the range. -/
theorem parzen_window_accesses_in_bounds_witness :
    (2 ≤ binOfIntensity 5 (-1000 : ℚ) 1 (-2) ∧ binOfIntensity 5 (-1000 : ℚ) 1 (-2) ≤ 5 - 3) ∧
    ∀ m ∈ pdfMovingIndices (binOfIntensity 5 (1000 : ℚ) 1 (-2)),
      inJointBuffer 5 ((binOfIntensity 5 (-1000 : ℚ) 1 (-2) : ℕ) : ℤ) m :=
  ⟨(parzen_window_accesses_in_bounds 5 (by norm_num) (by norm_num [ulongModulus])
      (-1000 : ℚ) 1 (-2) 1000 1 (-2)).1,
   (parzen_window_accesses_in_bounds 5 (by norm_num) (by norm_num [ulongModulus])
      (-1000 : ℚ) 1 (-2) 1000 1 (-2)).2.2.2.2⟩

/-! ## C5 -/

/-- C5 (counterexample): for a constant fixed image (all pixels `7`) and 50 bins,
`Initialize` derives the fixed bin size `0`, which is not positive. -/
theorem binSize_pos_counterexample :
    ¬ (0 < (InitializeBinning 50 ([7, 7, 7] : List ℚ) [0, 255]).m_FixedImageBinSize ∧
       0 < (InitializeBinning 50 ([7, 7, 7] : List ℚ) [0, 255]).m_MovingImageBinSize) := by
  norm_num [InitializeBinning, computeBinSize, scanMinMax, scanStep, doubleMax, binDivisor,
    ulongSub, ulongModulus, padding]

/-- C5 (amended): after `Initialize`, `binSize > 0` holds for both the fixed and the
moving image for every bin count accepted by `SetNumberOfHistogramBins` (any value `≥ 1`),
provided each image contains two pixels of different intensity.  (At 4 bins the divisor
is zero and the bin size is the positive infinity; at any other bin count it is the
positive number that `Initialize` stores.) -/
theorem binSize_pos_of_nonconstant_images (bins : ℕ) (fixedPixels movingPixels : List K)
    (hB : 1 ≤ bins) (hB2 : bins < ulongModulus)
    (hf : ∃ x ∈ fixedPixels, ∃ y ∈ fixedPixels, x < y)
    (hm : ∃ x ∈ movingPixels, ∃ y ∈ movingPixels, x < y) :
    (computeBinSizeQuotient (scanMinMax fixedPixels).1 (scanMinMax fixedPixels).2
      bins).isPositive = true ∧
    (computeBinSizeQuotient (scanMinMax movingPixels).1 (scanMinMax movingPixels).2
      bins).isPositive = true ∧
    (bins ≠ 4 →
      computeBinSizeQuotient (scanMinMax fixedPixels).1 (scanMinMax fixedPixels).2 bins
        = DoubleQuotient.number
            (InitializeBinning bins fixedPixels movingPixels).m_FixedImageBinSize ∧
      computeBinSizeQuotient (scanMinMax movingPixels).1 (scanMinMax movingPixels).2 bins
        = DoubleQuotient.number
            (InitializeBinning bins fixedPixels movingPixels).m_MovingImageBinSize ∧
      0 < (InitializeBinning bins fixedPixels movingPixels).m_FixedImageBinSize ∧
      0 < (InitializeBinning bins fixedPixels movingPixels).m_MovingImageBinSize) ∧
    (bins = 4 →
      computeBinSizeQuotient (scanMinMax fixedPixels).1 (scanMinMax fixedPixels).2 bins
        = DoubleQuotient.positiveInfinity ∧
      computeBinSizeQuotient (scanMinMax movingPixels).1 (scanMinMax movingPixels).2 bins
        = DoubleQuotient.positiveInfinity) := by
  have hrange : ∀ pixels : List K, (∃ x ∈ pixels, ∃ y ∈ pixels, x < y) →
      0 < (scanMinMax pixels).2 - (scanMinMax pixels).1 := by
    rintro pixels ⟨x, hx, y, hy, hxy⟩
    obtain ⟨-, -, b⟩ := foldl_scanStep_bounds pixels ((doubleMax : K), -doubleMax)
    have h1 := (b x hx).1
    have h2 := (b y hy).2
    unfold scanMinMax
    linarith
  have hdiv : bins ≠ 4 → 0 < binDivisor bins := by
    intro hB4
    unfold binDivisor padding ulongSub ulongModulus at *
    omega
  have hfour : bins = 4 → binDivisor bins = 0 := by
    intro h4
    rw [h4]
    decide
  have hnumber : ∀ pixels : List K, bins ≠ 4 →
      computeBinSizeQuotient (scanMinMax pixels).1 (scanMinMax pixels).2 bins
        = DoubleQuotient.number
            (computeBinSize (scanMinMax pixels).1 (scanMinMax pixels).2 bins) := by
    intro pixels hB4
    unfold computeBinSizeQuotient
    rw [if_neg (hdiv hB4).ne']
  have hpos : ∀ pixels : List K, (∃ x ∈ pixels, ∃ y ∈ pixels, x < y) → bins ≠ 4 →
      0 < computeBinSize (scanMinMax pixels).1 (scanMinMax pixels).2 bins := by
    intro pixels hp hB4
    unfold computeBinSize
    exact div_pos (hrange pixels hp) (by exact_mod_cast hdiv hB4)
  have hinfinite : ∀ pixels : List K, (∃ x ∈ pixels, ∃ y ∈ pixels, x < y) → bins = 4 →
      computeBinSizeQuotient (scanMinMax pixels).1 (scanMinMax pixels).2 bins
        = DoubleQuotient.positiveInfinity := by
    intro pixels hp h4
    unfold computeBinSizeQuotient
    rw [if_pos (hfour h4), if_pos (hrange pixels hp)]
  have key : ∀ pixels : List K, (∃ x ∈ pixels, ∃ y ∈ pixels, x < y) →
      (computeBinSizeQuotient (scanMinMax pixels).1 (scanMinMax pixels).2
        bins).isPositive = true := by
    intro pixels hp
    by_cases h4 : bins = 4
    · rw [hinfinite pixels hp h4]
      rfl
    · rw [hnumber pixels h4]
      show decide (0 < _) = true
      exact decide_eq_true (hpos pixels hp h4)
  exact ⟨key fixedPixels hf, key movingPixels hm,
    fun h4 => ⟨hnumber fixedPixels h4, hnumber movingPixels h4, hpos fixedPixels hf h4,
      hpos movingPixels hm h4⟩,
    fun h4 => ⟨hinfinite fixedPixels hf h4, hinfinite movingPixels hm h4⟩⟩

/-- C5 (amended, witness): four bins (the divisor is zero), images with pixels `0, 255`
and `3, 5`: both bin sizes are the positive infinity. -/
theorem binSize_pos_of_nonconstant_images_witness :
    (computeBinSizeQuotient (scanMinMax ([0, 255] : List ℚ)).1
      (scanMinMax ([0, 255] : List ℚ)).2 4).isPositive = true ∧
    (computeBinSizeQuotient (scanMinMax ([3, 5] : List ℚ)).1
      (scanMinMax ([3, 5] : List ℚ)).2 4).isPositive = true :=
  ⟨(binSize_pos_of_nonconstant_images 4 ([0, 255] : List ℚ) [3, 5] (by norm_num)
      (by norm_num [ulongModulus]) ⟨0, by simp, 255, by simp, by norm_num⟩
      ⟨3, by simp, 5, by simp, by norm_num⟩).1,
   (binSize_pos_of_nonconstant_images 4 ([0, 255] : List ℚ) [3, 5] (by norm_num)
      (by norm_num [ulongModulus]) ⟨0, by simp, 255, by simp, by norm_num⟩
      ⟨3, by simp, 5, by simp, by norm_num⟩).2.1⟩

/-! ## Closed form of the histogram accumulation -/

lemma foldl_addAtJoint_apply (k : ℤ → K) (f : ℤ) (l : List ℤ) (pdf : ℤ → ℤ → K) (a b : ℤ) :
    l.foldl (fun (p : ℤ → ℤ → K) (i : ℤ) => addAtJoint p f i (k i)) pdf a b
      = pdf a b + (l.map (fun i : ℤ => if a = f ∧ b = i then k i else 0)).sum := by
  induction l generalizing pdf with
  | nil => simp
  | cons i l ih =>
    simp only [List.foldl_cons, List.map_cons, List.sum_cons]
    rw [ih]
    unfold addAtJoint
    split_ifs <;> ring

lemma parzenWindowing_apply (kernel : K → K) (fixedIndex movingIndex : ℕ) (term : K)
    (pdf : ℤ → ℤ → K) (a b : ℤ) :
    parzenWindowing kernel fixedIndex movingIndex term pdf a b
      = pdf a b + windowContribution kernel fixedIndex movingIndex term a b := by
  unfold parzenWindowing windowContribution
  exact foldl_addAtJoint_apply (fun i : ℤ => kernel ((i : K) - term)) (fixedIndex : ℤ)
    (pdfMovingIndices movingIndex) pdf a b

section Accumulate

variable {Pt Par : Type} (M : Metric K Pt Par) (parameters : Par)

lemma getValueSampleStep_eq (st : LoopState K) (s : FixedImageSpatialSample K Pt) :
    getValueSampleStep M parameters st s =
      if sampleAccepted M parameters s then
        { nSamples := st.nSamples + 1
          pdfs := { st.pdfs with
            m_FixedImageMarginalPDF :=
              addAtBin st.pdfs.m_FixedImageMarginalPDF (sampleFixedBin M s) 1
            m_JointPDF := parzenWindowing M.collaborators.cubicBSplineKernel
              (sampleFixedBin M s) (sampleMovingBin M parameters s)
              (sampleMovingTerm M parameters s) st.pdfs.m_JointPDF } }
      else st := rfl

lemma foldl_getValueSampleStep_nSamples (l : List (FixedImageSpatialSample K Pt))
    (st : LoopState K) :
    (l.foldl (getValueSampleStep M parameters) st).nSamples
      = st.nSamples + l.countP (sampleAccepted M parameters) := by
  induction l generalizing st with
  | nil => simp
  | cons s l ih =>
    rw [List.foldl_cons, ih, getValueSampleStep_eq, List.countP_cons]
    split_ifs with h
    · simp; omega
    · simp

lemma foldl_getValueSampleStep_fixed (l : List (FixedImageSpatialSample K Pt))
    (st : LoopState K) (b : ℕ) :
    (l.foldl (getValueSampleStep M parameters) st).pdfs.m_FixedImageMarginalPDF b
      = st.pdfs.m_FixedImageMarginalPDF b + (l.map (fun s =>
          if sampleAccepted M parameters s = true ∧ b = sampleFixedBin M s
          then (1 : K) else 0)).sum := by
  induction l generalizing st with
  | nil => simp
  | cons s l ih =>
    rw [List.foldl_cons, ih, getValueSampleStep_eq, List.map_cons, List.sum_cons]
    by_cases h : sampleAccepted M parameters s = true
    · simp only [h, if_true, true_and, addAtBin]
      split_ifs <;> ring
    · simp [h]

lemma foldl_getValueSampleStep_joint (l : List (FixedImageSpatialSample K Pt))
    (st : LoopState K) (a b : ℤ) :
    (l.foldl (getValueSampleStep M parameters) st).pdfs.m_JointPDF a b
      = st.pdfs.m_JointPDF a b + (l.map (fun s =>
          if sampleAccepted M parameters s = true
          then windowContribution M.collaborators.cubicBSplineKernel (sampleFixedBin M s)
            (sampleMovingBin M parameters s) (sampleMovingTerm M parameters s) a b
          else 0)).sum := by
  induction l generalizing st with
  | nil => simp
  | cons s l ih =>
    rw [List.foldl_cons, ih, getValueSampleStep_eq, List.map_cons, List.sum_cons]
    by_cases h : sampleAccepted M parameters s = true
    · simp only [h, if_true, parzenWindowing_apply]
      ring
    · simp [h]

lemma foldl_getValueSampleStep_moving (l : List (FixedImageSpatialSample K Pt))
    (st : LoopState K) :
    (l.foldl (getValueSampleStep M parameters) st).pdfs.m_MovingImageMarginalPDF
      = st.pdfs.m_MovingImageMarginalPDF := by
  induction l generalizing st with
  | nil => simp
  | cons s l ih =>
    rw [List.foldl_cons, ih, getValueSampleStep_eq]
    split_ifs <;> rfl

lemma foldl_getValueSampleStep_derivatives (l : List (FixedImageSpatialSample K Pt))
    (st : LoopState K) :
    (l.foldl (getValueSampleStep M parameters) st).pdfs.m_JointPDFDerivatives
      = st.pdfs.m_JointPDFDerivatives := by
  induction l generalizing st with
  | nil => simp
  | cons s l ih =>
    rw [List.foldl_cons, ih, getValueSampleStep_eq]
    split_ifs <;> rfl

lemma LoopState.ext_fields {s t : LoopState K} (hn : s.nSamples = t.nSamples)
    (hf : s.pdfs.m_FixedImageMarginalPDF = t.pdfs.m_FixedImageMarginalPDF)
    (hm : s.pdfs.m_MovingImageMarginalPDF = t.pdfs.m_MovingImageMarginalPDF)
    (hj : s.pdfs.m_JointPDF = t.pdfs.m_JointPDF)
    (hd : s.pdfs.m_JointPDFDerivatives = t.pdfs.m_JointPDFDerivatives) : s = t := by
  obtain ⟨n, ⟨f, m, j, d⟩⟩ := s
  obtain ⟨n', ⟨f', m', j', d'⟩⟩ := t
  simp only at hn hf hm hj hd
  subst hn hf hm hj hd
  rfl

/-- The sample loop of `GetValue` yields the same state on a permuted container. -/
lemma foldl_getValueSampleStep_perm {l l' : List (FixedImageSpatialSample K Pt)}
    (h : l.Perm l') (st : LoopState K) :
    l.foldl (getValueSampleStep M parameters) st
      = l'.foldl (getValueSampleStep M parameters) st := by
  apply LoopState.ext_fields
  · rw [foldl_getValueSampleStep_nSamples, foldl_getValueSampleStep_nSamples, h.countP_eq]
  · funext b
    rw [foldl_getValueSampleStep_fixed, foldl_getValueSampleStep_fixed,
      (h.map _).sum_eq]
  · rw [foldl_getValueSampleStep_moving, foldl_getValueSampleStep_moving]
  · funext a b
    rw [foldl_getValueSampleStep_joint, foldl_getValueSampleStep_joint, (h.map _).sum_eq]
  · rw [foldl_getValueSampleStep_derivatives, foldl_getValueSampleStep_derivatives]

lemma getValueAccumulate_nSamples (pdfs : PDFs K) :
    (getValueAccumulate M parameters pdfs).nSamples = acceptedSampleCount M parameters := by
  unfold getValueAccumulate acceptedSampleCount
  rw [foldl_getValueSampleStep_nSamples]
  simp

end Accumulate

/-! ## The example metric -/

lemma exampleBinning_eq :
    InitializeBinning 6 ([0, 1] : List ℚ) [0, 1] =
      { m_FixedImageBinSize := 1 / 2, m_FixedImageNormalizedMin := -2,
        m_MovingImageBinSize := 1 / 2, m_MovingImageNormalizedMin := -2,
        m_MovingImageTrueMin := 0, m_MovingImageTrueMax := 1 } := by
  norm_num [InitializeBinning, computeBinSize, computeNormalizedMin, scanMinMax, scanStep,
    doubleMax, binDivisor, ulongSub, ulongModulus, padding]

lemma exampleMetric_sampleAccepted (n : ℕ) (points : List ℚ) (t x v : ℚ) :
    sampleAccepted (exampleMetric n points) t { FixedImagePointValue := x, FixedImageValue := v }
      = decide (0 ≤ x + t ∧ x + t ≤ 1) := by
  unfold sampleAccepted TransformPoint
  simp only [exampleMetric, exampleCollaborators, exampleBinning_eq]
  by_cases h : 0 ≤ x + t ∧ x + t ≤ 1
  · have h1 : ¬ (x + t < 0 ∨ x + t > 1) := by
      rintro (h' | h')
      · linarith [h.1]
      · linarith [h.2]
    simp [h, h1]
  · simp [h]

/-! ## C6 -/

section Sampling

variable {Pt Par : Type} (M : Metric K Pt Par) (parameters : Par)

lemma foldl_getValueAndDerivativeSampleStep_nSamples
    (l : List (FixedImageSpatialSample K Pt)) (st : LoopState K) :
    (l.foldl (getValueAndDerivativeSampleStep M parameters) st).nSamples
      = st.nSamples + l.countP (sampleAccepted M parameters) := by
  induction l generalizing st with
  | nil => simp
  | cons s l ih =>
    have hs : (getValueAndDerivativeSampleStep M parameters st s).nSamples
        = st.nSamples + if sampleAccepted M parameters s = true then 1 else 0 := by
      unfold getValueAndDerivativeSampleStep sampleAccepted
      by_cases h : (TransformPoint M parameters s.FixedImagePointValue).sampleOk = true
      · simp [h]
      · simp [h]
    rw [List.foldl_cons, ih, List.countP_cons, hs]
    omega

lemma getValueAndDerivativeAccumulate_nSamples (pdfs : PDFs K) :
    (getValueAndDerivativeAccumulate M parameters pdfs).nSamples
      = acceptedSampleCount M parameters := by
  unfold getValueAndDerivativeAccumulate acceptedSampleCount
  rw [foldl_getValueAndDerivativeSampleStep_nSamples]
  simp

lemma normalizePDFs_ne_tooManySamplesOutside (bins : ℕ) (pdfs : PDFs K) :
    normalizePDFs bins pdfs ≠ Except.error MetricError.tooManySamplesOutside := by
  unfold normalizePDFs
  dsimp only
  split_ifs <;> simp

lemma GetValueAndPDFs_eq_tooManySamplesOutside_iff (log : K → K) (pdfs : PDFs K) :
    GetValueAndPDFs M log pdfs parameters = Except.error MetricError.tooManySamplesOutside ↔
      acceptedSampleCount M parameters < M.m_NumberOfSpatialSamples / 4 := by
  unfold GetValueAndPDFs
  dsimp only
  rw [getValueAccumulate_nSamples]
  split_ifs with h
  · simp [h]
  · have hn := normalizePDFs_ne_tooManySamplesOutside M.m_NumberOfHistogramBins
      (getValueAccumulate M parameters pdfs).pdfs
    constructor
    · intro h'
      exfalso
      generalize normalizePDFs M.m_NumberOfHistogramBins
        (getValueAccumulate M parameters pdfs).pdfs = r at h' hn
      cases r with
      | error e => simp at h'; exact hn (by rw [h'])
      | ok p => simp at h'
    · intro h'; exact absurd h' h

lemma GetValue_eq_tooManySamplesOutside_iff (log : K → K) (pdfs : PDFs K) :
    GetValue M log pdfs parameters = Except.error MetricError.tooManySamplesOutside ↔
      acceptedSampleCount M parameters < M.m_NumberOfSpatialSamples / 4 := by
  rw [← GetValueAndPDFs_eq_tooManySamplesOutside_iff M parameters log pdfs]
  unfold GetValue
  cases GetValueAndPDFs M log pdfs parameters with
  | error e => simp [Except.map]
  | ok p => simp [Except.map]

lemma GetApproximateValueAndDerivative_eq_tooManySamplesOutside_iff (log : K → K)
    (pdfs : PDFs K) :
    GetApproximateValueAndDerivative M log pdfs parameters
        = Except.error MetricError.tooManySamplesOutside ↔
      acceptedSampleCount M parameters < M.m_NumberOfSpatialSamples / 4 := by
  unfold GetApproximateValueAndDerivative
  dsimp only
  rw [getValueAndDerivativeAccumulate_nSamples]
  split_ifs with h
  · simp [h]
  · have hn := normalizePDFs_ne_tooManySamplesOutside M.m_NumberOfHistogramBins
      (getValueAndDerivativeAccumulate M parameters pdfs).pdfs
    constructor
    · intro h'
      exfalso
      generalize normalizePDFs M.m_NumberOfHistogramBins
        (getValueAndDerivativeAccumulate M parameters pdfs).pdfs = r at h' hn
      cases r with
      | error e => simp at h'; exact hn (by rw [h'])
      | ok p => simp at h'
    · intro h'; exact absurd h' h

lemma foldl_getExactValueAndDerivativeSampleStep_nSamples
    (l : List (FixedImageSpatialSample K Pt)) (st : LoopState K) :
    (l.foldl (getExactValueAndDerivativeSampleStep M parameters) st).nSamples
      = st.nSamples + l.countP (fun pixel =>
          fixedMaskAccepts M pixel.FixedImagePointValue && sampleAccepted M parameters pixel) := by
  induction l generalizing st with
  | nil => simp
  | cons s l ih =>
    have hs : (getExactValueAndDerivativeSampleStep M parameters st s).nSamples
        = st.nSamples + if (fixedMaskAccepts M s.FixedImagePointValue
            && sampleAccepted M parameters s) = true then 1 else 0 := by
      unfold getExactValueAndDerivativeSampleStep getValueAndDerivativeSampleStep sampleAccepted
      by_cases hm : fixedMaskAccepts M s.FixedImagePointValue = true
      · by_cases h : (TransformPoint M parameters s.FixedImagePointValue).sampleOk = true
        · simp [hm, h]
        · simp [hm, h]
      · simp [hm]
    rw [List.foldl_cons, ih, List.countP_cons, hs]
    omega

lemma getExactValueAndDerivativeAccumulate_nSamples (pdfs : PDFs K) :
    (getExactValueAndDerivativeAccumulate M parameters pdfs).nSamples
      = acceptedPixelCount M parameters := by
  unfold getExactValueAndDerivativeAccumulate acceptedPixelCount
  rw [foldl_getExactValueAndDerivativeSampleStep_nSamples]
  simp

lemma GetExactValueAndDerivative_eq_tooManySamplesOutside_iff (log : K → K)
    (pdfs : PDFs K) :
    GetExactValueAndDerivative M log pdfs parameters
        = Except.error MetricError.tooManySamplesOutside ↔
      acceptedPixelCount M parameters < M.m_NumberOfSpatialSamples / 4 := by
  unfold GetExactValueAndDerivative
  dsimp only
  rw [getExactValueAndDerivativeAccumulate_nSamples]
  split_ifs with h
  · simp [h]
  · have hn := normalizePDFs_ne_tooManySamplesOutside M.m_NumberOfHistogramBins
      (getExactValueAndDerivativeAccumulate M parameters pdfs).pdfs
    constructor
    · intro h'
      exfalso
      generalize normalizePDFs M.m_NumberOfHistogramBins
        (getExactValueAndDerivativeAccumulate M parameters pdfs).pdfs = r at h' hn
      cases r with
      | error e => simp at h'; exact hn (by rw [h'])
      | ok p => simp at h'
    · intro h'; exact absurd h' h

lemma GetValueAndDerivative_eq_tooManySamplesOutside_iff (log : K → K) (pdfs : PDFs K) :
    GetValueAndDerivative M log pdfs parameters
        = Except.error MetricError.tooManySamplesOutside ↔
      (if M.m_UseExactDerivative = true then acceptedPixelCount M parameters
        else acceptedSampleCount M parameters) < M.m_NumberOfSpatialSamples / 4 := by
  unfold GetValueAndDerivative
  by_cases h : M.m_UseExactDerivative = true
  · simp only [h, if_true]
    exact GetExactValueAndDerivative_eq_tooManySamplesOutside_iff M parameters log pdfs
  · simp only [h, if_false]
    exact GetApproximateValueAndDerivative_eq_tooManySamplesOutside_iff M parameters log pdfs

end Sampling

/-- C6 (counterexample): with 5 configured samples of which exactly one is accepted,
`4 * accepted < N` holds, but neither `GetValue` nor `GetValueAndDerivative` raises the
sampling error, because `1 < 5 / 4` is false in integer arithmetic. -/
theorem sampling_error_quarter_counterexample :
    4 * acceptedSampleCount (exampleMetric 5 [1 / 2, 2, 2, 2, 2]) 0
        < (exampleMetric 5 [1 / 2, 2, 2, 2, 2]).m_NumberOfSpatialSamples ∧
    (∀ log : ℚ → ℚ, GetValue (exampleMetric 5 [1 / 2, 2, 2, 2, 2]) log zeroPDFs 0
        ≠ Except.error MetricError.tooManySamplesOutside) ∧
    (∀ log : ℚ → ℚ,
      GetValueAndDerivative (exampleMetric 5 [1 / 2, 2, 2, 2, 2]) log zeroPDFs 0
        ≠ Except.error MetricError.tooManySamplesOutside) := by
  have hc : acceptedSampleCount (exampleMetric 5 [1 / 2, 2, 2, 2, 2]) 0 = 1 := by
    unfold acceptedSampleCount
    simp only [exampleMetric, List.map_cons, List.map_nil]
    simp only [List.countP_cons, List.countP_nil]
    have h := exampleMetric_sampleAccepted 5 [1 / 2, 2, 2, 2, 2] 0
    simp only [exampleMetric, List.map_cons, List.map_nil] at h
    simp only [h]
    norm_num
  refine ⟨?_, ?_, ?_⟩
  · rw [hc]; norm_num [exampleMetric]
  · intro log
    rw [Ne, GetValue_eq_tooManySamplesOutside_iff, hc]
    norm_num [exampleMetric]
  · intro log
    rw [Ne, GetValueAndDerivative_eq_tooManySamplesOutside_iff]
    have hmode : (exampleMetric 5 [1 / 2, 2, 2, 2, 2]).m_UseExactDerivative = false := rfl
    rw [hmode, if_neg (by simp), hc]
    norm_num [exampleMetric]

/-- C6 (amended): for every configured sample count `N` and every sample set, `GetValue`
and `GetValueAndDerivative` fail with the sampling error ("Too many samples map outside
moving image buffer") exactly when the number of accepted samples (in the exact mode of
`GetValueAndDerivative`: of accepted pixels of the fixed region) is below the integer
quotient `N / 4` (rounded down); for example 100 accepted samples out of a configured 500
fail. -/
theorem sampling_error_iff_below_integer_quarter {Pt Par : Type} (M : Metric K Pt Par)
    (log : K → K) (pdfs : PDFs K) (parameters : Par) :
    (GetValue M log pdfs parameters = Except.error MetricError.tooManySamplesOutside ↔
      acceptedSampleCount M parameters < M.m_NumberOfSpatialSamples / 4) ∧
    (GetValueAndDerivative M log pdfs parameters
        = Except.error MetricError.tooManySamplesOutside ↔
      (if M.m_UseExactDerivative = true then acceptedPixelCount M parameters
        else acceptedSampleCount M parameters) < M.m_NumberOfSpatialSamples / 4) ∧
    (M.m_NumberOfSpatialSamples = 500 ∧ M.m_UseExactDerivative = false ∧
        acceptedSampleCount M parameters = 100 →
      GetValue M log pdfs parameters = Except.error MetricError.tooManySamplesOutside ∧
      GetValueAndDerivative M log pdfs parameters
        = Except.error MetricError.tooManySamplesOutside) := by
  refine ⟨GetValue_eq_tooManySamplesOutside_iff M parameters log pdfs,
    GetValueAndDerivative_eq_tooManySamplesOutside_iff M parameters log pdfs, ?_⟩
  rintro ⟨hN, hmode, hc⟩
  rw [GetValue_eq_tooManySamplesOutside_iff,
    GetValueAndDerivative_eq_tooManySamplesOutside_iff, hN, hmode, if_neg (by simp), hc]
  norm_num

/-- C6 (amended, witness): 500 configured samples, of which the 100 drawn at `1/2` are
accepted and the 400 drawn at `2` map outside the moving image buffer. -/
theorem sampling_error_iff_below_integer_quarter_witness :
    GetValue (exampleMetric 500 (List.replicate 100 (1 / 2) ++ List.replicate 400 2))
        (fun x => x) zeroPDFs 0 = Except.error MetricError.tooManySamplesOutside ∧
    GetValueAndDerivative
        (exampleMetric 500 (List.replicate 100 (1 / 2) ++ List.replicate 400 2))
        (fun x => x) zeroPDFs 0 = Except.error MetricError.tooManySamplesOutside := by
  apply (sampling_error_iff_below_integer_quarter
    (exampleMetric 500 (List.replicate 100 (1 / 2) ++ List.replicate 400 2))
    (fun x => x) zeroPDFs 0).2.2
  refine ⟨rfl, rfl, ?_⟩
  unfold acceptedSampleCount
  have h := exampleMetric_sampleAccepted 500
    (List.replicate 100 (1 / 2) ++ List.replicate 400 2) 0
  simp only [exampleMetric, List.map_append, List.map_replicate, List.countP_append,
    List.countP_replicate] at h ⊢
  simp only [h]
  norm_num

/-! ## C7 -/

section Rejected

variable {Pt Par : Type} (M : Metric K Pt Par) (parameters : Par)

lemma foldl_getValueSampleStep_of_rejected (l : List (FixedImageSpatialSample K Pt))
    (h : ∀ s ∈ l, sampleAccepted M parameters s = false) (st : LoopState K) :
    l.foldl (getValueSampleStep M parameters) st = st := by
  induction l generalizing st with
  | nil => rfl
  | cons s l ih =>
    have hs : sampleAccepted M parameters s = false := h s (List.mem_cons_self s l)
    rw [List.foldl_cons, getValueSampleStep_eq, hs]
    exact ih (fun x hx => h x (List.mem_cons_of_mem s hx)) st

lemma foldl_getValueAndDerivativeSampleStep_of_rejected
    (l : List (FixedImageSpatialSample K Pt))
    (h : ∀ s ∈ l, sampleAccepted M parameters s = false) (st : LoopState K) :
    l.foldl (getValueAndDerivativeSampleStep M parameters) st = st := by
  induction l generalizing st with
  | nil => rfl
  | cons s l ih =>
    have hs : sampleAccepted M parameters s = false := h s (List.mem_cons_self s l)
    have hstep : getValueAndDerivativeSampleStep M parameters st s = st := by
      unfold getValueAndDerivativeSampleStep
      unfold sampleAccepted at hs
      simp [hs]
    rw [List.foldl_cons, hstep]
    exact ih (fun x hx => h x (List.mem_cons_of_mem s hx)) st

lemma acceptedSampleCount_of_rejected
    (h : ∀ s ∈ M.m_FixedImageSamples, sampleAccepted M parameters s = false) :
    acceptedSampleCount M parameters = 0 := by
  unfold acceptedSampleCount
  rw [List.countP_eq_zero]
  intro s hs
  simp [h s hs]

lemma jointPDFSum_resetPDFs (bins : ℕ) (pdfs : PDFs K) :
    jointPDFSum bins (resetPDFs bins pdfs).m_JointPDF = 0 := by
  unfold jointPDFSum resetPDFs
  apply Finset.sum_eq_zero
  intro m hm
  apply Finset.sum_eq_zero
  intro f hf
  have hm' := Finset.mem_range.mp hm
  have hf' := Finset.mem_range.mp hf
  have : inJointBuffer bins (f : ℤ) (m : ℤ) := by
    unfold inJointBuffer; omega
  simp [this]

lemma normalizePDFs_of_jointPDFSum_zero (bins : ℕ) (pdfs : PDFs K)
    (h : jointPDFSum bins pdfs.m_JointPDF = 0) :
    normalizePDFs bins pdfs = Except.error MetricError.jointPDFSummedToZero := by
  unfold normalizePDFs
  simp [h]

end Rejected

/-- C7 (counterexample): with 4 configured samples that are all rejected, the evaluation
fails with the sampling error, not with the degenerate-histogram error
("Joint PDF summed to zero"). -/
theorem all_rejected_counterexample :
    (∀ s ∈ (exampleMetric 4 [2, 2, 2, 2]).m_FixedImageSamples,
      sampleAccepted (exampleMetric 4 [2, 2, 2, 2]) 0 s = false) ∧
    ∀ log : ℚ → ℚ, GetValue (exampleMetric 4 [2, 2, 2, 2]) log zeroPDFs 0
      ≠ Except.error MetricError.jointPDFSummedToZero := by
  have hrej : ∀ s ∈ (exampleMetric 4 [2, 2, 2, 2]).m_FixedImageSamples,
      sampleAccepted (exampleMetric 4 [2, 2, 2, 2]) 0 s = false := by
    intro s hs
    simp only [exampleMetric, List.map_cons, List.map_nil, List.mem_cons, List.mem_singleton,
      List.not_mem_nil, or_false, or_self] at hs
    rw [hs, exampleMetric_sampleAccepted]
    norm_num
  refine ⟨hrej, fun log => ?_⟩
  have h : GetValue (exampleMetric 4 [2, 2, 2, 2]) log zeroPDFs 0
      = Except.error MetricError.tooManySamplesOutside := by
    rw [GetValue_eq_tooManySamplesOutside_iff, acceptedSampleCount_of_rejected _ _ hrej]
    norm_num [exampleMetric]
  rw [h]
  simp

/-- C7 (amended): when every sample is rejected, so that the joint histogram is all zero,
the evaluation fails: with the sampling error if the configured sample count is at least
4 (the check `nSamples < N / 4` comes first), and with the degenerate-histogram error
raised at normalisation ("Joint PDF summed to zero") if the configured count is below 4. -/
theorem all_rejected_failure {Pt Par : Type} (M : Metric K Pt Par) (log : K → K)
    (pdfs : PDFs K) (parameters : Par)
    (h : ∀ s ∈ M.m_FixedImageSamples, sampleAccepted M parameters s = false) :
    jointPDFSum M.m_NumberOfHistogramBins (getValueAccumulate M parameters pdfs).pdfs.m_JointPDF
      = 0 ∧
    GetValue M log pdfs parameters =
      (if 4 ≤ M.m_NumberOfSpatialSamples then Except.error MetricError.tooManySamplesOutside
       else Except.error MetricError.jointPDFSummedToZero) ∧
    GetApproximateValueAndDerivative M log pdfs parameters =
      (if 4 ≤ M.m_NumberOfSpatialSamples then Except.error MetricError.tooManySamplesOutside
       else Except.error MetricError.jointPDFSummedToZero) := by
  have hacc : getValueAccumulate M parameters pdfs
      = { nSamples := 0, pdfs := resetPDFs M.m_NumberOfHistogramBins pdfs } := by
    unfold getValueAccumulate
    exact foldl_getValueSampleStep_of_rejected M parameters _ h _
  have hacc' : getValueAndDerivativeAccumulate M parameters pdfs
      = { nSamples := 0
          pdfs := resetPDFsAndDerivatives M.m_NumberOfHistogramBins M.m_NumberOfParameters
            pdfs } := by
    unfold getValueAndDerivativeAccumulate
    exact foldl_getValueAndDerivativeSampleStep_of_rejected M parameters _ h _
  have hsum : jointPDFSum M.m_NumberOfHistogramBins
      (resetPDFs M.m_NumberOfHistogramBins pdfs).m_JointPDF = 0 := jointPDFSum_resetPDFs _ _
  have hsum' : jointPDFSum M.m_NumberOfHistogramBins
      (resetPDFsAndDerivatives M.m_NumberOfHistogramBins M.m_NumberOfParameters
        pdfs).m_JointPDF = 0 := jointPDFSum_resetPDFs _ _
  refine ⟨by rw [hacc]; exact hsum, ?_, ?_⟩
  · unfold GetValue GetValueAndPDFs
    dsimp only
    rw [hacc]
    dsimp only
    rw [normalizePDFs_of_jointPDFSum_zero _ _ hsum]
    by_cases hN : 4 ≤ M.m_NumberOfSpatialSamples
    · have : 0 < M.m_NumberOfSpatialSamples / 4 := Nat.div_pos hN (by norm_num)
      simp [hN, this, Except.map]
    · have : M.m_NumberOfSpatialSamples / 4 = 0 := by omega
      simp [hN, this, Except.map]
  · unfold GetApproximateValueAndDerivative
    dsimp only
    rw [hacc']
    dsimp only
    rw [normalizePDFs_of_jointPDFSum_zero _ _ hsum']
    by_cases hN : 4 ≤ M.m_NumberOfSpatialSamples
    · have : 0 < M.m_NumberOfSpatialSamples / 4 := Nat.div_pos hN (by norm_num)
      simp [hN, this]
    · have : M.m_NumberOfSpatialSamples / 4 = 0 := by omega
      simp [hN, this]

/-- C7 (amended, witness): 3 configured samples, all mapping outside the moving image
buffer: the evaluation fails with "Joint PDF summed to zero". -/
theorem all_rejected_failure_witness :
    GetValue (exampleMetric 3 [2, 2, 2]) (fun x => x) zeroPDFs 0
      = Except.error MetricError.jointPDFSummedToZero := by
  have h := (all_rejected_failure (exampleMetric 3 [2, 2, 2]) (fun x => x) zeroPDFs 0
    (by
      intro s hs
      simp only [exampleMetric, List.map_cons, List.map_nil, List.mem_cons,
        List.mem_singleton, List.not_mem_nil, or_false, or_self] at hs
      rw [hs, exampleMetric_sampleAccepted]
      norm_num)).2.1
  rw [h]
  simp [exampleMetric]

/-! ## C8 and C9: the normalisation step -/

lemma jointPDFSum_normalizeJointPDF (bins : ℕ) (jointPDF : ℤ → ℤ → K) (sum : K) :
    jointPDFSum bins (normalizeJointPDF bins jointPDF sum) = jointPDFSum bins jointPDF / sum := by
  unfold jointPDFSum normalizeJointPDF
  rw [Finset.sum_div]
  apply Finset.sum_congr rfl
  intro m hm
  rw [Finset.sum_div]
  apply Finset.sum_congr rfl
  intro f hf
  have hm' := Finset.mem_range.mp hm
  have hf' := Finset.mem_range.mp hf
  have : inJointBuffer bins (f : ℤ) (m : ℤ) := by
    unfold inJointBuffer; omega
  simp [this]

lemma fixedPDFSum_normalizeFixedPDF (bins : ℕ) (fixedPDF : ℕ → K) (sum : K) :
    fixedPDFSum bins (normalizeFixedPDF bins fixedPDF sum) = fixedPDFSum bins fixedPDF / sum := by
  unfold fixedPDFSum normalizeFixedPDF
  rw [Finset.sum_div]
  apply Finset.sum_congr rfl
  intro b hb
  simp [Finset.mem_range.mp hb]

lemma foldl_setAtBin_apply (g : ℕ → K) (l : List ℕ) (pdf : ℕ → K) (m : ℕ) :
    l.foldl (fun (p : ℕ → K) (i : ℕ) => setAtBin p i (g i)) pdf m
      = if m ∈ l then g m else pdf m := by
  induction l generalizing pdf with
  | nil => simp
  | cons i l ih =>
    rw [List.foldl_cons, ih]
    unfold setAtBin
    by_cases h1 : m ∈ l
    · simp [h1]
    · by_cases h2 : m = i
      · simp [h2]
      · simp [h1, h2]

lemma computeMovingMarginalPDF_apply (bins : ℕ) (jointPDF : ℤ → ℤ → K) (movingPDF : ℕ → K)
    (m : ℕ) :
    computeMovingMarginalPDF bins jointPDF movingPDF m
      = if m < bins then ∑ f in range bins, jointPDF (f : ℤ) (m : ℤ) else movingPDF m := by
  unfold computeMovingMarginalPDF
  rw [foldl_setAtBin_apply (fun i => ∑ f in range bins, jointPDF (f : ℤ) (i : ℤ))]
  simp [List.mem_range]

/-- What a successful normalisation step leaves in the PDF members. -/
lemma normalizePDFs_eq_ok {bins : ℕ} {pdfs normalized : PDFs K}
    (h : normalizePDFs bins pdfs = Except.ok normalized) :
    jointPDFSum bins pdfs.m_JointPDF ≠ 0 ∧
    fixedPDFSum bins pdfs.m_FixedImageMarginalPDF ≠ 0 ∧
    normalized.m_JointPDF
      = normalizeJointPDF bins pdfs.m_JointPDF (jointPDFSum bins pdfs.m_JointPDF) ∧
    normalized.m_FixedImageMarginalPDF
      = normalizeFixedPDF bins pdfs.m_FixedImageMarginalPDF
          (fixedPDFSum bins pdfs.m_FixedImageMarginalPDF) ∧
    normalized.m_MovingImageMarginalPDF
      = computeMovingMarginalPDF bins normalized.m_JointPDF pdfs.m_MovingImageMarginalPDF ∧
    normalized.m_JointPDFDerivatives = pdfs.m_JointPDFDerivatives := by
  unfold normalizePDFs at h
  dsimp only at h
  split_ifs at h with h1 h2
  simp only [Except.ok.injEq] at h
  subst h
  exact ⟨h1, h2, rfl, rfl, rfl, rfl⟩

lemma normalizePDFs_sums {bins : ℕ} {pdfs normalized : PDFs K}
    (h : normalizePDFs bins pdfs = Except.ok normalized) :
    jointPDFSum bins normalized.m_JointPDF = 1 ∧
    fixedPDFSum bins normalized.m_FixedImageMarginalPDF = 1 := by
  obtain ⟨h1, h2, hj, hf, -, -⟩ := normalizePDFs_eq_ok h
  rw [hj, hf, jointPDFSum_normalizeJointPDF, fixedPDFSum_normalizeFixedPDF]
  exact ⟨div_self h1, div_self h2⟩

lemma normalizePDFs_moving {bins : ℕ} {pdfs normalized : PDFs K}
    (h : normalizePDFs bins pdfs = Except.ok normalized) (m : ℕ) (hm : m < bins) :
    normalized.m_MovingImageMarginalPDF m
      = ∑ f in range bins, normalized.m_JointPDF (f : ℤ) (m : ℤ) := by
  obtain ⟨-, -, -, -, hmv, -⟩ := normalizePDFs_eq_ok h
  rw [hmv, computeMovingMarginalPDF_apply]
  simp [hm]

section Evaluations

variable {Pt Par : Type} (M : Metric K Pt Par) (log : K → K) (pdfs : PDFs K)
  (parameters : Par)

/-- A successful `GetValue` went through a successful normalisation of the accumulated
PDFs, and returns the negated double summation over the normalised PDFs. -/
lemma GetValueAndPDFs_eq_ok {v : K} {final : PDFs K}
    (h : GetValueAndPDFs M log pdfs parameters = Except.ok (v, final)) :
    ¬ (acceptedSampleCount M parameters < M.m_NumberOfSpatialSamples / 4) ∧
    normalizePDFs M.m_NumberOfHistogramBins (getValueAccumulate M parameters pdfs).pdfs
      = Except.ok final ∧
    v = -1 * metricSum log M.m_NumberOfHistogramBins final := by
  unfold GetValueAndPDFs at h
  dsimp only at h
  rw [getValueAccumulate_nSamples] at h
  split_ifs at h with h1
  generalize normalizePDFs M.m_NumberOfHistogramBins
    (getValueAccumulate M parameters pdfs).pdfs = r at h
  cases r with
  | error e => simp at h
  | ok p =>
    simp only [Except.ok.injEq, Prod.mk.injEq] at h
    obtain ⟨hv, hp⟩ := h
    subst hp
    exact ⟨h1, rfl, hv.symm⟩

/-- A successful `GetApproximateValueAndDerivative` went through a successful
normalisation of the accumulated PDFs; only the derivatives are changed afterwards. -/
lemma GetApproximateValueAndDerivative_eq_ok {r : ValueAndDerivative K}
    (h : GetApproximateValueAndDerivative M log pdfs parameters = Except.ok r) :
    ¬ (acceptedSampleCount M parameters < M.m_NumberOfSpatialSamples / 4) ∧
    ∃ normalized : PDFs K,
      normalizePDFs M.m_NumberOfHistogramBins
        (getValueAndDerivativeAccumulate M parameters pdfs).pdfs = Except.ok normalized ∧
      r.pdfs.m_JointPDF = normalized.m_JointPDF ∧
      r.pdfs.m_FixedImageMarginalPDF = normalized.m_FixedImageMarginalPDF ∧
      r.pdfs.m_MovingImageMarginalPDF = normalized.m_MovingImageMarginalPDF ∧
      r.value = -1 * metricSum log M.m_NumberOfHistogramBins r.pdfs := by
  unfold GetApproximateValueAndDerivative at h
  dsimp only at h
  rw [getValueAndDerivativeAccumulate_nSamples] at h
  split_ifs at h with h1
  generalize normalizePDFs M.m_NumberOfHistogramBins
    (getValueAndDerivativeAccumulate M parameters pdfs).pdfs = res at h
  cases res with
  | error e => simp at h
  | ok p =>
    simp only [Except.ok.injEq] at h
    subst h
    exact ⟨h1, p, rfl, rfl, rfl, rfl, rfl⟩

end Evaluations

/-- C8: whenever an evaluation (`GetValue` or `GetApproximateValueAndDerivative`) passes
the normalisation step without failing, the entries of the normalised joint histogram sum
to 1 (exactly, in exact arithmetic), and so do the entries of the normalised fixed
marginal. -/
theorem normalized_histograms_sum_to_one {Pt Par : Type} (M : Metric K Pt Par) (log : K → K)
    (pdfs : PDFs K) (parameters : Par) (v : K) (final : PDFs K)
    (h : GetValueAndPDFs M log pdfs parameters = Except.ok (v, final) ∨
      ∃ derivative : ℕ → K, GetApproximateValueAndDerivative M log pdfs parameters
        = Except.ok { value := v, derivative := derivative, pdfs := final }) :
    jointPDFSum M.m_NumberOfHistogramBins final.m_JointPDF = 1 ∧
    fixedPDFSum M.m_NumberOfHistogramBins final.m_FixedImageMarginalPDF = 1 := by
  rcases h with h | ⟨d, h⟩
  · exact normalizePDFs_sums (GetValueAndPDFs_eq_ok M log pdfs parameters h).2.1
  · obtain ⟨-, p, hp, hj, hf, -, -⟩ :=
      GetApproximateValueAndDerivative_eq_ok M log pdfs parameters h
    simp only at hj hf
    rw [hj, hf]
    exact normalizePDFs_sums hp

/-- C9: after a successful evaluation (`GetValue` or `GetApproximateValueAndDerivative`),
for every moving bin `m` the moving marginal PDF entry equals the sum over all fixed bins
`f` of the normalised joint histogram entry `P(f, m)`. -/
theorem moving_marginal_is_row_sum {Pt Par : Type} (M : Metric K Pt Par) (log : K → K)
    (pdfs : PDFs K) (parameters : Par) (v : K) (final : PDFs K)
    (h : GetValueAndPDFs M log pdfs parameters = Except.ok (v, final) ∨
      ∃ derivative : ℕ → K, GetApproximateValueAndDerivative M log pdfs parameters
        = Except.ok { value := v, derivative := derivative, pdfs := final })
    (m : ℕ) (hm : m < M.m_NumberOfHistogramBins) :
    final.m_MovingImageMarginalPDF m
      = ∑ f in range M.m_NumberOfHistogramBins, final.m_JointPDF (f : ℤ) (m : ℤ) := by
  rcases h with h | ⟨d, h⟩
  · exact normalizePDFs_moving (GetValueAndPDFs_eq_ok M log pdfs parameters h).2.1 m hm
  · obtain ⟨-, p, hp, hj, -, hmv, -⟩ :=
      GetApproximateValueAndDerivative_eq_ok M log pdfs parameters h
    simp only at hj hmv
    rw [hj, hmv]
    exact normalizePDFs_moving hp m hm

/-! ## C10 -/

/-- C10: for every parameter vector and every sample sequence, `GetValue` evaluated on any
permutation of the sample sequence returns the same value (and fails in exactly the same
cases) as on the original sequence. -/
theorem GetValue_permutation_invariant {Pt Par : Type} (M : Metric K Pt Par) (log : K → K)
    (pdfs : PDFs K) (parameters : Par) (samples : List (FixedImageSpatialSample K Pt))
    (h : M.m_FixedImageSamples.Perm samples) :
    GetValue (M.withSamples samples) log pdfs parameters = GetValue M log pdfs parameters := by
  have hacc : getValueAccumulate (M.withSamples samples) parameters pdfs
      = getValueAccumulate M parameters pdfs := by
    unfold getValueAccumulate
    exact (foldl_getValueSampleStep_perm M parameters h _).symm
  unfold GetValue GetValueAndPDFs
  dsimp only
  rw [hacc]
  rfl

/-! ## The cubic B-spline kernel -/

lemma itkCubicBSplineKernel_nonneg (u : K) : 0 ≤ itkCubicBSplineKernel u := by
  unfold itkCubicBSplineKernel
  dsimp only
  have ha : 0 ≤ |u| := abs_nonneg u
  have hsq : u * u = |u| * |u| := (abs_mul_abs_self u).symm
  rw [hsq]
  generalize |u| = a at *
  split_ifs with h1 h2
  · apply div_nonneg _ (by norm_num)
    have h3 : 0 ≤ (1 - a) * (a * (1 - a)) :=
      mul_nonneg (by linarith) (mul_nonneg ha (by linarith))
    nlinarith [h3]
  · apply div_nonneg _ (by norm_num)
    have h3 : 8 - 12 * a + 6 * (a * a) - a * a * a = (2 - a) ^ 3 := by ring
    rw [h3]
    exact pow_nonneg (by linarith) 3
  · exact le_refl 0

/-- Partition of unity of the cubic B-spline kernel on a window of four consecutive
integers around an argument at distance `t ∈ [0, 1]` above the second one. -/
lemma itkCubicBSplineKernel_window_sum (t : K) (h0 : 0 ≤ t) (h1 : t ≤ 1) :
    itkCubicBSplineKernel (-1 - t) + itkCubicBSplineKernel (-t)
      + itkCubicBSplineKernel (1 - t) + itkCubicBSplineKernel (2 - t) = 1 := by
  have a1 : |(-1 - t)| = 1 + t := by
    rw [abs_of_nonpos (by linarith)]; ring
  have a2 : |(-t)| = t := by
    rw [abs_neg, abs_of_nonneg h0]
  have a3 : |(1 - t)| = 1 - t := abs_of_nonneg (by linarith)
  have a4 : |(2 - t)| = 2 - t := abs_of_nonneg (by linarith)
  unfold itkCubicBSplineKernel
  dsimp only
  rw [a1, a2, a3, a4]
  rcases eq_or_lt_of_le h0 with h | h
  · subst h
    norm_num
  · rcases eq_or_lt_of_le h1 with h' | h'
    · subst h'
      norm_num
    · have c1 : ¬ (1 + t < 1) := by linarith
      have c2 : 1 + t < 2 := by linarith
      have c3 : 1 - t < 1 := by linarith
      have c4 : ¬ (2 - t < 1) := by linarith
      have c5 : 2 - t < 2 := by linarith
      simp only [c1, c2, c3, c4, c5, h', if_true, if_false]
      ring
/-! ## Mass of the accumulated histograms -/

lemma sum_sum_ite_eq (B a b : ℕ) (ha : a < B) (hb : b < B) (c : K) :
    ∑ m in range B, ∑ f in range B,
      (if (f : ℤ) = (a : ℤ) ∧ (m : ℤ) = (b : ℤ) then c else 0) = c := by
  rw [Finset.sum_eq_single b]
  · rw [Finset.sum_eq_single a]
    · simp
    · intro f _ hfa
      simp [hfa]
    · intro h; exact absurd (Finset.mem_range.mpr ha) h
  · intro m _ hmb
    apply Finset.sum_eq_zero
    intro f _
    simp [hmb]
  · intro h; exact absurd (Finset.mem_range.mpr hb) h

lemma windowContribution_eq (kernel : K → K) (fixedIndex movingIndex : ℕ) (term : K)
    (a b : ℤ) :
    windowContribution kernel fixedIndex movingIndex term a b =
      (if a = (fixedIndex : ℤ) ∧ b = (movingIndex : ℤ) - 1
        then kernel ((((movingIndex : ℤ) - 1 : ℤ) : K) - term) else 0)
      + ((if a = (fixedIndex : ℤ) ∧ b = (movingIndex : ℤ)
        then kernel ((((movingIndex : ℤ) : ℤ) : K) - term) else 0)
      + ((if a = (fixedIndex : ℤ) ∧ b = (movingIndex : ℤ) + 1
        then kernel ((((movingIndex : ℤ) + 1 : ℤ) : K) - term) else 0)
      + (if a = (fixedIndex : ℤ) ∧ b = (movingIndex : ℤ) + 2
        then kernel ((((movingIndex : ℤ) + 2 : ℤ) : K) - term) else 0))) := by
  unfold windowContribution pdfMovingIndices
  simp only [List.map_cons, List.map_nil, List.sum_cons, List.sum_nil, add_zero]

/-- The kernel values of the window of a sample, as the source computes them. -/
lemma window_kernel_sum (kernel : K → K) (movingIndex : ℕ) (term : K) :
    kernel ((((movingIndex : ℤ) - 1 : ℤ) : K) - term)
      + (kernel ((((movingIndex : ℤ) : ℤ) : K) - term)
      + (kernel ((((movingIndex : ℤ) + 1 : ℤ) : K) - term)
      + kernel ((((movingIndex : ℤ) + 2 : ℤ) : K) - term)))
    = kernel (-1 - (term - (movingIndex : K))) + kernel (-(term - (movingIndex : K)))
      + kernel (1 - (term - (movingIndex : K))) + kernel (2 - (term - (movingIndex : K))) := by
  have e1 : (((movingIndex : ℤ) - 1 : ℤ) : K) - term = -1 - (term - (movingIndex : K)) := by
    push_cast; ring
  have e2 : (((movingIndex : ℤ) : ℤ) : K) - term = -(term - (movingIndex : K)) := by
    push_cast; ring
  have e3 : (((movingIndex : ℤ) + 1 : ℤ) : K) - term = 1 - (term - (movingIndex : K)) := by
    push_cast; ring
  have e4 : (((movingIndex : ℤ) + 2 : ℤ) : K) - term = 2 - (term - (movingIndex : K)) := by
    push_cast; ring
  rw [e1, e2, e3, e4]
  ring

/-- The total mass that the windowing loop of one sample adds to the joint PDF buffer is
the sum of its four kernel values, when the window lies inside the buffer. -/
lemma jointPDFSum_windowContribution (kernel : K → K) (bins fixedIndex movingIndex : ℕ)
    (term : K) (hf : fixedIndex < bins) (hm1 : 1 ≤ movingIndex) (hm2 : movingIndex + 2 < bins) :
    jointPDFSum bins (windowContribution kernel fixedIndex movingIndex term)
      = kernel ((((movingIndex : ℤ) - 1 : ℤ) : K) - term)
      + (kernel ((((movingIndex : ℤ) : ℤ) : K) - term)
      + (kernel ((((movingIndex : ℤ) + 1 : ℤ) : K) - term)
      + kernel ((((movingIndex : ℤ) + 2 : ℤ) : K) - term))) := by
  unfold jointPDFSum
  simp only [windowContribution_eq, Finset.sum_add_distrib]
  have c1 : ((movingIndex : ℤ) - 1) = ((movingIndex - 1 : ℕ) : ℤ) := by omega
  have c3 : ((movingIndex : ℤ) + 1) = ((movingIndex + 1 : ℕ) : ℤ) := by omega
  have c4 : ((movingIndex : ℤ) + 2) = ((movingIndex + 2 : ℕ) : ℤ) := by omega
  rw [c1, c3, c4]
  rw [sum_sum_ite_eq bins fixedIndex (movingIndex - 1) hf (by omega),
    sum_sum_ite_eq bins fixedIndex movingIndex hf (by omega),
    sum_sum_ite_eq bins fixedIndex (movingIndex + 1) hf (by omega),
    sum_sum_ite_eq bins fixedIndex (movingIndex + 2) hf (by omega)]

/-- One window adds to an entry of row `a` at most the whole kernel mass, and only when
`a` is the fixed bin of the sample. -/
lemma windowContribution_le (kernel : K → K) (hk : ∀ u, 0 ≤ kernel u)
    (fixedIndex movingIndex : ℕ) (term : K) (a b : ℤ) :
    0 ≤ windowContribution kernel fixedIndex movingIndex term a b ∧
    windowContribution kernel fixedIndex movingIndex term a b ≤
      if a = (fixedIndex : ℤ) then
        kernel ((((movingIndex : ℤ) - 1 : ℤ) : K) - term)
        + (kernel ((((movingIndex : ℤ) : ℤ) : K) - term)
        + (kernel ((((movingIndex : ℤ) + 1 : ℤ) : K) - term)
        + kernel ((((movingIndex : ℤ) + 2 : ℤ) : K) - term)))
      else 0 := by
  rw [windowContribution_eq]
  have k1 := hk ((((movingIndex : ℤ) - 1 : ℤ) : K) - term)
  have k2 := hk ((((movingIndex : ℤ) : ℤ) : K) - term)
  have k3 := hk ((((movingIndex : ℤ) + 1 : ℤ) : K) - term)
  have k4 := hk ((((movingIndex : ℤ) + 2 : ℤ) : K) - term)
  by_cases ha : a = (fixedIndex : ℤ)
  · simp only [ha, true_and, if_true]
    constructor
    · split_ifs <;> positivity
    · split_ifs <;> linarith
  · simp [ha]

lemma jointPDFSum_add (bins : ℕ) (x y : ℤ → ℤ → K) :
    jointPDFSum bins (fun a b => x a b + y a b) = jointPDFSum bins x + jointPDFSum bins y := by
  unfold jointPDFSum
  simp only [Finset.sum_add_distrib]

lemma jointPDFSum_list_sum {α : Type} (bins : ℕ) (c : α → ℤ → ℤ → K) (l : List α) :
    jointPDFSum bins (fun a b => (l.map (fun s => c s a b)).sum)
      = (l.map (fun s => jointPDFSum bins (c s))).sum := by
  induction l with
  | nil => simp [jointPDFSum]
  | cons s l ih =>
    simp only [List.map_cons, List.sum_cons]
    rw [jointPDFSum_add, ih]

lemma fixedPDFSum_list_sum {α : Type} (bins : ℕ) (c : α → ℕ → K) (l : List α) :
    fixedPDFSum bins (fun b => (l.map (fun s => c s b)).sum)
      = (l.map (fun s => fixedPDFSum bins (c s))).sum := by
  induction l with
  | nil => simp [fixedPDFSum]
  | cons s l ih =>
    simp only [List.map_cons, List.sum_cons]
    unfold fixedPDFSum at ih ⊢
    rw [Finset.sum_add_distrib, ih]

lemma list_sum_indicator {α : Type} (p : α → Bool) (l : List α) :
    (l.map (fun s => if p s = true then (1 : K) else 0)).sum = (l.countP p : K) := by
  induction l with
  | nil => simp
  | cons s l ih =>
    rw [List.map_cons, List.sum_cons, ih, List.countP_cons]
    by_cases h : p s = true
    · simp [h]; ring
    · simp [h]
/-! ## Accepted samples of an initialised metric -/

section Initialized

variable {Pt Par : Type} (M : Metric K Pt Par) (parameters : Par)

/-- The shape of the result of `TransformPoint`: the sample is either rejected before the
interpolator is evaluated, or evaluated and then checked against the true range. -/
lemma TransformPoint_shape (x : Pt) :
    ∃ (mapped : Pt) (ok : Bool) (w : ℕ → K) (ix : ℕ → ℕ),
      TransformPoint M parameters x =
        if ok = true then
          { mappedPoint := mapped
            sampleOk :=
              if M.collaborators.evaluate mapped < M.binning.m_MovingImageTrueMin ∨
                  M.collaborators.evaluate mapped > M.binning.m_MovingImageTrueMax
              then false else ok
            movingImageValue := M.collaborators.evaluate mapped
            weights := w, indices := ix }
        else
          { mappedPoint := mapped, sampleOk := ok, movingImageValue := 0,
            weights := w, indices := ix } :=
  ⟨_, _, _, _, rfl⟩

/-- An accepted sample has a moving image value inside `[trueMin, trueMax]`. -/
lemma sampleAccepted_range (s : FixedImageSpatialSample K Pt)
    (h : sampleAccepted M parameters s = true) :
    M.binning.m_MovingImageTrueMin
        ≤ (TransformPoint M parameters s.FixedImagePointValue).movingImageValue ∧
    (TransformPoint M parameters s.FixedImagePointValue).movingImageValue
        ≤ M.binning.m_MovingImageTrueMax := by
  unfold sampleAccepted at h
  obtain ⟨mapped, ok, w, ix, heq⟩ := TransformPoint_shape M parameters s.FixedImagePointValue
  rw [heq] at h ⊢
  by_cases hok : ok = true
  · simp only [hok, if_true] at h ⊢
    by_cases hr : M.collaborators.evaluate mapped < M.binning.m_MovingImageTrueMin ∨
        M.collaborators.evaluate mapped > M.binning.m_MovingImageTrueMax
    · simp [hr] at h
    · push_neg at hr
      exact hr
  · simp [hok] at h

lemma sampleFixedBin_bounds {movingPixels : List K}
    (hinit : M.IsInitialized movingPixels) (s : FixedImageSpatialSample K Pt) :
    2 ≤ sampleFixedBin M s ∧ sampleFixedBin M s ≤ M.m_NumberOfHistogramBins - 3 := by
  have hlt : M.m_NumberOfHistogramBins < ulongModulus :=
    lt_of_le_of_lt hinit.bins_le (by norm_num [uintModulus, ulongModulus])
  exact clampParzenWindowIndex_bounds hinit.bins_ge hlt (castToUnsignedInt_lt _)

/-- The window of an accepted sample: the clamped moving bin lies in `[2, bins - 3]`, and
the Parzen window term lies at a distance in `[0, 1]` above it. -/
lemma sampleMovingBin_window {movingPixels : List K}
    (hinit : M.IsInitialized movingPixels) (s : FixedImageSpatialSample K Pt)
    (h : sampleAccepted M parameters s = true) :
    (2 ≤ sampleMovingBin M parameters s ∧
      sampleMovingBin M parameters s ≤ M.m_NumberOfHistogramBins - 3) ∧
    0 ≤ sampleMovingTerm M parameters s - (sampleMovingBin M parameters s : K) ∧
    sampleMovingTerm M parameters s - (sampleMovingBin M parameters s : K) ≤ 1 := by
  have hB := hinit.bins_ge
  have hB32 := hinit.bins_le
  have hlt : M.m_NumberOfHistogramBins < ulongModulus :=
    lt_of_le_of_lt hinit.bins_le (by norm_num [uintModulus, ulongModulus])
  obtain ⟨hv1, hv2⟩ := sampleAccepted_range M parameters s h
  have hterm : 2 ≤ sampleMovingTerm M parameters s ∧
      sampleMovingTerm M parameters s ≤ ((M.m_NumberOfHistogramBins - 2 : ℕ) : K) := by
    unfold sampleMovingTerm
    have hb := hinit.binning_eq
    have hr := hinit.moving_range
    have e1 : M.binning.m_MovingImageBinSize
        = computeBinSize M.binning.m_MovingImageTrueMin M.binning.m_MovingImageTrueMax
            M.m_NumberOfHistogramBins := by
      rw [hb]; rfl
    have e2 : M.binning.m_MovingImageNormalizedMin
        = computeNormalizedMin M.binning.m_MovingImageTrueMin
            (computeBinSize M.binning.m_MovingImageTrueMin M.binning.m_MovingImageTrueMax
              M.m_NumberOfHistogramBins) := by
      rw [hb]; rfl
    rw [e1, e2]
    exact parzenWindowTerm_bounds hB hlt hr hv1 hv2
  obtain ⟨ht1, ht2⟩ := hterm
  set term := sampleMovingTerm M parameters s with hterm_def
  have hz1 : (2 : ℤ) ≤ ⌊term⌋ := by
    rw [Int.le_floor]; exact_mod_cast ht1
  have hz2 : ⌊term⌋ ≤ ((M.m_NumberOfHistogramBins - 2 : ℕ) : ℤ) := by
    have : ((⌊term⌋ : ℤ) : K) ≤ (((M.m_NumberOfHistogramBins - 2 : ℕ) : ℤ) : K) := by
      push_cast
      exact le_trans (Int.floor_le term) (by exact_mod_cast ht2)
    exact_mod_cast this
  have hcast : (castToUnsignedInt ⌊term⌋ : ℤ) = ⌊term⌋ := by
    apply castToUnsignedInt_eq (by omega)
    have : ((M.m_NumberOfHistogramBins - 2 : ℕ) : ℤ) < (uintModulus : ℤ) := by
      have : M.m_NumberOfHistogramBins - 2 < uintModulus := by omega
      exact_mod_cast this
    omega
  have h3 : ulongSub M.m_NumberOfHistogramBins 3 = M.m_NumberOfHistogramBins - 3 :=
    ulongSub_eq_sub (by omega) hlt
  have hfl1 := Int.floor_le term
  have hfl2 := Int.lt_floor_add_one term
  unfold sampleMovingBin parzenWindowIndex
  rw [← hterm_def]
  set idx := castToUnsignedInt ⌊term⌋ with hidx
  have hidx2 : 2 ≤ idx := by omega
  have hidxK : (idx : K) = ((⌊term⌋ : ℤ) : K) := by
    rw [← hcast]; simp
  unfold clampParzenWindowIndex
  rw [h3]
  have hnot : ¬ idx < 2 := by omega
  rw [if_neg hnot]
  split_ifs with hgt
  · -- clamped from `bins - 2` to `bins - 3`: the term is exactly `bins - 2`
    have hmod : (M.m_NumberOfHistogramBins - 3) % uintModulus = M.m_NumberOfHistogramBins - 3 :=
      Nat.mod_eq_of_lt (by omega)
    rw [hmod]
    have hidx_eq : idx = M.m_NumberOfHistogramBins - 2 := by omega
    have hK : ((M.m_NumberOfHistogramBins - 3 : ℕ) : K) + 1 = (idx : K) := by
      rw [hidx_eq]
      have : M.m_NumberOfHistogramBins - 2 = (M.m_NumberOfHistogramBins - 3) + 1 := by omega
      rw [this]; push_cast; ring
    have hidx_le : (idx : K) ≤ term := by rw [hidxK]; exact hfl1
    have hterm_le : term ≤ (idx : K) := by rw [hidx_eq]; exact ht2
    refine ⟨⟨by omega, le_refl _⟩, ?_, ?_⟩ <;> linarith
  · refine ⟨⟨hidx2, by omega⟩, ?_, ?_⟩
    · rw [hidxK]; linarith
    · rw [hidxK]; linarith

end Initialized
/-! ## Mass of the histograms accumulated by an initialised metric -/

section Mass

variable {Pt Par : Type} (M : Metric K Pt Par) (parameters : Par)
  {movingPixels : List K}

/-- The four kernel values of the window of an accepted sample sum to 1, also when the
moving index was clamped at the upper end. -/
lemma accepted_window_kernel_sum (hinit : M.IsInitialized movingPixels)
    (s : FixedImageSpatialSample K Pt) (h : sampleAccepted M parameters s = true) :
    M.collaborators.cubicBSplineKernel
        ((((sampleMovingBin M parameters s : ℤ) - 1 : ℤ) : K) - sampleMovingTerm M parameters s)
      + (M.collaborators.cubicBSplineKernel
        ((((sampleMovingBin M parameters s : ℤ) : ℤ) : K) - sampleMovingTerm M parameters s)
      + (M.collaborators.cubicBSplineKernel
        ((((sampleMovingBin M parameters s : ℤ) + 1 : ℤ) : K) - sampleMovingTerm M parameters s)
      + M.collaborators.cubicBSplineKernel
        ((((sampleMovingBin M parameters s : ℤ) + 2 : ℤ) : K)
          - sampleMovingTerm M parameters s))) = 1 := by
  obtain ⟨-, h0, h1⟩ := sampleMovingBin_window M parameters hinit s h
  rw [window_kernel_sum, hinit.kernel_eq]
  exact itkCubicBSplineKernel_window_sum _ h0 h1

lemma accepted_window_mass (hinit : M.IsInitialized movingPixels)
    (s : FixedImageSpatialSample K Pt) (h : sampleAccepted M parameters s = true) :
    jointPDFSum M.m_NumberOfHistogramBins
      (windowContribution M.collaborators.cubicBSplineKernel (sampleFixedBin M s)
        (sampleMovingBin M parameters s) (sampleMovingTerm M parameters s)) = 1 := by
  obtain ⟨⟨hm1, hm2⟩, -, -⟩ := sampleMovingBin_window M parameters hinit s h
  obtain ⟨hf1, hf2⟩ := sampleFixedBin_bounds M hinit s
  have hB := hinit.bins_ge
  rw [jointPDFSum_windowContribution _ _ _ _ _ (by omega) (by omega) (by omega)]
  exact accepted_window_kernel_sum M parameters hinit s h

lemma getValueAccumulate_joint_apply (pdfs : PDFs K) (a b : ℤ) :
    (getValueAccumulate M parameters pdfs).pdfs.m_JointPDF a b
      = (resetPDFs M.m_NumberOfHistogramBins pdfs).m_JointPDF a b
        + (M.m_FixedImageSamples.map (fun s =>
          if sampleAccepted M parameters s = true
          then windowContribution M.collaborators.cubicBSplineKernel (sampleFixedBin M s)
            (sampleMovingBin M parameters s) (sampleMovingTerm M parameters s) a b
          else 0)).sum := by
  unfold getValueAccumulate
  rw [foldl_getValueSampleStep_joint]

lemma getValueAccumulate_fixed_apply (pdfs : PDFs K) (b : ℕ) :
    (getValueAccumulate M parameters pdfs).pdfs.m_FixedImageMarginalPDF b
      = (resetPDFs M.m_NumberOfHistogramBins pdfs).m_FixedImageMarginalPDF b
        + (M.m_FixedImageSamples.map (fun s =>
          if sampleAccepted M parameters s = true ∧ b = sampleFixedBin M s
          then (1 : K) else 0)).sum := by
  unfold getValueAccumulate
  rw [foldl_getValueSampleStep_fixed]

/-- Before normalisation the joint histogram accumulated by `GetValue` sums to the number
of accepted samples. -/
lemma getValueAccumulate_jointPDFSum (hinit : M.IsInitialized movingPixels)
    (pdfs : PDFs K) :
    jointPDFSum M.m_NumberOfHistogramBins (getValueAccumulate M parameters pdfs).pdfs.m_JointPDF
      = (acceptedSampleCount M parameters : K) := by
  have hfun : (getValueAccumulate M parameters pdfs).pdfs.m_JointPDF
      = fun a b => (resetPDFs M.m_NumberOfHistogramBins pdfs).m_JointPDF a b
        + (M.m_FixedImageSamples.map (fun s =>
          (fun a b => if sampleAccepted M parameters s = true
            then windowContribution M.collaborators.cubicBSplineKernel (sampleFixedBin M s)
              (sampleMovingBin M parameters s) (sampleMovingTerm M parameters s) a b
            else 0) a b)).sum := by
    funext a b
    exact getValueAccumulate_joint_apply M parameters pdfs a b
  rw [hfun, jointPDFSum_add, jointPDFSum_resetPDFs, zero_add, jointPDFSum_list_sum]
  unfold acceptedSampleCount
  rw [← list_sum_indicator]
  congr 1
  apply List.map_congr_left
  intro s _
  by_cases h : sampleAccepted M parameters s = true
  · simp only [h, if_true]
    exact accepted_window_mass M parameters hinit s h
  · simp only [h, if_false]
    simp [jointPDFSum]

/-- Before normalisation the fixed marginal accumulated by `GetValue` sums to the number
of accepted samples. -/
lemma getValueAccumulate_fixedPDFSum (hinit : M.IsInitialized movingPixels)
    (pdfs : PDFs K) :
    fixedPDFSum M.m_NumberOfHistogramBins
        (getValueAccumulate M parameters pdfs).pdfs.m_FixedImageMarginalPDF
      = (acceptedSampleCount M parameters : K) := by
  have hfun : (getValueAccumulate M parameters pdfs).pdfs.m_FixedImageMarginalPDF
      = fun b => (resetPDFs M.m_NumberOfHistogramBins pdfs).m_FixedImageMarginalPDF b
        + (M.m_FixedImageSamples.map (fun s =>
          (fun b => if sampleAccepted M parameters s = true ∧ b = sampleFixedBin M s
            then (1 : K) else 0) b)).sum := by
    funext b
    exact getValueAccumulate_fixed_apply M parameters pdfs b
  rw [hfun]
  have hsplit : fixedPDFSum M.m_NumberOfHistogramBins
      (fun b => (resetPDFs M.m_NumberOfHistogramBins pdfs).m_FixedImageMarginalPDF b
        + (M.m_FixedImageSamples.map (fun s =>
          (fun b => if sampleAccepted M parameters s = true ∧ b = sampleFixedBin M s
            then (1 : K) else 0) b)).sum)
      = fixedPDFSum M.m_NumberOfHistogramBins
          (resetPDFs M.m_NumberOfHistogramBins pdfs).m_FixedImageMarginalPDF
        + fixedPDFSum M.m_NumberOfHistogramBins
          (fun b => (M.m_FixedImageSamples.map (fun s =>
            (fun b => if sampleAccepted M parameters s = true ∧ b = sampleFixedBin M s
              then (1 : K) else 0) b)).sum) := by
    unfold fixedPDFSum
    rw [Finset.sum_add_distrib]
  rw [hsplit, fixedPDFSum_list_sum]
  have hzero : fixedPDFSum M.m_NumberOfHistogramBins
      (resetPDFs M.m_NumberOfHistogramBins pdfs).m_FixedImageMarginalPDF = 0 := by
    unfold fixedPDFSum resetPDFs
    apply Finset.sum_eq_zero
    intro b hb
    simp [Finset.mem_range.mp hb]
  rw [hzero, zero_add]
  unfold acceptedSampleCount
  rw [← list_sum_indicator]
  congr 1
  apply List.map_congr_left
  intro s _
  obtain ⟨hf1, hf2⟩ := sampleFixedBin_bounds M hinit s
  have hB := hinit.bins_ge
  have hmem : sampleFixedBin M s ∈ range M.m_NumberOfHistogramBins :=
    Finset.mem_range.mpr (by omega)
  unfold fixedPDFSum
  by_cases h : sampleAccepted M parameters s = true
  · simp only [h, true_and, if_true]
    rw [Finset.sum_ite_eq' (range M.m_NumberOfHistogramBins) (sampleFixedBin M s)
      (fun _ => (1 : K))]
    simp [hmem]
  · simp [h]

/-- Inside the buffer, every entry of the accumulated joint histogram is non-negative and
at most the accumulated fixed marginal of its row. -/
lemma getValueAccumulate_joint_le_fixed (hinit : M.IsInitialized movingPixels)
    (pdfs : PDFs K) (f m : ℕ) (hf : f < M.m_NumberOfHistogramBins)
    (hm : m < M.m_NumberOfHistogramBins) :
    0 ≤ (getValueAccumulate M parameters pdfs).pdfs.m_JointPDF (f : ℤ) (m : ℤ) ∧
    (getValueAccumulate M parameters pdfs).pdfs.m_JointPDF (f : ℤ) (m : ℤ)
      ≤ (getValueAccumulate M parameters pdfs).pdfs.m_FixedImageMarginalPDF f := by
  rw [getValueAccumulate_joint_apply, getValueAccumulate_fixed_apply]
  have hbuf : inJointBuffer M.m_NumberOfHistogramBins (f : ℤ) (m : ℤ) := by
    unfold inJointBuffer; omega
  have hz1 : (resetPDFs M.m_NumberOfHistogramBins pdfs).m_JointPDF (f : ℤ) (m : ℤ) = 0 := by
    simp [resetPDFs, hbuf]
  have hz2 : (resetPDFs M.m_NumberOfHistogramBins pdfs).m_FixedImageMarginalPDF f = 0 := by
    simp [resetPDFs, hf]
  rw [hz1, hz2, zero_add, zero_add]
  have hk : ∀ u, 0 ≤ M.collaborators.cubicBSplineKernel u := by
    intro u; rw [hinit.kernel_eq]; exact itkCubicBSplineKernel_nonneg u
  constructor
  · apply List.sum_nonneg
    intro x hx
    obtain ⟨s, -, rfl⟩ := List.mem_map.mp hx
    split_ifs
    · exact (windowContribution_le _ hk _ _ _ _ _).1
    · exact le_refl 0
  · apply List.sum_le_sum
    intro s _
    by_cases h : sampleAccepted M parameters s = true
    · simp only [h, if_true, true_and]
      have hle := (windowContribution_le M.collaborators.cubicBSplineKernel hk
        (sampleFixedBin M s) (sampleMovingBin M parameters s)
        (sampleMovingTerm M parameters s) (f : ℤ) (m : ℤ)).2
      rw [accepted_window_kernel_sum M parameters hinit s h] at hle
      simp only [Nat.cast_inj] at hle
      exact hle
    · simp [h]

end Mass
/-! ## C1 -/

section Value

variable {Pt Par : Type} (M : Metric K Pt Par) (log : K → K) (pdfs : PDFs K)
  (parameters : Par) {movingPixels : List K}

/-- For an initialised metric, an evaluation that passes the sampling check with at least
one accepted sample succeeds. -/
lemma GetValueAndPDFs_isOk (hinit : M.IsInitialized movingPixels)
    (h4 : ¬ (acceptedSampleCount M parameters < M.m_NumberOfSpatialSamples / 4))
    (hpos : 0 < acceptedSampleCount M parameters) :
    ∃ (v : K) (final : PDFs K),
      GetValueAndPDFs M log pdfs parameters = Except.ok (v, final) := by
  have hn : (acceptedSampleCount M parameters : K) ≠ 0 := by
    exact_mod_cast hpos.ne'
  unfold GetValueAndPDFs normalizePDFs
  dsimp only
  rw [getValueAccumulate_nSamples, if_neg h4,
    getValueAccumulate_jointPDFSum M parameters hinit pdfs, if_neg hn,
    getValueAccumulate_fixedPDFSum M parameters hinit pdfs, if_neg hn]
  exact ⟨_, _, rfl⟩

/-- In every histogram state produced by accumulation and normalisation,
`P(f, m) ≤ P_fixed(f)` inside the buffer. -/
lemma normalized_joint_le_fixed (hinit : M.IsInitialized movingPixels)
    {v : K} {final : PDFs K}
    (h : GetValueAndPDFs M log pdfs parameters = Except.ok (v, final))
    (f m : ℕ) (hf : f < M.m_NumberOfHistogramBins) (hm : m < M.m_NumberOfHistogramBins) :
    final.m_JointPDF (f : ℤ) (m : ℤ) ≤ final.m_FixedImageMarginalPDF f := by
  obtain ⟨-, hnorm, -⟩ := GetValueAndPDFs_eq_ok M log pdfs parameters h
  obtain ⟨hj0, hf0, hj, hfx, -, -⟩ := normalizePDFs_eq_ok hnorm
  rw [getValueAccumulate_jointPDFSum M parameters hinit pdfs] at hj0 hj
  rw [getValueAccumulate_fixedPDFSum M parameters hinit pdfs] at hf0 hfx
  have hpos : (0 : K) < (acceptedSampleCount M parameters : K) :=
    lt_of_le_of_ne (Nat.cast_nonneg _) (Ne.symm hj0)
  have hbuf : inJointBuffer M.m_NumberOfHistogramBins (f : ℤ) (m : ℤ) := by
    unfold inJointBuffer; omega
  rw [hj, hfx]
  unfold normalizeJointPDF normalizeFixedPDF
  rw [if_pos hbuf, if_pos hf]
  exact div_le_div_of_nonneg_right
    (getValueAccumulate_joint_le_fixed M parameters hinit pdfs f m hf hm).2 hpos.le

end Value

lemma metricTerm_eq_specMetricTerm (log : K → K) {joint moving fixed : K}
    (h : joint ≤ fixed) :
    metricTerm log joint moving fixed = specMetricTerm log joint moving fixed := by
  unfold metricTerm specMetricTerm
  by_cases hg : joint > pdfEpsilon ∧ moving > pdfEpsilon
  · have hfx : fixed > pdfEpsilon := lt_of_lt_of_le hg.1 h
    simp only [hg, hfx, and_self, if_true]
    ring
  · simp only [hg, if_false]

/-- C1: for every histogram state reached at the end of accumulation and normalisation
(of a metric in the state left by `Initialize`), `GetValue` returns the negative of the
sum, over all bin pairs `(f, m)` with `P(f,m) > 1e-16` and `P_moving(m) > 1e-16`, of
`P(f,m) * log(P(f,m) / P_moving(m))` minus, only for those pairs where additionally
`P_fixed(f) > 1e-16`, `P(f,m) * log(P_fixed(f))`.  (In such a state
`P(f,m) ≤ P_fixed(f)`, so a pair that passes the outer guard always passes the guard on
`P_fixed(f)`.) -/
theorem GetValue_eq_neg_specMetricSum {Pt Par : Type} (M : Metric K Pt Par) (log : K → K)
    (pdfs : PDFs K) (parameters : Par) (movingPixels : List K)
    (hinit : M.IsInitialized movingPixels) (v : K) (final : PDFs K)
    (h : GetValueAndPDFs M log pdfs parameters = Except.ok (v, final)) :
    GetValue M log pdfs parameters = Except.ok v ∧
    v = -(specMetricSum log M.m_NumberOfHistogramBins final) ∧
    ∀ f m : ℕ, f < M.m_NumberOfHistogramBins → m < M.m_NumberOfHistogramBins →
      final.m_JointPDF (f : ℤ) (m : ℤ) > pdfEpsilon →
      final.m_FixedImageMarginalPDF f > pdfEpsilon := by
  have hle := normalized_joint_le_fixed M log pdfs parameters hinit h
  obtain ⟨-, -, hv⟩ := GetValueAndPDFs_eq_ok M log pdfs parameters h
  refine ⟨?_, ?_, ?_⟩
  · unfold GetValue
    rw [h]
    rfl
  · rw [hv, neg_one_mul]
    congr 1
    unfold metricSum specMetricSum
    apply Finset.sum_congr rfl
    intro f hf
    apply Finset.sum_congr rfl
    intro m hm
    exact metricTerm_eq_specMetricTerm log
      (hle f m (Finset.mem_range.mp hf) (Finset.mem_range.mp hm))
  · intro f m hf hm hgt
    exact lt_of_lt_of_le hgt (hle f m hf hm)
/-! ## The example metric, evaluated -/

lemma exampleMetric_isInitialized (n : ℕ) (points : List ℚ) :
    (exampleMetric n points).IsInitialized [0, 1] where
  bins_ge := by norm_num [exampleMetric]
  bins_le := by norm_num [exampleMetric, uintModulus]
  binning_eq := rfl
  moving_range := by
    show (InitializeBinning 6 ([0, 1] : List ℚ) [0, 1]).m_MovingImageTrueMin
      < (InitializeBinning 6 ([0, 1] : List ℚ) [0, 1]).m_MovingImageTrueMax
    rw [exampleBinning_eq]
    norm_num
  kernel_eq := rfl

lemma exampleMetric_acceptedSampleCount :
    acceptedSampleCount (exampleMetric 2 [1 / 4, 3 / 4]) 0 = 2 := by
  unfold acceptedSampleCount
  have h := exampleMetric_sampleAccepted 2 [1 / 4, 3 / 4] 0
  simp only [exampleMetric, List.map_cons, List.map_nil, List.countP_cons,
    List.countP_nil] at h ⊢
  simp only [h]
  norm_num

/-- The example evaluation succeeds: two samples, drawn at `1/4` and `3/4`, both
accepted. -/
lemma exampleMetric_isOk (log : ℚ → ℚ) :
    ∃ (v : ℚ) (final : PDFs ℚ),
      GetValueAndPDFs (exampleMetric 2 [1 / 4, 3 / 4]) log zeroPDFs 0 = Except.ok (v, final) :=
  GetValueAndPDFs_isOk (exampleMetric 2 [1 / 4, 3 / 4]) log zeroPDFs 0
    (exampleMetric_isInitialized 2 [1 / 4, 3 / 4])
    (by rw [exampleMetric_acceptedSampleCount]; norm_num [exampleMetric])
    (by rw [exampleMetric_acceptedSampleCount]; norm_num)

/-- The joint histogram that the sample loop accumulates in the example: the sample at
`1/4` fills row 2 at the moving bins 1 to 4, the sample at `3/4` row 3 at the moving bins
2 to 5, each with the kernel values `1/48, 23/48, 23/48, 1/48`. -/
lemma exampleMetric_joint (f m : ℤ) :
    (getValueAccumulate (exampleMetric 2 [1 / 4, 3 / 4]) 0 zeroPDFs).pdfs.m_JointPDF f m
      = (if f = 2 ∧ m = 1 then 1 / 48 else 0) + (if f = 2 ∧ m = 2 then 23 / 48 else 0)
        + (if f = 2 ∧ m = 3 then 23 / 48 else 0) + (if f = 2 ∧ m = 4 then 1 / 48 else 0)
        + (if f = 3 ∧ m = 2 then 1 / 48 else 0) + (if f = 3 ∧ m = 3 then 23 / 48 else 0)
        + (if f = 3 ∧ m = 4 then 23 / 48 else 0) + (if f = 3 ∧ m = 5 then 1 / 48 else 0) := by
  rw [getValueAccumulate_joint_apply]
  have h := exampleMetric_sampleAccepted 2 [1 / 4, 3 / 4] 0
  simp only [exampleMetric, List.map_cons, List.map_nil, List.sum_cons, List.sum_nil] at h ⊢
  simp only [h]
  have a1 : |(1 / 2 : ℚ)| = 1 / 2 := abs_of_pos (by norm_num)
  have a2 : |(3 / 2 : ℚ)| = 3 / 2 := abs_of_pos (by norm_num)
  have a3 : |(-1 / 2 : ℚ)| = 1 / 2 := by rw [abs_of_neg (by norm_num)]; norm_num
  have a4 : |(-3 / 2 : ℚ)| = 3 / 2 := by rw [abs_of_neg (by norm_num)]; norm_num
  have hin : inJointBuffer 6 f m → (0 : ℚ) = zeroPDFs.m_JointPDF f m := fun _ => rfl
  norm_num [resetPDFs, zeroPDFs, windowContribution_eq, sampleFixedBin, sampleMovingBin,
    sampleMovingTerm, binOfIntensity, clampParzenWindowIndex, parzenWindowIndex,
    parzenWindowTerm, castToUnsignedInt, uintModulus, ulongSub, ulongModulus,
    exampleBinning_eq, TransformPoint, exampleCollaborators, itkCubicBSplineKernel,
    a1, a2, a3, a4]
  ring

/-- The fixed marginal that the sample loop accumulates in the example. -/
lemma exampleMetric_fixed (b : ℕ) :
    (getValueAccumulate (exampleMetric 2 [1 / 4, 3 / 4]) 0 zeroPDFs).pdfs.m_FixedImageMarginalPDF b
      = (if b = 2 then 1 else 0) + (if b = 3 then 1 else 0) := by
  rw [getValueAccumulate_fixed_apply]
  have h := exampleMetric_sampleAccepted 2 [1 / 4, 3 / 4] 0
  simp only [exampleMetric, List.map_cons, List.map_nil, List.sum_cons, List.sum_nil] at h ⊢
  simp only [h]
  have t2 : Int.toNat 2 = 2 := rfl
  have t3 : Int.toNat 3 = 3 := rfl
  norm_num [resetPDFs, zeroPDFs, sampleFixedBin, binOfIntensity, clampParzenWindowIndex,
    parzenWindowIndex, parzenWindowTerm, castToUnsignedInt, uintModulus, ulongSub, ulongModulus,
    exampleBinning_eq, t2, t3]

/-- The example evaluation, computed: with the stand-in `x ↦ x - 1` for `log`, the value of
the metric for the two samples drawn at `1/4` and `3/4` is `-127/576`. -/
lemma exampleMetric_evaluation :
    ∃ final : PDFs ℚ,
      GetValueAndPDFs (exampleMetric 2 [1 / 4, 3 / 4]) (fun x => x - 1) zeroPDFs 0
        = Except.ok (-127 / 576, final) := by
  obtain ⟨v, final, h⟩ := exampleMetric_isOk (fun x => x - 1)
  obtain ⟨-, hnorm, hv⟩ := GetValueAndPDFs_eq_ok _ _ _ _ h
  obtain ⟨-, -, hj, hf, hm, -⟩ := normalizePDFs_eq_ok hnorm
  have hinit := exampleMetric_isInitialized 2 [1 / 4, 3 / 4]
  rw [getValueAccumulate_jointPDFSum _ _ hinit, exampleMetric_acceptedSampleCount] at hj
  rw [getValueAccumulate_fixedPDFSum _ _ hinit, exampleMetric_acceptedSampleCount] at hf
  have hB : (exampleMetric 2 [1 / 4, 3 / 4]).m_NumberOfHistogramBins = 6 := rfl
  rw [hB] at hj hf hm hv
  have hJ : ∀ a ∈ range 6, ∀ b ∈ range 6, final.m_JointPDF (a : ℤ) (b : ℤ)
      = ((if a = 2 ∧ b = 1 then 1 / 96 else 0) + (if a = 2 ∧ b = 2 then 23 / 96 else 0)
        + (if a = 2 ∧ b = 3 then 23 / 96 else 0) + (if a = 2 ∧ b = 4 then 1 / 96 else 0)
        + (if a = 3 ∧ b = 2 then 1 / 96 else 0) + (if a = 3 ∧ b = 3 then 23 / 96 else 0)
        + (if a = 3 ∧ b = 4 then 23 / 96 else 0) + (if a = 3 ∧ b = 5 then 1 / 96 else 0) : ℚ) := by
    intro a ha b hb
    have ha' := Finset.mem_range.mp ha
    have hb' := Finset.mem_range.mp hb
    have : inJointBuffer 6 (a : ℤ) (b : ℤ) := by unfold inJointBuffer; omega
    rw [hj]; unfold normalizeJointPDF; rw [if_pos this, exampleMetric_joint]
    interval_cases a <;> interval_cases b <;> norm_num
  have hF : ∀ a ∈ range 6, final.m_FixedImageMarginalPDF a
      = ((if a = 2 then 1 / 2 else 0) + (if a = 3 then 1 / 2 else 0) : ℚ) := by
    intro a ha
    have ha' := Finset.mem_range.mp ha
    rw [hf]; unfold normalizeFixedPDF; rw [if_pos ha', exampleMetric_fixed]
    interval_cases a <;> norm_num
  have hM : ∀ b ∈ range 6, final.m_MovingImageMarginalPDF b
      = ((if b = 1 then 1 / 96 else 0) + (if b = 2 then 24 / 96 else 0)
        + (if b = 3 then 46 / 96 else 0) + (if b = 4 then 24 / 96 else 0)
        + (if b = 5 then 1 / 96 else 0) : ℚ) := by
    intro b hb
    have hb' := Finset.mem_range.mp hb
    rw [hm, computeMovingMarginalPDF_apply, if_pos hb']
    rw [Finset.sum_congr rfl (fun a ha => hJ a ha b hb)]
    interval_cases b <;> norm_num [Finset.sum_range_succ]
  have hval : v = -127 / 576 := by
    rw [hv]
    unfold metricSum
    rw [Finset.sum_congr rfl (fun a ha => Finset.sum_congr rfl (fun b hb => by
      rw [hJ a ha b hb, hM b hb, hF a ha]))]
    norm_num [Finset.sum_range_succ, metricTerm, pdfEpsilon]
  rw [hval] at h
  exact ⟨final, h⟩

/-! ## Witnesses of C1, C8, C9 and C10 -/

/-- C1 (witness): the example metric with two accepted samples; with the stand-in
`x ↦ x - 1` for `log` the returned value is `-127/576`. -/
theorem GetValue_eq_neg_specMetricSum_witness :
    ∃ final : PDFs ℚ,
      GetValueAndPDFs (exampleMetric 2 [1 / 4, 3 / 4]) (fun x => x - 1) zeroPDFs 0
        = Except.ok (-127 / 576, final) ∧
      GetValue (exampleMetric 2 [1 / 4, 3 / 4]) (fun x => x - 1) zeroPDFs 0
        = Except.ok (-127 / 576) ∧
      (-127 / 576 : ℚ) = -(specMetricSum (fun x => x - 1) 6 final) := by
  obtain ⟨final, h⟩ := exampleMetric_evaluation
  have hc := GetValue_eq_neg_specMetricSum (exampleMetric 2 [1 / 4, 3 / 4]) (fun x => x - 1)
    zeroPDFs 0 [0, 1] (exampleMetric_isInitialized 2 [1 / 4, 3 / 4]) (-127 / 576) final h
  exact ⟨final, h, hc.1, hc.2.1⟩

/-- C8 (witness): the example metric with two accepted samples. -/
theorem normalized_histograms_sum_to_one_witness :
    ∃ final : PDFs ℚ,
      GetValueAndPDFs (exampleMetric 2 [1 / 4, 3 / 4]) (fun x => x - 1) zeroPDFs 0
        = Except.ok (-127 / 576, final) ∧
      jointPDFSum 6 final.m_JointPDF = 1 ∧ fixedPDFSum 6 final.m_FixedImageMarginalPDF = 1 := by
  obtain ⟨final, h⟩ := exampleMetric_evaluation
  exact ⟨final, h, normalized_histograms_sum_to_one (exampleMetric 2 [1 / 4, 3 / 4])
    (fun x => x - 1) zeroPDFs 0 (-127 / 576) final (Or.inl h)⟩

/-- C9 (witness): the example metric with two accepted samples, moving bin 3. -/
theorem moving_marginal_is_row_sum_witness :
    ∃ final : PDFs ℚ,
      GetValueAndPDFs (exampleMetric 2 [1 / 4, 3 / 4]) (fun x => x - 1) zeroPDFs 0
        = Except.ok (-127 / 576, final) ∧
      final.m_MovingImageMarginalPDF 3
        = ∑ f in range 6, final.m_JointPDF (f : ℤ) ((3 : ℕ) : ℤ) := by
  obtain ⟨final, h⟩ := exampleMetric_evaluation
  exact ⟨final, h, moving_marginal_is_row_sum (exampleMetric 2 [1 / 4, 3 / 4])
    (fun x => x - 1) zeroPDFs 0 (-127 / 576) final (Or.inl h) 3 (by norm_num [exampleMetric])⟩

/-- C10 (witness): the example metric with its two samples swapped. -/
theorem GetValue_permutation_invariant_witness :
    GetValue ((exampleMetric 2 [1 / 4, 3 / 4]).withSamples
        [{ FixedImagePointValue := 3 / 4, FixedImageValue := 3 / 4 },
         { FixedImagePointValue := 1 / 4, FixedImageValue := 1 / 4 }])
      (fun x => x - 1) zeroPDFs 0
      = GetValue (exampleMetric 2 [1 / 4, 3 / 4]) (fun x => x - 1) zeroPDFs 0 :=
  GetValue_permutation_invariant (exampleMetric 2 [1 / 4, 3 / 4]) (fun x => x - 1) zeroPDFs 0
    _ (List.Perm.swap _ _ _)

/-! ## C11: acceptance of a sample by `TransformPoint` -/

/-- C11: for every fixed point, the metric's `TransformPoint` maps the point with the
B-spline transform when the transform is one and with the generic transform otherwise,
and reports the sample as accepted (`sampleOk`) if and only if the mapped point is inside
the interpolator's buffer, and (when the transform is a B-spline transform) inside the
transform's valid support region, and (when a moving mask is configured) inside the moving
mask, and the interpolated moving intensity `v` satisfies `trueMin ≤ v ≤ trueMax`, the two
bounds being accepted. -/
theorem TransformPoint_sampleOk_iff {Pt Par : Type} (M : Metric K Pt Par) (parameters : Par)
    (fixedImagePoint : Pt) :
    (TransformPoint M parameters fixedImagePoint).mappedPoint
      = (if M.m_TransformIsBSpline = true then
          (M.collaborators.bsplineTransformPoint parameters fixedImagePoint).mappedPoint
        else M.collaborators.transformPoint parameters fixedImagePoint) ∧
    ((TransformPoint M parameters fixedImagePoint).sampleOk = true ↔
      M.collaborators.isInsideBuffer
          (TransformPoint M parameters fixedImagePoint).mappedPoint = true ∧
      (M.m_TransformIsBSpline = true →
        (M.collaborators.bsplineTransformPoint parameters
          fixedImagePoint).insideBSValidRegion = true) ∧
      (∀ isInMask : Pt → Bool, M.collaborators.m_MovingMask = some isInMask →
        isInMask (TransformPoint M parameters fixedImagePoint).mappedPoint = true) ∧
      M.binning.m_MovingImageTrueMin
        ≤ M.collaborators.evaluate (TransformPoint M parameters fixedImagePoint).mappedPoint ∧
      M.collaborators.evaluate (TransformPoint M parameters fixedImagePoint).mappedPoint
        ≤ M.binning.m_MovingImageTrueMax) := by
  unfold TransformPoint
  cases hbs : M.m_TransformIsBSpline <;>
  cases hmask : M.collaborators.m_MovingMask <;>
  simp only [hbs, hmask, Bool.not_false, Bool.not_true, if_true, if_false] <;>
  split_ifs <;> simp_all [not_or, not_lt]
  all_goals
    intro hle
    rcases ‹_ ∨ _› with h | h
    · exact absurd hle (not_le.mpr h)
    · exact h

/-! ## C15: the exact evaluations are the sampled ones on all pixels -/

lemma foldl_filter_eq_foldl_ite {α β : Type} (p : α → Bool) (f : β → α → β) (l : List α)
    (b : β) :
    (l.filter p).foldl f b = l.foldl (fun acc x => if p x = true then f acc x else acc) b := by
  induction l generalizing b with
  | nil => rfl
  | cons x l ih =>
    by_cases h : p x = true
    · rw [List.filter_cons_of_pos h, List.foldl_cons, List.foldl_cons, ih]
      simp [h]
    · rw [List.filter_cons_of_neg h, List.foldl_cons, ih]
      simp [h]

section ExactAccumulate

variable {Pt Par : Type} (M : Metric K Pt Par) (parameters : Par)

/-- The pixel loop of `GetExactValue` is the sample loop of `GetValue` on the pixels of
the fixed region that lie inside the fixed mask. -/
lemma getExactValueAccumulate_eq (pdfs : PDFs K) :
    getExactValueAccumulate M parameters pdfs
      = getValueAccumulate (M.withSamples (M.fixedImageRegionPixels.filter
          (fun pixel => fixedMaskAccepts M pixel.FixedImagePointValue))) parameters pdfs := by
  unfold getExactValueAccumulate getValueAccumulate
  show _ = List.foldl (getValueSampleStep M parameters) _
    (M.fixedImageRegionPixels.filter
      (fun pixel => fixedMaskAccepts M pixel.FixedImagePointValue))
  rw [foldl_filter_eq_foldl_ite]
  rfl

/-- The pixel loop of `GetExactValueAndDerivative` is the sample loop of
`GetApproximateValueAndDerivative` on the pixels of the fixed region that lie inside the
fixed mask. -/
lemma getExactValueAndDerivativeAccumulate_eq (pdfs : PDFs K) :
    getExactValueAndDerivativeAccumulate M parameters pdfs
      = getValueAndDerivativeAccumulate (M.withSamples (M.fixedImageRegionPixels.filter
          (fun pixel => fixedMaskAccepts M pixel.FixedImagePointValue))) parameters pdfs := by
  unfold getExactValueAndDerivativeAccumulate getValueAndDerivativeAccumulate
  show _ = List.foldl (getValueAndDerivativeSampleStep M parameters) _
    (M.fixedImageRegionPixels.filter
      (fun pixel => fixedMaskAccepts M pixel.FixedImagePointValue))
  rw [foldl_filter_eq_foldl_ite]
  rfl

lemma GetExactValueAndPDFs_eq (log : K → K) (pdfs : PDFs K) :
    GetExactValueAndPDFs M log pdfs parameters
      = GetValueAndPDFs (M.withSamples (M.fixedImageRegionPixels.filter
          (fun pixel => fixedMaskAccepts M pixel.FixedImagePointValue))) log pdfs parameters := by
  unfold GetExactValueAndPDFs GetValueAndPDFs
  rw [getExactValueAccumulate_eq]
  rfl

lemma GetExactValueAndDerivative_eq (log : K → K) (pdfs : PDFs K) :
    GetExactValueAndDerivative M log pdfs parameters
      = GetApproximateValueAndDerivative (M.withSamples (M.fixedImageRegionPixels.filter
          (fun pixel => fixedMaskAccepts M pixel.FixedImagePointValue))) log pdfs parameters := by
  unfold GetExactValueAndDerivative GetApproximateValueAndDerivative
  rw [getExactValueAndDerivativeAccumulate_eq]
  rfl

end ExactAccumulate

/-- C15: for every parameter vector, the exact-evaluation operations (`GetExactValue`,
`GetExactValueAndDerivative`) produce the same result, value, derivative and failure
alike (and the same final PDF members), as the sampled operations (`GetValue`,
`GetApproximateValueAndDerivative`) do when their sample container consists of all pixels
of the fixed region (inside the fixed mask if one is configured). -/
theorem exact_evaluations_eq_sampled_on_all_pixels {Pt Par : Type} (M : Metric K Pt Par)
    (log : K → K) (pdfs : PDFs K) (parameters : Par) :
    GetExactValue M log pdfs parameters
      = GetValue (M.withSamples (M.fixedImageRegionPixels.filter
          (fun pixel => fixedMaskAccepts M pixel.FixedImagePointValue))) log pdfs parameters ∧
    GetExactValueAndPDFs M log pdfs parameters
      = GetValueAndPDFs (M.withSamples (M.fixedImageRegionPixels.filter
          (fun pixel => fixedMaskAccepts M pixel.FixedImagePointValue))) log pdfs parameters ∧
    GetExactValueAndDerivative M log pdfs parameters
      = GetApproximateValueAndDerivative (M.withSamples (M.fixedImageRegionPixels.filter
          (fun pixel => fixedMaskAccepts M pixel.FixedImagePointValue))) log pdfs parameters := by
  refine ⟨?_, GetExactValueAndPDFs_eq M parameters log pdfs,
    GetExactValueAndDerivative_eq M parameters log pdfs⟩
  unfold GetExactValue GetValue
  rw [GetExactValueAndPDFs_eq]

/-! ## Closed form of the derivative accumulation -/

lemma foldl_subAtDerivative_apply {α : Type} (idx : α → ℤ) (val : α → K) (f m : ℤ)
    (l : List α) (d : ℤ → ℤ → ℤ → K) (a b c : ℤ) :
    l.foldl (fun (d : ℤ → ℤ → ℤ → K) (i : α) => subAtDerivative d f m (idx i) (val i)) d a b c
      = d a b c - (l.map (fun i => if a = f ∧ b = m ∧ c = idx i then val i else 0)).sum := by
  induction l generalizing d with
  | nil => simp
  | cons i l ih =>
    simp only [List.foldl_cons, List.map_cons, List.sum_cons]
    rw [ih]
    unfold subAtDerivative
    split_ifs <;> ring

lemma list_sum_ite_and {α : Type} (p : Prop) [Decidable p] (q : α → Prop)
    [DecidablePred q] (val : α → K) (l : List α) :
    (l.map (fun i => if p ∧ q i then val i else 0)).sum
      = if p then (l.map (fun i => if q i then val i else 0)).sum else 0 := by
  by_cases hp : p
  · simp [hp]
  · simp [hp]

section DerivativeAccumulate

variable {Pt Par : Type} (M : Metric K Pt Par) (parameters : Par)

lemma ComputePDFDerivatives_apply (weights : ℕ → K) (indices : ℕ → ℕ) (x : Pt) (f m : ℤ)
    (grad : ℕ → K) (dval : K) (d : ℤ → ℤ → ℤ → K) (a b c : ℤ) :
    ComputePDFDerivatives M parameters weights indices x f m grad dval d a b c
      = d a b c - (if a = f ∧ b = m then
          pdfDerivativeAmount M parameters weights indices x grad dval c else 0) := by
  unfold ComputePDFDerivatives pdfDerivativeAmount
  cases hbs : M.m_TransformIsBSpline
  · simp only [Bool.not_false, if_true]
    rw [foldl_subAtDerivative_apply (fun mu : ℕ => (mu : ℤ))]
    congr 1
    by_cases h : a = f ∧ b = m
    · simp only [h, and_self, true_and, if_true]
    · rw [if_neg h]
      apply List.sum_eq_zero
      intro x hx
      obtain ⟨i, -, rfl⟩ := List.mem_map.mp hx
      rw [if_neg]
      rintro ⟨ha, hb, -⟩
      exact h ⟨ha, hb⟩
  · simp only [Bool.not_true, if_false, Bool.false_eq_true]
    generalize List.range M.FixedImageDimension = dims
    induction dims generalizing d with
    | nil => simp
    | cons dim dims ih =>
      simp only [List.foldl_cons, List.map_cons, List.sum_cons]
      rw [ih]
      rw [foldl_subAtDerivative_apply
        (fun mu : ℕ => (indices mu : ℤ) + (dim : ℤ) * M.m_NumParametersPerDim)]
      by_cases h : a = f ∧ b = m
      · simp only [h, and_self, true_and, if_true]
        ring
      · rw [if_neg h, if_neg h]
        have : ((List.range M.m_NumBSplineWeights).map (fun i : ℕ =>
            if a = f ∧ b = m ∧ c = (indices i : ℤ) + (dim : ℤ) * M.m_NumParametersPerDim
            then grad dim * weights i * dval else 0)).sum = 0 := by
          apply List.sum_eq_zero
          intro x hx
          obtain ⟨i, -, rfl⟩ := List.mem_map.mp hx
          rw [if_neg]
          rintro ⟨ha, hb, -⟩
          exact h ⟨ha, hb⟩
        rw [this]
        ring

end DerivativeAccumulate

section DerivativeStep

variable {Pt Par : Type} (M : Metric K Pt Par) (parameters : Par)

/-- The windowing loop with derivatives, field by field, for an arbitrary list of moving
indices. -/
lemma foldl_windowingWithDerivatives_fields (tp : TransformPointOutput K Pt) (x : Pt)
    (fixedIndex : ℕ) (term : K) (grad : ℕ → K) (l : List ℤ) (p : PDFs K) :
    let r := l.foldl
      (fun (p : PDFs K) (pdfMovingIndex : ℤ) =>
        let movingImageParzenWindowArg := ((pdfMovingIndex : ℤ) : K) - term
        let cubicBSplineDerivativeValue :=
          M.collaborators.cubicBSplineDerivativeKernel movingImageParzenWindowArg
        { p with
          m_JointPDF := addAtJoint p.m_JointPDF (fixedIndex : ℤ) pdfMovingIndex
            (M.collaborators.cubicBSplineKernel movingImageParzenWindowArg)
          m_JointPDFDerivatives := ComputePDFDerivatives M parameters tp.weights tp.indices
            x (fixedIndex : ℤ) pdfMovingIndex grad cubicBSplineDerivativeValue
            p.m_JointPDFDerivatives })
      p
    r.m_FixedImageMarginalPDF = p.m_FixedImageMarginalPDF ∧
    r.m_MovingImageMarginalPDF = p.m_MovingImageMarginalPDF ∧
    r.m_JointPDF = l.foldl
      (fun (pdf : ℤ → ℤ → K) (pdfMovingIndex : ℤ) =>
        addAtJoint pdf (fixedIndex : ℤ) pdfMovingIndex
          (M.collaborators.cubicBSplineKernel (((pdfMovingIndex : ℤ) : K) - term)))
      p.m_JointPDF ∧
    ∀ a b c : ℤ, r.m_JointPDFDerivatives a b c
      = p.m_JointPDFDerivatives a b c - (l.map (fun i : ℤ =>
          if a = (fixedIndex : ℤ) ∧ b = i then
            pdfDerivativeAmount M parameters tp.weights tp.indices x grad
              (M.collaborators.cubicBSplineDerivativeKernel ((i : K) - term)) c
          else 0)).sum := by
  induction l generalizing p with
  | nil => simp
  | cons i l ih =>
    simp only [List.foldl_cons, List.map_cons, List.sum_cons]
    obtain ⟨h1, h2, h3, h4⟩ := ih
      { p with
        m_JointPDF := addAtJoint p.m_JointPDF (fixedIndex : ℤ) i
          (M.collaborators.cubicBSplineKernel (((i : ℤ) : K) - term))
        m_JointPDFDerivatives := ComputePDFDerivatives M parameters tp.weights tp.indices
          x (fixedIndex : ℤ) i grad
          (M.collaborators.cubicBSplineDerivativeKernel (((i : ℤ) : K) - term))
          p.m_JointPDFDerivatives }
    refine ⟨h1, h2, h3, ?_⟩
    intro a b c
    rw [h4 a b c]
    simp only
    rw [ComputePDFDerivatives_apply]
    ring

/-- The body of the sample loop of `GetApproximateValueAndDerivative`, field by field:
the counter, the marginal PDFs and the joint PDF change as in the body of the sample loop
of `GetValue`, and the derivatives lose the amount of the sample. -/
lemma getValueAndDerivativeSampleStep_fields (st : LoopState K)
    (s : FixedImageSpatialSample K Pt) :
    (getValueAndDerivativeSampleStep M parameters st s).nSamples
      = (getValueSampleStep M parameters st s).nSamples ∧
    (getValueAndDerivativeSampleStep M parameters st s).pdfs.m_FixedImageMarginalPDF
      = (getValueSampleStep M parameters st s).pdfs.m_FixedImageMarginalPDF ∧
    (getValueAndDerivativeSampleStep M parameters st s).pdfs.m_MovingImageMarginalPDF
      = (getValueSampleStep M parameters st s).pdfs.m_MovingImageMarginalPDF ∧
    (getValueAndDerivativeSampleStep M parameters st s).pdfs.m_JointPDF
      = (getValueSampleStep M parameters st s).pdfs.m_JointPDF ∧
    ∀ a b c : ℤ,
      (getValueAndDerivativeSampleStep M parameters st s).pdfs.m_JointPDFDerivatives a b c
        = st.pdfs.m_JointPDFDerivatives a b c
          - (if sampleAccepted M parameters s = true
              then sampleDerivativeAmount M parameters s a b c else 0) := by
  rw [getValueSampleStep_eq]
  unfold getValueAndDerivativeSampleStep
  by_cases h : sampleAccepted M parameters s = true
  · have h' : (TransformPoint M parameters s.FixedImagePointValue).sampleOk = true := h
    obtain ⟨h1, h2, h3, h4⟩ := foldl_windowingWithDerivatives_fields M parameters
      (TransformPoint M parameters s.FixedImagePointValue) s.FixedImagePointValue
      (sampleFixedBin M s) (sampleMovingTerm M parameters s)
      (ComputeImageDerivatives M (TransformPoint M parameters s.FixedImagePointValue).mappedPoint)
      (pdfMovingIndices (sampleMovingBin M parameters s))
      { st.pdfs with
        m_FixedImageMarginalPDF :=
          addAtBin st.pdfs.m_FixedImageMarginalPDF (sampleFixedBin M s) 1 }
    refine ⟨?_, ?_, ?_, ?_, ?_⟩
    · simp only [h, h', if_true]
    · simp only [h, h', if_true]; exact h1
    · simp only [h, h', if_true]; exact h2
    · simp only [h, h', if_true]; exact h3
    · intro a b c
      simp only [h, h', if_true]
      exact h4 a b c
  · have h' : ¬ (TransformPoint M parameters s.FixedImagePointValue).sampleOk = true := h
    refine ⟨?_, ?_, ?_, ?_, ?_⟩
    · simp [h, h']
    · simp [h, h']
    · simp [h, h']
    · simp [h, h']
    · intro a b c
      simp [h, h']

end DerivativeStep

section DerivativeFold

variable {Pt Par : Type} (M : Metric K Pt Par) (parameters : Par)

lemma getValueSampleStep_fixed (st : LoopState K) (s : FixedImageSpatialSample K Pt) (b : ℕ) :
    (getValueSampleStep M parameters st s).pdfs.m_FixedImageMarginalPDF b
      = st.pdfs.m_FixedImageMarginalPDF b
        + (if sampleAccepted M parameters s = true ∧ b = sampleFixedBin M s
            then (1 : K) else 0) := by
  have h := foldl_getValueSampleStep_fixed M parameters [s] st b
  simpa using h

lemma getValueSampleStep_joint (st : LoopState K) (s : FixedImageSpatialSample K Pt)
    (a b : ℤ) :
    (getValueSampleStep M parameters st s).pdfs.m_JointPDF a b
      = st.pdfs.m_JointPDF a b
        + (if sampleAccepted M parameters s = true
            then windowContribution M.collaborators.cubicBSplineKernel (sampleFixedBin M s)
              (sampleMovingBin M parameters s) (sampleMovingTerm M parameters s) a b
            else 0) := by
  have h := foldl_getValueSampleStep_joint M parameters [s] st a b
  simpa using h

lemma getValueSampleStep_moving (st : LoopState K) (s : FixedImageSpatialSample K Pt) :
    (getValueSampleStep M parameters st s).pdfs.m_MovingImageMarginalPDF
      = st.pdfs.m_MovingImageMarginalPDF := by
  have h := foldl_getValueSampleStep_moving M parameters [s] st
  simpa using h

lemma foldl_getValueAndDerivativeSampleStep_fixed (l : List (FixedImageSpatialSample K Pt))
    (st : LoopState K) (b : ℕ) :
    (l.foldl (getValueAndDerivativeSampleStep M parameters) st).pdfs.m_FixedImageMarginalPDF b
      = st.pdfs.m_FixedImageMarginalPDF b + (l.map (fun s =>
          if sampleAccepted M parameters s = true ∧ b = sampleFixedBin M s
          then (1 : K) else 0)).sum := by
  induction l generalizing st with
  | nil => simp
  | cons s l ih =>
    rw [List.foldl_cons, ih, (getValueAndDerivativeSampleStep_fields M parameters st s).2.1,
      getValueSampleStep_fixed, List.map_cons, List.sum_cons]
    ring

lemma foldl_getValueAndDerivativeSampleStep_joint (l : List (FixedImageSpatialSample K Pt))
    (st : LoopState K) (a b : ℤ) :
    (l.foldl (getValueAndDerivativeSampleStep M parameters) st).pdfs.m_JointPDF a b
      = st.pdfs.m_JointPDF a b + (l.map (fun s =>
          if sampleAccepted M parameters s = true
          then windowContribution M.collaborators.cubicBSplineKernel (sampleFixedBin M s)
            (sampleMovingBin M parameters s) (sampleMovingTerm M parameters s) a b
          else 0)).sum := by
  induction l generalizing st with
  | nil => simp
  | cons s l ih =>
    rw [List.foldl_cons, ih, (getValueAndDerivativeSampleStep_fields M parameters st s).2.2.2.1,
      getValueSampleStep_joint, List.map_cons, List.sum_cons]
    ring

lemma foldl_getValueAndDerivativeSampleStep_moving (l : List (FixedImageSpatialSample K Pt))
    (st : LoopState K) :
    (l.foldl (getValueAndDerivativeSampleStep M parameters) st).pdfs.m_MovingImageMarginalPDF
      = st.pdfs.m_MovingImageMarginalPDF := by
  induction l generalizing st with
  | nil => simp
  | cons s l ih =>
    rw [List.foldl_cons, ih, (getValueAndDerivativeSampleStep_fields M parameters st s).2.2.1,
      getValueSampleStep_moving]

/-- The joint PDF derivatives accumulated by the sample loop of
`GetApproximateValueAndDerivative`: the start contents minus the amounts of the accepted
samples. -/
lemma foldl_getValueAndDerivativeSampleStep_derivatives
    (l : List (FixedImageSpatialSample K Pt)) (st : LoopState K) (a b c : ℤ) :
    (l.foldl (getValueAndDerivativeSampleStep M parameters) st).pdfs.m_JointPDFDerivatives a b c
      = st.pdfs.m_JointPDFDerivatives a b c - (l.map (fun s =>
          if sampleAccepted M parameters s = true
          then sampleDerivativeAmount M parameters s a b c else 0)).sum := by
  induction l generalizing st with
  | nil => simp
  | cons s l ih =>
    rw [List.foldl_cons, ih,
      (getValueAndDerivativeSampleStep_fields M parameters st s).2.2.2.2 a b c,
      List.map_cons, List.sum_cons]
    ring

end DerivativeFold

/-! ## C13: closed form of the derivative -/

lemma foldl_subAtBin_apply {α : Type} (idx : α → ℕ) (val : α → K) (l : List α) (v : ℕ → K)
    (j : ℕ) :
    l.foldl (fun (v : ℕ → K) (i : α) => subAtBin v (idx i) (val i)) v j
      = v j - (l.map (fun i => if j = idx i then val i else 0)).sum := by
  induction l generalizing v with
  | nil => simp
  | cons i l ih =>
    simp only [List.foldl_cons, List.map_cons, List.sum_cons]
    rw [ih]
    unfold subAtBin
    split_ifs <;> ring

lemma foldl_sub_apply {α : Type} (g : α → ℕ → K) (step : (ℕ → K) → α → (ℕ → K))
    (hstep : ∀ (v : ℕ → K) (x : α) (j : ℕ), step v x j = v j - g x j) (l : List α)
    (v : ℕ → K) (j : ℕ) :
    l.foldl step v j = v j - (l.map (fun x => g x j)).sum := by
  induction l generalizing v with
  | nil => simp
  | cons x l ih =>
    simp only [List.foldl_cons, List.map_cons, List.sum_cons]
    rw [ih, hstep]
    ring

lemma list_range_map_sum (n : ℕ) (f : ℕ → K) :
    ((List.range n).map f).sum = ∑ i in range n, f i := by
  induction n with
  | zero => simp
  | succ n ih =>
    rw [List.range_succ, List.map_append, List.sum_append, ih, Finset.sum_range_succ]
    simp

/-- The final derivative loop in closed form: entry `j` of the derivative is minus the sum
over the guarded bin pairs of the joint PDF derivative of slice `j` times `pRatio`, for
`j` below the number of parameters, and stays zero otherwise. -/
lemma metricDerivative_apply (log : K → K) (bins numberOfParameters : ℕ) (pdfs : PDFs K)
    (j : ℕ) :
    metricDerivative log bins numberOfParameters pdfs j
      = if j < numberOfParameters then
          ∑ f in range bins, ∑ m in range bins,
            (if pdfs.m_JointPDF (f : ℤ) (m : ℤ) > pdfEpsilon ∧
                pdfs.m_MovingImageMarginalPDF m > pdfEpsilon then
              -(pdfs.m_JointPDFDerivatives (f : ℤ) (m : ℤ) (j : ℤ)
                * log (pdfs.m_JointPDF (f : ℤ) (m : ℤ) / pdfs.m_MovingImageMarginalPDF m))
            else 0)
        else 0 := by
  unfold metricDerivative
  have hinner : ∀ (f m : ℕ) (v : ℕ → K) (j : ℕ),
      (if pdfs.m_JointPDF (f : ℤ) (m : ℤ) > pdfEpsilon ∧
          pdfs.m_MovingImageMarginalPDF m > pdfEpsilon then
        (List.range numberOfParameters).foldl
          (fun (derivative : ℕ → K) (parameter : ℕ) =>
            subAtBin derivative parameter
              (pdfs.m_JointPDFDerivatives (f : ℤ) (m : ℤ) (parameter : ℤ)
                * log (pdfs.m_JointPDF (f : ℤ) (m : ℤ) / pdfs.m_MovingImageMarginalPDF m)))
          v
      else v) j
      = v j - (if j < numberOfParameters then
          (if pdfs.m_JointPDF (f : ℤ) (m : ℤ) > pdfEpsilon ∧
              pdfs.m_MovingImageMarginalPDF m > pdfEpsilon then
            pdfs.m_JointPDFDerivatives (f : ℤ) (m : ℤ) (j : ℤ)
              * log (pdfs.m_JointPDF (f : ℤ) (m : ℤ) / pdfs.m_MovingImageMarginalPDF m)
          else 0) else 0) := by
    intro f m v j
    by_cases hg : pdfs.m_JointPDF (f : ℤ) (m : ℤ) > pdfEpsilon ∧
        pdfs.m_MovingImageMarginalPDF m > pdfEpsilon
    · rw [if_pos hg, if_pos hg]
      rw [foldl_subAtBin_apply (fun p : ℕ => p)
        (fun p : ℕ => pdfs.m_JointPDFDerivatives (f : ℤ) (m : ℤ) (p : ℤ)
          * log (pdfs.m_JointPDF (f : ℤ) (m : ℤ) / pdfs.m_MovingImageMarginalPDF m))]
      rw [list_range_map_sum, Finset.sum_ite_eq (range numberOfParameters) j]
      simp only [Finset.mem_range]
    · rw [if_neg hg, if_neg hg]
      simp
  have hmiddle : ∀ (f : ℕ) (v : ℕ → K) (j : ℕ),
      (List.range bins).foldl
        (fun (derivative : ℕ → K) (movingIndex : ℕ) =>
          let movingImagePDFValue := pdfs.m_MovingImageMarginalPDF movingIndex
          let jointPDFValue := pdfs.m_JointPDF (f : ℤ) (movingIndex : ℤ)
          if jointPDFValue > pdfEpsilon ∧ movingImagePDFValue > pdfEpsilon then
            let pRatio := log (jointPDFValue / movingImagePDFValue)
            (List.range numberOfParameters).foldl
              (fun (derivative : ℕ → K) (parameter : ℕ) =>
                subAtBin derivative parameter
                  (pdfs.m_JointPDFDerivatives (f : ℤ) (movingIndex : ℤ)
                    (parameter : ℤ) * pRatio))
              derivative
          else derivative)
        v j
      = v j - ∑ m in range bins, (if j < numberOfParameters then
          (if pdfs.m_JointPDF (f : ℤ) (m : ℤ) > pdfEpsilon ∧
              pdfs.m_MovingImageMarginalPDF m > pdfEpsilon then
            pdfs.m_JointPDFDerivatives (f : ℤ) (m : ℤ) (j : ℤ)
              * log (pdfs.m_JointPDF (f : ℤ) (m : ℤ) / pdfs.m_MovingImageMarginalPDF m)
          else 0) else 0) := by
    intro f v j
    rw [← list_range_map_sum]
    exact foldl_sub_apply _ _ (fun v m j => hinner f m v j) _ v j
  rw [foldl_sub_apply _ _ (fun v f j => hmiddle f v j), list_range_map_sum]
  by_cases hj : j < numberOfParameters
  · simp only [hj, if_true, zero_sub]
    rw [← Finset.sum_neg_distrib]
    apply Finset.sum_congr rfl
    intro f _
    rw [← Finset.sum_neg_distrib]
    apply Finset.sum_congr rfl
    intro m _
    split_ifs <;> simp
  · simp [hj]

section DerivativeResult

variable {Pt Par : Type} (M : Metric K Pt Par) (log : K → K) (pdfs : PDFs K)
  (parameters : Par)

lemma GetValueAndDerivative_eq :
    GetValueAndDerivative M log pdfs parameters
      = GetApproximateValueAndDerivative (M.withSamples (evaluatedSamples M)) log pdfs
          parameters := by
  unfold GetValueAndDerivative evaluatedSamples
  cases h : M.m_UseExactDerivative
  · rfl
  · simp only [if_true]
    exact GetExactValueAndDerivative_eq M parameters log pdfs

/-- What a successful `GetApproximateValueAndDerivative` returns, in terms of the state
left by the sample loop. -/
lemma GetApproximateValueAndDerivative_result {r : ValueAndDerivative K}
    (h : GetApproximateValueAndDerivative M log pdfs parameters = Except.ok r) :
    ∃ normalized : PDFs K,
      normalizePDFs M.m_NumberOfHistogramBins
        (getValueAndDerivativeAccumulate M parameters pdfs).pdfs = Except.ok normalized ∧
      r.pdfs = { normalized with
        m_JointPDFDerivatives := scaleDerivatives M.m_NumberOfHistogramBins
          M.m_NumberOfParameters
          (1 / (M.binning.m_MovingImageBinSize * (acceptedSampleCount M parameters : K)))
          normalized.m_JointPDFDerivatives } ∧
      r.value = -1 * metricSum log M.m_NumberOfHistogramBins r.pdfs ∧
      r.derivative = metricDerivative log M.m_NumberOfHistogramBins
        M.m_NumberOfParameters r.pdfs := by
  unfold GetApproximateValueAndDerivative at h
  dsimp only at h
  rw [getValueAndDerivativeAccumulate_nSamples] at h
  split_ifs at h with h1
  generalize normalizePDFs M.m_NumberOfHistogramBins
    (getValueAndDerivativeAccumulate M parameters pdfs).pdfs = res at h
  cases res with
  | error e => simp at h
  | ok p =>
    simp only [Except.ok.injEq] at h
    subst h
    exact ⟨p, rfl, rfl, rfl, rfl⟩

end DerivativeResult

/-- C13: for every parameter index `p`, the derivative returned by `GetValueAndDerivative`
is the sum, over all bin pairs `(f, m)` with `P(f,m) > 1e-16` and `P_moving(m) > 1e-16`, of
`-dP(f,m,p) * log(P(f,m) / P_moving(m))`, where `dP` is the accumulated joint-histogram
derivative volume scaled by `1 / (movingBinSize * acceptedSampleCount)` and `P`,
`P_moving` are the normalised joint histogram and moving marginal. -/
theorem derivative_is_guarded_sum {Pt Par : Type} (M : Metric K Pt Par) (log : K → K)
    (pdfs : PDFs K) (parameters : Par) (r : ValueAndDerivative K)
    (h : GetValueAndDerivative M log pdfs parameters = Except.ok r)
    (p : ℕ) (hp : p < M.m_NumberOfParameters) :
    r.derivative p
      = ∑ f in range M.m_NumberOfHistogramBins, ∑ m in range M.m_NumberOfHistogramBins,
          (if r.pdfs.m_JointPDF (f : ℤ) (m : ℤ) > pdfEpsilon ∧
              r.pdfs.m_MovingImageMarginalPDF m > pdfEpsilon then
            -(r.pdfs.m_JointPDFDerivatives (f : ℤ) (m : ℤ) (p : ℤ)
              * log (r.pdfs.m_JointPDF (f : ℤ) (m : ℤ) / r.pdfs.m_MovingImageMarginalPDF m))
          else 0) ∧
    ∀ f m : ℕ, f < M.m_NumberOfHistogramBins → m < M.m_NumberOfHistogramBins →
      r.pdfs.m_JointPDFDerivatives (f : ℤ) (m : ℤ) (p : ℤ)
        = (getValueAndDerivativeAccumulate (M.withSamples (evaluatedSamples M)) parameters
            pdfs).pdfs.m_JointPDFDerivatives (f : ℤ) (m : ℤ) (p : ℤ)
          * (1 / (M.binning.m_MovingImageBinSize
              * (acceptedSampleCount (M.withSamples (evaluatedSamples M)) parameters : K))) ∧
      r.pdfs.m_JointPDF (f : ℤ) (m : ℤ)
        = (getValueAndDerivativeAccumulate (M.withSamples (evaluatedSamples M)) parameters
            pdfs).pdfs.m_JointPDF (f : ℤ) (m : ℤ)
          / jointPDFSum M.m_NumberOfHistogramBins
              (getValueAndDerivativeAccumulate (M.withSamples (evaluatedSamples M)) parameters
                pdfs).pdfs.m_JointPDF ∧
      r.pdfs.m_MovingImageMarginalPDF m
        = ∑ f' in range M.m_NumberOfHistogramBins, r.pdfs.m_JointPDF (f' : ℤ) (m : ℤ) := by
  rw [GetValueAndDerivative_eq] at h
  obtain ⟨normalized, hnorm, hpdfs, -, hder⟩ :=
    GetApproximateValueAndDerivative_result _ log pdfs parameters h
  have hB : (M.withSamples (evaluatedSamples M)).m_NumberOfHistogramBins
      = M.m_NumberOfHistogramBins := rfl
  have hP : (M.withSamples (evaluatedSamples M)).m_NumberOfParameters
      = M.m_NumberOfParameters := rfl
  have hS : (M.withSamples (evaluatedSamples M)).binning = M.binning := rfl
  rw [hB] at hnorm
  rw [hB, hP, hS] at hpdfs
  rw [hB, hP] at hder
  obtain ⟨-, -, hj, -, -, hd⟩ := normalizePDFs_eq_ok hnorm
  constructor
  · rw [hder, metricDerivative_apply, if_pos hp]
  · intro f m hf hm
    have hbuf : inJointBuffer M.m_NumberOfHistogramBins (f : ℤ) (m : ℤ) := by
      unfold inJointBuffer; omega
    have hdbuf : inDerivativesBuffer M.m_NumberOfHistogramBins M.m_NumberOfParameters
        (f : ℤ) (m : ℤ) (p : ℤ) := by
      unfold inDerivativesBuffer
      exact ⟨hbuf, by omega, by omega⟩
    refine ⟨?_, ?_, ?_⟩
    · rw [hpdfs]
      simp only [scaleDerivatives, if_pos hdbuf, hd]
    · rw [hpdfs]
      simp only [hj, normalizeJointPDF, if_pos hbuf]
    · rw [hpdfs]
      exact normalizePDFs_moving hnorm m hm

/-! ## The evaluations as functions of the accumulated state -/

section AccumulationCongruence

lemma jointPDFSum_congr {bins : ℕ} {J J' : ℤ → ℤ → K}
    (h : ∀ f m : ℤ, inJointBuffer bins f m → J f m = J' f m) :
    jointPDFSum bins J = jointPDFSum bins J' := by
  unfold jointPDFSum
  refine Finset.sum_congr rfl (fun m hm => Finset.sum_congr rfl (fun f hf => ?_))
  rw [Finset.mem_range] at hm hf
  apply h
  unfold inJointBuffer
  omega

lemma fixedPDFSum_congr {bins : ℕ} {F F' : ℕ → K} (h : ∀ j : ℕ, j < bins → F j = F' j) :
    fixedPDFSum bins F = fixedPDFSum bins F' := by
  unfold fixedPDFSum
  exact Finset.sum_congr rfl (fun j hj => h j (Finset.mem_range.mp hj))

lemma metricSum_congr (log : K → K) {bins : ℕ} {p q : PDFs K} (h : PDFs.ValueAgree bins p q) :
    metricSum log bins p = metricSum log bins q := by
  obtain ⟨hF, hM, hJ⟩ := h
  unfold metricSum
  refine Finset.sum_congr rfl (fun f hf => Finset.sum_congr rfl (fun m hm => ?_))
  rw [Finset.mem_range] at hm hf
  rw [hF f hf, hM m hm, hJ (f : ℤ) (m : ℤ) (by unfold inJointBuffer; omega)]

lemma metricDerivative_congr (log : K → K) {bins numberOfParameters : ℕ} {p q : PDFs K}
    (h : PDFs.ValueAgree bins p q) (hD : PDFs.DerivativesAgree bins numberOfParameters p q) :
    metricDerivative log bins numberOfParameters p
      = metricDerivative log bins numberOfParameters q := by
  obtain ⟨-, hM, hJ⟩ := h
  funext j
  rw [metricDerivative_apply, metricDerivative_apply]
  split_ifs with hj
  · refine Finset.sum_congr rfl (fun f hf => Finset.sum_congr rfl (fun m hm => ?_))
    rw [Finset.mem_range] at hm hf
    have hbuf : inJointBuffer bins (f : ℤ) (m : ℤ) := by unfold inJointBuffer; omega
    rw [hM m hm, hJ (f : ℤ) (m : ℤ) hbuf, hD (f : ℤ) (m : ℤ) (j : ℤ) ⟨hbuf, by omega, by omega⟩]
  · rfl

/-- The normalisation step maps agreeing contents to agreeing contents, fails on both or
on none and with the same failure, and leaves the joint PDF derivatives alone. -/
lemma normalizePDFs_congr {α : Type} {bins : ℕ} {p q : PDFs K} (g g' : PDFs K → α)
    (h : PDFs.ValueAgree bins p q)
    (hg : ∀ a b : PDFs K, PDFs.ValueAgree bins a b →
      a.m_JointPDFDerivatives = p.m_JointPDFDerivatives →
      b.m_JointPDFDerivatives = q.m_JointPDFDerivatives → g a = g' b) :
    (normalizePDFs bins p).map g = (normalizePDFs bins q).map g' := by
  have hs := jointPDFSum_congr h.2.2
  have hf := fixedPDFSum_congr h.1
  obtain ⟨hF, hM, hJ⟩ := h
  unfold normalizePDFs
  simp only
  rw [hs, hf]
  split_ifs with h1 h2
  · rfl
  · rfl
  · show Except.ok _ = Except.ok _
    congr 1
    refine hg _ _ ⟨?_, ?_, ?_⟩ rfl rfl
    · intro j hj
      simp only [normalizeFixedPDF, if_pos hj, hF j hj]
    · intro j hj
      simp only [computeMovingMarginalPDF_apply, if_pos hj]
      refine Finset.sum_congr rfl (fun f hf' => ?_)
      rw [Finset.mem_range] at hf'
      have hbuf : inJointBuffer bins (f : ℤ) (j : ℤ) := by unfold inJointBuffer; omega
      simp only [normalizeJointPDF, if_pos hbuf, hJ _ _ hbuf]
    · intro f m hbuf
      simp only [normalizeJointPDF, if_pos hbuf, hJ _ _ hbuf]

variable {Pt Par : Type} (M : Metric K Pt Par) (log : K → K)

lemma valueOfAccumulation_eq_map (st : LoopState K) :
    valueOfAccumulation M log st
      = if st.nSamples < M.m_NumberOfSpatialSamples / 4 then
          Except.error MetricError.tooManySamplesOutside
        else (normalizePDFs M.m_NumberOfHistogramBins st.pdfs).map
          (fun normalized => -1 * metricSum log M.m_NumberOfHistogramBins normalized) := by
  unfold valueOfAccumulation
  split_ifs
  · rfl
  · cases normalizePDFs M.m_NumberOfHistogramBins st.pdfs <;> rfl

lemma derivativeOfAccumulation_eq_map (st : LoopState K) :
    derivativeOfAccumulation M log st
      = if st.nSamples < M.m_NumberOfSpatialSamples / 4 then
          Except.error MetricError.tooManySamplesOutside
        else (normalizePDFs M.m_NumberOfHistogramBins st.pdfs).map
          (fun normalized => metricDerivative log M.m_NumberOfHistogramBins
            M.m_NumberOfParameters
            { normalized with
              m_JointPDFDerivatives := scaleDerivatives M.m_NumberOfHistogramBins
                M.m_NumberOfParameters
                (1 / (M.binning.m_MovingImageBinSize * (st.nSamples : K)))
                normalized.m_JointPDFDerivatives }) := by
  unfold derivativeOfAccumulation
  split_ifs
  · rfl
  · cases normalizePDFs M.m_NumberOfHistogramBins st.pdfs <;> rfl

lemma valueOfAccumulation_congr {st st' : LoopState K} (hn : st.nSamples = st'.nSamples)
    (h : PDFs.ValueAgree M.m_NumberOfHistogramBins st.pdfs st'.pdfs) :
    valueOfAccumulation M log st = valueOfAccumulation M log st' := by
  rw [valueOfAccumulation_eq_map, valueOfAccumulation_eq_map, hn]
  split_ifs
  · rfl
  · refine normalizePDFs_congr _ _ h (fun a b hab _ _ => ?_)
    show -1 * _ = -1 * _
    rw [metricSum_congr log hab]

lemma derivativeOfAccumulation_congr {st st' : LoopState K} (hn : st.nSamples = st'.nSamples)
    (h : PDFs.ValueAgree M.m_NumberOfHistogramBins st.pdfs st'.pdfs)
    (hD : PDFs.DerivativesAgree M.m_NumberOfHistogramBins M.m_NumberOfParameters
      st.pdfs st'.pdfs) :
    derivativeOfAccumulation M log st = derivativeOfAccumulation M log st' := by
  rw [derivativeOfAccumulation_eq_map, derivativeOfAccumulation_eq_map, hn]
  split_ifs
  · rfl
  · refine normalizePDFs_congr _ _ h (fun a b hab ha hb => ?_)
    refine metricDerivative_congr log ⟨hab.1, hab.2.1, hab.2.2⟩ ?_
    intro f m c hbuf
    simp only [scaleDerivatives, if_pos hbuf, ha, hb, hD f m c hbuf]

variable (parameters : Par)

lemma GetValue_eq_valueOfAccumulation (pdfs : PDFs K) :
    GetValue M log pdfs parameters
      = valueOfAccumulation M log (getValueAccumulate M parameters pdfs) := by
  unfold GetValue GetValueAndPDFs valueOfAccumulation
  simp only
  split_ifs
  · rfl
  · cases normalizePDFs M.m_NumberOfHistogramBins
      (getValueAccumulate M parameters pdfs).pdfs <;> rfl

lemma GetApproximateValueAndDerivative_value (pdfs : PDFs K) :
    (GetApproximateValueAndDerivative M log pdfs parameters).map (fun r => r.value)
      = valueOfAccumulation M log (getValueAndDerivativeAccumulate M parameters pdfs) := by
  unfold GetApproximateValueAndDerivative valueOfAccumulation
  simp only
  split_ifs
  · rfl
  · cases normalizePDFs M.m_NumberOfHistogramBins
      (getValueAndDerivativeAccumulate M parameters pdfs).pdfs <;> rfl

lemma GetApproximateValueAndDerivative_derivative (pdfs : PDFs K) :
    (GetApproximateValueAndDerivative M log pdfs parameters).map (fun r => r.derivative)
      = derivativeOfAccumulation M log
          (getValueAndDerivativeAccumulate M parameters pdfs) := by
  unfold GetApproximateValueAndDerivative derivativeOfAccumulation
  simp only
  split_ifs
  · rfl
  · cases normalizePDFs M.m_NumberOfHistogramBins
      (getValueAndDerivativeAccumulate M parameters pdfs).pdfs <;> rfl

/-- The sample loops of `GetValue` and of `GetApproximateValueAndDerivative` leave the
same marginal PDFs and joint PDF in the buffers, whatever the buffers held before. -/
lemma accumulate_valueAgree (pdfs pdfs' : PDFs K) :
    PDFs.ValueAgree M.m_NumberOfHistogramBins (getValueAccumulate M parameters pdfs).pdfs
      (getValueAndDerivativeAccumulate M parameters pdfs').pdfs := by
  unfold getValueAccumulate getValueAndDerivativeAccumulate
  refine ⟨?_, ?_, ?_⟩
  · intro j hj
    rw [foldl_getValueSampleStep_fixed, foldl_getValueAndDerivativeSampleStep_fixed]
    simp [resetPDFsAndDerivatives, resetPDFs, hj]
  · intro j hj
    rw [foldl_getValueSampleStep_moving, foldl_getValueAndDerivativeSampleStep_moving]
    simp [resetPDFsAndDerivatives, resetPDFs, hj]
  · intro f m hbuf
    rw [foldl_getValueSampleStep_joint, foldl_getValueAndDerivativeSampleStep_joint]
    simp [resetPDFsAndDerivatives, resetPDFs, hbuf]

lemma getValueAccumulate_valueAgree (pdfs pdfs' : PDFs K) :
    PDFs.ValueAgree M.m_NumberOfHistogramBins (getValueAccumulate M parameters pdfs).pdfs
      (getValueAccumulate M parameters pdfs').pdfs := by
  unfold getValueAccumulate
  refine ⟨?_, ?_, ?_⟩
  · intro j hj
    rw [foldl_getValueSampleStep_fixed, foldl_getValueSampleStep_fixed]
    simp [resetPDFs, hj]
  · intro j hj
    rw [foldl_getValueSampleStep_moving, foldl_getValueSampleStep_moving]
    simp [resetPDFs, hj]
  · intro f m hbuf
    rw [foldl_getValueSampleStep_joint, foldl_getValueSampleStep_joint]
    simp [resetPDFs, hbuf]

lemma getValueAndDerivativeAccumulate_valueAgree (pdfs pdfs' : PDFs K) :
    PDFs.ValueAgree M.m_NumberOfHistogramBins
      (getValueAndDerivativeAccumulate M parameters pdfs).pdfs
      (getValueAndDerivativeAccumulate M parameters pdfs').pdfs := by
  unfold getValueAndDerivativeAccumulate
  refine ⟨?_, ?_, ?_⟩
  · intro j hj
    rw [foldl_getValueAndDerivativeSampleStep_fixed,
      foldl_getValueAndDerivativeSampleStep_fixed]
    simp [resetPDFsAndDerivatives, resetPDFs, hj]
  · intro j hj
    rw [foldl_getValueAndDerivativeSampleStep_moving,
      foldl_getValueAndDerivativeSampleStep_moving]
    simp [resetPDFsAndDerivatives, resetPDFs, hj]
  · intro f m hbuf
    rw [foldl_getValueAndDerivativeSampleStep_joint,
      foldl_getValueAndDerivativeSampleStep_joint]
    simp [resetPDFsAndDerivatives, resetPDFs, hbuf]

lemma getValueAndDerivativeAccumulate_derivativesAgree (pdfs pdfs' : PDFs K) :
    PDFs.DerivativesAgree M.m_NumberOfHistogramBins M.m_NumberOfParameters
      (getValueAndDerivativeAccumulate M parameters pdfs).pdfs
      (getValueAndDerivativeAccumulate M parameters pdfs').pdfs := by
  unfold getValueAndDerivativeAccumulate
  intro f m c hbuf
  rw [foldl_getValueAndDerivativeSampleStep_derivatives,
    foldl_getValueAndDerivativeSampleStep_derivatives]
  simp [resetPDFsAndDerivatives, hbuf]

lemma GetValue_initial_contents (pdfs pdfs' : PDFs K) :
    GetValue M log pdfs parameters = GetValue M log pdfs' parameters := by
  rw [GetValue_eq_valueOfAccumulation, GetValue_eq_valueOfAccumulation]
  apply valueOfAccumulation_congr
  · rw [getValueAccumulate_nSamples, getValueAccumulate_nSamples]
  · exact getValueAccumulate_valueAgree M parameters pdfs pdfs'

lemma GetApproximateValueAndDerivative_initial_contents (pdfs pdfs' : PDFs K) :
    (GetApproximateValueAndDerivative M log pdfs parameters).map
        (fun r => (r.value, r.derivative))
      = (GetApproximateValueAndDerivative M log pdfs' parameters).map
        (fun r => (r.value, r.derivative)) := by
  have hv := GetApproximateValueAndDerivative_value M log parameters pdfs
  have hv' := GetApproximateValueAndDerivative_value M log parameters pdfs'
  have hd := GetApproximateValueAndDerivative_derivative M log parameters pdfs
  have hd' := GetApproximateValueAndDerivative_derivative M log parameters pdfs'
  have hn : (getValueAndDerivativeAccumulate M parameters pdfs).nSamples
      = (getValueAndDerivativeAccumulate M parameters pdfs').nSamples := by
    rw [getValueAndDerivativeAccumulate_nSamples, getValueAndDerivativeAccumulate_nSamples]
  rw [valueOfAccumulation_congr M log hn
    (getValueAndDerivativeAccumulate_valueAgree M parameters pdfs pdfs'), ← hv'] at hv
  rw [derivativeOfAccumulation_congr M log hn
    (getValueAndDerivativeAccumulate_valueAgree M parameters pdfs pdfs')
    (getValueAndDerivativeAccumulate_derivativesAgree M parameters pdfs pdfs'), ← hd'] at hd
  cases h : GetApproximateValueAndDerivative M log pdfs parameters with
  | error e =>
    cases h' : GetApproximateValueAndDerivative M log pdfs' parameters with
    | error e' =>
      rw [h, h'] at hv
      simpa [Except.map] using hv
    | ok r' =>
      rw [h, h'] at hv
      simp [Except.map] at hv
  | ok r =>
    cases h' : GetApproximateValueAndDerivative M log pdfs' parameters with
    | error e' =>
      rw [h, h'] at hv
      simp [Except.map] at hv
    | ok r' =>
      rw [h, h'] at hv hd
      simp only [Except.map, Except.ok.injEq] at hv hd ⊢
      rw [hv, hd]

lemma GetValueAndDerivative_initial_contents (pdfs pdfs' : PDFs K) :
    (GetValueAndDerivative M log pdfs parameters).map (fun r => (r.value, r.derivative))
      = (GetValueAndDerivative M log pdfs' parameters).map
        (fun r => (r.value, r.derivative)) := by
  rw [GetValueAndDerivative_eq, GetValueAndDerivative_eq]
  exact GetApproximateValueAndDerivative_initial_contents _ log parameters pdfs pdfs'

end AccumulationCongruence

lemma exampleMetric_derivative_isOk (log : ℚ → ℚ) :
    ∃ r : ValueAndDerivative ℚ,
      GetValueAndDerivative (exampleMetric 2 [1 / 4, 3 / 4]) log zeroPDFs 0 = Except.ok r := by
  obtain ⟨v, final, h⟩ := exampleMetric_isOk log
  have hd : GetValueAndDerivative (exampleMetric 2 [1 / 4, 3 / 4]) log zeroPDFs 0
      = GetApproximateValueAndDerivative (exampleMetric 2 [1 / 4, 3 / 4]) log zeroPDFs 0 := rfl
  have hv := GetApproximateValueAndDerivative_value (exampleMetric 2 [1 / 4, 3 / 4]) log 0
    zeroPDFs
  rw [← valueOfAccumulation_congr (exampleMetric 2 [1 / 4, 3 / 4]) log
      (by rw [getValueAccumulate_nSamples, getValueAndDerivativeAccumulate_nSamples])
      (accumulate_valueAgree (exampleMetric 2 [1 / 4, 3 / 4]) 0 zeroPDFs zeroPDFs),
    ← GetValue_eq_valueOfAccumulation] at hv
  unfold GetValue at hv
  rw [h, ← hd] at hv
  cases hr : GetValueAndDerivative (exampleMetric 2 [1 / 4, 3 / 4]) log zeroPDFs 0 with
  | error e =>
    rw [hr] at hv
    simp [Except.map] at hv
  | ok r => exact ⟨r, rfl⟩

theorem derivative_is_guarded_sum_witness :
    ∃ r : ValueAndDerivative ℚ,
      GetValueAndDerivative (exampleMetric 2 [1 / 4, 3 / 4]) (fun x => x - 1) zeroPDFs 0
        = Except.ok r ∧
      0 < (exampleMetric 2 [1 / 4, 3 / 4]).m_NumberOfParameters ∧
      r.derivative 0
        = ∑ f in range 6, ∑ m in range 6,
            (if r.pdfs.m_JointPDF (f : ℤ) (m : ℤ) > pdfEpsilon ∧
                r.pdfs.m_MovingImageMarginalPDF m > pdfEpsilon then
              -(r.pdfs.m_JointPDFDerivatives (f : ℤ) (m : ℤ) ((0 : ℕ) : ℤ)
                * (r.pdfs.m_JointPDF (f : ℤ) (m : ℤ) / r.pdfs.m_MovingImageMarginalPDF m - 1))
            else 0) := by
  obtain ⟨r, hr⟩ := exampleMetric_derivative_isOk (fun x => x - 1)
  exact ⟨r, hr, Nat.one_pos,
    (derivative_is_guarded_sum (exampleMetric 2 [1 / 4, 3 / 4]) (fun x => x - 1) zeroPDFs 0
      r hr 0 Nat.one_pos).1⟩

/-- C12: for every parameter vector and sample set, the value returned by
`GetValueAndDerivative` in the sampled (approximate) mode equals the value returned by
`GetValue`, and the two fail in exactly the same cases (with the same failure), whatever
the PDF buffers held before either call. -/
theorem sampled_GetValueAndDerivative_value_eq_GetValue {Pt Par : Type}
    (M : Metric K Pt Par) (log : K → K) (pdfs pdfs' : PDFs K) (parameters : Par)
    (h : M.m_UseExactDerivative = false) :
    (GetValueAndDerivative M log pdfs parameters).map (fun r => r.value)
      = GetValue M log pdfs' parameters := by
  have hd : GetValueAndDerivative M log pdfs parameters
      = GetApproximateValueAndDerivative M log pdfs parameters := by
    unfold GetValueAndDerivative
    rw [h]
    rfl
  rw [hd, GetApproximateValueAndDerivative_value, GetValue_eq_valueOfAccumulation]
  symm
  apply valueOfAccumulation_congr
  · rw [getValueAccumulate_nSamples, getValueAndDerivativeAccumulate_nSamples]
  · exact accumulate_valueAgree M parameters pdfs' pdfs

theorem sampled_GetValueAndDerivative_value_eq_GetValue_witness :
    (exampleMetric 2 [1 / 4, 3 / 4]).m_UseExactDerivative = false ∧
    (GetValueAndDerivative (exampleMetric 2 [1 / 4, 3 / 4]) (fun x => x - 1) zeroPDFs
        (0 : ℚ)).map (fun r => r.value) = Except.ok (-127 / 576) := by
  obtain ⟨final, h⟩ := exampleMetric_evaluation
  refine ⟨rfl, ?_⟩
  rw [sampled_GetValueAndDerivative_value_eq_GetValue (exampleMetric 2 [1 / 4, 3 / 4])
    (fun x => x - 1) zeroPDFs zeroPDFs 0 rfl]
  unfold GetValue
  rw [h]
  rfl

/-- C16: the joint histogram, its derivative volume and the marginal PDFs are scratch state
reset at the start of every evaluation: for every two initial contents of these buffers,
`GetValue` and `GetValueAndDerivative` called with the same parameters, samples and binning
parameters return the same result (value, derivative and failure alike); in particular an
evaluation repeated on the buffers that a first evaluation left gives the same value. -/
theorem evaluations_independent_of_initial_buffers {Pt Par : Type} (M : Metric K Pt Par)
    (log : K → K) (parameters : Par) (pdfs pdfs' : PDFs K) :
    GetValue M log pdfs parameters = GetValue M log pdfs' parameters ∧
    (GetValueAndDerivative M log pdfs parameters).map (fun r => (r.value, r.derivative))
      = (GetValueAndDerivative M log pdfs' parameters).map
          (fun r => (r.value, r.derivative)) ∧
    (∀ (v : K) (final : PDFs K),
      GetValueAndPDFs M log pdfs parameters = Except.ok (v, final) →
      GetValue M log final parameters = Except.ok v) ∧
    (∀ r : ValueAndDerivative K,
      GetValueAndDerivative M log pdfs parameters = Except.ok r →
      (GetValueAndDerivative M log r.pdfs parameters).map (fun r => (r.value, r.derivative))
        = Except.ok (r.value, r.derivative)) := by
  refine ⟨GetValue_initial_contents M log parameters pdfs pdfs',
    GetValueAndDerivative_initial_contents M log parameters pdfs pdfs', ?_, ?_⟩
  · intro v final h
    rw [GetValue_initial_contents M log parameters final pdfs]
    unfold GetValue
    rw [h]
    rfl
  · intro r h
    rw [GetValueAndDerivative_initial_contents M log parameters r.pdfs pdfs, h]
    rfl

/-! ## The B-spline branch of `ComputePDFDerivatives` against the generic branch -/

section BSplineBranch

lemma foldl_add_eq_sum {α : Type} (g : α → K) (l : List α) (init : K) :
    l.foldl (fun acc i => acc + g i) init = init + (l.map g).sum := by
  induction l generalizing init with
  | nil => simp
  | cons x l ih => simp [ih, add_assoc]

variable {Pt Par : Type} (M : Metric K Pt Par) (parameters : Par)

lemma pdfDerivativeAmount_bspline_eq_generic (weights : ℕ → K) (indices : ℕ → ℕ) (x : Pt)
    (grad : ℕ → K) (dval : K) (jacobian : ℕ → ℕ → K) (ppd : ℕ)
    (hbs : M.m_TransformIsBSpline = true)
    (hppd : M.m_NumParametersPerDim = (ppd : ℤ))
    (hdistinct : ∀ k k' : ℕ, k < M.m_NumBSplineWeights → k' < M.m_NumBSplineWeights →
      indices k = indices k' → k = k')
    (hcol : ∀ dim k : ℕ, dim < M.FixedImageDimension → k < M.m_NumBSplineWeights →
      indices k + dim * ppd < M.m_NumberOfParameters)
    (hentry : ∀ dim k : ℕ, dim < M.FixedImageDimension → k < M.m_NumBSplineWeights →
      jacobian dim (indices k + dim * ppd) = weights k)
    (hzero : ∀ dim mu : ℕ, dim < M.FixedImageDimension → mu < M.m_NumberOfParameters →
      (∀ k : ℕ, k < M.m_NumBSplineWeights → mu ≠ indices k + dim * ppd) →
      jacobian dim mu = 0) (c : ℤ) :
    pdfDerivativeAmount M parameters weights indices x grad dval c
      = pdfDerivativeAmount (M.withGenericJacobian jacobian) parameters weights indices x
          grad dval c := by
  have hJ : ∀ dim mu : ℕ, dim < M.FixedImageDimension → mu < M.m_NumberOfParameters →
      jacobian dim mu = ∑ k in range M.m_NumBSplineWeights,
        if mu = indices k + dim * ppd then weights k else 0 := by
    intro dim mu hdim hmu
    by_cases hex : ∃ k : ℕ, k < M.m_NumBSplineWeights ∧ mu = indices k + dim * ppd
    · obtain ⟨k0, hk0, rfl⟩ := hex
      rw [Finset.sum_eq_single_of_mem k0 (Finset.mem_range.mpr hk0), if_pos rfl,
        hentry dim k0 hdim hk0]
      intro k hk hne
      rw [if_neg]
      intro heq
      exact hne (hdistinct k k0 (Finset.mem_range.mp hk) hk0 (by omega))
    · rw [hzero dim mu hdim hmu (fun k hk heq => hex ⟨k, hk, heq⟩)]
      symm
      apply Finset.sum_eq_zero
      intro k hk
      rw [if_neg]
      intro heq
      exact hex ⟨k, Finset.mem_range.mp hk, heq⟩
  simp only [pdfDerivativeAmount, Metric.withGenericJacobian, hbs, Bool.not_true,
    Bool.not_false, if_true, if_false, Bool.false_eq_true, hppd, list_range_map_sum,
    foldl_add_eq_sum, zero_add]
  symm
  calc ∑ mu in range M.m_NumberOfParameters,
        (if c = (mu : ℤ) then
          (∑ dim in range M.FixedImageDimension, jacobian dim mu * grad dim) * dval else 0)
      = ∑ mu in range M.m_NumberOfParameters, ∑ dim in range M.FixedImageDimension,
          (if c = (mu : ℤ) then jacobian dim mu * grad dim * dval else 0) := by
        refine Finset.sum_congr rfl (fun mu _ => ?_)
        split_ifs
        · rw [Finset.sum_mul]
        · simp
    _ = ∑ dim in range M.FixedImageDimension, ∑ mu in range M.m_NumberOfParameters,
          (if c = (mu : ℤ) then jacobian dim mu * grad dim * dval else 0) := Finset.sum_comm
    _ = ∑ dim in range M.FixedImageDimension, ∑ k in range M.m_NumBSplineWeights,
          (if c = (indices k : ℤ) + (dim : ℤ) * (ppd : ℤ) then grad dim * weights k * dval
            else 0) := by
        refine Finset.sum_congr rfl (fun dim hdim => ?_)
        rw [Finset.mem_range] at hdim
        calc ∑ mu in range M.m_NumberOfParameters,
              (if c = (mu : ℤ) then jacobian dim mu * grad dim * dval else 0)
            = ∑ mu in range M.m_NumberOfParameters, ∑ k in range M.m_NumBSplineWeights,
                (if c = (mu : ℤ) ∧ mu = indices k + dim * ppd then
                  grad dim * weights k * dval else 0) := by
              refine Finset.sum_congr rfl (fun mu hmu => ?_)
              rw [Finset.mem_range] at hmu
              rw [hJ dim mu hdim hmu]
              by_cases hc : c = (mu : ℤ)
              · simp only [hc, true_and, if_true, Finset.sum_mul]
                refine Finset.sum_congr rfl (fun k _ => ?_)
                split_ifs
                · ring
                · ring
              · simp [hc]
          _ = ∑ k in range M.m_NumBSplineWeights, ∑ mu in range M.m_NumberOfParameters,
                (if c = (mu : ℤ) ∧ mu = indices k + dim * ppd then
                  grad dim * weights k * dval else 0) := Finset.sum_comm
          _ = ∑ k in range M.m_NumBSplineWeights,
                (if c = (indices k : ℤ) + (dim : ℤ) * (ppd : ℤ) then
                  grad dim * weights k * dval else 0) := by
              refine Finset.sum_congr rfl (fun k hk => ?_)
              rw [Finset.mem_range] at hk
              rw [Finset.sum_eq_single_of_mem (indices k + dim * ppd)
                (Finset.mem_range.mpr (hcol dim k hdim hk))]
              · by_cases hc : c = (indices k : ℤ) + (dim : ℤ) * (ppd : ℤ)
                · rw [if_pos hc, if_pos]
                  exact ⟨by rw [hc]; push_cast; ring, rfl⟩
                · rw [if_neg hc, if_neg]
                  rintro ⟨h1, -⟩
                  apply hc
                  rw [h1]
                  push_cast
                  ring
              · intro mu _ hne
                rw [if_neg]
                rintro ⟨-, h2⟩
                exact hne h2

end BSplineBranch

/-- C14: for every sample, `ComputePDFDerivatives` in the B-spline branch changes the
joint-histogram derivative volume exactly as the generic branch (which subtracts
`(sum over dim of Jacobian[dim][mu] * gradient[dim]) * cubicKernelDerivative` from the
entry `(fixedBin, movingBin, mu)` for every parameter `mu`) does when given the Jacobian
whose only non-zero entries are `Jacobian[dim][indices[k] + dim * parametersPerDim] =
weights[k]`, provided the support indices `indices[k]` are pairwise distinct (the entries
named are columns of the Jacobian, that is below the number of parameters; the bound of
the support indices by `parametersPerDim` is not needed for the equality). -/
theorem bspline_ComputePDFDerivatives_eq_generic {Pt Par : Type} (M : Metric K Pt Par)
    (parameters : Par) (weights : ℕ → K) (indices : ℕ → ℕ) (fixedImagePoint : Pt)
    (fixedImageParzenWindowIndex pdfMovingIndex : ℤ) (movingImageGradientValue : ℕ → K)
    (cubicBSplineDerivativeValue : K) (derivatives : ℤ → ℤ → ℤ → K)
    (jacobian : ℕ → ℕ → K) (parametersPerDim : ℕ)
    (hbs : M.m_TransformIsBSpline = true)
    (hppd : M.m_NumParametersPerDim = (parametersPerDim : ℤ))
    (hdistinct : ∀ k k' : ℕ, k < M.m_NumBSplineWeights → k' < M.m_NumBSplineWeights →
      indices k = indices k' → k = k')
    (hcol : ∀ dim k : ℕ, dim < M.FixedImageDimension → k < M.m_NumBSplineWeights →
      indices k + dim * parametersPerDim < M.m_NumberOfParameters)
    (hentry : ∀ dim k : ℕ, dim < M.FixedImageDimension → k < M.m_NumBSplineWeights →
      jacobian dim (indices k + dim * parametersPerDim) = weights k)
    (hzero : ∀ dim mu : ℕ, dim < M.FixedImageDimension → mu < M.m_NumberOfParameters →
      (∀ k : ℕ, k < M.m_NumBSplineWeights → mu ≠ indices k + dim * parametersPerDim) →
      jacobian dim mu = 0) :
    ComputePDFDerivatives M parameters weights indices fixedImagePoint
        fixedImageParzenWindowIndex pdfMovingIndex movingImageGradientValue
        cubicBSplineDerivativeValue derivatives
      = ComputePDFDerivatives (M.withGenericJacobian jacobian) parameters weights indices
          fixedImagePoint fixedImageParzenWindowIndex pdfMovingIndex movingImageGradientValue
          cubicBSplineDerivativeValue derivatives := by
  funext a b c
  rw [ComputePDFDerivatives_apply, ComputePDFDerivatives_apply,
    pdfDerivativeAmount_bspline_eq_generic M parameters weights indices fixedImagePoint
      movingImageGradientValue cubicBSplineDerivativeValue jacobian parametersPerDim hbs hppd
      hdistinct hcol hentry hzero c]

theorem bspline_ComputePDFDerivatives_eq_generic_witness :
    ComputePDFDerivatives exampleBSplineMetric (0 : ℚ)
        (fun k => if k = 0 then 1 / 3 else 2 / 3) (fun k => k) (1 / 4 : ℚ) 2 3
        (fun _ => 5) (1 / 2) (fun _ _ _ => 0)
      = ComputePDFDerivatives
          (exampleBSplineMetric.withGenericJacobian
            (fun _ mu => if mu = 0 then 1 / 3 else 2 / 3))
          (0 : ℚ) (fun k => if k = 0 then 1 / 3 else 2 / 3) (fun k => k) (1 / 4 : ℚ) 2 3
          (fun _ => 5) (1 / 2) (fun _ _ _ => 0) :=
  bspline_ComputePDFDerivatives_eq_generic exampleBSplineMetric (0 : ℚ)
    (fun k => if k = 0 then 1 / 3 else 2 / 3) (fun k => k) (1 / 4 : ℚ) 2 3
    (fun _ => 5) (1 / 2) (fun _ _ _ => 0) (fun _ mu => if mu = 0 then 1 / 3 else 2 / 3) 2
    rfl rfl (fun _ _ _ _ h => h)
    (fun dim k hdim hk => by
      have h1 : dim < 1 := hdim
      have h2 : k < 2 := hk
      show k + dim * 2 < 2
      omega)
    (fun dim k hdim hk => by
      have h1 : dim < 1 := hdim
      have h0 : dim = 0 := by omega
      subst h0
      simp)
    (fun dim mu hdim hmu hne => by
      have h1 : dim < 1 := hdim
      have h2 : mu < 2 := hmu
      have h0 : dim = 0 := by omega
      subst h0
      exact absurd (by simp) (hne mu h2))

/-! ## Leaf positions and their digits -/

lemma sum_range_mul_block {M : Type} [AddCommMonoid M] (a b : ℕ) (f : ℕ → M) :
    ∑ i in range (a * b), f i = ∑ k in range a, ∑ j in range b, f (k * b + j) := by
  induction a with
  | zero => simp
  | succ a ih =>
    rw [Nat.succ_mul, Finset.sum_range_add, ih, Finset.sum_range_succ]

lemma leafDigit_block_low (p D d k i : ℕ) (hd : d < D) :
    leafDigit p d (k * (p + 1) ^ D + i) = leafDigit p d i := by
  unfold leafDigit
  obtain ⟨e, rfl⟩ : ∃ e, D = d + 1 + e := ⟨D - (d + 1), by omega⟩
  have h : k * (p + 1) ^ (d + 1 + e) + i
      = i + (p + 1) ^ d * ((p + 1) * (k * (p + 1) ^ e)) := by ring
  rw [h, Nat.add_mul_div_left _ _ (pow_pos (Nat.succ_pos p) d), Nat.add_mul_mod_self_left]

lemma leafDigit_block_top (p D k i : ℕ) (hk : k < p + 1) (hi : i < (p + 1) ^ D) :
    leafDigit p D (k * (p + 1) ^ D + i) = k := by
  unfold leafDigit
  rw [add_comm, Nat.add_mul_div_right _ _ (pow_pos (Nat.succ_pos p) D),
    Nat.div_eq_of_lt hi, zero_add, Nat.mod_eq_of_lt hk]

lemma leafDigit_lt (p d i : ℕ) : leafDigit p d i < p + 1 :=
  Nat.mod_lt _ (Nat.succ_pos p)

lemma HelperConstVariable_succ (D p : ℕ) : HelperConstVariable (D + 1) p = D * (p + 1) := by
  unfold HelperConstVariable
  simp

lemma leafDigit_mod (p D d i : ℕ) (hd : d < D) :
    leafDigit p d (i % (p + 1) ^ D) = leafDigit p d i := by
  have h := leafDigit_block_low p D d (i / (p + 1) ^ D) (i % (p + 1) ^ D) hd
  rw [Nat.div_add_mod'] at h
  exact h.symm

lemma leafDigit_top_of_lt (p D i : ℕ) (hi : i < (p + 1) ^ (D + 1)) :
    leafDigit p D i = i / (p + 1) ^ D := by
  unfold leafDigit
  apply Nat.mod_eq_of_lt
  rw [Nat.div_lt_iff_lt_mul (pow_pos (Nat.succ_pos p) D)]
  rw [pow_succ'] at hi
  linarith [hi, mul_comm ((p + 1) ^ D) (p + 1)]

/-- The position `sum_d k_d * (p+1)^d` of a multi-index with `k_d <= p` is below `(p+1)^D`
and has the digits `k_d`. -/
lemma leafDigit_positional (p D : ℕ) (k : ℕ → ℕ) (hk : ∀ d : ℕ, d < D → k d < p + 1) :
    (∑ d in range D, k d * (p + 1) ^ d) < (p + 1) ^ D ∧
    ∀ d : ℕ, d < D → leafDigit p d (∑ d in range D, k d * (p + 1) ^ d) = k d := by
  induction D with
  | zero => simp
  | succ D ih =>
    obtain ⟨hlt, hdig⟩ := ih (fun d hd => hk d (Nat.lt_succ_of_lt hd))
    have hkD := hk D (Nat.lt_succ_self D)
    rw [Finset.sum_range_succ, add_comm]
    constructor
    · calc k D * (p + 1) ^ D + ∑ d in range D, k d * (p + 1) ^ d
          < k D * (p + 1) ^ D + (p + 1) ^ D := by omega
        _ = (k D + 1) * (p + 1) ^ D := by ring
        _ ≤ (p + 1) * (p + 1) ^ D := Nat.mul_le_mul_right _ hkD
        _ = (p + 1) ^ (D + 1) := by ring
    · intro d hd
      rcases Nat.lt_succ_iff_lt_or_eq.mp hd with h | h
      · rw [leafDigit_block_low p D d _ _ h]
        exact hdig d h
      · subst h
        exact leafDigit_block_top p d _ _ hkD hlt


lemma sum_leafDigit (p D i : ℕ) :
    ∑ d in range D, leafDigit p d i * (p + 1) ^ d = i % (p + 1) ^ D := by
  induction D with
  | zero => simp [Nat.mod_one]
  | succ D ih =>
    rw [Finset.sum_range_succ, ih, Nat.mod_pow_succ]
    unfold leafDigit
    ring

lemma leafDigit_injective (p D i i' : ℕ) (hi : i < (p + 1) ^ D) (hi' : i' < (p + 1) ^ D)
    (h : ∀ d : ℕ, d < D → leafDigit p d i = leafDigit p d i') : i = i' := by
  rw [← Nat.mod_eq_of_lt hi, ← Nat.mod_eq_of_lt hi', ← sum_leafDigit, ← sum_leafDigit]
  exact Finset.sum_congr rfl (fun d hd => by rw [h d (Finset.mem_range.mp hd)])

/-- A sum over the leaf positions `i < (p+1)^D` of a function of the digits is the sum
over all multi-indices in `{0..p}^D`. -/
lemma sum_leaves_eq_sum_multiIndices {M : Type} [AddCommMonoid M] (p D : ℕ)
    (G : (Fin D → Fin (p + 1)) → M) :
    ∑ i in range ((p + 1) ^ D), G (fun d => ⟨leafDigit p d i, leafDigit_lt p d i⟩)
      = ∑ k : Fin D → Fin (p + 1), G k := by
  refine Finset.sum_bij (fun i _ => fun d => ⟨leafDigit p d i, leafDigit_lt p d i⟩)
    (fun _ _ => Finset.mem_univ _) ?_ ?_ (fun _ _ => rfl)
  · intro i hi i' hi' h
    apply leafDigit_injective p D i i' (Finset.mem_range.mp hi) (Finset.mem_range.mp hi')
    intro d hd
    have := congrFun h ⟨d, hd⟩
    simpa using this
  · intro k _
    have hk : ∀ d : ℕ, d < D →
        (fun d => if h : d < D then ((k ⟨d, h⟩ : Fin (p + 1)) : ℕ) else 0) d < p + 1 := by
      intro d hd
      simp only [dif_pos hd]
      exact (k ⟨d, hd⟩).isLt
    obtain ⟨hlt, hdig⟩ := leafDigit_positional p D _ hk
    refine ⟨_, Finset.mem_range.mpr hlt, ?_⟩
    funext d
    apply Fin.ext
    have := hdig d d.isLt
    simpa using this

/-! ## The vector-form `TransformPoint` -/

lemma foldl_pointwise_add (n : ℕ) (g : ℕ → ℕ → K) (l : List ℕ) (opp : ℕ → K) (j : ℕ) :
    l.foldl (fun (opp : ℕ → K) (k : ℕ) => fun j => if j < n then opp j + g k j else opp j)
        opp j
      = if j < n then opp j + (l.map (fun k => g k j)).sum else opp j := by
  induction l generalizing opp with
  | nil => simp
  | cons k l ih =>
    rw [List.foldl_cons, ih]
    split_ifs
    · simp [add_assoc]
    · rfl

/-- The vector-form `TransformPoint`, entry by entry: the entries of the output
dimensions receive the weighted sum over the leaves, added to the previous contents
unless `SpaceDimension = 0`; the other entries are left alone. -/
lemma RecursiveBSplineTransformImplementation2.TransformPoint_apply
    (OutputDimension SplineOrder : ℕ) (memory : ℤ → K) (steps : ℕ → ℤ) (weights1D : ℕ → K)
    (SpaceDimension : ℕ) (opp : ℕ → K) (mu : ℕ → ℤ) (j : ℕ) :
    RecursiveBSplineTransformImplementation2.TransformPoint OutputDimension SplineOrder
        memory steps weights1D SpaceDimension opp mu j
      = if j < OutputDimension then
          (if SpaceDimension = 0 then 0 else opp j)
            + ∑ i in range ((SplineOrder + 1) ^ SpaceDimension),
                memory (mu j + ∑ d in range SpaceDimension,
                    steps (leafDigit SplineOrder d i + d * (SplineOrder + 1)))
                  * ∏ d in range SpaceDimension,
                      weights1D (leafDigit SplineOrder d i + d * (SplineOrder + 1))
        else opp j := by
  induction SpaceDimension generalizing opp mu with
  | zero =>
    simp [RecursiveBSplineTransformImplementation2.TransformPoint]
  | succ D ih =>
    unfold RecursiveBSplineTransformImplementation2.TransformPoint
    simp only [HelperConstVariable_succ]
    rw [foldl_pointwise_add OutputDimension (fun k j =>
      RecursiveBSplineTransformImplementation2.TransformPoint OutputDimension SplineOrder
        memory steps weights1D D (fun _ => 0)
        (fun j => mu j + steps (k + D * (SplineOrder + 1))) j
      * weights1D (k + D * (SplineOrder + 1)))]
    by_cases hj : j < OutputDimension
    · rw [if_pos hj, if_pos hj, if_neg (Nat.succ_ne_zero D), list_range_map_sum, pow_succ',
        sum_range_mul_block]
      congr 1
      refine Finset.sum_congr rfl (fun k hk => ?_)
      rw [Finset.mem_range] at hk
      rw [ih, if_pos hj]
      have h0 : (if D = 0 then (0 : K) else 0) = 0 := by split_ifs <;> rfl
      rw [h0, zero_add, Finset.sum_mul]
      refine Finset.sum_congr rfl (fun i hi => ?_)
      rw [Finset.mem_range] at hi
      rw [Finset.sum_range_succ, Finset.prod_range_succ,
        leafDigit_block_top SplineOrder D k i hk hi]
      have hs : ∑ d in range D, steps (leafDigit SplineOrder d (k * (SplineOrder + 1) ^ D + i)
            + d * (SplineOrder + 1))
          = ∑ d in range D, steps (leafDigit SplineOrder d i + d * (SplineOrder + 1)) :=
        Finset.sum_congr rfl (fun d hd => by
          rw [leafDigit_block_low SplineOrder D d k i (Finset.mem_range.mp hd)])
      have hp : ∏ d in range D, weights1D
            (leafDigit SplineOrder d (k * (SplineOrder + 1) ^ D + i) + d * (SplineOrder + 1))
          = ∏ d in range D, weights1D (leafDigit SplineOrder d i + d * (SplineOrder + 1)) :=
        Finset.prod_congr rfl (fun d hd => by
          rw [leafDigit_block_low SplineOrder D d k i (Finset.mem_range.mp hd)])
      rw [hs, hp]
      have haddr : mu j + steps (k + D * (SplineOrder + 1))
            + ∑ d in range D, steps (leafDigit SplineOrder d i + d * (SplineOrder + 1))
          = mu j + (∑ d in range D, steps (leafDigit SplineOrder d i + d * (SplineOrder + 1))
            + steps (k + D * (SplineOrder + 1))) := by ring
      rw [haddr]
      ring
    · rw [if_neg hj, if_neg hj]

/-- C17: for every `SpaceDimension D >= 1`, `SplineOrder p` and `OutputDimension`, the
vector-form `TransformPoint` adds to each output coordinate `opp[j]` the weighted sum, over
all multi-indices `(k_0..k_{D-1})` in `{0..p}^D`, of the coefficient at
`mu[j] + sum_d steps[k_d + d*(p+1)]` times the product over `d` of
`weights1D[k_d + d*(p+1)]`; called with `opp` zero-initialised, `opp[j]` is exactly this
sum over the `(p+1)^D` control-point neighbourhood (the same sum, enumerated by the leaf
positions `i < (p+1)^D` whose digits are the multi-indices). -/
theorem vector_TransformPoint_weighted_sum (OutputDimension SplineOrder SpaceDimension : ℕ)
    (memory : ℤ → K) (steps : ℕ → ℤ) (weights1D : ℕ → K) (opp : ℕ → K) (mu : ℕ → ℤ) (j : ℕ)
    (hD : 1 ≤ SpaceDimension) (hj : j < OutputDimension) :
    RecursiveBSplineTransformImplementation2.TransformPoint OutputDimension SplineOrder
        memory steps weights1D SpaceDimension opp mu j
      = opp j + ∑ k : Fin SpaceDimension → Fin (SplineOrder + 1),
          memory (mu j + ∑ d : Fin SpaceDimension,
              steps ((k d : ℕ) + (d : ℕ) * (SplineOrder + 1)))
            * ∏ d : Fin SpaceDimension,
                weights1D ((k d : ℕ) + (d : ℕ) * (SplineOrder + 1)) ∧
    RecursiveBSplineTransformImplementation2.TransformPoint OutputDimension SplineOrder
        memory steps weights1D SpaceDimension (fun _ => 0) mu j
      = ∑ k : Fin SpaceDimension → Fin (SplineOrder + 1),
          memory (mu j + ∑ d : Fin SpaceDimension,
              steps ((k d : ℕ) + (d : ℕ) * (SplineOrder + 1)))
            * ∏ d : Fin SpaceDimension,
                weights1D ((k d : ℕ) + (d : ℕ) * (SplineOrder + 1)) ∧
    RecursiveBSplineTransformImplementation2.TransformPoint OutputDimension SplineOrder
        memory steps weights1D SpaceDimension opp mu j
      = opp j + ∑ i in range ((SplineOrder + 1) ^ SpaceDimension),
          memory (mu j + ∑ d in range SpaceDimension,
              steps (leafDigit SplineOrder d i + d * (SplineOrder + 1)))
            * ∏ d in range SpaceDimension,
                weights1D (leafDigit SplineOrder d i + d * (SplineOrder + 1)) := by
  have hne : SpaceDimension ≠ 0 := by omega
  have hsum : ∑ i in range ((SplineOrder + 1) ^ SpaceDimension),
        memory (mu j + ∑ d in range SpaceDimension,
            steps (leafDigit SplineOrder d i + d * (SplineOrder + 1)))
          * ∏ d in range SpaceDimension,
              weights1D (leafDigit SplineOrder d i + d * (SplineOrder + 1))
      = ∑ k : Fin SpaceDimension → Fin (SplineOrder + 1),
          memory (mu j + ∑ d : Fin SpaceDimension,
              steps ((k d : ℕ) + (d : ℕ) * (SplineOrder + 1)))
            * ∏ d : Fin SpaceDimension,
                weights1D ((k d : ℕ) + (d : ℕ) * (SplineOrder + 1)) := by
    rw [← sum_leaves_eq_sum_multiIndices]
    refine Finset.sum_congr rfl (fun i _ => ?_)
    rw [Finset.sum_range, Finset.prod_range]
  refine ⟨?_, ?_, ?_⟩
  · rw [RecursiveBSplineTransformImplementation2.TransformPoint_apply, if_pos hj, if_neg hne,
      hsum]
  · rw [RecursiveBSplineTransformImplementation2.TransformPoint_apply, if_pos hj, if_neg hne,
      zero_add, hsum]
  · rw [RecursiveBSplineTransformImplementation2.TransformPoint_apply, if_pos hj, if_neg hne]

theorem vector_TransformPoint_weighted_sum_witness :
    RecursiveBSplineTransformImplementation2.TransformPoint 2 1
        (fun a : ℤ => (a : ℚ)) (fun k => (k : ℤ)) (fun _ => (1 / 2 : ℚ)) 1 (fun _ => 0)
        (fun j => 10 * (j : ℤ)) 1
      = ∑ k : Fin 1 → Fin (1 + 1),
          (fun a : ℤ => (a : ℚ)) ((fun j => 10 * (j : ℤ)) 1 + ∑ d : Fin 1,
              (fun k => (k : ℤ)) ((k d : ℕ) + (d : ℕ) * (1 + 1)))
            * ∏ d : Fin 1, (fun _ => (1 / 2 : ℚ)) ((k d : ℕ) + (d : ℕ) * (1 + 1)) :=
  (vector_TransformPoint_weighted_sum 2 1 1 (fun a : ℤ => (a : ℚ)) (fun k => (k : ℤ))
    (fun _ => (1 / 2 : ℚ)) (fun _ => 3) (fun j => 10 * (j : ℤ)) 1 (by decide)
    (by decide)).2.1

/-- C18: the scalar-form `TransformPoint` for `SpaceDimension = 0` returns exactly the
coefficient the base pointer `mu` points to, for every input; for `SpaceDimension = 1` and
`SplineOrder = 0` it returns exactly `weights1D[0]` times the coefficient at offset
`steps[0]` from `mu`. -/
theorem scalar_TransformPoint_base_cases (SplineOrder : ℕ) (memory : ℤ → K)
    (steps : ℕ → ℤ) (weights1D : ℕ → K) (coefBasePointer mu : ℤ) (indices : ℕ → ℕ) (c : ℕ) :
    (RecursiveBSplineTransformImplementation.TransformPoint SplineOrder memory steps
        weights1D coefBasePointer 0 mu indices c).coord = memory mu ∧
    (RecursiveBSplineTransformImplementation.TransformPoint 0 memory steps weights1D
        coefBasePointer 1 mu indices c).coord = weights1D 0 * memory (mu + steps 0) := by
  constructor
  · rfl
  · simp [RecursiveBSplineTransformImplementation.TransformPoint, HelperConstVariable,
      List.range_succ, mul_comm]

/-! ## The scalar-form `GetJacobian` -/

/-- The scalar-form `GetJacobian`: the cursor advances by `(SplineOrder + 1) ^
SpaceDimension`, the entries passed hold the start value times the weights of the digits
of their position, and all other entries are left alone. -/
lemma RecursiveBSplineTransformImplementation.GetJacobian_spec (SplineOrder : ℕ)
    (weights1D : ℕ → K) (SpaceDimension : ℕ) (st : JacobianCursor K) (value : K) :
    (RecursiveBSplineTransformImplementation.GetJacobian SplineOrder weights1D
        SpaceDimension st value).jacobians
      = st.jacobians + (SplineOrder + 1) ^ SpaceDimension ∧
    (∀ i : ℕ, i < (SplineOrder + 1) ^ SpaceDimension →
      (RecursiveBSplineTransformImplementation.GetJacobian SplineOrder weights1D
          SpaceDimension st value).memory (st.jacobians + i)
        = value * ∏ d in range SpaceDimension,
            weights1D (leafDigit SplineOrder d i + d * (SplineOrder + 1))) ∧
    (∀ a : ℕ, a < st.jacobians ∨ st.jacobians + (SplineOrder + 1) ^ SpaceDimension ≤ a →
      (RecursiveBSplineTransformImplementation.GetJacobian SplineOrder weights1D
          SpaceDimension st value).memory a = st.memory a) := by
  induction SpaceDimension generalizing st value with
  | zero =>
    refine ⟨by simp [RecursiveBSplineTransformImplementation.GetJacobian], ?_, ?_⟩
    · intro i hi
      have h0 : i = 0 := by simpa using hi
      subst h0
      simp [RecursiveBSplineTransformImplementation.GetJacobian]
    · intro a ha
      have hne : a ≠ st.jacobians := by
        rcases ha with h | h
        · omega
        · simp at h; omega
      simp [RecursiveBSplineTransformImplementation.GetJacobian, Function.update, hne]
  | succ D ih =>
    unfold RecursiveBSplineTransformImplementation.GetJacobian
    simp only [HelperConstVariable_succ]
    have hloop : ∀ n : ℕ,
        ((List.range n).foldl (fun (st : JacobianCursor K) (k : ℕ) =>
            RecursiveBSplineTransformImplementation.GetJacobian SplineOrder weights1D D st
              (value * weights1D (k + D * (SplineOrder + 1)))) st).jacobians
          = st.jacobians + n * (SplineOrder + 1) ^ D ∧
        (∀ i : ℕ, i < n * (SplineOrder + 1) ^ D →
          ((List.range n).foldl (fun (st : JacobianCursor K) (k : ℕ) =>
              RecursiveBSplineTransformImplementation.GetJacobian SplineOrder weights1D D st
                (value * weights1D (k + D * (SplineOrder + 1)))) st).memory (st.jacobians + i)
            = value * weights1D (i / (SplineOrder + 1) ^ D + D * (SplineOrder + 1))
              * ∏ d in range D, weights1D (leafDigit SplineOrder d i + d * (SplineOrder + 1))) ∧
        (∀ a : ℕ, a < st.jacobians ∨ st.jacobians + n * (SplineOrder + 1) ^ D ≤ a →
          ((List.range n).foldl (fun (st : JacobianCursor K) (k : ℕ) =>
              RecursiveBSplineTransformImplementation.GetJacobian SplineOrder weights1D D st
                (value * weights1D (k + D * (SplineOrder + 1)))) st).memory a
            = st.memory a) := by
      intro n
      induction n with
      | zero => simp
      | succ n ihn =>
        obtain ⟨hc, hv, hf⟩ := ihn
        rw [List.range_succ, List.foldl_append, List.foldl_cons, List.foldl_nil]
        obtain ⟨hc', hv', hf'⟩ := ih
          ((List.range n).foldl (fun (st : JacobianCursor K) (k : ℕ) =>
            RecursiveBSplineTransformImplementation.GetJacobian SplineOrder weights1D D st
              (value * weights1D (k + D * (SplineOrder + 1)))) st)
          (value * weights1D (n + D * (SplineOrder + 1)))
        have hq : 0 < (SplineOrder + 1) ^ D := pow_pos (Nat.succ_pos _) D
        refine ⟨?_, ?_, ?_⟩
        · rw [hc', hc]
          ring
        · intro i hi
          by_cases hlt : i < n * (SplineOrder + 1) ^ D
          · rw [hf' _ (Or.inl (by rw [hc]; omega)), hv i hlt]
          · have hge : n * (SplineOrder + 1) ^ D ≤ i := not_lt.mp hlt
            obtain ⟨r, rfl⟩ : ∃ r, i = n * (SplineOrder + 1) ^ D + r :=
              ⟨i - n * (SplineOrder + 1) ^ D, by omega⟩
            have hr : r < (SplineOrder + 1) ^ D := by
              rw [Nat.succ_mul] at hi
              omega
            have hpos := hv' r hr
            rw [hc] at hpos
            rw [← add_assoc, hpos]
            have hdiv : (n * (SplineOrder + 1) ^ D + r) / (SplineOrder + 1) ^ D = n := by
              rw [add_comm, Nat.add_mul_div_right _ _ hq, Nat.div_eq_of_lt hr, zero_add]
            rw [hdiv]
            congr 1
            refine Finset.prod_congr rfl (fun d hd => ?_)
            rw [leafDigit_block_low SplineOrder D d n r (Finset.mem_range.mp hd)]
        · intro a ha
          rw [hf' a (by rw [hc]; rcases ha with h | h
                        · left; omega
                        · right; rw [Nat.succ_mul] at h; omega),
            hf a (by rcases ha with h | h
                     · left; exact h
                     · right; rw [Nat.succ_mul] at h; omega)]
    obtain ⟨hc, hv, hf⟩ := hloop (SplineOrder + 1)
    rw [← pow_succ'] at hc hv hf
    refine ⟨hc, ?_, hf⟩
    intro i hi
    rw [hv i hi, Finset.prod_range_succ, leafDigit_top_of_lt SplineOrder D i hi]
    ring

/-- C19: for every `SpaceDimension D`, `SplineOrder p` and start value `v`, the scalar-form
`GetJacobian` writes exactly `(p+1)^D` consecutive entries starting at the output cursor
(all other entries keep their contents) and advances the cursor by `(p+1)^D`; the entry at
position `i`, where `i = sum_d k_d*(p+1)^d` with axis 0 varying fastest, equals `v` times
the product over `d` of `weights1D[k_d + d*(p+1)]`. -/
theorem scalar_GetJacobian_entries (SplineOrder SpaceDimension : ℕ) (weights1D : ℕ → K)
    (st : JacobianCursor K) (value : K) :
    (RecursiveBSplineTransformImplementation.GetJacobian SplineOrder weights1D
        SpaceDimension st value).jacobians
      = st.jacobians + (SplineOrder + 1) ^ SpaceDimension ∧
    (∀ k : ℕ → ℕ, (∀ d : ℕ, d < SpaceDimension → k d < SplineOrder + 1) →
      (∑ d in range SpaceDimension, k d * (SplineOrder + 1) ^ d)
          < (SplineOrder + 1) ^ SpaceDimension ∧
      (RecursiveBSplineTransformImplementation.GetJacobian SplineOrder weights1D
          SpaceDimension st value).memory
          (st.jacobians + ∑ d in range SpaceDimension, k d * (SplineOrder + 1) ^ d)
        = value * ∏ d in range SpaceDimension, weights1D (k d + d * (SplineOrder + 1))) ∧
    (∀ i : ℕ, i < (SplineOrder + 1) ^ SpaceDimension →
      (RecursiveBSplineTransformImplementation.GetJacobian SplineOrder weights1D
          SpaceDimension st value).memory (st.jacobians + i)
        = value * ∏ d in range SpaceDimension,
            weights1D (leafDigit SplineOrder d i + d * (SplineOrder + 1))) ∧
    (∀ a : ℕ, a < st.jacobians ∨ st.jacobians + (SplineOrder + 1) ^ SpaceDimension ≤ a →
      (RecursiveBSplineTransformImplementation.GetJacobian SplineOrder weights1D
          SpaceDimension st value).memory a = st.memory a) := by
  obtain ⟨hc, hv, hf⟩ := RecursiveBSplineTransformImplementation.GetJacobian_spec
    SplineOrder weights1D SpaceDimension st value
  refine ⟨hc, ?_, hv, hf⟩
  intro k hk
  obtain ⟨hlt, hdig⟩ := leafDigit_positional SplineOrder SpaceDimension k hk
  refine ⟨hlt, ?_⟩
  rw [hv _ hlt]
  congr 1
  refine Finset.prod_congr rfl (fun d hd => ?_)
  rw [hdig d (Finset.mem_range.mp hd)]

/-! ## `ComputeNonZeroJacobianIndices` -/

lemma add_mul_unique (B a a' j j' : ℕ) (ha : a < B) (ha' : a' < B)
    (h : a + j * B = a' + j' * B) : a = a' ∧ j = j' := by
  have h1 : a = a' := by
    have := congrArg (fun x => x % B) h
    simpa [Nat.add_mul_mod_self_right, Nat.mod_eq_of_lt ha, Nat.mod_eq_of_lt ha'] using this
  subst h1
  have hB : 0 < B := by omega
  have h2 : j * B = j' * B := by omega
  exact ⟨rfl, Nat.eq_of_mul_eq_mul_right hB h2⟩

lemma foldl_update_range {β : Type} (f : ℕ → ℕ) (g : ℕ → β) (a : ℕ → β) (n : ℕ)
    (hinj : ∀ j j' : ℕ, j < n → j' < n → f j = f j' → j = j') :
    (∀ j : ℕ, j < n →
      (List.range n).foldl (fun (a : ℕ → β) (j : ℕ) => Function.update a (f j) (g j)) a (f j)
        = g j) ∧
    (∀ pos : ℕ, (∀ j : ℕ, j < n → pos ≠ f j) →
      (List.range n).foldl (fun (a : ℕ → β) (j : ℕ) => Function.update a (f j) (g j)) a pos
        = a pos) := by
  induction n with
  | zero => simp
  | succ n ih =>
    obtain ⟨hv, hf⟩ := ih (fun j j' hj hj' => hinj j j' (Nat.lt_succ_of_lt hj)
      (Nat.lt_succ_of_lt hj'))
    rw [List.range_succ, List.foldl_append, List.foldl_cons, List.foldl_nil]
    constructor
    · intro j hj
      rcases Nat.lt_succ_iff_lt_or_eq.mp hj with h | h
      · have hne : f j ≠ f n := fun heq => by
          have := hinj j n hj (Nat.lt_succ_self n) heq
          omega
        rw [Function.update_noteq hne]
        exact hv j h
      · subst h
        rw [Function.update_same]
    · intro pos hpos
      rw [Function.update_noteq (hpos n (Nat.lt_succ_self n))]
      exact hf pos (fun j hj => hpos j (Nat.lt_succ_of_lt hj))

lemma ulong_add_offset (a b : ℕ) :
    ((((a : ℤ) + (b : ℤ)) % (ulongModulus : ℤ)).toNat) = (a + b) % ulongModulus := by
  have h : ((a : ℤ) + (b : ℤ)) % (ulongModulus : ℤ) = (((a + b) % ulongModulus : ℕ) : ℤ) := by
    push_cast
    rfl
  rw [h, Int.toNat_natCast]

/-- The entries that `ComputeNonZeroJacobianIndices` stores, for a call whose leaves fit
into one row of `BSplineNumberOfIndices` entries: leaf `i` and output dimension `j` are
stored at `c + i + j * BSplineNumberOfIndices`, all other entries are left alone, and the
counter advances by the number of leaves. -/
lemma RecursiveBSplineTransformImplementation2.ComputeNonZeroJacobianIndices_spec
    (OutputDimension SplineOrder BSplineNumberOfIndices parametersPerDim : ℕ)
    (gridOffsetTable : ℕ → ℤ) (G : ℕ → ℕ) (SpaceDimension : ℕ) (nzji : ℕ → ℕ)
    (currentIndex c : ℕ)
    (hG : ∀ d : ℕ, d < SpaceDimension → gridOffsetTable d = (G d : ℤ))
    (hrow : c + (SplineOrder + 1) ^ SpaceDimension ≤ BSplineNumberOfIndices)
    (hBU : BSplineNumberOfIndices < uintModulus)
    (hfit : BSplineNumberOfIndices * OutputDimension ≤ uintModulus)
    (hcur : currentIndex < ulongModulus)
    (hval : ∀ i j : ℕ, i < (SplineOrder + 1) ^ SpaceDimension → j < OutputDimension →
      currentIndex + ∑ d in range SpaceDimension, leafDigit SplineOrder d i * G d
        + j * parametersPerDim < ulongModulus) :
    (RecursiveBSplineTransformImplementation2.ComputeNonZeroJacobianIndices OutputDimension
        SplineOrder BSplineNumberOfIndices parametersPerDim gridOffsetTable SpaceDimension
        nzji currentIndex c).c = c + (SplineOrder + 1) ^ SpaceDimension ∧
    (∀ i j : ℕ, i < (SplineOrder + 1) ^ SpaceDimension → j < OutputDimension →
      (RecursiveBSplineTransformImplementation2.ComputeNonZeroJacobianIndices OutputDimension
          SplineOrder BSplineNumberOfIndices parametersPerDim gridOffsetTable SpaceDimension
          nzji currentIndex c).nzji (c + i + j * BSplineNumberOfIndices)
        = currentIndex + ∑ d in range SpaceDimension, leafDigit SplineOrder d i * G d
          + j * parametersPerDim) ∧
    (∀ pos : ℕ,
      (∀ i j : ℕ, i < (SplineOrder + 1) ^ SpaceDimension → j < OutputDimension →
        pos ≠ c + i + j * BSplineNumberOfIndices) →
      (RecursiveBSplineTransformImplementation2.ComputeNonZeroJacobianIndices OutputDimension
          SplineOrder BSplineNumberOfIndices parametersPerDim gridOffsetTable SpaceDimension
          nzji currentIndex c).nzji pos = nzji pos) := by
  induction SpaceDimension generalizing nzji currentIndex c with
  | zero =>
    simp only [pow_zero] at hrow hval
    have hposj : ∀ j : ℕ, j < OutputDimension →
        (c + j * BSplineNumberOfIndices) % uintModulus = c + j * BSplineNumberOfIndices := by
      intro j hj
      apply Nat.mod_eq_of_lt
      calc c + j * BSplineNumberOfIndices
          < BSplineNumberOfIndices + j * BSplineNumberOfIndices := by omega
        _ = BSplineNumberOfIndices * (j + 1) := by ring
        _ ≤ BSplineNumberOfIndices * OutputDimension := Nat.mul_le_mul_left _ hj
        _ ≤ uintModulus := hfit
    have hvalj : ∀ j : ℕ, j < OutputDimension →
        (currentIndex + j * parametersPerDim) % ulongModulus
          = currentIndex + j * parametersPerDim := by
      intro j hj
      apply Nat.mod_eq_of_lt
      have := hval 0 j Nat.one_pos hj
      simpa using this
    obtain ⟨hv, hf⟩ := foldl_update_range
      (fun j => (c + j * BSplineNumberOfIndices) % uintModulus)
      (fun j => (currentIndex + j * parametersPerDim) % ulongModulus) nzji OutputDimension
      (by
        intro j j' hj hj' h
        simp only [hposj j hj, hposj j' hj'] at h
        exact (add_mul_unique BSplineNumberOfIndices c c j j' (by omega) (by omega) h).2)
    unfold RecursiveBSplineTransformImplementation2.ComputeNonZeroJacobianIndices
    refine ⟨?_, ?_, ?_⟩
    · show (c + 1) % uintModulus = c + 1
      apply Nat.mod_eq_of_lt
      omega
    · intro i j hi hj
      have hi0 : i = 0 := by simpa using hi
      subst hi0
      have := hv j hj
      simp only [hposj j hj, hvalj j hj] at this
      simpa using this
    · intro pos hpos
      apply hf
      intro j hj
      rw [hposj j hj]
      have := hpos 0 j Nat.one_pos hj
      simpa using this
  | succ D ih =>
    have hq : 0 < (SplineOrder + 1) ^ D := pow_pos (Nat.succ_pos _) D
    have hGD : gridOffsetTable D = (G D : ℤ) := hG D (Nat.lt_succ_self D)
    have hoff : ∀ m i : ℕ, m < SplineOrder + 1 → i < (SplineOrder + 1) ^ D →
        ∑ d in range (D + 1),
            leafDigit SplineOrder d (m * (SplineOrder + 1) ^ D + i) * G d
          = ∑ d in range D, leafDigit SplineOrder d i * G d + m * G D := by
      intro m i hm hi
      rw [Finset.sum_range_succ, leafDigit_block_top SplineOrder D m i hm hi]
      congr 1
      refine Finset.sum_congr rfl (fun d hd => ?_)
      rw [leafDigit_block_low SplineOrder D d m i (Finset.mem_range.mp hd)]
    have hblock : ∀ m i : ℕ, m < SplineOrder + 1 → i < (SplineOrder + 1) ^ D →
        m * (SplineOrder + 1) ^ D + i < (SplineOrder + 1) ^ (D + 1) := by
      intro m i hm hi
      calc m * (SplineOrder + 1) ^ D + i < m * (SplineOrder + 1) ^ D + (SplineOrder + 1) ^ D :=
            by omega
        _ = (m + 1) * (SplineOrder + 1) ^ D := by ring
        _ ≤ (SplineOrder + 1) * (SplineOrder + 1) ^ D := Nat.mul_le_mul_right _ hm
        _ = (SplineOrder + 1) ^ (D + 1) := by ring
    have hloop : ∀ m : ℕ, m ≤ SplineOrder + 1 →
        ((List.range m).foldl
          (fun (st : NonZeroJacobianIndices × ℕ) (_ : ℕ) =>
            (RecursiveBSplineTransformImplementation2.ComputeNonZeroJacobianIndices
                OutputDimension SplineOrder BSplineNumberOfIndices parametersPerDim
                gridOffsetTable D st.1.nzji st.2 st.1.c,
              ((((st.2 : ℤ) + gridOffsetTable (D + 1 - 1)) % (ulongModulus : ℤ)).toNat)))
          ({ nzji := nzji, c := c }, currentIndex)).1.c = c + m * (SplineOrder + 1) ^ D ∧
        ((List.range m).foldl
          (fun (st : NonZeroJacobianIndices × ℕ) (_ : ℕ) =>
            (RecursiveBSplineTransformImplementation2.ComputeNonZeroJacobianIndices
                OutputDimension SplineOrder BSplineNumberOfIndices parametersPerDim
                gridOffsetTable D st.1.nzji st.2 st.1.c,
              ((((st.2 : ℤ) + gridOffsetTable (D + 1 - 1)) % (ulongModulus : ℤ)).toNat)))
          ({ nzji := nzji, c := c }, currentIndex)).2
            = (currentIndex + m * G D) % ulongModulus ∧
        (∀ i j : ℕ, i < m * (SplineOrder + 1) ^ D → j < OutputDimension →
          ((List.range m).foldl
            (fun (st : NonZeroJacobianIndices × ℕ) (_ : ℕ) =>
              (RecursiveBSplineTransformImplementation2.ComputeNonZeroJacobianIndices
                  OutputDimension SplineOrder BSplineNumberOfIndices parametersPerDim
                  gridOffsetTable D st.1.nzji st.2 st.1.c,
                ((((st.2 : ℤ) + gridOffsetTable (D + 1 - 1)) % (ulongModulus : ℤ)).toNat)))
            ({ nzji := nzji, c := c }, currentIndex)).1.nzji
              (c + i + j * BSplineNumberOfIndices)
            = currentIndex + ∑ d in range (D + 1), leafDigit SplineOrder d i * G d
              + j * parametersPerDim) ∧
        (∀ pos : ℕ,
          (∀ i j : ℕ, i < m * (SplineOrder + 1) ^ D → j < OutputDimension →
            pos ≠ c + i + j * BSplineNumberOfIndices) →
          ((List.range m).foldl
            (fun (st : NonZeroJacobianIndices × ℕ) (_ : ℕ) =>
              (RecursiveBSplineTransformImplementation2.ComputeNonZeroJacobianIndices
                  OutputDimension SplineOrder BSplineNumberOfIndices parametersPerDim
                  gridOffsetTable D st.1.nzji st.2 st.1.c,
                ((((st.2 : ℤ) + gridOffsetTable (D + 1 - 1)) % (ulongModulus : ℤ)).toNat)))
            ({ nzji := nzji, c := c }, currentIndex)).1.nzji pos = nzji pos) := by
      intro m
      induction m with
      | zero =>
        intro _
        refine ⟨by simp, ?_, by simp, by simp⟩
        simp only [List.range_zero, List.foldl_nil, Nat.zero_mul, Nat.add_zero]
        exact (Nat.mod_eq_of_lt hcur).symm
      | succ m ihm =>
        intro hm
        obtain ⟨hc, hcm, hv, hf⟩ := ihm (by omega)
        rw [List.range_succ, List.foldl_append, List.foldl_cons, List.foldl_nil]
        generalize (List.range m).foldl
          (fun (st : NonZeroJacobianIndices × ℕ) (_ : ℕ) =>
            (RecursiveBSplineTransformImplementation2.ComputeNonZeroJacobianIndices
                OutputDimension SplineOrder BSplineNumberOfIndices parametersPerDim
                gridOffsetTable D st.1.nzji st.2 st.1.c,
              ((((st.2 : ℤ) + gridOffsetTable (D + 1 - 1)) % (ulongModulus : ℤ)).toNat)))
          ({ nzji := nzji, c := c }, currentIndex) = st at hc hcm hv hf ⊢
        have hmlt : m < SplineOrder + 1 := by omega
        have hmq : m * (SplineOrder + 1) ^ D + (SplineOrder + 1) ^ D
            ≤ (SplineOrder + 1) ^ (D + 1) := by
          calc m * (SplineOrder + 1) ^ D + (SplineOrder + 1) ^ D
              = (m + 1) * (SplineOrder + 1) ^ D := by ring
            _ ≤ (SplineOrder + 1) * (SplineOrder + 1) ^ D := Nat.mul_le_mul_right _ hm
            _ = (SplineOrder + 1) ^ (D + 1) := by ring
        have hst2 : ∀ i j : ℕ, i < (SplineOrder + 1) ^ D → j < OutputDimension →
            st.2 = currentIndex + m * G D ∧
            currentIndex + m * G D + ∑ d in range D, leafDigit SplineOrder d i * G d
              + j * parametersPerDim < ulongModulus := by
          intro i j hi hj
          have h := hval (m * (SplineOrder + 1) ^ D + i) j (hblock m i hmlt hi) hj
          rw [hoff m i hmlt hi] at h
          have hlt : currentIndex + m * G D < ulongModulus := by omega
          rw [hcm, Nat.mod_eq_of_lt hlt]
          exact ⟨rfl, by omega⟩
        obtain ⟨hc', hv', hf'⟩ := ih st.1.nzji st.2 st.1.c
          (fun d hd => hG d (Nat.lt_succ_of_lt hd))
          (by rw [hc]; omega)
          (by rw [hcm]; exact Nat.mod_lt _ (by unfold ulongModulus; positivity))
          (fun i j hi hj => by
            obtain ⟨h1, h2⟩ := hst2 i j hi hj
            rw [h1]
            exact h2)
        refine ⟨?_, ?_, ?_, ?_⟩
        · show (RecursiveBSplineTransformImplementation2.ComputeNonZeroJacobianIndices
            OutputDimension SplineOrder BSplineNumberOfIndices parametersPerDim
            gridOffsetTable D st.1.nzji st.2 st.1.c).c = _
          rw [hc', hc]
          ring
        · show ((((st.2 : ℤ) + gridOffsetTable (D + 1 - 1)) % (ulongModulus : ℤ)).toNat) = _
          rw [Nat.add_sub_cancel, hGD, ulong_add_offset, hcm, Nat.add_mod, Nat.mod_mod,
            ← Nat.add_mod]
          congr 1
          ring
        · intro i j hi hj
          show (RecursiveBSplineTransformImplementation2.ComputeNonZeroJacobianIndices
            OutputDimension SplineOrder BSplineNumberOfIndices parametersPerDim
            gridOffsetTable D st.1.nzji st.2 st.1.c).nzji _ = _
          by_cases hlt : i < m * (SplineOrder + 1) ^ D
          · rw [hf' _ (by
              intro i' j' hi' hj' heq
              rw [hc] at heq
              have := (add_mul_unique BSplineNumberOfIndices _ _ j j' (by omega) (by omega)
                heq).1
              omega), hv i j hlt hj]
          · obtain ⟨r, rfl⟩ : ∃ r, i = m * (SplineOrder + 1) ^ D + r :=
              ⟨i - m * (SplineOrder + 1) ^ D, by omega⟩
            have hr : r < (SplineOrder + 1) ^ D := by
              rw [Nat.succ_mul] at hi
              omega
            have hpos := hv' r j hr hj
            have hposeq : c + (m * (SplineOrder + 1) ^ D + r) + j * BSplineNumberOfIndices
                = st.1.c + r + j * BSplineNumberOfIndices := by
              rw [hc]
              ring
            rw [hposeq, hpos, hoff m r hmlt hr, (hst2 r j hr hj).1]
            ring
        · intro pos hpos
          show (RecursiveBSplineTransformImplementation2.ComputeNonZeroJacobianIndices
            OutputDimension SplineOrder BSplineNumberOfIndices parametersPerDim
            gridOffsetTable D st.1.nzji st.2 st.1.c).nzji pos = _
          rw [hf' pos (by
              intro i' j' hi' hj'
              rw [hc, add_assoc c]
              exact hpos _ j' (by rw [Nat.succ_mul]; omega) hj'),
            hf pos (fun i j hi hj => hpos i j (by rw [Nat.succ_mul]; omega) hj)]
    obtain ⟨hc, -, hv, hf⟩ := hloop (SplineOrder + 1) le_rfl
    rw [← pow_succ'] at hc hv hf
    unfold RecursiveBSplineTransformImplementation2.ComputeNonZeroJacobianIndices
    exact ⟨hc, hv, hf⟩

lemma RecursiveBSplineTransformImplementation2.ComputeNonZeroJacobianIndices_of_no_output
    (SplineOrder BSplineNumberOfIndices parametersPerDim : ℕ) (gridOffsetTable : ℕ → ℤ)
    (SpaceDimension : ℕ) (nzji : ℕ → ℕ) (currentIndex c : ℕ) :
    (RecursiveBSplineTransformImplementation2.ComputeNonZeroJacobianIndices 0 SplineOrder
        BSplineNumberOfIndices parametersPerDim gridOffsetTable SpaceDimension nzji
        currentIndex c).nzji = nzji := by
  induction SpaceDimension generalizing nzji currentIndex c with
  | zero => simp [RecursiveBSplineTransformImplementation2.ComputeNonZeroJacobianIndices]
  | succ D ih =>
    unfold RecursiveBSplineTransformImplementation2.ComputeNonZeroJacobianIndices
    have hloop : ∀ (l : List ℕ) (st : NonZeroJacobianIndices × ℕ),
        (l.foldl
          (fun (st : NonZeroJacobianIndices × ℕ) (_ : ℕ) =>
            (RecursiveBSplineTransformImplementation2.ComputeNonZeroJacobianIndices
                0 SplineOrder BSplineNumberOfIndices parametersPerDim
                gridOffsetTable D st.1.nzji st.2 st.1.c,
              ((((st.2 : ℤ) + gridOffsetTable (D + 1 - 1)) % (ulongModulus : ℤ)).toNat)))
          st).1.nzji = st.1.nzji := by
      intro l
      induction l with
      | nil => intro st; rfl
      | cons k l ihl =>
        intro st
        rw [List.foldl_cons, ihl]
        exact ih _ _ _
    exact hloop _ _

/-! ## Mixed-radix grid indices -/

lemma mixedRadix_lt (n x : ℕ → ℕ) (D : ℕ) (h : ∀ d : ℕ, d < D → x d < n d) :
    ∑ d in range D, x d * ∏ e in range d, n e < ∏ d in range D, n d := by
  induction D with
  | zero => simp
  | succ D ih =>
    have h1 := ih (fun d hd => h d (Nat.lt_succ_of_lt hd))
    have h2 := h D (Nat.lt_succ_self D)
    rw [Finset.sum_range_succ, Finset.prod_range_succ]
    calc ∑ d in range D, x d * ∏ e in range d, n e + x D * ∏ e in range D, n e
        < ∏ e in range D, n e + x D * ∏ e in range D, n e := by omega
      _ = (x D + 1) * ∏ e in range D, n e := by ring
      _ ≤ n D * ∏ e in range D, n e := Nat.mul_le_mul_right _ h2
      _ = (∏ e in range D, n e) * n D := by ring

lemma mixedRadix_injective (n x y : ℕ → ℕ) (D : ℕ) (hx : ∀ d : ℕ, d < D → x d < n d)
    (hy : ∀ d : ℕ, d < D → y d < n d)
    (h : ∑ d in range D, x d * ∏ e in range d, n e = ∑ d in range D, y d * ∏ e in range d, n e) :
    ∀ d : ℕ, d < D → x d = y d := by
  induction D with
  | zero => intro d hd; omega
  | succ D ih =>
    have hx' := mixedRadix_lt n x D (fun d hd => hx d (Nat.lt_succ_of_lt hd))
    have hy' := mixedRadix_lt n y D (fun d hd => hy d (Nat.lt_succ_of_lt hd))
    rw [Finset.sum_range_succ, Finset.sum_range_succ] at h
    obtain ⟨h1, h2⟩ := add_mul_unique _ _ _ _ _ hx' hy' h
    intro d hd
    rcases Nat.lt_succ_iff_lt_or_eq.mp hd with hlt | heq
    · exact ih (fun d hd => hx d (Nat.lt_succ_of_lt hd)) (fun d hd => hy d (Nat.lt_succ_of_lt hd))
        h1 d hlt
    · rw [heq]
      exact h2

/-- C20 (counterexample): `SpaceDimension = 3`, `OutputDimension = 2`, `SplineOrder = 1` on
a grid of 2 x 2 x 2 nodes (strides 1, 2, 4; 8 parameters per dimension, 16 in total;
support region starting at node 0), with `BSplineNumberOfIndices = (1+1)^2 = 4`, the
constant not depending on `SpaceDimension`.  The 8 leaves do not fit into a row of 4
entries: leaf 0 with output dimension 1 and leaf 4 with output dimension 0 are the same
entry `nzji[4]`, only the entries 0 to 11 are written (the entries 12 to 15 keep the
content `999` they had), and only 12 different indices are produced instead of 16: the
indices 8 to 11 are lost. -/
theorem ComputeNonZeroJacobianIndices_distinct_counterexample :
    (List.range 16).map
        (RecursiveBSplineTransformImplementation2.ComputeNonZeroJacobianIndices 2 1 4 8
          (fun d => if d = 0 then 1 else if d = 1 then 2 else 4) 3 (fun _ => 999) 0 0).nzji
      = [0, 1, 2, 3, 4, 5, 6, 7, 12, 13, 14, 15, 999, 999, 999, 999] ∧
    ((range ((1 + 1) ^ 3) ×ˢ range 2).image
      (fun ij : ℕ × ℕ =>
        (RecursiveBSplineTransformImplementation2.ComputeNonZeroJacobianIndices 2 1 4 8
          (fun d => if d = 0 then 1 else if d = 1 then 2 else 4) 3 (fun _ => 999) 0 0).nzji
          (ij.1 + ij.2 * 4))).card = 12 ∧
    ¬ (∀ i j i' j' : ℕ, i < (1 + 1) ^ 3 → j < 2 → i' < (1 + 1) ^ 3 → j' < 2 →
      (RecursiveBSplineTransformImplementation2.ComputeNonZeroJacobianIndices 2 1 4 8
          (fun d => if d = 0 then 1 else if d = 1 then 2 else 4) 3 (fun _ => 999) 0 0).nzji
          (i + j * 4)
        = (RecursiveBSplineTransformImplementation2.ComputeNonZeroJacobianIndices 2 1 4 8
            (fun d => if d = 0 then 1 else if d = 1 then 2 else 4) 3 (fun _ => 999) 0 0).nzji
            (i' + j' * 4) →
      i = i' ∧ j = j') := by
  refine ⟨by decide, by decide, ?_⟩
  intro h
  have h2 := (h 0 1 4 0 (by norm_num) (by norm_num) (by norm_num) (by norm_num) rfl).1
  exact absurd h2 (by norm_num)

/-- C20 (amended): for every `SpaceDimension`, `OutputDimension` and `SplineOrder` such
that a row of `BSplineNumberOfIndices` entries holds the leaves,
`(SplineOrder+1)^SpaceDimension <= BSplineNumberOfIndices` (the constant does not depend on
`SpaceDimension`), `ComputeNonZeroJacobianIndices` started with counter `c = 0` produces
exactly `(SplineOrder+1)^SpaceDimension * OutputDimension` indices (one per leaf `i` and
output dimension `j`, stored at the pairwise distinct positions
`i + j * BSplineNumberOfIndices`, all other entries of `nzji` keeping their contents) that
are pairwise distinct and each within `[0, totalParameters)`, given that `gridOffsetTable`
is the stride table of a coefficient grid with extents `n d`, that the support region
starting at `currentIndex` (grid position `s`) lies inside the grid (so that every extent
is at least `SplineOrder+1`), that `parametersPerDim` is the number of grid nodes and
`totalParameters = parametersPerDim * OutputDimension`.  The constant
`BSplineNumberOfIndices` is an argument, and the positions and indices fit their
`unsigned int` and `unsigned long` types. -/
theorem ComputeNonZeroJacobianIndices_distinct_in_range
    (OutputDimension SplineOrder BSplineNumberOfIndices parametersPerDim totalParameters : ℕ)
    (gridOffsetTable : ℕ → ℤ) (SpaceDimension : ℕ) (nzji : ℕ → ℕ) (currentIndex : ℕ)
    (n s : ℕ → ℕ)
    (hsupport : ∀ d : ℕ, d < SpaceDimension → s d + SplineOrder + 1 ≤ n d)
    (hG : ∀ d : ℕ, d < SpaceDimension →
      gridOffsetTable d = ((∏ e in range d, n e : ℕ) : ℤ))
    (hppd : parametersPerDim = ∏ d in range SpaceDimension, n d)
    (hcur : currentIndex = ∑ d in range SpaceDimension, s d * ∏ e in range d, n e)
    (htotal : totalParameters = parametersPerDim * OutputDimension)
    (hulong : totalParameters ≤ ulongModulus)
    (hrow : (SplineOrder + 1) ^ SpaceDimension ≤ BSplineNumberOfIndices)
    (hBU : BSplineNumberOfIndices < uintModulus)
    (hfit : BSplineNumberOfIndices * OutputDimension ≤ uintModulus) :
    (∀ i j : ℕ, i < (SplineOrder + 1) ^ SpaceDimension → j < OutputDimension →
      (RecursiveBSplineTransformImplementation2.ComputeNonZeroJacobianIndices OutputDimension
          SplineOrder BSplineNumberOfIndices parametersPerDim gridOffsetTable SpaceDimension
          nzji currentIndex 0).nzji (i + j * BSplineNumberOfIndices) < totalParameters) ∧
    (∀ i j i' j' : ℕ, i < (SplineOrder + 1) ^ SpaceDimension → j < OutputDimension →
      i' < (SplineOrder + 1) ^ SpaceDimension → j' < OutputDimension →
      (RecursiveBSplineTransformImplementation2.ComputeNonZeroJacobianIndices OutputDimension
          SplineOrder BSplineNumberOfIndices parametersPerDim gridOffsetTable SpaceDimension
          nzji currentIndex 0).nzji (i + j * BSplineNumberOfIndices)
        = (RecursiveBSplineTransformImplementation2.ComputeNonZeroJacobianIndices
            OutputDimension SplineOrder BSplineNumberOfIndices parametersPerDim
            gridOffsetTable SpaceDimension nzji currentIndex 0).nzji
            (i' + j' * BSplineNumberOfIndices) →
      i = i' ∧ j = j') ∧
    (∀ i j i' j' : ℕ, i < (SplineOrder + 1) ^ SpaceDimension →
      i' < (SplineOrder + 1) ^ SpaceDimension →
      i + j * BSplineNumberOfIndices = i' + j' * BSplineNumberOfIndices → i = i' ∧ j = j') ∧
    (∀ pos : ℕ,
      (∀ i j : ℕ, i < (SplineOrder + 1) ^ SpaceDimension → j < OutputDimension →
        pos ≠ i + j * BSplineNumberOfIndices) →
      (RecursiveBSplineTransformImplementation2.ComputeNonZeroJacobianIndices OutputDimension
          SplineOrder BSplineNumberOfIndices parametersPerDim gridOffsetTable SpaceDimension
          nzji currentIndex 0).nzji pos = nzji pos) ∧
    ((range ((SplineOrder + 1) ^ SpaceDimension) ×ˢ range OutputDimension).image
      (fun ij : ℕ × ℕ =>
        (RecursiveBSplineTransformImplementation2.ComputeNonZeroJacobianIndices
          OutputDimension SplineOrder BSplineNumberOfIndices parametersPerDim
          gridOffsetTable SpaceDimension nzji currentIndex 0).nzji
          (ij.1 + ij.2 * BSplineNumberOfIndices))).card
      = (SplineOrder + 1) ^ SpaceDimension * OutputDimension := by
  have hpos : ∀ i j i' j' : ℕ, i < (SplineOrder + 1) ^ SpaceDimension →
      i' < (SplineOrder + 1) ^ SpaceDimension →
      i + j * BSplineNumberOfIndices = i' + j' * BSplineNumberOfIndices → i = i' ∧ j = j' :=
    fun i j i' j' hi hi' h =>
      add_mul_unique BSplineNumberOfIndices i i' j j' (by omega) (by omega) h
  rcases Nat.eq_zero_or_pos OutputDimension with hOut | hOut
  · subst hOut
    refine ⟨fun i j _ hj => absurd hj (Nat.not_lt_zero j),
      fun i j i' j' _ hj => absurd hj (Nat.not_lt_zero j), hpos, ?_, by simp⟩
    intro pos _
    rw [RecursiveBSplineTransformImplementation2.ComputeNonZeroJacobianIndices_of_no_output]
  · have hdig : ∀ i d : ℕ, d < SpaceDimension → s d + leafDigit SplineOrder d i < n d := by
      intro i d hd
      have h1 := hsupport d hd
      have h2 := leafDigit_lt SplineOrder d i
      omega
    have hA : ∀ i : ℕ,
        currentIndex + ∑ d in range SpaceDimension,
            leafDigit SplineOrder d i * ∏ e in range d, n e
          = ∑ d in range SpaceDimension,
              (s d + leafDigit SplineOrder d i) * ∏ e in range d, n e := by
      intro i
      rw [hcur, ← Finset.sum_add_distrib]
      exact Finset.sum_congr rfl (fun d _ => by ring)
    have hAlt : ∀ i : ℕ,
        currentIndex + ∑ d in range SpaceDimension,
            leafDigit SplineOrder d i * ∏ e in range d, n e < parametersPerDim := by
      intro i
      rw [hA, hppd]
      exact mixedRadix_lt n _ SpaceDimension (hdig i)
    have hvlt : ∀ i j : ℕ, j < OutputDimension →
        currentIndex + ∑ d in range SpaceDimension,
            leafDigit SplineOrder d i * ∏ e in range d, n e
          + j * parametersPerDim < totalParameters := by
      intro i j hj
      have h1 := hAlt i
      calc currentIndex + ∑ d in range SpaceDimension,
              leafDigit SplineOrder d i * ∏ e in range d, n e + j * parametersPerDim
          < parametersPerDim + j * parametersPerDim := by omega
        _ = parametersPerDim * (j + 1) := by ring
        _ ≤ parametersPerDim * OutputDimension := Nat.mul_le_mul_left _ hj
        _ = totalParameters := htotal.symm
    have hcurlt : currentIndex < ulongModulus := by
      have h1 := hvlt 0 0 hOut
      omega
    obtain ⟨-, hv, hf⟩ :=
      RecursiveBSplineTransformImplementation2.ComputeNonZeroJacobianIndices_spec
        OutputDimension SplineOrder BSplineNumberOfIndices parametersPerDim gridOffsetTable
        (fun d => ∏ e in range d, n e) SpaceDimension nzji currentIndex 0 hG
        (by omega) hBU hfit hcurlt
        (fun i j _ hj => lt_of_lt_of_le (hvlt i j hj) hulong)
    simp only [zero_add] at hv hf
    have hinj : ∀ i j i' j' : ℕ, i < (SplineOrder + 1) ^ SpaceDimension →
        j < OutputDimension → i' < (SplineOrder + 1) ^ SpaceDimension →
        j' < OutputDimension →
        (RecursiveBSplineTransformImplementation2.ComputeNonZeroJacobianIndices
            OutputDimension SplineOrder BSplineNumberOfIndices parametersPerDim
            gridOffsetTable SpaceDimension nzji currentIndex 0).nzji
            (i + j * BSplineNumberOfIndices)
          = (RecursiveBSplineTransformImplementation2.ComputeNonZeroJacobianIndices
              OutputDimension SplineOrder BSplineNumberOfIndices parametersPerDim
              gridOffsetTable SpaceDimension nzji currentIndex 0).nzji
              (i' + j' * BSplineNumberOfIndices) →
        i = i' ∧ j = j' := by
      intro i j i' j' hi hj hi' hj' h
      rw [hv i j hi hj, hv i' j' hi' hj'] at h
      obtain ⟨h1, h2⟩ := add_mul_unique parametersPerDim _ _ j j' (hAlt i) (hAlt i') h
      rw [hA, hA] at h1
      have hd := mixedRadix_injective n _ _ SpaceDimension (hdig i) (hdig i') h1
      refine ⟨leafDigit_injective SplineOrder SpaceDimension i i' hi hi' ?_, h2⟩
      intro d hd'
      have := hd d hd'
      omega
    refine ⟨?_, hinj, hpos, hf, ?_⟩
    · intro i j hi hj
      rw [hv i j hi hj]
      exact hvlt i j hj
    · rw [Finset.card_image_of_injOn, Finset.card_product, Finset.card_range,
        Finset.card_range]
      intro a ha b hb hab
      simp only [Finset.coe_product, Finset.coe_range, Set.mem_prod, Set.mem_Iio] at ha hb
      obtain ⟨h1, h2⟩ := hinj a.1 a.2 b.1 b.2 ha.1 ha.2 hb.1 hb.2 hab
      exact Prod.ext h1 h2

theorem ComputeNonZeroJacobianIndices_distinct_in_range_witness :
    ((range ((1 + 1) ^ 2) ×ˢ range 2).image
      (fun ij : ℕ × ℕ =>
        (RecursiveBSplineTransformImplementation2.ComputeNonZeroJacobianIndices
          2 1 4 9 (fun d => if d = 0 then 1 else 3) 2 (fun _ => 0) 4 0).nzji
          (ij.1 + ij.2 * 4))).card
      = (1 + 1) ^ 2 * 2 :=
  (ComputeNonZeroJacobianIndices_distinct_in_range 2 1 4 9 18
    (fun d => if d = 0 then 1 else 3) 2 (fun _ => 0) 4 (fun _ => 3) (fun _ => 1)
    (fun _ _ => by norm_num)
    (fun d hd => by
      have h : d = 0 ∨ d = 1 := by omega
      rcases h with h | h <;> subst h <;> simp)
    (by simp [Finset.prod_range_succ])
    (by simp [Finset.sum_range_succ, Finset.prod_range_succ])
    (by norm_num)
    (by unfold ulongModulus; norm_num)
    (by norm_num)
    (by unfold uintModulus; norm_num)
    (by unfold uintModulus; norm_num)).2.2.2.2

/-! ## `TransformPoint2` and `GetSpatialJacobian` -/

lemma foldl_addAtIndex_apply {α : Type} (idx : α → ℕ) (val : α → K) (l : List α)
    (a : ℕ → K) (pos : ℕ) :
    l.foldl (fun (a : ℕ → K) (x : α) => addAtIndex a (idx x) (val x)) a pos
      = a pos + (l.map (fun x => if pos = idx x then val x else 0)).sum := by
  induction l generalizing a with
  | nil => simp
  | cons x l ih =>
    rw [List.foldl_cons, ih, List.map_cons, List.sum_cons]
    unfold addAtIndex
    split_ifs <;> ring

lemma foldl_add_apply {α : Type} (step : (ℕ → K) → α → (ℕ → K)) (g : α → ℕ → K)
    (hstep : ∀ (a : ℕ → K) (x : α) (pos : ℕ), step a x pos = a pos + g x pos)
    (l : List α) (a : ℕ → K) (pos : ℕ) :
    l.foldl step a pos = a pos + (l.map (fun x => g x pos)).sum := by
  induction l generalizing a with
  | nil => simp
  | cons x l ih =>
    rw [List.foldl_cons, ih, hstep, List.map_cons, List.sum_cons]
    ring

/-- The weighted sum over the leaves that `TransformPoint2` and `GetSpatialJacobian`
compute for a coefficient pointer `a`: column `0` uses the weights of every axis, column
`c = n + 1` the derivative weight of axis `n`. -/
lemma leafSum_succ (SplineOrder : ℕ) (memory : ℤ → K) (gridOffsetTable : ℕ → ℤ)
    (wt : ℕ → ℕ → K) (D : ℕ) (a : ℤ) :
    ∑ i in range ((SplineOrder + 1) ^ (D + 1)),
        memory (a + ∑ d in range (D + 1), (leafDigit SplineOrder d i : ℤ) * gridOffsetTable d)
          * ∏ d in range (D + 1), wt d (leafDigit SplineOrder d i)
      = ∑ k in range (SplineOrder + 1),
          (∑ i in range ((SplineOrder + 1) ^ D),
            memory (a + (k : ℤ) * gridOffsetTable D
                + ∑ d in range D, (leafDigit SplineOrder d i : ℤ) * gridOffsetTable d)
              * ∏ d in range D, wt d (leafDigit SplineOrder d i)) * wt D k := by
  rw [pow_succ', sum_range_mul_block]
  refine Finset.sum_congr rfl (fun k hk => ?_)
  rw [Finset.mem_range] at hk
  rw [Finset.sum_mul]
  refine Finset.sum_congr rfl (fun i hi => ?_)
  rw [Finset.mem_range] at hi
  rw [Finset.sum_range_succ, Finset.prod_range_succ,
    leafDigit_block_top SplineOrder D k i hk hi]
  have hs : ∑ d in range D,
        (leafDigit SplineOrder d (k * (SplineOrder + 1) ^ D + i) : ℤ) * gridOffsetTable d
      = ∑ d in range D, (leafDigit SplineOrder d i : ℤ) * gridOffsetTable d :=
    Finset.sum_congr rfl (fun d hd => by
      rw [leafDigit_block_low SplineOrder D d k i (Finset.mem_range.mp hd)])
  have hp : ∏ d in range D, wt d (leafDigit SplineOrder d (k * (SplineOrder + 1) ^ D + i))
      = ∏ d in range D, wt d (leafDigit SplineOrder d i) :=
    Finset.prod_congr rfl (fun d hd => by
      rw [leafDigit_block_low SplineOrder D d k i (Finset.mem_range.mp hd)])
  rw [hs, hp]
  have haddr : a + (∑ d in range D, (leafDigit SplineOrder d i : ℤ) * gridOffsetTable d
        + (k : ℤ) * gridOffsetTable D)
      = a + (k : ℤ) * gridOffsetTable D
        + ∑ d in range D, (leafDigit SplineOrder d i : ℤ) * gridOffsetTable d := by ring
  rw [haddr]
  ring

/-- The vector-form `TransformPoint2`, entry by entry. -/
lemma RecursiveBSplineTransformImplementation2.TransformPoint2_apply
    (OutputDimension SplineOrder : ℕ) (memory : ℤ → K) (gridOffsetTable : ℕ → ℤ)
    (weights1D : ℕ → K) (SpaceDimension : ℕ) (opp : ℕ → K) (mu : ℕ → ℤ) (j : ℕ) :
    RecursiveBSplineTransformImplementation2.TransformPoint2 OutputDimension SplineOrder
        memory gridOffsetTable weights1D SpaceDimension opp mu j
      = if j < OutputDimension then
          (if SpaceDimension = 0 then 0 else opp j)
            + ∑ i in range ((SplineOrder + 1) ^ SpaceDimension),
                memory (mu j + ∑ d in range SpaceDimension,
                    (leafDigit SplineOrder d i : ℤ) * gridOffsetTable d)
                  * ∏ d in range SpaceDimension,
                      weights1D (leafDigit SplineOrder d i + d * (SplineOrder + 1))
        else opp j := by
  induction SpaceDimension generalizing opp mu with
  | zero =>
    simp [RecursiveBSplineTransformImplementation2.TransformPoint2]
  | succ D ih =>
    unfold RecursiveBSplineTransformImplementation2.TransformPoint2
    simp only [HelperConstVariable_succ, Nat.add_sub_cancel]
    have hloop : ∀ m : ℕ,
        ((List.range m).foldl
          (fun (st : (ℕ → K) × (ℕ → ℤ)) (k : ℕ) =>
            ((fun j =>
              if j < OutputDimension then
                st.1 j + RecursiveBSplineTransformImplementation2.TransformPoint2
                  OutputDimension SplineOrder memory gridOffsetTable weights1D D
                  (fun _ => 0) st.2 j * weights1D (k + D * (SplineOrder + 1))
              else st.1 j),
             fun j => st.2 j + gridOffsetTable D))
          (opp, mu)).2 = (fun j => mu j + (m : ℤ) * gridOffsetTable D) ∧
        ((List.range m).foldl
          (fun (st : (ℕ → K) × (ℕ → ℤ)) (k : ℕ) =>
            ((fun j =>
              if j < OutputDimension then
                st.1 j + RecursiveBSplineTransformImplementation2.TransformPoint2
                  OutputDimension SplineOrder memory gridOffsetTable weights1D D
                  (fun _ => 0) st.2 j * weights1D (k + D * (SplineOrder + 1))
              else st.1 j),
             fun j => st.2 j + gridOffsetTable D))
          (opp, mu)).1 j
          = if j < OutputDimension then
              opp j + ∑ k in range m,
                (∑ i in range ((SplineOrder + 1) ^ D),
                  memory (mu j + (k : ℤ) * gridOffsetTable D
                      + ∑ d in range D, (leafDigit SplineOrder d i : ℤ) * gridOffsetTable d)
                    * ∏ d in range D,
                        weights1D (leafDigit SplineOrder d i + d * (SplineOrder + 1)))
                  * weights1D (k + D * (SplineOrder + 1))
            else opp j := by
      intro m
      induction m with
      | zero => simp
      | succ m ihm =>
        obtain ⟨h2, h1⟩ := ihm
        rw [List.range_succ, List.foldl_append, List.foldl_cons, List.foldl_nil]
        constructor
        · show (fun j => _ + gridOffsetTable D) = _
          rw [h2]
          funext j
          push_cast
          ring
        · show (if j < OutputDimension then _ + _ * _ else _) = _
          rw [h1, h2, ih]
          by_cases hj : j < OutputDimension
          · simp only [if_pos hj, Finset.sum_range_succ]
            have h0 : (if D = 0 then (0 : K) else 0) = 0 := by split_ifs <;> rfl
            rw [h0, zero_add]
            ring
          · simp only [if_neg hj]
    rw [(hloop (SplineOrder + 1)).2]
    by_cases hj : j < OutputDimension
    · rw [if_pos hj, if_pos hj, if_neg (Nat.succ_ne_zero D)]
      congr 1
      exact (leafSum_succ SplineOrder memory gridOffsetTable
        (fun d k => weights1D (k + d * (SplineOrder + 1))) D (mu j)).symm
    · rw [if_neg hj, if_neg hj]

lemma leafWeightedSum_succ (SplineOrder : ℕ) (memory : ℤ → K) (gridOffsetTable : ℕ → ℤ)
    (wt : ℕ → ℕ → K) (D : ℕ) (a : ℤ) :
    leafWeightedSum SplineOrder memory gridOffsetTable wt (D + 1) a
      = ∑ k in range (SplineOrder + 1),
          leafWeightedSum SplineOrder memory gridOffsetTable wt D
            (a + (k : ℤ) * gridOffsetTable D) * wt D k :=
  leafSum_succ SplineOrder memory gridOffsetTable wt D a

lemma leafWeightedSum_congr (SplineOrder : ℕ) (memory : ℤ → K) (gridOffsetTable : ℕ → ℤ)
    (wt wt' : ℕ → ℕ → K) (D : ℕ) (a : ℤ) (h : ∀ d k : ℕ, d < D → wt d k = wt' d k) :
    leafWeightedSum SplineOrder memory gridOffsetTable wt D a
      = leafWeightedSum SplineOrder memory gridOffsetTable wt' D a := by
  unfold leafWeightedSum
  refine Finset.sum_congr rfl (fun i _ => ?_)
  congr 1
  exact Finset.prod_congr rfl (fun d hd => h d _ (Finset.mem_range.mp hd))

/-- The update of `sj` in one step of the loop of `GetSpatialJacobian`, at the entry of
output dimension `j` in column `c`. -/
lemma spatialJacobianUpdate_apply (OutputDimension D : ℕ) (sj tmp_sj : ℕ → K) (wk dwk : K)
    (j c : ℕ) (hj : j < OutputDimension) (hc : c ≤ D + 1) :
    (List.range OutputDimension).foldl
        (fun (sj : ℕ → K) (j : ℕ) =>
          addAtIndex
            ((List.range (D + 1)).foldl
              (fun (sj : ℕ → K) (n : ℕ) =>
                addAtIndex sj (j + OutputDimension * n) (tmp_sj (j + n * OutputDimension) * wk))
              sj)
            (j + OutputDimension * (D + 1)) (tmp_sj j * dwk))
        sj (j + OutputDimension * c)
      = sj (j + OutputDimension * c)
        + (if c ≤ D then tmp_sj (j + OutputDimension * c) * wk else tmp_sj j * dwk) := by
  rw [foldl_add_apply _ (fun (j' : ℕ) (pos : ℕ) =>
      ((List.range (D + 1)).map (fun n =>
        if pos = j' + OutputDimension * n then tmp_sj (j' + n * OutputDimension) * wk
        else 0)).sum
      + (if pos = j' + OutputDimension * (D + 1) then tmp_sj j' * dwk else 0))
    (by
      intro a x pos
      have h := foldl_addAtIndex_apply (fun n : ℕ => x + OutputDimension * n)
        (fun n : ℕ => tmp_sj (x + n * OutputDimension) * wk) (List.range (D + 1)) a pos
      show (if pos = x + OutputDimension * (D + 1) then _ + tmp_sj x * dwk else _) = _
      rw [h]
      dsimp only
      split_ifs <;> ring)]
  congr 1
  rw [list_range_map_sum, Finset.sum_eq_single_of_mem j (Finset.mem_range.mpr hj)]
  · rw [list_range_map_sum]
    by_cases hcD : c ≤ D
    · rw [if_pos hcD, Finset.sum_eq_single_of_mem c (Finset.mem_range.mpr (by omega)),
        if_pos rfl, if_neg, add_zero, mul_comm c OutputDimension]
      · intro h
        have h1 : OutputDimension * c = OutputDimension * (D + 1) := by omega
        have h2 := Nat.eq_of_mul_eq_mul_left (by omega : 0 < OutputDimension) h1
        omega
      · intro n _ hn
        rw [if_neg]
        intro h
        have h1 : OutputDimension * c = OutputDimension * n := by omega
        exact hn (Nat.eq_of_mul_eq_mul_left (by omega : 0 < OutputDimension) h1).symm
    · have hcD' : c = D + 1 := by omega
      subst hcD'
      rw [if_neg hcD, if_pos rfl, Finset.sum_eq_zero, zero_add]
      intro n hn
      rw [Finset.mem_range] at hn
      rw [if_neg]
      intro h
      have h1 : OutputDimension * (D + 1) = OutputDimension * n := by omega
      have h2 := Nat.eq_of_mul_eq_mul_left (by omega : 0 < OutputDimension) h1
      omega
  · intro j' hj' hne
    rw [Finset.mem_range] at hj'
    have huniq : ∀ n : ℕ, j + OutputDimension * c ≠ j' + OutputDimension * n := by
      intro n h
      rw [mul_comm OutputDimension c, mul_comm OutputDimension n] at h
      exact hne (add_mul_unique OutputDimension j j' c n hj hj' h).1.symm
    rw [list_range_map_sum, Finset.sum_eq_zero, if_neg (huniq _), add_zero]
    intro n _
    rw [if_neg (huniq n)]

/-- The loop of `GetSpatialJacobian` after `m` steps, for an arbitrary recursive call `R`
whose entries of output dimension `j` in column `c <= D` are `S (mu j) c`. -/
lemma spatialJacobian_loop (OutputDimension D : ℕ)
    (F : SpatialJacobianLoopState K → ℕ → SpatialJacobianLoopState K)
    (R : (ℕ → K) → (ℕ → ℤ) → (ℕ → K)) (S : ℤ → ℕ → K) (w dw : ℕ → K) (bot : ℤ)
    (hF : ∀ (st : SpatialJacobianLoopState K) (k : ℕ),
      F st k =
        { sj := (List.range OutputDimension).foldl
            (fun (sj : ℕ → K) (j : ℕ) =>
              addAtIndex
                ((List.range (D + 1)).foldl
                  (fun (sj : ℕ → K) (n : ℕ) =>
                    addAtIndex sj (j + OutputDimension * n)
                      (R st.tmp_sj st.tmp_mu (j + n * OutputDimension) * w k))
                  sj)
                (j + OutputDimension * (D + 1)) (R st.tmp_sj st.tmp_mu j * dw k))
            st.sj
          tmp_sj := R st.tmp_sj st.tmp_mu
          tmp_mu := fun j => st.tmp_mu j + bot })
    (hR : ∀ (tmp : ℕ → K) (mu : ℕ → ℤ) (j c : ℕ), j < OutputDimension → c ≤ D →
      R tmp mu (j + OutputDimension * c) = S (mu j) c)
    (init : SpatialJacobianLoopState K) (j c : ℕ) (hj : j < OutputDimension)
    (hc : c ≤ D + 1) (m : ℕ) :
    ((List.range m).foldl F init).tmp_mu = (fun j => init.tmp_mu j + (m : ℤ) * bot) ∧
    ((List.range m).foldl F init).sj (j + OutputDimension * c)
      = init.sj (j + OutputDimension * c)
        + ∑ k in range m,
            (if c ≤ D then S (init.tmp_mu j + (k : ℤ) * bot) c * w k
              else S (init.tmp_mu j + (k : ℤ) * bot) 0 * dw k) := by
  induction m with
  | zero => simp
  | succ m ihm =>
    obtain ⟨h2, h1⟩ := ihm
    rw [List.range_succ m, List.foldl_append, List.foldl_cons, List.foldl_nil, hF]
    constructor
    · show (fun j => _ + bot) = _
      rw [h2]
      funext j
      push_cast
      ring
    · show (List.foldl _ _ _ : ℕ → K) (j + OutputDimension * c) = _
      rw [spatialJacobianUpdate_apply OutputDimension D _ _ _ _ j c hj hc, h1, h2,
        Finset.sum_range_succ, add_assoc]
      congr 2
      by_cases hcD : c ≤ D
      · rw [if_pos hcD, if_pos hcD, hR _ _ j c hj hcD]
      · rw [if_neg hcD, if_neg hcD]
        have h0 := hR ((List.range m).foldl F init).tmp_sj
          (fun j => init.tmp_mu j + (m : ℤ) * bot) j 0 hj (Nat.zero_le D)
        rw [Nat.mul_zero, Nat.add_zero] at h0
        rw [h0]

/-- The vector-form `GetSpatialJacobian`, entry by entry: the entry of output dimension
`j` in column `c <= SpaceDimension` is the weighted sum over the leaves in which the axis
`c - 1` of the column takes its derivative weight; it does not depend on the previous
contents of `sj` nor on those of the local array. -/
lemma RecursiveBSplineTransformImplementation2.GetSpatialJacobian_apply
    (OutputDimension SplineOrder : ℕ) (memory : ℤ → K) (gridOffsetTable : ℕ → ℤ)
    (weights1D derivativeWeights1D uninitialised : ℕ → K) (SpaceDimension : ℕ)
    (sj : ℕ → K) (mu : ℕ → ℤ) (j c : ℕ) (hj : j < OutputDimension)
    (hc : c ≤ SpaceDimension) :
    RecursiveBSplineTransformImplementation2.GetSpatialJacobian OutputDimension SplineOrder
        memory gridOffsetTable weights1D derivativeWeights1D uninitialised SpaceDimension
        sj mu (j + OutputDimension * c)
      = leafWeightedSum SplineOrder memory gridOffsetTable
          (spatialJacobianWeight SplineOrder weights1D derivativeWeights1D c)
          SpaceDimension (mu j) := by
  induction SpaceDimension generalizing sj mu j c with
  | zero =>
    have hc0 : c = 0 := by omega
    subst hc0
    simp [RecursiveBSplineTransformImplementation2.GetSpatialJacobian, leafWeightedSum, hj]
  | succ D ih =>
    unfold RecursiveBSplineTransformImplementation2.GetSpatialJacobian
    simp only [HelperConstVariable_succ, Nat.add_sub_cancel]
    have hloop := (spatialJacobian_loop OutputDimension D _
      (RecursiveBSplineTransformImplementation2.GetSpatialJacobian OutputDimension
        SplineOrder memory gridOffsetTable weights1D derivativeWeights1D uninitialised D)
      (fun a c => leafWeightedSum SplineOrder memory gridOffsetTable
        (spatialJacobianWeight SplineOrder weights1D derivativeWeights1D c) D a)
      (fun k => weights1D (k + D * (SplineOrder + 1)))
      (fun k => derivativeWeights1D (k + D * (SplineOrder + 1)))
      (gridOffsetTable D)
      (fun _ _ => rfl)
      (fun tmp mu j c hj hc => ih tmp mu j c hj hc)
      { sj := fun n => if n < OutputDimension * (D + 1 + 1) then 0 else sj n
        tmp_sj := uninitialised
        tmp_mu := mu }
      j c hj hc (SplineOrder + 1)).2
    refine hloop.trans ?_
    have hzero : (if j + OutputDimension * c < OutputDimension * (D + 1 + 1) then (0 : K)
        else sj (j + OutputDimension * c)) = 0 := by
      rw [if_pos]
      calc j + OutputDimension * c < OutputDimension + OutputDimension * c := by omega
        _ = OutputDimension * (c + 1) := by ring
        _ ≤ OutputDimension * (D + 1 + 1) := Nat.mul_le_mul_left _ (by omega)
    dsimp only
    rw [hzero, zero_add, leafWeightedSum_succ]
    refine Finset.sum_congr rfl (fun k _ => ?_)
    by_cases hcD : c ≤ D
    · rw [if_pos hcD]
      congr 1
      unfold spatialJacobianWeight
      rw [if_neg (by omega)]
    · have hcD' : c = D + 1 := by omega
      subst hcD'
      rw [if_neg hcD]
      congr 1
      · apply leafWeightedSum_congr
        intro d k hd
        unfold spatialJacobianWeight
        rw [if_neg (by omega), if_neg (by omega)]
      · unfold spatialJacobianWeight
        rw [if_pos rfl]

/-- C21 (counterexample): `SpaceDimension = 3`, `OutputDimension = 2`, `SplineOrder = 1`,
strides 1, 2, 4, 8 parameters per dimension, `currentIndex = 0` and
`BSplineNumberOfIndices = (1+1)^2 = 4`: for leaf `i = 0` (all `k_d = 0`) and output
dimension `j = 1` the entry `nzji[0 + 1*4]` holds 4, the index of leaf 4 and output
dimension 0 that was stored there later, and not `0 + 0 + 1*8 = 8`. -/
theorem ComputeNonZeroJacobianIndices_entries_counterexample :
    (RecursiveBSplineTransformImplementation2.ComputeNonZeroJacobianIndices 2 1 4 8
        (fun d => if d = 0 then 1 else if d = 1 then 2 else 4) 3 (fun _ => 999) 0 0).nzji
        (0 + 1 * 4) = 4 ∧
    (((RecursiveBSplineTransformImplementation2.ComputeNonZeroJacobianIndices 2 1 4 8
        (fun d => if d = 0 then 1 else if d = 1 then 2 else 4) 3 (fun _ => 999) 0 0).nzji
        (0 + 1 * 4) : ℕ) : ℤ)
      ≠ ((0 : ℕ) : ℤ)
        + ∑ d in range 3, ((leafDigit 1 d 0 : ℕ) : ℤ)
            * (fun d : ℕ => if d = 0 then (1 : ℤ) else if d = 1 then 2 else 4) d
        + ((1 : ℕ) : ℤ) * ((8 : ℕ) : ℤ) := by
  have h : (RecursiveBSplineTransformImplementation2.ComputeNonZeroJacobianIndices 2 1 4 8
        (fun d => if d = 0 then 1 else if d = 1 then 2 else 4) 3 (fun _ => 999) 0 0).nzji
        (0 + 1 * 4) = 4 := by decide
  refine ⟨h, ?_⟩
  rw [h]
  decide

/-- C21 (amended): when a row of `BSplineNumberOfIndices` entries holds the leaves,
`(p+1)^SpaceDimension <= BSplineNumberOfIndices` (the constant does not depend on
`SpaceDimension`), then for every leaf position `i = sum_d k_d*(p+1)^d` (axis 0 fastest,
the order in which `GetJacobian` emits its entries) and every output dimension `j`,
`ComputeNonZeroJacobianIndices` started with `c = 0` stores at
`nzji[i + j*BSplineNumberOfIndices]` the value
`currentIndex + sum_d k_d*gridOffsetTable[d] + j*parametersPerDim`, and leaves
`c = (p+1)^SpaceDimension`.  The constant `BSplineNumberOfIndices` is an argument; the
strides are not negative, and the positions and the stored values fit their
`unsigned int` and `unsigned long` types. -/
theorem ComputeNonZeroJacobianIndices_entries
    (OutputDimension SplineOrder BSplineNumberOfIndices parametersPerDim : ℕ)
    (gridOffsetTable : ℕ → ℤ) (SpaceDimension : ℕ) (nzji : ℕ → ℕ) (currentIndex : ℕ)
    (hG : ∀ d : ℕ, d < SpaceDimension → 0 ≤ gridOffsetTable d)
    (hrow : (SplineOrder + 1) ^ SpaceDimension ≤ BSplineNumberOfIndices)
    (hBU : BSplineNumberOfIndices < uintModulus)
    (hfit : BSplineNumberOfIndices * OutputDimension ≤ uintModulus)
    (hcur : currentIndex < ulongModulus)
    (hval : ∀ i j : ℕ, i < (SplineOrder + 1) ^ SpaceDimension → j < OutputDimension →
      (currentIndex : ℤ)
        + ∑ d in range SpaceDimension, (leafDigit SplineOrder d i : ℤ) * gridOffsetTable d
        + (j : ℤ) * (parametersPerDim : ℤ) < (ulongModulus : ℤ)) :
    (RecursiveBSplineTransformImplementation2.ComputeNonZeroJacobianIndices OutputDimension
        SplineOrder BSplineNumberOfIndices parametersPerDim gridOffsetTable SpaceDimension
        nzji currentIndex 0).c = (SplineOrder + 1) ^ SpaceDimension ∧
    (∀ (k : ℕ → ℕ) (j : ℕ), (∀ d : ℕ, d < SpaceDimension → k d < SplineOrder + 1) →
      j < OutputDimension →
      (((RecursiveBSplineTransformImplementation2.ComputeNonZeroJacobianIndices
          OutputDimension SplineOrder BSplineNumberOfIndices parametersPerDim
          gridOffsetTable SpaceDimension nzji currentIndex 0).nzji
          ((∑ d in range SpaceDimension, k d * (SplineOrder + 1) ^ d)
            + j * BSplineNumberOfIndices) : ℕ) : ℤ)
        = (currentIndex : ℤ) + ∑ d in range SpaceDimension, (k d : ℤ) * gridOffsetTable d
          + (j : ℤ) * (parametersPerDim : ℤ)) ∧
    (∀ i j : ℕ, i < (SplineOrder + 1) ^ SpaceDimension → j < OutputDimension →
      (((RecursiveBSplineTransformImplementation2.ComputeNonZeroJacobianIndices
          OutputDimension SplineOrder BSplineNumberOfIndices parametersPerDim
          gridOffsetTable SpaceDimension nzji currentIndex 0).nzji
          (i + j * BSplineNumberOfIndices) : ℕ) : ℤ)
        = (currentIndex : ℤ)
          + ∑ d in range SpaceDimension, (leafDigit SplineOrder d i : ℤ) * gridOffsetTable d
          + (j : ℤ) * (parametersPerDim : ℤ)) := by
  have hGn : ∀ d : ℕ, d < SpaceDimension →
      gridOffsetTable d = (((gridOffsetTable d).toNat : ℕ) : ℤ) :=
    fun d hd => (Int.toNat_of_nonneg (hG d hd)).symm
  have hsum : ∀ x : ℕ → ℕ,
      ((∑ d in range SpaceDimension, x d * (gridOffsetTable d).toNat : ℕ) : ℤ)
        = ∑ d in range SpaceDimension, (x d : ℤ) * gridOffsetTable d := by
    intro x
    push_cast
    refine Finset.sum_congr rfl (fun d hd => ?_)
    rw [← hGn d (Finset.mem_range.mp hd)]
  obtain ⟨hc, hv, -⟩ :=
    RecursiveBSplineTransformImplementation2.ComputeNonZeroJacobianIndices_spec
      OutputDimension SplineOrder BSplineNumberOfIndices parametersPerDim gridOffsetTable
      (fun d => (gridOffsetTable d).toNat) SpaceDimension nzji currentIndex 0 hGn
      (by omega) hBU hfit hcur
      (fun i j hi hj => by
        have h := hval i j hi hj
        rw [← hsum] at h
        exact_mod_cast h)
  simp only [zero_add] at hc hv
  have hleaf : ∀ i j : ℕ, i < (SplineOrder + 1) ^ SpaceDimension → j < OutputDimension →
      (((RecursiveBSplineTransformImplementation2.ComputeNonZeroJacobianIndices
          OutputDimension SplineOrder BSplineNumberOfIndices parametersPerDim
          gridOffsetTable SpaceDimension nzji currentIndex 0).nzji
          (i + j * BSplineNumberOfIndices) : ℕ) : ℤ)
        = (currentIndex : ℤ)
          + ∑ d in range SpaceDimension, (leafDigit SplineOrder d i : ℤ) * gridOffsetTable d
          + (j : ℤ) * (parametersPerDim : ℤ) := by
    intro i j hi hj
    rw [hv i j hi hj, ← hsum]
    push_cast
    rfl
  refine ⟨hc, ?_, hleaf⟩
  intro k j hk hj
  obtain ⟨hlt, hdig⟩ := leafDigit_positional SplineOrder SpaceDimension k hk
  rw [hleaf _ j hlt hj]
  congr 2
  refine Finset.sum_congr rfl (fun d hd => ?_)
  rw [hdig d (Finset.mem_range.mp hd)]

theorem ComputeNonZeroJacobianIndices_entries_witness :
    (RecursiveBSplineTransformImplementation2.ComputeNonZeroJacobianIndices 2 1 4 9
        (fun d => if d = 0 then 1 else 3) 2 (fun _ => 0) 4 0).c = (1 + 1) ^ 2 ∧
    (((RecursiveBSplineTransformImplementation2.ComputeNonZeroJacobianIndices 2 1 4 9
        (fun d => if d = 0 then 1 else 3) 2 (fun _ => 0) 4 0).nzji (3 + 1 * 4) : ℕ) : ℤ)
      = 17 := by
  obtain ⟨hc, -, hv⟩ := ComputeNonZeroJacobianIndices_entries 2 1 4 9
    (fun d => if d = 0 then 1 else 3) 2 (fun _ => 0) 4
    (fun d _ => by dsimp only; split_ifs <;> norm_num)
    (by norm_num)
    (by unfold uintModulus; norm_num)
    (by unfold uintModulus; norm_num)
    (by unfold ulongModulus; norm_num)
    (fun i j hi hj => by
      have h0 := leafDigit_lt 1 0 i
      have h1 := leafDigit_lt 1 1 i
      simp only [Finset.sum_range_succ, Finset.sum_range_zero, zero_add, if_true,
        one_ne_zero, if_false]
      unfold ulongModulus
      push_cast
      omega)
  refine ⟨hc, ?_⟩
  rw [hv 3 1 (by norm_num) (by norm_num)]
  simp [Finset.sum_range_succ, leafDigit]

/-- C22: for every `SpaceDimension D >= 1`, output dimension `j` and axis `n < D`,
`GetSpatialJacobian` computes the derivative column: entry
`sj[j + OutputDimension*(n+1)]` equals the sum over all multi-indices `k` in `{0..p}^D` of
the coefficient at `mu[j] + sum_d k_d*gridOffsetTable[d]` times
`derivativeWeights1D[k_n + n*(p+1)]` times the product over `d != n` of
`weights1D[k_d + d*(p+1)]` (the same sum, enumerated by the leaf positions
`i < (p+1)^D` whose digits are the multi-indices), whatever `sj` and the local array
contained before. -/
theorem GetSpatialJacobian_derivative_column (OutputDimension SplineOrder : ℕ)
    (memory : ℤ → K) (gridOffsetTable : ℕ → ℤ)
    (weights1D derivativeWeights1D uninitialised : ℕ → K) (SpaceDimension : ℕ)
    (sj : ℕ → K) (mu : ℕ → ℤ) (j n : ℕ) (hj : j < OutputDimension)
    (hn : n < SpaceDimension) :
    RecursiveBSplineTransformImplementation2.GetSpatialJacobian OutputDimension SplineOrder
        memory gridOffsetTable weights1D derivativeWeights1D uninitialised SpaceDimension
        sj mu (j + OutputDimension * (n + 1))
      = ∑ k : Fin SpaceDimension → Fin (SplineOrder + 1),
          memory (mu j + ∑ d : Fin SpaceDimension, ((k d : ℕ) : ℤ) * gridOffsetTable d)
            * (derivativeWeights1D ((k ⟨n, hn⟩ : ℕ) + n * (SplineOrder + 1))
              * ∏ d in (Finset.univ : Finset (Fin SpaceDimension)).erase ⟨n, hn⟩,
                  weights1D ((k d : ℕ) + (d : ℕ) * (SplineOrder + 1))) ∧
    RecursiveBSplineTransformImplementation2.GetSpatialJacobian OutputDimension SplineOrder
        memory gridOffsetTable weights1D derivativeWeights1D uninitialised SpaceDimension
        sj mu (j + OutputDimension * (n + 1))
      = ∑ i in range ((SplineOrder + 1) ^ SpaceDimension),
          memory (mu j + ∑ d in range SpaceDimension,
              (leafDigit SplineOrder d i : ℤ) * gridOffsetTable d)
            * (derivativeWeights1D (leafDigit SplineOrder n i + n * (SplineOrder + 1))
              * ∏ d in (range SpaceDimension).erase n,
                  weights1D (leafDigit SplineOrder d i + d * (SplineOrder + 1))) := by
  rw [RecursiveBSplineTransformImplementation2.GetSpatialJacobian_apply _ _ _ _ _ _ _ _ _ _
    j (n + 1) hj (by omega)]
  unfold leafWeightedSum
  constructor
  · rw [← sum_leaves_eq_sum_multiIndices]
    refine Finset.sum_congr rfl (fun i _ => ?_)
    rw [Finset.sum_range, Finset.prod_range,
      ← Finset.mul_prod_erase Finset.univ _ (Finset.mem_univ (⟨n, hn⟩ : Fin SpaceDimension))]
    congr 2
    · unfold spatialJacobianWeight
      rw [if_pos rfl]
    · refine Finset.prod_congr rfl (fun d hd => ?_)
      have hne : (d : ℕ) ≠ n := fun h => (Finset.ne_of_mem_erase hd) (Fin.ext h)
      unfold spatialJacobianWeight
      rw [if_neg (by omega)]
  · refine Finset.sum_congr rfl (fun i _ => ?_)
    rw [← Finset.mul_prod_erase (range SpaceDimension) _ (Finset.mem_range.mpr hn)]
    congr 2
    · unfold spatialJacobianWeight
      rw [if_pos rfl]
    · refine Finset.prod_congr rfl (fun d hd => ?_)
      have hne : d ≠ n := Finset.ne_of_mem_erase hd
      unfold spatialJacobianWeight
      rw [if_neg (by omega)]

theorem GetSpatialJacobian_derivative_column_witness :
    RecursiveBSplineTransformImplementation2.GetSpatialJacobian 2 1
        (fun a : ℤ => (a : ℚ)) (fun d => if d = 0 then 1 else 3) (fun _ => (1 / 2 : ℚ))
        (fun k => if k % 2 = 0 then -1 else 1) (fun _ => 7) 2 (fun _ => 5)
        (fun j => 10 * (j : ℤ)) (1 + 2 * (0 + 1))
      = ∑ i in range ((1 + 1) ^ 2),
          (fun a : ℤ => (a : ℚ)) ((fun j => 10 * (j : ℤ)) 1 + ∑ d in range 2,
              (leafDigit 1 d i : ℤ) * (fun d => if d = 0 then 1 else 3) d)
            * ((fun k => if k % 2 = 0 then (-1 : ℚ) else 1) (leafDigit 1 0 i + 0 * (1 + 1))
              * ∏ d in (range 2).erase 0,
                  (fun _ => (1 / 2 : ℚ)) (leafDigit 1 d i + d * (1 + 1))) :=
  (GetSpatialJacobian_derivative_column 2 1 (fun a : ℤ => (a : ℚ))
    (fun d => if d = 0 then 1 else 3) (fun _ => (1 / 2 : ℚ))
    (fun k => if k % 2 = 0 then -1 else 1) (fun _ => 7) 2 (fun _ => 5)
    (fun j => 10 * (j : ℤ)) 1 0 (by decide) (by decide)).2

/-- C23: `GetSpatialJacobian` delivers the displacement as a by-product: for every input,
its first `OutputDimension` entries `sj[0..OutputDimension-1]` equal the output of
`TransformPoint2` called on the same coefficient pointers, offset table and weights with a
zero-initialised output point, whatever `sj` (and the local array) contained before the
call. -/
theorem GetSpatialJacobian_displacement_eq_TransformPoint2 (OutputDimension SplineOrder : ℕ)
    (memory : ℤ → K) (gridOffsetTable : ℕ → ℤ)
    (weights1D derivativeWeights1D uninitialised : ℕ → K) (SpaceDimension : ℕ)
    (sj : ℕ → K) (mu : ℕ → ℤ) (j : ℕ) (hj : j < OutputDimension) :
    RecursiveBSplineTransformImplementation2.GetSpatialJacobian OutputDimension SplineOrder
        memory gridOffsetTable weights1D derivativeWeights1D uninitialised SpaceDimension
        sj mu j
      = RecursiveBSplineTransformImplementation2.TransformPoint2 OutputDimension SplineOrder
          memory gridOffsetTable weights1D SpaceDimension (fun _ => 0) mu j := by
  have h := RecursiveBSplineTransformImplementation2.GetSpatialJacobian_apply
    OutputDimension SplineOrder memory gridOffsetTable weights1D derivativeWeights1D
    uninitialised SpaceDimension sj mu j 0 hj (Nat.zero_le _)
  rw [Nat.mul_zero, Nat.add_zero] at h
  rw [h, RecursiveBSplineTransformImplementation2.TransformPoint2_apply, if_pos hj]
  have h0 : (if SpaceDimension = 0 then (0 : K) else (fun _ => (0 : K)) j) = 0 := by
    split_ifs <;> rfl
  rw [h0, zero_add]
  unfold leafWeightedSum
  refine Finset.sum_congr rfl (fun i _ => ?_)
  congr 1

theorem GetSpatialJacobian_displacement_eq_TransformPoint2_witness :
    RecursiveBSplineTransformImplementation2.GetSpatialJacobian 2 1
        (fun a : ℤ => (a : ℚ)) (fun d => if d = 0 then 1 else 3) (fun _ => (1 / 2 : ℚ))
        (fun k => if k % 2 = 0 then -1 else 1) (fun _ => 7) 2 (fun _ => 5)
        (fun j => 10 * (j : ℤ)) 1
      = RecursiveBSplineTransformImplementation2.TransformPoint2 2 1
          (fun a : ℤ => (a : ℚ)) (fun d => if d = 0 then 1 else 3) (fun _ => (1 / 2 : ℚ)) 2
          (fun _ => 0) (fun j => 10 * (j : ℤ)) 1 :=
  GetSpatialJacobian_displacement_eq_TransformPoint2 2 1 (fun a : ℤ => (a : ℚ))
    (fun d => if d = 0 then 1 else 3) (fun _ => (1 / 2 : ℚ))
    (fun k => if k % 2 = 0 then -1 else 1) (fun _ => 7) 2 (fun _ => 5)
    (fun j => 10 * (j : ℤ)) 1 (by decide)

/-! ## Sampling of the fixed image domain: the rejection loop -/

section Sampling3

variable {Idx Pt : Type} (sampler : FixedImageSampler K Idx Pt) (isInMask : Pt → Bool)

/-- The rejection loop ends at the first location inside the mask, if the fuel reaches
that far. -/
lemma drawUntilInMask_eq_some (fuel position p : ℕ) (hlt : position < p)
    (hfuel : p ≤ position + fuel)
    (hin : isInMask (sampler.TransformIndexToPhysicalPoint (sampler.randomIndex p)) = true)
    (hout : ∀ t : ℕ, position < t → t < p →
      isInMask (sampler.TransformIndexToPhysicalPoint (sampler.randomIndex t)) = false) :
    drawUntilInMask sampler isInMask fuel position = some p := by
  induction fuel generalizing position with
  | zero => omega
  | succ fuel ih =>
    unfold drawUntilInMask
    by_cases hp : position + 1 = p
    · subst hp
      simp [hin]
    · have hrej := hout (position + 1) (by omega) (by omega)
      simp only [hrej, Bool.not_false, if_true]
      exact ih (position + 1) (by omega) (by omega) (fun t h1 h2 => hout t (by omega) h2)

/-- Where the rejection loop ends, when it ends. -/
lemma drawUntilInMask_spec (fuel position p : ℕ)
    (h : drawUntilInMask sampler isInMask fuel position = some p) :
    position < p ∧ p ≤ position + fuel ∧
    isInMask (sampler.TransformIndexToPhysicalPoint (sampler.randomIndex p)) = true ∧
    ∀ t : ℕ, position < t → t < p →
      isInMask (sampler.TransformIndexToPhysicalPoint (sampler.randomIndex t)) = false := by
  induction fuel generalizing position with
  | zero => simp [drawUntilInMask] at h
  | succ fuel ih =>
    unfold drawUntilInMask at h
    by_cases hin : isInMask (sampler.TransformIndexToPhysicalPoint
        (sampler.randomIndex (position + 1))) = true
    · simp only [hin, Bool.not_true, Bool.false_eq_true, if_false, Option.some.injEq] at h
      subst h
      exact ⟨by omega, by omega, hin, fun t h1 h2 => by omega⟩
    · have hrej : isInMask (sampler.TransformIndexToPhysicalPoint
          (sampler.randomIndex (position + 1))) = false := by
        simpa using hin
      simp only [hrej, Bool.not_false, if_true] at h
      obtain ⟨h1, h2, h3, h4⟩ := ih (position + 1) h
      refine ⟨by omega, by omega, h3, fun t ht1 ht2 => ?_⟩
      by_cases ht : t = position + 1
      · rw [ht]; exact hrej
      · exact h4 t (by omega) ht2

/-- The rejection loop never ends when no later location is inside the mask. -/
lemma drawUntilInMask_eq_none (fuel position : ℕ)
    (hout : ∀ t : ℕ, position < t →
      isInMask (sampler.TransformIndexToPhysicalPoint (sampler.randomIndex t)) = false) :
    drawUntilInMask sampler isInMask fuel position = none := by
  induction fuel generalizing position with
  | zero => rfl
  | succ fuel ih =>
    unfold drawUntilInMask
    simp only [hout (position + 1) (by omega), Bool.not_false, if_true]
    exact ih (position + 1) (fun t ht => hout t (by omega))

/-- The samples that the loop over the container stores, when it ends. -/
lemma sampleWithMask_spec (fuel : ℕ) (samples : List (FixedImageSpatialSample K Pt))
    (position : ℕ) (filled : List (FixedImageSpatialSample K Pt)) (final : ℕ)
    (h : sampleWithMask sampler isInMask fuel samples position = some (filled, final)) :
    filled.length = samples.length ∧ position ≤ final ∧
    ∀ s ∈ filled, ∃ t : ℕ, position < t ∧ t ≤ final ∧
      s.FixedImagePointValue = sampler.TransformIndexToPhysicalPoint (sampler.randomIndex t) ∧
      s.FixedImageValue = sampler.fixedImage (sampler.randomIndex t) ∧
      isInMask s.FixedImagePointValue = true := by
  induction samples generalizing position filled final with
  | nil =>
    simp only [sampleWithMask, Option.some.injEq, Prod.mk.injEq] at h
    obtain ⟨h1, h2⟩ := h
    subst h1 h2
    simp
  | cons s rest ih =>
    unfold sampleWithMask at h
    cases hd : drawUntilInMask sampler isInMask fuel position with
    | none => simp [hd] at h
    | some p =>
      simp only [hd] at h
      cases hr : sampleWithMask sampler isInMask fuel rest p with
      | none => simp [hr] at h
      | some r =>
        obtain ⟨filled', final'⟩ := r
        simp only [hr, Option.some.injEq, Prod.mk.injEq] at h
        obtain ⟨h1, h2⟩ := h
        subst h1 h2
        obtain ⟨hp1, -, hp3, -⟩ := drawUntilInMask_spec sampler isInMask fuel position p hd
        obtain ⟨hl, hle, hall⟩ := ih p filled' final' hr
        refine ⟨by simp [hl], by omega, ?_⟩
        intro s' hs'
        rcases List.mem_cons.mp hs' with heq | hmem
        · subst heq
          exact ⟨p, hp1, hle, rfl, rfl, hp3⟩
        · obtain ⟨t, ht1, ht2, ht3⟩ := hall s' hmem
          exact ⟨t, by omega, ht2, ht3⟩

/-- The loop over the container ends, with enough fuel, when the iterator enters the mask
again and again. -/
lemma sampleWithMask_isSome
    (hhit : ∀ t : ℕ, ∃ t' : ℕ, t < t' ∧
      isInMask (sampler.TransformIndexToPhysicalPoint (sampler.randomIndex t')) = true)
    (samples : List (FixedImageSpatialSample K Pt)) (position : ℕ) :
    ∃ fuel0 : ℕ, ∀ fuel : ℕ, fuel0 ≤ fuel →
      ∃ r, sampleWithMask sampler isInMask fuel samples position = some r := by
  induction samples generalizing position with
  | nil => exact ⟨0, fun fuel _ => ⟨_, rfl⟩⟩
  | cons s rest ih =>
    have hfirst : ∃ p : ℕ, position < p ∧
        isInMask (sampler.TransformIndexToPhysicalPoint (sampler.randomIndex p)) = true ∧
        ∀ t : ℕ, position < t → t < p →
          isInMask (sampler.TransformIndexToPhysicalPoint (sampler.randomIndex t)) = false := by
      classical
      have hex := hhit position
      refine ⟨Nat.find hex, (Nat.find_spec hex).1, (Nat.find_spec hex).2, ?_⟩
      intro t ht1 ht2
      have := Nat.find_min hex ht2
      simp only [not_and, Bool.not_eq_true] at this
      exact this ht1
    obtain ⟨p, hp1, hp2, hp3⟩ := hfirst
    obtain ⟨fuel1, hfuel1⟩ := ih p
    refine ⟨max fuel1 (p - position), fun fuel hfuel => ?_⟩
    obtain ⟨r, hr⟩ := hfuel1 fuel (le_trans (le_max_left _ _) hfuel)
    have hd := drawUntilInMask_eq_some sampler isInMask fuel position p hp1
      (by have := le_trans (le_max_right fuel1 (p - position)) hfuel; omega) hp2 hp3
    unfold sampleWithMask
    simp only [hd, hr]
    exact ⟨_, rfl⟩

end Sampling3

/-- C24, evaluated on the code: with a fixed mask that contains no location of the fixed
image region the rejection loop of `SampleFixedImageDomain` never ends (whatever the
fuel), and with a mask first entered at the 51st location the single configured sample is
filled only after 51 jumps, more than the `50 * 1` that were set as the number of samples
of the iterator. -/
theorem SampleFixedImageDomain_draws_not_bounded :
    (∀ fuel : ℕ,
      SampleFixedImageDomain (exampleMaskedMetric (fun _ => false)) exampleSampler false
        (fun samples => samples) fuel [{ FixedImagePointValue := 0, FixedImageValue := 0 }]
        = none) ∧
    SampleFixedImageDomain (exampleMaskedMetric (fun x => decide (51 ≤ x))) exampleSampler
        false (fun samples => samples) 51
        [{ FixedImagePointValue := 0, FixedImageValue := 0 }]
      = some { samples := [{ FixedImagePointValue := 51, FixedImageValue := 51 / 2 }]
               numberOfSamplesRequested := 50 * 1
               numberOfJumps := 51 } := by
  constructor
  · intro fuel
    have hd := drawUntilInMask_eq_none exampleSampler (fun _ : ℚ => false) fuel 0
      (fun _ _ => rfl)
    simp [SampleFixedImageDomain, exampleMaskedMetric, sampleWithMask, hd]
  · have hd := drawUntilInMask_eq_some exampleSampler (fun x : ℚ => decide (51 ≤ x)) 51 0 51
      (by norm_num) (by norm_num) (by simp [exampleSampler])
      (fun t _ ht => by
        have : ¬ ((51 : ℚ) ≤ (t : ℚ)) := by
          rw [not_le]
          exact_mod_cast ht
        simp [exampleSampler, this])
    simp only [SampleFixedImageDomain, exampleMaskedMetric, sampleWithMask, hd,
      Bool.false_eq_true, if_false]
    simp [exampleSampler, exampleMetric]

/-- C29: with a fixed-domain mask configured (and the smart sample selection off), after
`SampleFixedImageDomain` returns the container holds as many samples as before, every one
of them has a physical point that lies inside the fixed mask, and its stored intensity is
the fixed-image intensity at the drawn index that this point was computed from; and
`SampleFixedImageDomain` does return (enough fuel gives a result) when the locations drawn
enter the mask again and again. -/
theorem SampleFixedImageDomain_samples_in_mask {Idx Pt Par : Type} (M : Metric K Pt Par)
    (sampler : FixedImageSampler K Idx Pt)
    (SampleFixedImageDomainSmart :
      List (FixedImageSpatialSample K Pt) → List (FixedImageSpatialSample K Pt))
    (isInMask : Pt → Bool) (samples : List (FixedImageSpatialSample K Pt))
    (hmask : M.collaborators.m_FixedMask = some isInMask) :
    (∀ (fuel : ℕ) (r : SamplingResult K Pt),
      SampleFixedImageDomain M sampler false SampleFixedImageDomainSmart fuel samples = some r →
      r.samples.length = samples.length ∧
      ∀ s ∈ r.samples, ∃ t : ℕ, 0 < t ∧ t ≤ r.numberOfJumps ∧
        s.FixedImagePointValue
          = sampler.TransformIndexToPhysicalPoint (sampler.randomIndex t) ∧
        s.FixedImageValue = sampler.fixedImage (sampler.randomIndex t) ∧
        isInMask s.FixedImagePointValue = true) ∧
    ((∀ t : ℕ, ∃ t' : ℕ, t < t' ∧
        isInMask (sampler.TransformIndexToPhysicalPoint (sampler.randomIndex t')) = true) →
      ∃ (fuel : ℕ) (r : SamplingResult K Pt),
        SampleFixedImageDomain M sampler false SampleFixedImageDomainSmart fuel samples
          = some r) := by
  constructor
  · intro fuel r h
    unfold SampleFixedImageDomain at h
    simp only [Bool.false_eq_true, if_false, hmask] at h
    cases hs : sampleWithMask sampler isInMask fuel samples 0 with
    | none => simp [hs] at h
    | some p =>
      obtain ⟨filled, final⟩ := p
      simp only [hs, Option.some.injEq] at h
      subst h
      obtain ⟨hl, -, hall⟩ := sampleWithMask_spec sampler isInMask fuel samples 0 filled final hs
      exact ⟨hl, hall⟩
  · intro hhit
    obtain ⟨fuel0, hfuel0⟩ := sampleWithMask_isSome sampler isInMask hhit samples 0
    obtain ⟨p, hp⟩ := hfuel0 fuel0 le_rfl
    refine ⟨fuel0, ?_⟩
    unfold SampleFixedImageDomain
    simp only [Bool.false_eq_true, if_false, hmask, hp]
    exact ⟨_, rfl⟩

theorem SampleFixedImageDomain_samples_in_mask_witness :
    ∃ (fuel : ℕ) (r : SamplingResult ℚ ℚ),
      SampleFixedImageDomain (exampleMaskedMetric (fun x => decide (51 ≤ x))) exampleSampler
        false (fun samples => samples) fuel
        [{ FixedImagePointValue := 0, FixedImageValue := 0 },
         { FixedImagePointValue := 0, FixedImageValue := 0 }] = some r :=
  (SampleFixedImageDomain_samples_in_mask (exampleMaskedMetric (fun x => decide (51 ≤ x)))
    exampleSampler (fun samples => samples) (fun x => decide (51 ≤ x))
    [{ FixedImagePointValue := 0, FixedImageValue := 0 },
     { FixedImagePointValue := 0, FixedImageValue := 0 }] rfl).2
    (fun t => ⟨t + 51, by omega, by
      simp only [exampleSampler, decide_eq_true_eq]
      push_cast
      have : (0 : ℚ) ≤ (t : ℚ) := Nat.cast_nonneg t
      linarith⟩)

/-! ## The shape metric: initialisation and the finite-difference cross-check -/

/-- C26: `Initialize` of the shape-metric variant fails with a configuration error if and
only if a required collaborator is absent or empty: the transform is not set, or the
mean-vector, basis-matrix, variance or noise-variance container is empty (the error being
that of the first such collaborator in this order); otherwise it succeeds and changes
nothing. -/
theorem ShapeMetric_Initialize_fails_iff (metric : ShapeMetric K)
    (st : ShapeMetricState K) :
    ((∃ e : ShapeMetricError, metric.Initialize st = Except.error e) ↔
      (metric.transform = none ∨ metric.meanVectorContainer = [] ∨
        metric.basisMatrixContainer = [] ∨ metric.varianceContainer = [] ∨
        metric.noiseVarianceContainer = [])) ∧
    (¬ (metric.transform = none ∨ metric.meanVectorContainer = [] ∨
        metric.basisMatrixContainer = [] ∨ metric.varianceContainer = [] ∨
        metric.noiseVarianceContainer = []) →
      metric.Initialize st = Except.ok st) ∧
    (metric.transform = none →
      metric.Initialize st = Except.error ShapeMetricError.transformIsNotPresent) ∧
    (metric.transform ≠ none → metric.meanVectorContainer = [] →
      metric.Initialize st = Except.error ShapeMetricError.meanVectorContainerIsEmpty) := by
  unfold ShapeMetric.Initialize
  simp only [Option.isNone_iff_eq_none, List.length_eq_zero]
  refine ⟨?_, ?_, ?_, ?_⟩
  · constructor
    · rintro ⟨e, he⟩
      by_contra hcon
      simp only [not_or] at hcon
      obtain ⟨h1, h2, h3, h4, h5⟩ := hcon
      simp [h1, h2, h3, h4, h5] at he
    · intro h
      by_cases h1 : metric.transform = none
      · exact ⟨ShapeMetricError.transformIsNotPresent, by simp [h1]⟩
      by_cases h2 : metric.meanVectorContainer = []
      · exact ⟨ShapeMetricError.meanVectorContainerIsEmpty, by simp [h1, h2]⟩
      by_cases h3 : metric.basisMatrixContainer = []
      · exact ⟨ShapeMetricError.basisMatrixContainerIsEmpty, by simp [h1, h2, h3]⟩
      by_cases h4 : metric.varianceContainer = []
      · exact ⟨ShapeMetricError.varianceContainerIsEmpty, by simp [h1, h2, h3, h4]⟩
      by_cases h5 : metric.noiseVarianceContainer = []
      · exact ⟨ShapeMetricError.noiseVarianceContainerIsEmpty,
          by simp [h1, h2, h3, h4, h5]⟩
      · exact absurd h (by simp [h1, h2, h3, h4, h5])
  · intro hcon
    simp only [not_or] at hcon
    obtain ⟨h1, h2, h3, h4, h5⟩ := hcon
    simp [h1, h2, h3, h4, h5]
  · intro h1
    simp [h1]
  · intro h1 h2
    simp [h1, h2]

section FiniteDifference

variable (metric : ShapeMetric K) (TransformPoint : List K → (ℕ → K) → (ℕ → K))
  (meanVector : StatisticalModelVector K) (basisMatrix : StatisticalModelMatrix K)
  (noiseVariance : K)

/-- The model value is added to the value passed in, and depends on the state only
through the number of normal samples drawn. -/
lemma GetModelValue_modelValue (modelValue : K) (parameters : List K)
    (st st' : ShapeMetricState K) (h : st'.normalSamplesDrawn = st.normalSamplesDrawn) :
    (metric.GetModelValue TransformPoint meanVector basisMatrix noiseVariance modelValue
        parameters st).modelValue
      = modelValue
        + (metric.GetModelValue TransformPoint meanVector basisMatrix noiseVariance 0
            parameters st').modelValue := by
  unfold ShapeMetric.GetModelValue
  simp only [h, zero_add]

lemma GetModelValue_state (modelValue : K) (parameters : List K) (st : ShapeMetricState K) :
    (metric.GetModelValue TransformPoint meanVector basisMatrix noiseVariance modelValue
        parameters st).state
      = { transformParameters := parameters
          normalSamplesDrawn := st.normalSamplesDrawn
            + (if noiseVariance > 0 then meanVector.size else 0) } := by
  unfold ShapeMetric.GetModelValue ShapeMetric.Reconstruct ShapeMetric.warpedMinusMean
  by_cases h : noiseVariance > 0
  · simp [h]
  · simp [h]

end FiniteDifference

section FiniteDifferenceLoop

variable (metric : ShapeMetric K) (TransformPoint : List K → (ℕ → K) → (ℕ → K))
  (meanVector : StatisticalModelVector K) (basisMatrix : StatisticalModelMatrix K)
  (noiseVariance : K)

/-- The loop of `GetModelFiniteDifferenceDerivative` after `m` steps. -/
lemma finiteDifference_loop (parameters : List K) (h : K)
    (F : ModelDerivativeResult K → ℕ → ModelDerivativeResult K)
    (hF : ∀ (acc : ModelDerivativeResult K) (i : ℕ),
      F acc i =
        { modelDerivative := addAtIndex acc.modelDerivative i
            (((metric.GetModelValue TransformPoint meanVector basisMatrix noiseVariance 0
                  (addAtParameter parameters i h) acc.state).modelValue
                - (metric.GetModelValue TransformPoint meanVector basisMatrix noiseVariance 0
                    (addAtParameter parameters i (-h))
                    (metric.GetModelValue TransformPoint meanVector basisMatrix noiseVariance
                      0 (addAtParameter parameters i h) acc.state).state).modelValue)
              / (2 * h))
          state := (metric.GetModelValue TransformPoint meanVector basisMatrix noiseVariance 0
            (addAtParameter parameters i (-h))
            (metric.GetModelValue TransformPoint meanVector basisMatrix noiseVariance
              0 (addAtParameter parameters i h) acc.state).state).state })
    (modelDerivative : ℕ → K) (st : ShapeMetricState K) (m : ℕ) :
    ((List.range m).foldl F
        { modelDerivative := modelDerivative, state := st }).state.normalSamplesDrawn
      = st.normalSamplesDrawn + 2 * m * (if noiseVariance > 0 then meanVector.size else 0) ∧
    ∀ n : ℕ,
      ((List.range m).foldl F
          { modelDerivative := modelDerivative, state := st }).modelDerivative n
        = modelDerivative n
          + (if n < m then
              ((metric.GetModelValue TransformPoint meanVector basisMatrix noiseVariance 0
                    (addAtParameter parameters n h)
                    { transformParameters := parameters
                      normalSamplesDrawn := st.normalSamplesDrawn
                        + 2 * n * (if noiseVariance > 0 then meanVector.size
                          else 0) }).modelValue
                - (metric.GetModelValue TransformPoint meanVector basisMatrix noiseVariance 0
                    (addAtParameter parameters n (-h))
                    { transformParameters := parameters
                      normalSamplesDrawn := st.normalSamplesDrawn
                        + (2 * n + 1) * (if noiseVariance > 0 then meanVector.size
                          else 0) }).modelValue)
                / (2 * h)
            else 0) := by
  induction m with
  | zero => simp
  | succ m ihm =>
    obtain ⟨hcount, hder⟩ := ihm
    rw [List.range_succ, List.foldl_append, List.foldl_cons, List.foldl_nil, hF]
    constructor
    · dsimp only
      rw [GetModelValue_state, GetModelValue_state]
      dsimp only
      rw [hcount]
      ring
    · intro n
      dsimp only [addAtIndex]
      rw [hder n]
      by_cases hn : n = m
      · subst hn
        rw [if_pos rfl, if_neg (lt_irrefl n), if_pos (Nat.lt_succ_self n), add_zero]
        have e1 := GetModelValue_modelValue metric TransformPoint meanVector basisMatrix
          noiseVariance 0 (addAtParameter parameters n h)
          ((List.range n).foldl F { modelDerivative := modelDerivative, state := st }).state
          { transformParameters := parameters
            normalSamplesDrawn := st.normalSamplesDrawn
              + 2 * n * (if noiseVariance > 0 then meanVector.size else 0) }
          hcount.symm
        have e2 := GetModelValue_modelValue metric TransformPoint meanVector basisMatrix
          noiseVariance 0 (addAtParameter parameters n (-h))
          (metric.GetModelValue TransformPoint meanVector basisMatrix noiseVariance 0
            (addAtParameter parameters n h)
            ((List.range n).foldl F
              { modelDerivative := modelDerivative, state := st }).state).state
          { transformParameters := parameters
            normalSamplesDrawn := st.normalSamplesDrawn
              + (2 * n + 1) * (if noiseVariance > 0 then meanVector.size else 0) }
          (by
            rw [GetModelValue_state]
            dsimp only
            rw [hcount]
            ring)
        rw [e1, e2, zero_add, zero_add]
      · rw [if_neg hn]
        by_cases hlt : n < m
        · rw [if_pos hlt, if_pos (Nat.lt_succ_of_lt hlt)]
        · rw [if_neg hlt, if_neg (by omega)]

end FiniteDifferenceLoop

/-- The vector `parameters[ i ] += h`: the parameters plus `h` times the `i`-th unit
vector. -/
lemma addAtParameter_spec (parameters : List K) (i : ℕ) (h : K) :
    (addAtParameter parameters i h).length = parameters.length ∧
    ∀ n : ℕ, n < parameters.length →
      (addAtParameter parameters i h).getD n 0
        = parameters.getD n 0 + (if n = i then h else 0) := by
  unfold addAtParameter
  refine ⟨List.length_set _ _ _, ?_⟩
  intro n hn
  by_cases hni : n = i
  · subst hni
    simp [List.getD_eq_getElem?_getD, List.getElem?_set, hn]
  · have hin : i ≠ n := fun h' => hni h'.symm
    simp [List.getD_eq_getElem?_getD, List.getElem?_set, hni, hin]

/-- C30: for every parameter vector `p` and every parameter index `i`, the
finite-difference cross-check adds to `modelDerivative[i]` exactly
`(V(p + h*e_i) - V(p - h*e_i)) / (2*h)` with `h = 0.01`, where `V` is the model value
computed by `GetModelValue` from a zero start (at the point that the sequence of normal
samples has reached, which only matters for a positive noise variance) and `e_i` is the
`i`-th unit vector, leaves the other entries of `modelDerivative` alone, and on return the
transform's parameters are again `p`. -/
theorem finite_difference_cross_check (metric : ShapeMetric K)
    (TransformPoint : List K → (ℕ → K) → (ℕ → K))
    (meanVector : StatisticalModelVector K) (basisMatrix : StatisticalModelMatrix K)
    (noiseVariance : K) (modelDerivative : ℕ → K) (parameters : List K)
    (st : ShapeMetricState K) :
    (∀ i : ℕ, i < parameters.length →
      (metric.GetModelFiniteDifferenceDerivative TransformPoint meanVector basisMatrix
          noiseVariance modelDerivative parameters st).modelDerivative i
        = modelDerivative i
          + ((metric.GetModelValue TransformPoint meanVector basisMatrix noiseVariance 0
                (addAtParameter parameters i (1 / 100))
                { transformParameters := parameters
                  normalSamplesDrawn := st.normalSamplesDrawn
                    + 2 * i * (if noiseVariance > 0 then meanVector.size
                      else 0) }).modelValue
            - (metric.GetModelValue TransformPoint meanVector basisMatrix noiseVariance 0
                (addAtParameter parameters i (-(1 / 100)))
                { transformParameters := parameters
                  normalSamplesDrawn := st.normalSamplesDrawn
                    + (2 * i + 1) * (if noiseVariance > 0 then meanVector.size
                      else 0) }).modelValue)
            / (2 * (1 / 100))) ∧
    (∀ i : ℕ, parameters.length ≤ i →
      (metric.GetModelFiniteDifferenceDerivative TransformPoint meanVector basisMatrix
          noiseVariance modelDerivative parameters st).modelDerivative i
        = modelDerivative i) ∧
    (metric.GetModelFiniteDifferenceDerivative TransformPoint meanVector basisMatrix
        noiseVariance modelDerivative parameters st).state.transformParameters
      = parameters ∧
    (∀ (i : ℕ) (h : K),
      (addAtParameter parameters i h).length = parameters.length ∧
      ∀ n : ℕ, n < parameters.length →
        (addAtParameter parameters i h).getD n 0
          = parameters.getD n 0 + (if n = i then h else 0)) := by
  have hloop := finiteDifference_loop metric TransformPoint meanVector basisMatrix
    noiseVariance parameters (1 / 100) _ (fun _ _ => rfl) modelDerivative st
    parameters.length
  refine ⟨?_, ?_, rfl, fun i h => addAtParameter_spec parameters i h⟩
  · intro i hi
    have h := hloop.2 i
    rw [if_pos hi] at h
    exact h
  · intro i hi
    have h := hloop.2 i
    rw [if_neg (by omega), add_zero] at h
    exact h

/-! ## `IsNumber` -/

lemma isDigit_iff (c : Char) : isDigit c = true ↔ c ∈ decimalDigits := by
  unfold decimalDigits
  constructor
  · intro h
    unfold isDigit at h
    simp only [Bool.and_eq_true, decide_eq_true_eq, ge_iff_le] at h
    obtain ⟨h1, h2⟩ := h
    have h1' : 48 ≤ c.toNat := h1
    have h2' : c.toNat ≤ 57 := h2
    have hc : c = Char.ofNat c.toNat := (Char.ofNat_toNat c).symm
    rw [hc]
    generalize c.toNat = n at h1' h2'
    interval_cases n <;> decide
  · intro h
    simp only [List.mem_cons, List.mem_singleton, List.not_mem_nil, or_false] at h
    rcases h with h | h | h | h | h | h | h | h | h | h <;> subst h <;> decide

lemma digitExpression_rmatch_iff (x : List Char) :
    digitExpression.rmatch x = true ↔ ∃ c : Char, x = [c] ∧ c ∈ decimalDigits := by
  unfold digitExpression decimalDigits
  simp only [RegularExpression.add_rmatch_iff, RegularExpression.char_rmatch_iff,
    List.mem_cons, List.mem_singleton, List.not_mem_nil, or_false]
  constructor
  · intro h
    rcases h with ((((((((h | h) | h) | h) | h) | h) | h) | h) | h) | h <;>
      exact ⟨_, h, by simp⟩
  · rintro ⟨c, rfl, h⟩
    rcases h with h | h | h | h | h | h | h | h | h | h <;> subst h <;> simp

lemma digitsExpression_rmatch_iff (x : List Char) :
    (digitExpression * RegularExpression.star digitExpression).rmatch x = true ↔
      x ≠ [] ∧ ∀ c ∈ x, c ∈ decimalDigits := by
  rw [RegularExpression.mul_rmatch_iff]
  constructor
  · rintro ⟨t, u, rfl, ht, hu⟩
    obtain ⟨c, rfl, hc⟩ := (digitExpression_rmatch_iff t).mp ht
    obtain ⟨S, rfl, hS⟩ := (RegularExpression.star_rmatch_iff digitExpression u).mp hu
    refine ⟨by simp, ?_⟩
    intro c' hc'
    rcases List.mem_append.mp hc' with h | h
    · rw [List.mem_singleton.mp h]
      exact hc
    · obtain ⟨l, hl, hcl⟩ := List.mem_flatten.mp h
      obtain ⟨d, rfl, hd⟩ := (digitExpression_rmatch_iff l).mp (hS l hl).2
      rw [List.mem_singleton.mp hcl]
      exact hd
  · rintro ⟨hne, hall⟩
    cases x with
    | nil => exact absurd rfl hne
    | cons c u =>
      refine ⟨[c], u, rfl, (digitExpression_rmatch_iff [c]).mpr ⟨c, rfl, hall c (by simp)⟩, ?_⟩
      rw [RegularExpression.star_rmatch_iff]
      refine ⟨u.map (fun c => [c]), ?_, ?_⟩
      · induction u with
        | nil => rfl
        | cons a u ih =>
          simp only [List.map_cons, List.flatten_cons, List.singleton_append, List.cons.injEq,
            true_and]
          exact ih (by simp) (fun c' hc' => hall c' (by
            rcases List.mem_cons.mp hc' with h | h
            · simp [h]
            · simp [h]))
      · intro t ht
        obtain ⟨a, ha, rfl⟩ := List.mem_map.mp ht
        exact ⟨by simp, (digitExpression_rmatch_iff [a]).mpr
          ⟨a, rfl, hall a (List.mem_cons_of_mem _ ha)⟩⟩

/-- What the regular expression of the scientific notation matches. -/
lemma scientificExpression_rmatch_iff (x : List Char) :
    scientificExpression.rmatch x = true ↔
      ∃ (fraction : List Char) (sign : Char) (exponent : List Char),
        x = fraction ++ 'e' :: sign :: exponent ∧
        (fraction = [] ∨ ∃ digits : List Char, fraction = '.' :: digits ∧
          digits ≠ [] ∧ ∀ c ∈ digits, c ∈ decimalDigits) ∧
        (sign = '+' ∨ sign = '-') ∧
        exponent ≠ [] ∧ ∀ c ∈ exponent, c ∈ decimalDigits := by
  unfold scientificExpression
  simp only [RegularExpression.mul_rmatch_iff, RegularExpression.add_rmatch_iff,
    RegularExpression.char_rmatch_iff, RegularExpression.one_rmatch_iff]
  constructor
  · rintro ⟨t1, ex, rfl, ⟨t2, sg, rfl, ⟨fr, e, rfl, hfr, rfl⟩, hsg⟩, hex⟩
    have hex' := (digitsExpression_rmatch_iff ex).mp
      ((RegularExpression.mul_rmatch_iff _ _ _).mpr hex)
    obtain ⟨sign, rfl, hsign⟩ : ∃ sign : Char, sg = [sign] ∧ (sign = '+' ∨ sign = '-') := by
      rcases hsg with h | h
      · exact ⟨'+', h, Or.inl rfl⟩
      · exact ⟨'-', h, Or.inr rfl⟩
    refine ⟨fr, sign, ex, by simp, ?_, hsign, hex'.1, hex'.2⟩
    rcases hfr with h | ⟨a, b, rfl, rfl, hb⟩
    · exact Or.inl h
    · have hb' := (digitsExpression_rmatch_iff b).mp
        ((RegularExpression.mul_rmatch_iff _ _ _).mpr hb)
      exact Or.inr ⟨b, rfl, hb'.1, hb'.2⟩
  · rintro ⟨fr, sign, ex, rfl, hfr, hsign, hne, hall⟩
    have hex := (RegularExpression.mul_rmatch_iff _ _ _).mp
      ((digitsExpression_rmatch_iff ex).mpr ⟨hne, hall⟩)
    refine ⟨fr ++ ['e'] ++ [sign], ex, by simp, ⟨fr ++ ['e'], [sign], rfl,
      ⟨fr, ['e'], rfl, ?_, rfl⟩, ?_⟩, hex⟩
    · rcases hfr with h | ⟨b, rfl, hb1, hb2⟩
      · exact Or.inl h
      · exact Or.inr ⟨['.'], b, rfl, rfl, (RegularExpression.mul_rmatch_iff _ _ _).mp
          ((digitsExpression_rmatch_iff b).mpr ⟨hb1, hb2⟩)⟩
    · rcases hsign with h | h
      · exact Or.inl (by rw [h])
      · exact Or.inr (by rw [h])

lemma countP_isDigit_eq_length_iff (l : List Char) :
    ((l.countP isDigit : ℕ) : ℤ) = (l.length : ℤ) ↔ ∀ c ∈ l, c ∈ decimalDigits := by
  rw [Nat.cast_inj, List.countP_eq_length]
  exact ⟨fun h c hc => (isDigit_iff c).mp (h c hc), fun h c hc => (isDigit_iff c).mpr (h c hc)⟩

/-- The strings that `IsNumber` accepts after the optional minus sign. -/
lemma isNumberAfterSign_iff (first : Char) (rest : List Char) :
    isNumberAfterSign ((first :: rest).getLast (List.cons_ne_nil first rest)) first rest = true ↔
      ((∀ c ∈ first :: rest, c ∈ decimalDigits) ∨
        (∃ whole fraction : List Char, first :: rest = whole ++ '.' :: fraction ∧
          whole ≠ [] ∧ (∀ c ∈ whole, c ∈ decimalDigits) ∧
          fraction ≠ [] ∧ (∀ c ∈ fraction, c ∈ decimalDigits)) ∨
        (∃ (fraction : List Char) (sign : Char) (exponent : List Char),
          rest = fraction ++ 'e' :: sign :: exponent ∧
          first ∈ decimalDigits ∧
          (fraction = [] ∨ ∃ digits : List Char, fraction = '.' :: digits ∧
            digits ≠ [] ∧ ∀ c ∈ digits, c ∈ decimalDigits) ∧
          (sign = '+' ∨ sign = '-') ∧
          exponent ≠ [] ∧ ∀ c ∈ exponent, c ∈ decimalDigits)) := by
  unfold isNumberAfterSign
  have hdot : isDigit '.' = false := by decide
  constructor
  · intro h
    by_cases hends : (isDigit first && isDigit ((first :: rest).getLast
        (List.cons_ne_nil first rest))) = true
    · simp only [hends, Bool.not_true, Bool.false_eq_true, if_false] at h
      rw [Bool.and_eq_true] at hends
      obtain ⟨hfirst, hlast⟩ := hends
      by_cases hall : ((rest.countP isDigit : ℕ) : ℤ) = (rest.length : ℤ)
      · left
        intro c hc
        rcases List.mem_cons.mp hc with h' | h'
        · rw [h']; exact (isDigit_iff first).mp hfirst
        · exact (countP_isDigit_eq_length_iff rest).mp hall c h'
      · simp only [hall, if_false] at h
        by_cases hdec : (decide ('.' ∈ rest) && decide (((rest.countP isDigit : ℕ) : ℤ)
            = (rest.length : ℤ) - 1)) = true
        · right; left
          rw [Bool.and_eq_true, decide_eq_true_eq, decide_eq_true_eq] at hdec
          obtain ⟨hmem, hcount⟩ := hdec
          obtain ⟨a, b, rfl⟩ := List.append_of_mem hmem
          have hcount' : a.countP isDigit + b.countP isDigit = a.length + b.length := by
            simp only [List.countP_append, List.countP_cons, hdot, List.length_append,
              List.length_cons] at hcount
            push_cast at hcount
            have : ((a.countP isDigit + b.countP isDigit : ℕ) : ℤ)
                = ((a.length + b.length : ℕ) : ℤ) := by
              push_cast
              simp only [Bool.false_eq_true, if_false, add_zero] at hcount
              linarith
            exact_mod_cast this
          have ha := List.countP_le_length isDigit (l := a)
          have hb := List.countP_le_length isDigit (l := b)
          have ha' : ((a.countP isDigit : ℕ) : ℤ) = (a.length : ℤ) := by
            have : a.countP isDigit = a.length := by omega
            rw [this]
          have hb' : ((b.countP isDigit : ℕ) : ℤ) = (b.length : ℤ) := by
            have : b.countP isDigit = b.length := by omega
            rw [this]
          refine ⟨first :: a, b, rfl, by simp, ?_, ?_,
            (countP_isDigit_eq_length_iff b).mp hb'⟩
          · intro c hc
            rcases List.mem_cons.mp hc with h' | h'
            · rw [h']; exact (isDigit_iff first).mp hfirst
            · exact (countP_isDigit_eq_length_iff a).mp ha' c h'
          · rintro rfl
            have hl : (first :: (a ++ ['.'])).getLast (List.cons_ne_nil _ _) = '.' := by
              simp
            rw [hl, hdot] at hlast
            exact Bool.noConfusion hlast
        · simp only [hdec, Bool.false_eq_true, if_false] at h
          right; right
          obtain ⟨fraction, sign, exponent, h1, h2, h3, h4, h5⟩ :=
            (scientificExpression_rmatch_iff rest).mp h
          exact ⟨fraction, sign, exponent, h1, (isDigit_iff first).mp hfirst, h2, h3, h4, h5⟩
    · simp [hends] at h
  · intro h
    have key : ∀ (hfirst : isDigit first = true)
        (hlast : isDigit ((first :: rest).getLast (List.cons_ne_nil first rest)) = true)
        (hbranch : ((rest.countP isDigit : ℕ) : ℤ) = (rest.length : ℤ) ∨
          ('.' ∈ rest ∧ ((rest.countP isDigit : ℕ) : ℤ) = (rest.length : ℤ) - 1) ∨
          scientificExpression.rmatch rest = true),
        (if (!(isDigit first && isDigit ((first :: rest).getLast
              (List.cons_ne_nil first rest)))) = true then false
          else if ((rest.countP isDigit : ℕ) : ℤ) = (rest.length : ℤ) then true
          else if (decide ('.' ∈ rest) && decide (((rest.countP isDigit : ℕ) : ℤ)
              = (rest.length : ℤ) - 1)) = true then true
          else scientificExpression.rmatch rest) = true := by
      intro hfirst hlast hbranch
      simp only [hfirst, hlast, Bool.and_self, Bool.not_true, Bool.false_eq_true, if_false]
      split_ifs with h1 h2
      · rfl
      · rfl
      · rcases hbranch with hb | hb | hb
        · exact absurd hb h1
        · exact absurd (by simp [hb.1, hb.2]) h2
        · exact hb
    rcases h with hall | ⟨whole, fraction, hbody, hw, hwall, hf, hfall⟩ |
      ⟨fraction, sign, exponent, hrest, hfirst, hfrac, hsign, hex, hexall⟩
    · refine key ((isDigit_iff _).mpr (hall first (by simp)))
        ((isDigit_iff _).mpr (hall _ (List.getLast_mem _))) (Or.inl ?_)
      exact (countP_isDigit_eq_length_iff rest).mpr
        (fun c hc => hall c (List.mem_cons_of_mem _ hc))
    · cases whole with
      | nil => exact absurd rfl hw
      | cons w0 a =>
        simp only [List.cons_append, List.cons.injEq] at hbody
        obtain ⟨rfl, rfl⟩ := hbody
        have hlast : (first :: (a ++ '.' :: fraction)).getLast (List.cons_ne_nil _ _)
            ∈ fraction := by
          have : (first :: (a ++ '.' :: fraction)).getLast (List.cons_ne_nil _ _)
              = fraction.getLast hf := by
            have h1 : first :: (a ++ '.' :: fraction) = (first :: a ++ ['.']) ++ fraction := by
              simp
            simp only [h1]
            rw [List.getLast_append_of_ne_nil hf]
          rw [this]
          exact List.getLast_mem _
        refine key ((isDigit_iff _).mpr (hwall first (by simp)))
          ((isDigit_iff _).mpr (hfall _ hlast)) (Or.inr (Or.inl ⟨by simp, ?_⟩))
        have ha : a.countP isDigit = a.length :=
          List.countP_eq_length.mpr (fun c hc =>
            (isDigit_iff c).mpr (hwall c (List.mem_cons_of_mem _ hc)))
        have hb : fraction.countP isDigit = fraction.length :=
          List.countP_eq_length.mpr (fun c hc => (isDigit_iff c).mpr (hfall c hc))
        simp only [List.countP_append, List.countP_cons, hdot, List.length_append,
          List.length_cons, ha, hb]
        push_cast
        ring
    · subst hrest
      have hlast : (first :: (fraction ++ 'e' :: sign :: exponent)).getLast
          (List.cons_ne_nil _ _) ∈ exponent := by
        have : (first :: (fraction ++ 'e' :: sign :: exponent)).getLast (List.cons_ne_nil _ _)
            = exponent.getLast hex := by
          have h1 : first :: (fraction ++ 'e' :: sign :: exponent)
              = (first :: fraction ++ ['e', sign]) ++ exponent := by
            simp
          simp only [h1]
          rw [List.getLast_append_of_ne_nil hex]
        rw [this]
        exact List.getLast_mem _
      exact key ((isDigit_iff _).mpr hfirst) ((isDigit_iff _).mpr (hexall _ hlast))
        (Or.inr (Or.inr ((scientificExpression_rmatch_iff _).mpr
          ⟨fraction, sign, exponent, rfl, hfrac, hsign, hex, hexall⟩)))

lemma minus_not_mem_decimalDigits : '-' ∉ decimalDigits := by decide

/-- C28: for every string `s`, `IsNumber(s)` is true exactly when `s` is an optional
leading `-` followed by one of: one or more decimal digits (whole number); one or more
digits, a `.`, one or more digits (decimal notation); or a single digit, optionally
followed by `.` and one or more digits, then `e`, a sign `+` or `-`, and one or more
digits (scientific notation).  In particular it is false for the empty string, for `"-"`,
and for every string that after the optional minus does not both start and end with a
digit. -/
theorem IsNumber_iff_specIsNumber (s : List Char) :
    (IsNumber s = true ↔ specIsNumber s) ∧
    IsNumber [] = false ∧ IsNumber ['-'] = false ∧
    (IsNumber s = true →
      ∃ (first : Char) (rest : List Char), (s = first :: rest ∨ s = '-' :: first :: rest) ∧
        first ∈ decimalDigits ∧
        (first :: rest).getLast (List.cons_ne_nil first rest) ∈ decimalDigits) := by
  have hbody : ∀ (first : Char) (rest : List Char),
      isNumberAfterSign ((first :: rest).getLast (List.cons_ne_nil first rest)) first rest
          = true ↔
        ((first :: rest ≠ [] ∧ ∀ c ∈ first :: rest, c ∈ decimalDigits) ∨
          (∃ whole fraction : List Char, first :: rest = whole ++ '.' :: fraction ∧
            whole ≠ [] ∧ (∀ c ∈ whole, c ∈ decimalDigits) ∧
            fraction ≠ [] ∧ (∀ c ∈ fraction, c ∈ decimalDigits)) ∨
          (∃ (digit : Char) (fraction : List Char) (sign : Char) (exponent : List Char),
            first :: rest = digit :: (fraction ++ 'e' :: sign :: exponent) ∧
            digit ∈ decimalDigits ∧
            (fraction = [] ∨ ∃ digits : List Char, fraction = '.' :: digits ∧
              digits ≠ [] ∧ ∀ c ∈ digits, c ∈ decimalDigits) ∧
            (sign = '+' ∨ sign = '-') ∧
            exponent ≠ [] ∧ ∀ c ∈ exponent, c ∈ decimalDigits)) := by
    intro first rest
    rw [isNumberAfterSign_iff]
    constructor
    · rintro (h | h | ⟨fraction, sign, exponent, h1, h2⟩)
      · exact Or.inl ⟨List.cons_ne_nil _ _, h⟩
      · exact Or.inr (Or.inl h)
      · exact Or.inr (Or.inr ⟨first, fraction, sign, exponent, by rw [h1], h2⟩)
    · rintro (h | h | ⟨digit, fraction, sign, exponent, h1, h2⟩)
      · exact Or.inl h.2
      · exact Or.inr (Or.inl h)
      · simp only [List.cons.injEq] at h1
        obtain ⟨rfl, rfl⟩ := h1
        exact Or.inr (Or.inr ⟨fraction, sign, exponent, rfl, h2⟩)
  have hstart : ∀ body : List Char,
      ((body ≠ [] ∧ ∀ c ∈ body, c ∈ decimalDigits) ∨
        (∃ whole fraction : List Char, body = whole ++ '.' :: fraction ∧
          whole ≠ [] ∧ (∀ c ∈ whole, c ∈ decimalDigits) ∧
          fraction ≠ [] ∧ (∀ c ∈ fraction, c ∈ decimalDigits)) ∨
        (∃ (digit : Char) (fraction : List Char) (sign : Char) (exponent : List Char),
          body = digit :: (fraction ++ 'e' :: sign :: exponent) ∧
          digit ∈ decimalDigits ∧
          (fraction = [] ∨ ∃ digits : List Char, fraction = '.' :: digits ∧
            digits ≠ [] ∧ ∀ c ∈ digits, c ∈ decimalDigits) ∧
          (sign = '+' ∨ sign = '-') ∧
          exponent ≠ [] ∧ ∀ c ∈ exponent, c ∈ decimalDigits)) →
      ∃ (first : Char) (rest : List Char), body = first :: rest ∧ first ∈ decimalDigits := by
    rintro body (⟨hne, hall⟩ | ⟨whole, fraction, rfl, hw, hwall, -⟩ |
      ⟨digit, fraction, sign, exponent, rfl, hd, -⟩)
    · cases body with
      | nil => exact absurd rfl hne
      | cons first rest => exact ⟨first, rest, rfl, hall first (by simp)⟩
    · cases whole with
      | nil => exact absurd rfl hw
      | cons first a => exact ⟨first, a ++ '.' :: fraction, rfl, hwall first (by simp)⟩
    · exact ⟨digit, _, rfl, hd⟩
  have hiff : IsNumber s = true ↔ specIsNumber s := by
    unfold specIsNumber
    constructor
    · intro h
      cases s with
      | nil => simp [IsNumber] at h
      | cons first rest =>
        unfold IsNumber at h
        by_cases hminus : first = '-'
        · subst hminus
          simp only [if_true] at h
          cases rest with
          | nil => simp at h
          | cons second rest =>
            have hlast : ('-' :: second :: rest).getLast (List.cons_ne_nil _ _)
                = (second :: rest).getLast (List.cons_ne_nil _ _) := by simp
            simp only [hlast] at h
            exact ⟨second :: rest, Or.inr rfl, (hbody second rest).mp h⟩
        · simp only [hminus, if_false] at h
          exact ⟨first :: rest, Or.inl rfl, (hbody first rest).mp h⟩
    · rintro ⟨body, hs, hforms⟩
      obtain ⟨first, rest, rfl, hfirst⟩ := hstart body hforms
      have hne : first ≠ '-' := fun h => minus_not_mem_decimalDigits (h ▸ hfirst)
      rcases hs with rfl | rfl
      · unfold IsNumber
        simp only [hne, if_false]
        exact (hbody first rest).mpr hforms
      · unfold IsNumber
        have hlast : ('-' :: first :: rest).getLast (List.cons_ne_nil _ _)
            = (first :: rest).getLast (List.cons_ne_nil _ _) := by simp
        simp only [if_true, hlast]
        exact (hbody first rest).mpr hforms
  refine ⟨hiff, rfl, by decide, ?_⟩
  intro h
  cases s with
  | nil => simp [IsNumber] at h
  | cons first rest =>
    have hends : ∀ (a : Char) (l : List Char),
        isNumberAfterSign ((a :: l).getLast (List.cons_ne_nil a l)) a l = true →
        a ∈ decimalDigits ∧ (a :: l).getLast (List.cons_ne_nil a l) ∈ decimalDigits := by
      intro a l ha
      unfold isNumberAfterSign at ha
      by_cases hends : (isDigit a && isDigit ((a :: l).getLast (List.cons_ne_nil a l))) = true
      · rw [Bool.and_eq_true] at hends
        exact ⟨(isDigit_iff _).mp hends.1, (isDigit_iff _).mp hends.2⟩
      · simp [hends] at ha
    unfold IsNumber at h
    by_cases hminus : first = '-'
    · subst hminus
      simp only [if_true] at h
      cases rest with
      | nil => simp at h
      | cons second rest =>
        have hlast : ('-' :: second :: rest).getLast (List.cons_ne_nil _ _)
            = (second :: rest).getLast (List.cons_ne_nil _ _) := by simp
        simp only [hlast] at h
        exact ⟨second, rest, Or.inr rfl, hends second rest h⟩
    · simp only [hminus, if_false] at h
      exact ⟨first, rest, Or.inl rfl, hends first rest h⟩

/-- The text that `ParameterMapToString` appends for one value: a space, then the value,
bare when it is a number and between double quotes otherwise. -/
lemma valuesText_foldl (values : List (List Char)) (result : List Char) :
    values.foldl
        (fun (result : List Char) (value : List Char) =>
          let result := result ++ [' ']
          if IsNumber value then result ++ value
          else
            let result := result ++ ['"']
            let result := result ++ value
            result ++ ['"'])
        result
      = result ++ (values.map (fun value =>
          ' ' :: (if IsNumber value then value else '"' :: (value ++ ['"'])))).flatten := by
  induction values generalizing result with
  | nil => simp
  | cons value values ih =>
    rw [List.foldl_cons, ih]
    by_cases h : IsNumber value = true
    · simp [h]
    · simp [h]

lemma parameterMapText_foldl (parameterMap : List (List Char × List (List Char)))
    (result : List Char) :
    parameterMap.foldl
        (fun (result : List Char) (parameter : List Char × List (List Char)) =>
          let result := result ++ ['(']
          let result := result ++ parameter.1
          let result := parameter.2.foldl
            (fun (result : List Char) (value : List Char) =>
              let result := result ++ [' ']
              if IsNumber value then result ++ value
              else
                let result := result ++ ['"']
                let result := result ++ value
                result ++ ['"'])
            result
          result ++ [')', '\n'])
        result
      = result ++ (parameterMap.map (fun parameter =>
          '(' :: (parameter.1 ++ ((parameter.2.map (fun value =>
            ' ' :: (if IsNumber value then value else '"' :: (value ++ ['"'])))).flatten
              ++ [')', '\n'])))).flatten := by
  induction parameterMap generalizing result with
  | nil => simp
  | cons parameter parameterMap ih =>
    rw [List.foldl_cons, ih]
    simp only [valuesText_foldl]
    simp

/-- Closed form of the string that `ParameterMapToString` builds. -/
lemma parameterMapText_eq (parameterMap : List (List Char × List (List Char))) :
    parameterMapText parameterMap
      = (parameterMap.map (fun parameter =>
          '(' :: (parameter.1 ++ ((parameter.2.map (fun value =>
            ' ' :: (if IsNumber value then value else '"' :: (value ++ ['"'])))).flatten
              ++ [')', '\n'])))).flatten := by
  unfold parameterMapText
  rw [parameterMapText_foldl]
  simp

lemma valuesCount_foldl (values : List (List Char)) (count : ℕ) :
    values.foldl
        (fun (numberOfCharsPerParameter : ℕ) (value : List Char) =>
          numberOfCharsPerParameter + value.length + (if IsNumber value then 1 else 3))
        count
      = count + ((values.map (fun value =>
          ' ' :: (if IsNumber value then value else '"' :: (value ++ ['"'])))).flatten).length := by
  induction values generalizing count with
  | nil => simp
  | cons value values ih =>
    rw [List.foldl_cons, ih]
    by_cases h : IsNumber value = true
    · simp [h]; omega
    · simp [h]; omega

lemma expectedNumberOfChars_foldl (parameterMap : List (List Char × List (List Char)))
    (count : ℕ) :
    parameterMap.foldl
        (fun (numberOfChars : ℕ) (parameter : List Char × List (List Char)) =>
          numberOfChars
            + parameter.2.foldl
                (fun (numberOfCharsPerParameter : ℕ) (value : List Char) =>
                  numberOfCharsPerParameter + value.length
                    + (if IsNumber value then 1 else 3))
                (parameter.1.length + 3))
        count
      = count + ((parameterMap.map (fun parameter =>
          '(' :: (parameter.1 ++ ((parameter.2.map (fun value =>
            ' ' :: (if IsNumber value then value else '"' :: (value ++ ['"'])))).flatten
              ++ [')', '\n'])))).flatten).length := by
  induction parameterMap generalizing count with
  | nil => simp
  | cons parameter parameterMap ih =>
    rw [List.foldl_cons, ih, valuesCount_foldl]
    simp
    omega

/-- The number of characters computed in advance is the length of the string built. -/
lemma parameterMapText_length (parameterMap : List (List Char × List (List Char))) :
    (parameterMapText parameterMap).length = expectedNumberOfChars parameterMap := by
  rw [parameterMapText_eq]
  unfold expectedNumberOfChars
  rw [expectedNumberOfChars_foldl]
  simp

/-- C27: for every parameter map, `ParameterMapToString` returns the concatenation, in the
key order of the map, of one line per parameter consisting of `(` and the parameter name,
then for each value a space followed by the value, written bare when `IsNumber(value)`
holds and enclosed in double quotes otherwise, then `)` and a line break. -/
theorem ParameterMapToString_eq_lines (parameterMap : List (List Char × List (List Char))) :
    ParameterMapToString parameterMap
      = some ((parameterMap.map (fun parameter =>
          ['('] ++ parameter.1
            ++ (parameter.2.map (fun value =>
                [' '] ++ (if IsNumber value then value else ['"'] ++ value ++ ['"']))).flatten
            ++ [')', '\n'])).flatten) := by
  unfold ParameterMapToString
  simp only [parameterMapText_length, if_true]
  rw [parameterMapText_eq]
  simp
/-! ## The number of characters computed in advance -/

lemma foldl_add_eq_list_sum {α : Type} (g : α → ℕ) (l : List α) (start : ℕ) :
    l.foldl (fun (count : ℕ) (x : α) => count + g x) start = start + (l.map g).sum := by
  induction l generalizing start with
  | nil => simp
  | cons x l ih =>
    rw [List.foldl_cons, ih, List.map_cons, List.sum_cons]
    omega

/-- C31: for every parameter map, the number of characters `ParameterMapToString` computes
in advance (per parameter: name length + 3, plus per value: value length + 1 if
`IsNumber(value)` else + 3) equals the length of the string it builds, so the assertion
`result.size() == expectedNumberOfChars` never fails. -/
theorem expectedNumberOfChars_eq_result_size
    (parameterMap : List (List Char × List (List Char))) :
    expectedNumberOfChars parameterMap
      = (parameterMap.map (fun parameter =>
          parameter.1.length + 3
            + (parameter.2.map (fun value =>
                value.length + (if IsNumber value then 1 else 3))).sum)).sum ∧
    (parameterMapText parameterMap).length = expectedNumberOfChars parameterMap ∧
    ParameterMapToString parameterMap = some (parameterMapText parameterMap) := by
  refine ⟨?_, parameterMapText_length parameterMap, ?_⟩
  · unfold expectedNumberOfChars
    have hinner : ∀ (values : List (List Char)) (start : ℕ),
        values.foldl
            (fun (numberOfCharsPerParameter : ℕ) (value : List Char) =>
              numberOfCharsPerParameter + value.length + (if IsNumber value then 1 else 3))
            start
          = start + (values.map (fun value =>
              value.length + (if IsNumber value then 1 else 3))).sum := by
      intro values start
      have h := foldl_add_eq_list_sum
        (fun value : List Char => value.length + (if IsNumber value then 1 else 3))
        values start
      simpa only [Nat.add_assoc] using h
    simp only [hinner]
    rw [foldl_add_eq_list_sum (fun parameter : List Char × List (List Char) =>
      parameter.1.length + 3
        + (parameter.2.map (fun value =>
            value.length + (if IsNumber value then 1 else 3))).sum) parameterMap 0]
    simp
  · unfold ParameterMapToString
    simp only [parameterMapText_length, if_true]

/-! ## Rows of the joint histogram -/

lemma sum_ite_eq_cast (B b : ℕ) (hb : b < B) (p : Prop) [Decidable p] (c : K) :
    ∑ m in range B, (if p ∧ (m : ℤ) = (b : ℤ) then c else 0) = if p then c else 0 := by
  by_cases hp : p
  · simp only [hp, true_and, if_true]
    rw [Finset.sum_eq_single b]
    · simp
    · intro m _ hmb
      have : ¬ ((m : ℤ) = (b : ℤ)) := by exact_mod_cast hmb
      simp [this]
    · intro h; exact absurd (Finset.mem_range.mpr hb) h
  · simp [hp]

/-- The mass that the windowing loop of one sample adds to row `a` of the joint PDF buffer:
the sum of its four kernel values in the row of its fixed bin, nothing elsewhere. -/
lemma rowSum_windowContribution (kernel : K → K) (bins fixedIndex movingIndex : ℕ)
    (term : K) (hm1 : 1 ≤ movingIndex) (hm2 : movingIndex + 2 < bins) (a : ℤ) :
    ∑ m in range bins, windowContribution kernel fixedIndex movingIndex term a (m : ℤ)
      = if a = (fixedIndex : ℤ) then
          kernel ((((movingIndex : ℤ) - 1 : ℤ) : K) - term)
          + (kernel ((((movingIndex : ℤ) : ℤ) : K) - term)
          + (kernel ((((movingIndex : ℤ) + 1 : ℤ) : K) - term)
          + kernel ((((movingIndex : ℤ) + 2 : ℤ) : K) - term)))
        else 0 := by
  simp only [windowContribution_eq, Finset.sum_add_distrib]
  have c1 : ((movingIndex : ℤ) - 1) = ((movingIndex - 1 : ℕ) : ℤ) := by omega
  have c3 : ((movingIndex : ℤ) + 1) = ((movingIndex + 1 : ℕ) : ℤ) := by omega
  have c4 : ((movingIndex : ℤ) + 2) = ((movingIndex + 2 : ℕ) : ℤ) := by omega
  rw [c1, c3, c4]
  rw [sum_ite_eq_cast bins (movingIndex - 1) (by omega),
    sum_ite_eq_cast bins movingIndex (by omega),
    sum_ite_eq_cast bins (movingIndex + 1) (by omega),
    sum_ite_eq_cast bins (movingIndex + 2) (by omega)]
  split_ifs <;> simp

lemma sum_list_sum_comm {α : Type} (bins : ℕ) (c : α → ℕ → K) (l : List α) :
    ∑ m in range bins, (l.map (fun s => c s m)).sum
      = (l.map (fun s => ∑ m in range bins, c s m)).sum := by
  induction l with
  | nil => simp
  | cons s l ih =>
    simp only [List.map_cons, List.sum_cons]
    rw [Finset.sum_add_distrib, ih]

section Rows

variable {Pt Par : Type} (M : Metric K Pt Par) (parameters : Par)
  {movingPixels : List K}

/-- An accepted sample adds exactly 1 in total to the row of its fixed bin, and nothing to
the other rows. -/
lemma accepted_window_row_mass (hinit : M.IsInitialized movingPixels)
    (s : FixedImageSpatialSample K Pt) (h : sampleAccepted M parameters s = true) (a : ℤ) :
    ∑ m in range M.m_NumberOfHistogramBins,
        windowContribution M.collaborators.cubicBSplineKernel (sampleFixedBin M s)
          (sampleMovingBin M parameters s) (sampleMovingTerm M parameters s) a (m : ℤ)
      = if a = (sampleFixedBin M s : ℤ) then 1 else 0 := by
  obtain ⟨⟨hm1, hm2⟩, -, -⟩ := sampleMovingBin_window M parameters hinit s h
  have hB := hinit.bins_ge
  rw [rowSum_windowContribution _ _ _ _ _ (by omega) (by omega),
    accepted_window_kernel_sum M parameters hinit s h]

/-- Before normalisation every row of the joint histogram accumulated by `GetValue` sums
to the entry of the fixed marginal of that row. -/
lemma getValueAccumulate_row_sum (hinit : M.IsInitialized movingPixels) (pdfs : PDFs K)
    (f : ℕ) (hf : f < M.m_NumberOfHistogramBins) :
    ∑ m in range M.m_NumberOfHistogramBins,
        (getValueAccumulate M parameters pdfs).pdfs.m_JointPDF (f : ℤ) (m : ℤ)
      = (getValueAccumulate M parameters pdfs).pdfs.m_FixedImageMarginalPDF f := by
  rw [getValueAccumulate_fixed_apply]
  have hz2 : (resetPDFs M.m_NumberOfHistogramBins pdfs).m_FixedImageMarginalPDF f = 0 := by
    simp [resetPDFs, hf]
  rw [hz2, zero_add]
  have hrow : ∀ m ∈ range M.m_NumberOfHistogramBins,
      (getValueAccumulate M parameters pdfs).pdfs.m_JointPDF (f : ℤ) (m : ℤ)
        = (M.m_FixedImageSamples.map (fun s =>
            (fun m : ℕ => if sampleAccepted M parameters s = true
              then windowContribution M.collaborators.cubicBSplineKernel (sampleFixedBin M s)
                (sampleMovingBin M parameters s) (sampleMovingTerm M parameters s)
                (f : ℤ) (m : ℤ)
              else 0) m)).sum := by
    intro m hm
    rw [getValueAccumulate_joint_apply]
    have hbuf : inJointBuffer M.m_NumberOfHistogramBins (f : ℤ) (m : ℤ) := by
      have := Finset.mem_range.mp hm
      unfold inJointBuffer; omega
    have hz1 : (resetPDFs M.m_NumberOfHistogramBins pdfs).m_JointPDF (f : ℤ) (m : ℤ) = 0 := by
      simp [resetPDFs, hbuf]
    rw [hz1, zero_add]
  rw [Finset.sum_congr rfl hrow, sum_list_sum_comm]
  congr 1
  apply List.map_congr_left
  intro s _
  by_cases h : sampleAccepted M parameters s = true
  · simp only [h, if_true, true_and]
    rw [accepted_window_row_mass M parameters hinit s h]
    simp only [Nat.cast_inj]
  · simp [h]

end Rows

/-- C34: with the cubic B-spline Parzen kernel, every accepted sample adds exactly 1 in
total to its row of the joint histogram (the four kernel values at `movingBin-1 ..
movingBin+2` sum to 1, also when the moving index was clamped at the upper end), so before
normalisation the joint histogram summed over the moving bins equals the fixed marginal
for every fixed bin and the total joint sum equals the accepted-sample count; hence after
normalisation `P_fixed(f) = sum over m of P(f,m)`. -/
theorem joint_histogram_rows_sum_to_fixed_marginal {Pt Par : Type} (M : Metric K Pt Par)
    (log : K → K) (pdfs : PDFs K) (parameters : Par) (movingPixels : List K)
    (hinit : M.IsInitialized movingPixels) :
    (∀ s : FixedImageSpatialSample K Pt, sampleAccepted M parameters s = true →
      M.collaborators.cubicBSplineKernel
          ((((sampleMovingBin M parameters s : ℤ) - 1 : ℤ) : K)
            - sampleMovingTerm M parameters s)
        + (M.collaborators.cubicBSplineKernel
          ((((sampleMovingBin M parameters s : ℤ) : ℤ) : K) - sampleMovingTerm M parameters s)
        + (M.collaborators.cubicBSplineKernel
          ((((sampleMovingBin M parameters s : ℤ) + 1 : ℤ) : K)
            - sampleMovingTerm M parameters s)
        + M.collaborators.cubicBSplineKernel
          ((((sampleMovingBin M parameters s : ℤ) + 2 : ℤ) : K)
            - sampleMovingTerm M parameters s))) = 1 ∧
      ∀ f : ℕ, f < M.m_NumberOfHistogramBins →
        ∑ m in range M.m_NumberOfHistogramBins,
            windowContribution M.collaborators.cubicBSplineKernel (sampleFixedBin M s)
              (sampleMovingBin M parameters s) (sampleMovingTerm M parameters s)
              (f : ℤ) (m : ℤ)
          = if f = sampleFixedBin M s then 1 else 0) ∧
    (∀ f : ℕ, f < M.m_NumberOfHistogramBins →
      ∑ m in range M.m_NumberOfHistogramBins,
          (getValueAccumulate M parameters pdfs).pdfs.m_JointPDF (f : ℤ) (m : ℤ)
        = (getValueAccumulate M parameters pdfs).pdfs.m_FixedImageMarginalPDF f) ∧
    jointPDFSum M.m_NumberOfHistogramBins (getValueAccumulate M parameters pdfs).pdfs.m_JointPDF
      = (acceptedSampleCount M parameters : K) ∧
    (∀ (v : K) (final : PDFs K),
      GetValueAndPDFs M log pdfs parameters = Except.ok (v, final) →
      ∀ f : ℕ, f < M.m_NumberOfHistogramBins →
        final.m_FixedImageMarginalPDF f
          = ∑ m in range M.m_NumberOfHistogramBins, final.m_JointPDF (f : ℤ) (m : ℤ)) := by
  refine ⟨?_, ?_, getValueAccumulate_jointPDFSum M parameters hinit pdfs, ?_⟩
  · intro s h
    refine ⟨accepted_window_kernel_sum M parameters hinit s h, fun f _ => ?_⟩
    rw [accepted_window_row_mass M parameters hinit s h]
    simp only [Nat.cast_inj]
  · exact fun f hf => getValueAccumulate_row_sum M parameters hinit pdfs f hf
  · intro v final h f hf
    obtain ⟨-, hnorm, -⟩ := GetValueAndPDFs_eq_ok M log pdfs parameters h
    obtain ⟨-, -, hj, hfx, -, -⟩ := normalizePDFs_eq_ok hnorm
    rw [getValueAccumulate_jointPDFSum M parameters hinit pdfs] at hj
    rw [getValueAccumulate_fixedPDFSum M parameters hinit pdfs] at hfx
    rw [hj, hfx]
    unfold normalizeJointPDF normalizeFixedPDF
    rw [if_pos hf, ← getValueAccumulate_row_sum M parameters hinit pdfs f hf, Finset.sum_div]
    refine Finset.sum_congr rfl (fun m hm => ?_)
    have hbuf : inJointBuffer M.m_NumberOfHistogramBins (f : ℤ) (m : ℤ) := by
      have := Finset.mem_range.mp hm
      unfold inJointBuffer; omega
    rw [if_pos hbuf]

theorem joint_histogram_rows_sum_to_fixed_marginal_witness :
    jointPDFSum 6
        (getValueAccumulate (exampleMetric 2 [1 / 4, 3 / 4]) 0 zeroPDFs).pdfs.m_JointPDF
      = ((acceptedSampleCount (exampleMetric 2 [1 / 4, 3 / 4]) 0 : ℕ) : ℚ) :=
  (joint_histogram_rows_sum_to_fixed_marginal (exampleMetric 2 [1 / 4, 3 / 4])
    (fun x => x - 1) zeroPDFs 0 [0, 1] (exampleMetric_isInitialized 2 [1 / 4, 3 / 4])).2.2.1

/-! ## The failure of the fixed marginal -/

lemma normalizePDFs_ne_fixedPDFSummedToZero (bins : ℕ) (pdfs : PDFs K)
    (h : fixedPDFSum bins pdfs.m_FixedImageMarginalPDF = jointPDFSum bins pdfs.m_JointPDF) :
    normalizePDFs bins pdfs ≠ Except.error MetricError.fixedPDFSummedToZero := by
  unfold normalizePDFs
  dsimp only
  by_cases h0 : jointPDFSum bins pdfs.m_JointPDF = 0
  · rw [if_pos h0]
    intro hc
    cases hc
  · rw [if_neg h0, if_neg (by rw [h]; exact h0)]
    intro hc
    cases hc

/-- C35: the failure "Fixed image marginal PDF summed to zero" is unreachable: in every
evaluation that passes the joint-histogram zero-sum check at least one sample was
accepted, so the un-normalised fixed marginal sums to the accepted-sample count, which is
at least 1. -/
theorem fixed_marginal_zero_sum_unreachable {Pt Par : Type} (M : Metric K Pt Par)
    (log : K → K) (pdfs : PDFs K) (parameters : Par) (movingPixels : List K)
    (hinit : M.IsInitialized movingPixels) :
    GetValueAndPDFs M log pdfs parameters
      ≠ Except.error MetricError.fixedPDFSummedToZero ∧
    GetValue M log pdfs parameters ≠ Except.error MetricError.fixedPDFSummedToZero ∧
    GetApproximateValueAndDerivative M log pdfs parameters
      ≠ Except.error MetricError.fixedPDFSummedToZero ∧
    (jointPDFSum M.m_NumberOfHistogramBins
        (getValueAccumulate M parameters pdfs).pdfs.m_JointPDF ≠ 0 →
      1 ≤ acceptedSampleCount M parameters ∧
      fixedPDFSum M.m_NumberOfHistogramBins
          (getValueAccumulate M parameters pdfs).pdfs.m_FixedImageMarginalPDF
        = (acceptedSampleCount M parameters : K) ∧
      fixedPDFSum M.m_NumberOfHistogramBins
          (getValueAccumulate M parameters pdfs).pdfs.m_FixedImageMarginalPDF ≠ 0) := by
  have hJ := getValueAccumulate_jointPDFSum M parameters hinit pdfs
  have hF := getValueAccumulate_fixedPDFSum M parameters hinit pdfs
  have hnorm := normalizePDFs_ne_fixedPDFSummedToZero M.m_NumberOfHistogramBins
    (getValueAccumulate M parameters pdfs).pdfs (by rw [hJ, hF])
  have hagree := accumulate_valueAgree M parameters pdfs pdfs
  have hnorm' := normalizePDFs_ne_fixedPDFSummedToZero M.m_NumberOfHistogramBins
    (getValueAndDerivativeAccumulate M parameters pdfs).pdfs
    (by rw [← fixedPDFSum_congr hagree.1, ← jointPDFSum_congr hagree.2.2, hJ, hF])
  have hvalue : GetValueAndPDFs M log pdfs parameters
      ≠ Except.error MetricError.fixedPDFSummedToZero := by
    unfold GetValueAndPDFs
    dsimp only
    split_ifs
    · intro hc; cases hc
    · generalize normalizePDFs M.m_NumberOfHistogramBins
        (getValueAccumulate M parameters pdfs).pdfs = r at hnorm
      cases r with
      | error e =>
        intro hc
        apply hnorm
        simp only [Except.error.injEq] at hc
        rw [hc]
      | ok p => intro hc; cases hc
  refine ⟨hvalue, ?_, ?_, ?_⟩
  · unfold GetValue
    generalize GetValueAndPDFs M log pdfs parameters = r at hvalue
    cases r with
    | error e =>
      intro hc
      apply hvalue
      simp only [Except.map, Except.error.injEq] at hc
      rw [hc]
    | ok p => intro hc; cases hc
  · unfold GetApproximateValueAndDerivative
    dsimp only
    split_ifs
    · intro hc; cases hc
    · generalize normalizePDFs M.m_NumberOfHistogramBins
        (getValueAndDerivativeAccumulate M parameters pdfs).pdfs = r at hnorm'
      cases r with
      | error e =>
        intro hc
        apply hnorm'
        simp only [Except.error.injEq] at hc
        rw [hc]
      | ok p => intro hc; cases hc
  · intro hne
    rw [hJ] at hne
    have hpos : acceptedSampleCount M parameters ≠ 0 := by
      intro h0
      apply hne
      rw [h0, Nat.cast_zero]
    exact ⟨Nat.one_le_iff_ne_zero.mpr hpos, hF, by rw [hF]; exact hne⟩

theorem fixed_marginal_zero_sum_unreachable_witness :
    GetValue (exampleMetric 3 [2, 2, 2]) (fun x => x) zeroPDFs 0
      ≠ Except.error MetricError.fixedPDFSummedToZero :=
  (fixed_marginal_zero_sum_unreachable (exampleMetric 3 [2, 2, 2]) (fun x => x) zeroPDFs 0
    [0, 1] (exampleMetric_isInitialized 3 [2, 2, 2])).2.1

/-! ## The guard on the fixed marginal -/

/-- C36: in every histogram state produced by accumulation and normalisation,
`P(f,m) <= P_fixed(f)` for all bins, so whenever the outer guard `P(f,m) > 1e-16` of the
metric summation holds the inner guard `P_fixed(f) > 1e-16` holds too: the inner guard
never skips a term, and `GetValue` equals the unguarded-in-`P_fixed` sum. -/
theorem inner_guard_never_skips {Pt Par : Type} (M : Metric K Pt Par) (log : K → K)
    (pdfs : PDFs K) (parameters : Par) (movingPixels : List K)
    (hinit : M.IsInitialized movingPixels) (v : K) (final : PDFs K)
    (h : GetValueAndPDFs M log pdfs parameters = Except.ok (v, final)) :
    (∀ f m : ℕ, f < M.m_NumberOfHistogramBins → m < M.m_NumberOfHistogramBins →
      final.m_JointPDF (f : ℤ) (m : ℤ) ≤ final.m_FixedImageMarginalPDF f) ∧
    (∀ f m : ℕ, f < M.m_NumberOfHistogramBins → m < M.m_NumberOfHistogramBins →
      final.m_JointPDF (f : ℤ) (m : ℤ) > pdfEpsilon →
      final.m_FixedImageMarginalPDF f > pdfEpsilon) ∧
    (∀ f m : ℕ, f < M.m_NumberOfHistogramBins → m < M.m_NumberOfHistogramBins →
      metricTerm log (final.m_JointPDF (f : ℤ) (m : ℤ)) (final.m_MovingImageMarginalPDF m)
          (final.m_FixedImageMarginalPDF f)
        = unguardedMetricTerm log (final.m_JointPDF (f : ℤ) (m : ℤ))
            (final.m_MovingImageMarginalPDF m) (final.m_FixedImageMarginalPDF f)) ∧
    GetValue M log pdfs parameters
      = Except.ok (-1 * unguardedMetricSum log M.m_NumberOfHistogramBins final) := by
  have hle := normalized_joint_le_fixed M log pdfs parameters hinit h
  have hterm : ∀ f m : ℕ, f < M.m_NumberOfHistogramBins → m < M.m_NumberOfHistogramBins →
      metricTerm log (final.m_JointPDF (f : ℤ) (m : ℤ)) (final.m_MovingImageMarginalPDF m)
          (final.m_FixedImageMarginalPDF f)
        = unguardedMetricTerm log (final.m_JointPDF (f : ℤ) (m : ℤ))
            (final.m_MovingImageMarginalPDF m) (final.m_FixedImageMarginalPDF f) := by
    intro f m hf hm
    unfold metricTerm unguardedMetricTerm
    by_cases hg : final.m_JointPDF (f : ℤ) (m : ℤ) > pdfEpsilon ∧
        final.m_MovingImageMarginalPDF m > pdfEpsilon
    · have hfx : final.m_FixedImageMarginalPDF f > pdfEpsilon :=
        lt_of_lt_of_le hg.1 (hle f m hf hm)
      simp only [hg, hfx, and_self, if_true]
    · simp only [hg, if_false]
  refine ⟨hle, fun f m hf hm hgt => lt_of_lt_of_le hgt (hle f m hf hm), hterm, ?_⟩
  obtain ⟨-, -, hv⟩ := GetValueAndPDFs_eq_ok M log pdfs parameters h
  unfold GetValue
  rw [h]
  show Except.ok v = _
  rw [hv]
  congr 2
  unfold metricSum unguardedMetricSum
  exact Finset.sum_congr rfl (fun f hf => Finset.sum_congr rfl (fun m hm =>
    hterm f m (Finset.mem_range.mp hf) (Finset.mem_range.mp hm)))

theorem inner_guard_never_skips_witness :
    ∃ final : PDFs ℚ,
      GetValueAndPDFs (exampleMetric 2 [1 / 4, 3 / 4]) (fun x => x - 1) zeroPDFs 0
        = Except.ok (-127 / 576, final) ∧
      GetValue (exampleMetric 2 [1 / 4, 3 / 4]) (fun x => x - 1) zeroPDFs 0
        = Except.ok (-1 * unguardedMetricSum (fun x => x - 1) 6 final) := by
  obtain ⟨final, h⟩ := exampleMetric_evaluation
  exact ⟨final, h, (inner_guard_never_skips (exampleMetric 2 [1 / 4, 3 / 4]) (fun x => x - 1)
    zeroPDFs 0 [0, 1] (exampleMetric_isInitialized 2 [1 / 4, 3 / 4]) (-127 / 576) final
    h).2.2.2⟩

/-! ## The sampling threshold of the exact evaluation -/

section ExactThreshold

variable {Pt Par : Type} (M : Metric K Pt Par) (parameters : Par)

/-- With no pixel accepted, the pixel loop of `GetExactValueAndDerivative` leaves the
reset histograms. -/
lemma getExactValueAndDerivativeAccumulate_of_rejected (pdfs : PDFs K)
    (h : acceptedPixelCount M parameters = 0) :
    getExactValueAndDerivativeAccumulate M parameters pdfs
      = { nSamples := 0
          pdfs := resetPDFsAndDerivatives M.m_NumberOfHistogramBins M.m_NumberOfParameters
            pdfs } := by
  unfold acceptedPixelCount at h
  rw [List.countP_eq_zero] at h
  unfold getExactValueAndDerivativeAccumulate
  generalize ({ nSamples := 0
                pdfs := resetPDFsAndDerivatives M.m_NumberOfHistogramBins
                  M.m_NumberOfParameters pdfs } : LoopState K) = st
  generalize M.fixedImageRegionPixels = l at h
  induction l generalizing st with
  | nil => rfl
  | cons pixel pixels ih =>
    have hp := h pixel (List.mem_cons_self pixel pixels)
    have hstep : getExactValueAndDerivativeSampleStep M parameters st pixel = st := by
      unfold getExactValueAndDerivativeSampleStep
      by_cases hm : fixedMaskAccepts M pixel.FixedImagePointValue = true
      · have hs : sampleAccepted M parameters pixel = false := by
          simpa [hm] using hp
        rw [if_pos hm]
        unfold getValueAndDerivativeSampleStep
        unfold sampleAccepted at hs
        simp [hs]
      · rw [if_neg hm]
    rw [List.foldl_cons, hstep]
    exact ih st (fun x hx => h x (List.mem_cons_of_mem pixel hx))

/-- When the configured number of samples is below 4, the exact evaluation never raises
the sampling error, and with no pixel accepted it fails at the normalisation. -/
lemma GetExactValueAndDerivative_of_threshold_zero (log : K → K) (pdfs : PDFs K)
    (hN : M.m_NumberOfSpatialSamples / 4 = 0) :
    GetExactValueAndDerivative M log pdfs parameters
      ≠ Except.error MetricError.tooManySamplesOutside ∧
    (acceptedPixelCount M parameters = 0 →
      GetExactValueAndDerivative M log pdfs parameters
        = Except.error MetricError.jointPDFSummedToZero) := by
  constructor
  · rw [Ne, GetExactValueAndDerivative_eq_tooManySamplesOutside_iff, hN]
    exact Nat.not_lt_zero _
  · intro h0
    unfold GetExactValueAndDerivative
    dsimp only
    rw [getExactValueAndDerivativeAccumulate_of_rejected M parameters pdfs h0]
    dsimp only
    have hsum : jointPDFSum M.m_NumberOfHistogramBins
        (resetPDFsAndDerivatives M.m_NumberOfHistogramBins M.m_NumberOfParameters
          pdfs).m_JointPDF = 0 := jointPDFSum_resetPDFs _ _
    rw [normalizePDFs_of_jointPDFSum_zero _ _ hsum, hN]
    simp

end ExactThreshold

/-- C37 (counterexample): after `SetUseExactDerivative(true)`, `SetNumberOfSpatialSamples(8)`
and a second `SetUseExactDerivative(true)`, which changes nothing because the flag is
already set, the number of spatial samples is 8, the threshold is 2, and
`GetExactValueAndDerivative` raises the sampling error when no pixel is accepted. -/
theorem SetUseExactDerivative_counterexample :
    ((((exampleMetric 500 []).SetUseExactDerivative true).SetNumberOfSpatialSamples
        8).SetUseExactDerivative true).m_NumberOfSpatialSamples = 8 ∧
    ∀ log : ℚ → ℚ,
      GetExactValueAndDerivative
        ((((exampleMetric 500 []).SetUseExactDerivative true).SetNumberOfSpatialSamples
          8).SetUseExactDerivative true) log zeroPDFs 2
        = Except.error MetricError.tooManySamplesOutside := by
  have hM : (((exampleMetric 500 []).SetUseExactDerivative true).SetNumberOfSpatialSamples
        8).SetUseExactDerivative true
      = { exampleMetric 8 [] with m_UseExactDerivative := true } := by
    simp [Metric.SetUseExactDerivative, Metric.SetNumberOfSpatialSamples, exampleMetric,
      ulongModulus]
  rw [hM]
  refine ⟨rfl, fun log => ?_⟩
  rw [GetExactValueAndDerivative_eq_tooManySamplesOutside_iff]
  have hcount : acceptedPixelCount
      ({ exampleMetric 8 [] with m_UseExactDerivative := true } : Metric ℚ ℚ ℚ) 2 = 0 := by
    unfold acceptedPixelCount
    rw [List.countP_eq_zero]
    intro pixel hpixel
    have hs : ∀ x v : ℚ, sampleAccepted
        ({ exampleMetric 8 [] with m_UseExactDerivative := true } : Metric ℚ ℚ ℚ) 2
        { FixedImagePointValue := x, FixedImageValue := v }
          = decide (0 ≤ x + 2 ∧ x + 2 ≤ 1) := exampleMetric_sampleAccepted 8 [] 2
    simp only [exampleMetric, List.mem_cons, List.mem_singleton, List.not_mem_nil,
      or_false] at hpixel
    rcases hpixel with rfl | rfl
    · rw [hs]; norm_num
    · rw [hs]; norm_num
  rw [hcount]
  show 0 < 8 / 4
  norm_num

lemma GetExactValue_eq_tooManySamplesOutside_iff {Pt Par : Type} (M : Metric K Pt Par)
    (parameters : Par) (log : K → K) (pdfs : PDFs K) :
    GetExactValue M log pdfs parameters = Except.error MetricError.tooManySamplesOutside ↔
      acceptedPixelCount M parameters < M.m_NumberOfSpatialSamples / 4 := by
  have h : GetExactValue M log pdfs parameters
      = GetValue (M.withSamples (M.fixedImageRegionPixels.filter
          (fun pixel => fixedMaskAccepts M pixel.FixedImagePointValue))) log pdfs parameters := by
    unfold GetExactValue GetValue
    rw [GetExactValueAndPDFs_eq]
  rw [h, GetValue_eq_tooManySamplesOutside_iff]
  have hcount : acceptedSampleCount (M.withSamples (M.fixedImageRegionPixels.filter
        (fun pixel => fixedMaskAccepts M pixel.FixedImagePointValue))) parameters
      = acceptedPixelCount M parameters := by
    unfold acceptedSampleCount acceptedPixelCount
    show List.countP (sampleAccepted M parameters) (M.fixedImageRegionPixels.filter
        (fun pixel => fixedMaskAccepts M pixel.FixedImagePointValue)) = _
    rw [List.countP_filter]
    apply List.countP_congr
    intro pixel _
    simp [Bool.and_comm]
  rw [hcount]
  rfl

/-- C37 (amended): the sampling-error threshold is the integer quotient
`NumberOfSpatialSamples / 4` also in the exact (all-pixel) evaluations;
`SetUseExactDerivative(true)`, called while the flag is not set, sets the flag and sets
`NumberOfSpatialSamples` to 1 (called while the flag is already set it changes nothing), so
after such a call the threshold is 0 and `GetExactValueAndDerivative` never raises the
sampling error, however few pixels are accepted (with no pixel accepted it fails with
"Joint PDF summed to zero" instead). -/
theorem SetUseExactDerivative_sampling_threshold {Pt Par : Type} (M : Metric K Pt Par)
    (log : K → K) (pdfs : PDFs K) (parameters : Par)
    (hflag : M.m_UseExactDerivative = false) :
    (∀ M' : Metric K Pt Par,
      (GetExactValueAndDerivative M' log pdfs parameters
          = Except.error MetricError.tooManySamplesOutside ↔
        acceptedPixelCount M' parameters < M'.m_NumberOfSpatialSamples / 4) ∧
      (GetExactValue M' log pdfs parameters
          = Except.error MetricError.tooManySamplesOutside ↔
        acceptedPixelCount M' parameters < M'.m_NumberOfSpatialSamples / 4) ∧
      (M'.m_UseExactDerivative = true → M'.SetUseExactDerivative true = M')) ∧
    (M.SetUseExactDerivative true).m_UseExactDerivative = true ∧
    (M.SetUseExactDerivative true).m_NumberOfSpatialSamples = 1 ∧
    (M.SetUseExactDerivative true).m_NumberOfSpatialSamples / 4 = 0 ∧
    GetExactValueAndDerivative (M.SetUseExactDerivative true) log pdfs parameters
      ≠ Except.error MetricError.tooManySamplesOutside ∧
    GetValueAndDerivative (M.SetUseExactDerivative true) log pdfs parameters
      ≠ Except.error MetricError.tooManySamplesOutside ∧
    (acceptedPixelCount (M.SetUseExactDerivative true) parameters = 0 →
      GetExactValueAndDerivative (M.SetUseExactDerivative true) log pdfs parameters
        = Except.error MetricError.jointPDFSummedToZero) := by
  have hset : M.SetUseExactDerivative true
      = { M with m_UseExactDerivative := true, m_NumberOfSpatialSamples := 1 } := by
    simp [Metric.SetUseExactDerivative, Metric.SetNumberOfSpatialSamples, hflag, ulongModulus]
  have hN : (M.SetUseExactDerivative true).m_NumberOfSpatialSamples = 1 := by rw [hset]
  have hF : (M.SetUseExactDerivative true).m_UseExactDerivative = true := by rw [hset]
  have hq : (M.SetUseExactDerivative true).m_NumberOfSpatialSamples / 4 = 0 := by rw [hN]
  obtain ⟨h1, h2⟩ := GetExactValueAndDerivative_of_threshold_zero
    (M.SetUseExactDerivative true) parameters log pdfs hq
  refine ⟨fun M' => ⟨GetExactValueAndDerivative_eq_tooManySamplesOutside_iff M' parameters
      log pdfs, GetExactValue_eq_tooManySamplesOutside_iff M' parameters log pdfs, ?_⟩,
    hF, hN, hq, h1, ?_, h2⟩
  · intro hM'
    simp [Metric.SetUseExactDerivative, hM']
  · unfold GetValueAndDerivative
    rw [if_pos hF]
    exact h1

theorem SetUseExactDerivative_sampling_threshold_witness :
    ((exampleMetric 500 []).SetUseExactDerivative true).m_NumberOfSpatialSamples = 1 ∧
    GetExactValueAndDerivative ((exampleMetric 500 []).SetUseExactDerivative true)
      (fun x => x) zeroPDFs 2 ≠ Except.error MetricError.tooManySamplesOutside :=
  ⟨(SetUseExactDerivative_sampling_threshold (exampleMetric 500 []) (fun x => x) zeroPDFs 2
      rfl).2.2.1,
   (SetUseExactDerivative_sampling_threshold (exampleMetric 500 []) (fun x => x) zeroPDFs 2
      rfl).2.2.2.2.1⟩
/-! ## The two forms of the vector `TransformPoint`, and the partition of unity -/

/-- A sum over the leaf positions of a product over the axes of a function of the digit is
the product over the axes of the sums over the digit. -/
lemma sum_leaves_prod (SplineOrder D : ℕ) (wt : ℕ → ℕ → K) :
    ∑ i in range ((SplineOrder + 1) ^ D), ∏ d in range D, wt d (leafDigit SplineOrder d i)
      = ∏ d in range D, ∑ k in range (SplineOrder + 1), wt d k := by
  induction D with
  | zero => simp
  | succ D ih =>
    have h := leafSum_succ SplineOrder (fun _ : ℤ => (1 : K)) (fun _ => 0) wt D 0
    simp only [one_mul] at h
    rw [h, ih, Finset.prod_range_succ, Finset.mul_sum]

/-- C32: for every coefficient field, weights and offset table, the step-table form
`TransformPoint` and the offset-table form `TransformPoint2` compute the same output point
whenever the step table satisfies `steps[k + d*(SplineOrder+1)] = k * gridOffsetTable[d]`
for every axis `d` and every `k <= SplineOrder`, both being started from the same output
point. -/
theorem TransformPoint_eq_TransformPoint2 (OutputDimension SplineOrder SpaceDimension : ℕ)
    (memory : ℤ → K) (steps gridOffsetTable : ℕ → ℤ) (weights1D : ℕ → K)
    (opp : ℕ → K) (mu : ℕ → ℤ)
    (hsteps : ∀ d k : ℕ, d < SpaceDimension → k ≤ SplineOrder →
      steps (k + d * (SplineOrder + 1)) = (k : ℤ) * gridOffsetTable d) :
    RecursiveBSplineTransformImplementation2.TransformPoint OutputDimension SplineOrder
        memory steps weights1D SpaceDimension opp mu
      = RecursiveBSplineTransformImplementation2.TransformPoint2 OutputDimension SplineOrder
        memory gridOffsetTable weights1D SpaceDimension opp mu := by
  funext j
  rw [RecursiveBSplineTransformImplementation2.TransformPoint_apply,
    RecursiveBSplineTransformImplementation2.TransformPoint2_apply]
  have haddr : ∀ i : ℕ,
      ∑ d in range SpaceDimension, steps (leafDigit SplineOrder d i + d * (SplineOrder + 1))
        = ∑ d in range SpaceDimension, (leafDigit SplineOrder d i : ℤ) * gridOffsetTable d :=
    fun i => Finset.sum_congr rfl (fun d hd =>
      hsteps d (leafDigit SplineOrder d i) (Finset.mem_range.mp hd)
        (Nat.lt_succ_iff.mp (leafDigit_lt SplineOrder d i)))
  simp only [haddr]

theorem TransformPoint_eq_TransformPoint2_witness :
    RecursiveBSplineTransformImplementation2.TransformPoint 1 1
        (fun a : ℤ => (a : ℚ)) (fun n => (n : ℤ) * 3) (fun _ => 1 / 2) 1 (fun _ => 5)
        (fun _ => 7)
      = RecursiveBSplineTransformImplementation2.TransformPoint2 1 1
        (fun a : ℤ => (a : ℚ)) (fun _ => 3) (fun _ => 1 / 2) 1 (fun _ => 5) (fun _ => 7) :=
  TransformPoint_eq_TransformPoint2 1 1 1 (fun a : ℤ => (a : ℚ)) (fun n => (n : ℤ) * 3)
    (fun _ => 3) (fun _ => 1 / 2) (fun _ => 5) (fun _ => 7)
    (fun d k hd _ => by
      have hd0 : d = 0 := by omega
      subst hd0
      simp)

/-- C33: partition of unity is preserved by the recursion: if for every axis `d` the
`SplineOrder+1` weights `weights1D[d*(p+1) .. d*(p+1)+p]` sum to 1, then the `(p+1)^D`
entries written by `GetJacobian` with start value `v` sum to `v`, and `TransformPoint`
applied (from a zero output) to a coefficient field that is constant `c` over the support
region returns exactly `c`. -/
theorem partition_of_unity_preserved (OutputDimension SplineOrder SpaceDimension : ℕ)
    (weights1D : ℕ → K)
    (hunity : ∀ d : ℕ, d < SpaceDimension →
      ∑ k in range (SplineOrder + 1), weights1D (k + d * (SplineOrder + 1)) = 1) :
    (∀ (st : JacobianCursor K) (v : K),
      ∑ i in range ((SplineOrder + 1) ^ SpaceDimension),
        (RecursiveBSplineTransformImplementation.GetJacobian SplineOrder weights1D
          SpaceDimension st v).memory (st.jacobians + i) = v) ∧
    (∀ (memory : ℤ → K) (steps : ℕ → ℤ) (mu : ℕ → ℤ) (c : K) (j : ℕ),
      j < OutputDimension →
      (∀ i : ℕ, i < (SplineOrder + 1) ^ SpaceDimension →
        memory (mu j + ∑ d in range SpaceDimension,
          steps (leafDigit SplineOrder d i + d * (SplineOrder + 1))) = c) →
      RecursiveBSplineTransformImplementation2.TransformPoint OutputDimension SplineOrder
        memory steps weights1D SpaceDimension (fun _ => 0) mu j = c) := by
  have hone : ∑ i in range ((SplineOrder + 1) ^ SpaceDimension),
      ∏ d in range SpaceDimension,
        weights1D (leafDigit SplineOrder d i + d * (SplineOrder + 1)) = 1 := by
    rw [sum_leaves_prod SplineOrder SpaceDimension
      (fun d k => weights1D (k + d * (SplineOrder + 1)))]
    exact Finset.prod_eq_one (fun d hd => hunity d (Finset.mem_range.mp hd))
  constructor
  · intro st v
    obtain ⟨-, hv, -⟩ := RecursiveBSplineTransformImplementation.GetJacobian_spec
      SplineOrder weights1D SpaceDimension st v
    rw [Finset.sum_congr rfl (fun i hi => hv i (Finset.mem_range.mp hi)), ← Finset.mul_sum,
      hone, mul_one]
  · intro memory steps mu c j hj hconst
    rw [RecursiveBSplineTransformImplementation2.TransformPoint_apply, if_pos hj]
    have h0 : (if SpaceDimension = 0 then (0 : K) else (fun _ : ℕ => (0 : K)) j) = 0 := by
      split_ifs <;> rfl
    rw [h0, zero_add,
      Finset.sum_congr rfl (fun i hi => by rw [hconst i (Finset.mem_range.mp hi)]),
      ← Finset.mul_sum, hone, mul_one]

theorem partition_of_unity_preserved_witness :
    ∑ i in range ((1 + 1) ^ 2),
      (RecursiveBSplineTransformImplementation.GetJacobian 1 (fun _ => (1 / 2 : ℚ)) 2
        { memory := fun _ => 0, jacobians := 4 } 3).memory (4 + i) = 3 :=
  (partition_of_unity_preserved 1 1 2 (fun _ => (1 / 2 : ℚ))
    (fun d _ => by norm_num [Finset.sum_range_succ])).1
    { memory := fun _ => 0, jacobians := 4 } 3

/-! ## The vector-form `GetJacobian` and `EvaluateJacobianWithImageGradientProduct` -/

lemma RecursiveBSplineTransformImplementation2.GetJacobian_eq_writeLeaves
    (OutputDimension SplineOrder BSplineNumberOfIndices : ℕ) (weights1D : ℕ → K)
    (SpaceDimension : ℕ) (st : JacobianCursor K) (value : K) :
    RecursiveBSplineTransformImplementation2.GetJacobian OutputDimension SplineOrder
        BSplineNumberOfIndices weights1D SpaceDimension st value
      = writeLeaves OutputDimension SplineOrder
          (fun j => j * BSplineNumberOfIndices * (OutputDimension + 1) % uintModulus)
          (fun _ v => v) weights1D SpaceDimension st value := by
  induction SpaceDimension generalizing st value with
  | zero => rfl
  | succ D ih =>
    unfold RecursiveBSplineTransformImplementation2.GetJacobian writeLeaves
    simp only [ih]

lemma RecursiveBSplineTransformImplementation2.EvaluateJacobianWithImageGradientProduct_eq
    (OutputDimension SplineOrder BSplineNumberOfIndices : ℕ) (movingImageGradient : ℕ → K)
    (weights1D : ℕ → K) (SpaceDimension : ℕ) (st : JacobianCursor K) (value : K) :
    RecursiveBSplineTransformImplementation2.EvaluateJacobianWithImageGradientProduct
        OutputDimension SplineOrder BSplineNumberOfIndices movingImageGradient weights1D
        SpaceDimension st value
      = writeLeaves OutputDimension SplineOrder
          (fun j => j * BSplineNumberOfIndices % uintModulus)
          (fun j v => v * movingImageGradient j) weights1D SpaceDimension st value := by
  induction SpaceDimension generalizing st value with
  | zero => rfl
  | succ D ih =>
    unfold RecursiveBSplineTransformImplementation2.EvaluateJacobianWithImageGradientProduct
      writeLeaves
    simp only [ih]

/-- The entries that `writeLeaves` stores when no two of the positions written coincide:
leaf `i` and output dimension `j` are stored at the cursor plus `i + offset j`, all other
entries are left alone, and the cursor advances by the number of leaves. -/
lemma writeLeaves_spec (OutputDimension SplineOrder : ℕ) (offset : ℕ → ℕ)
    (entry : ℕ → K → K) (weights1D : ℕ → K) (B : ℕ)
    (huniq : ∀ i i' j j' : ℕ, i < B → i' < B → j < OutputDimension → j' < OutputDimension →
      i + offset j = i' + offset j' → i = i' ∧ j = j')
    (SpaceDimension : ℕ) (st : JacobianCursor K) (value : K)
    (hrow : (SplineOrder + 1) ^ SpaceDimension ≤ B) :
    (writeLeaves OutputDimension SplineOrder offset entry weights1D SpaceDimension st
        value).jacobians = st.jacobians + (SplineOrder + 1) ^ SpaceDimension ∧
    (∀ i j : ℕ, i < (SplineOrder + 1) ^ SpaceDimension → j < OutputDimension →
      (writeLeaves OutputDimension SplineOrder offset entry weights1D SpaceDimension st
          value).memory (st.jacobians + i + offset j)
        = entry j (value * ∏ d in range SpaceDimension,
            weights1D (leafDigit SplineOrder d i + d * (SplineOrder + 1)))) ∧
    (∀ pos : ℕ,
      (∀ i j : ℕ, i < (SplineOrder + 1) ^ SpaceDimension → j < OutputDimension →
        pos ≠ st.jacobians + i + offset j) →
      (writeLeaves OutputDimension SplineOrder offset entry weights1D SpaceDimension st
          value).memory pos = st.memory pos) := by
  induction SpaceDimension generalizing st value with
  | zero =>
    simp only [pow_zero] at hrow
    obtain ⟨hv, hf⟩ := foldl_update_range (fun j => st.jacobians + offset j)
      (fun j => entry j value) st.memory OutputDimension
      (by
        intro j j' hj hj' h
        have h' : 0 + offset j = 0 + offset j' := by
          simp only [Nat.zero_add]
          exact Nat.add_left_cancel h
        exact (huniq 0 0 j j' (by omega) (by omega) hj hj' h').2)
    unfold writeLeaves
    refine ⟨by simp, ?_, ?_⟩
    · intro i j hi hj
      have hi0 : i = 0 := by simpa using hi
      subst hi0
      simpa using hv j hj
    · intro pos hpos
      apply hf
      intro j hj
      have := hpos 0 j Nat.one_pos hj
      simpa using this
  | succ D ih =>
    have hq : 0 < (SplineOrder + 1) ^ D := pow_pos (Nat.succ_pos _) D
    unfold writeLeaves
    simp only [HelperConstVariable_succ]
    have hloop : ∀ m : ℕ, m ≤ SplineOrder + 1 →
        ((List.range m).foldl (fun (st : JacobianCursor K) (k : ℕ) =>
            writeLeaves OutputDimension SplineOrder offset entry weights1D D st
              (value * weights1D (k + D * (SplineOrder + 1)))) st).jacobians
          = st.jacobians + m * (SplineOrder + 1) ^ D ∧
        (∀ i j : ℕ, i < m * (SplineOrder + 1) ^ D → j < OutputDimension →
          ((List.range m).foldl (fun (st : JacobianCursor K) (k : ℕ) =>
              writeLeaves OutputDimension SplineOrder offset entry weights1D D st
                (value * weights1D (k + D * (SplineOrder + 1)))) st).memory
              (st.jacobians + i + offset j)
            = entry j (value * weights1D (i / (SplineOrder + 1) ^ D + D * (SplineOrder + 1))
              * ∏ d in range D,
                  weights1D (leafDigit SplineOrder d i + d * (SplineOrder + 1)))) ∧
        (∀ pos : ℕ,
          (∀ i j : ℕ, i < m * (SplineOrder + 1) ^ D → j < OutputDimension →
            pos ≠ st.jacobians + i + offset j) →
          ((List.range m).foldl (fun (st : JacobianCursor K) (k : ℕ) =>
              writeLeaves OutputDimension SplineOrder offset entry weights1D D st
                (value * weights1D (k + D * (SplineOrder + 1)))) st).memory pos
            = st.memory pos) := by
      intro m
      induction m with
      | zero => intro _; simp
      | succ m ihm =>
        intro hm
        obtain ⟨hc, hv, hf⟩ := ihm (by omega)
        rw [List.range_succ, List.foldl_append, List.foldl_cons, List.foldl_nil]
        generalize (List.range m).foldl (fun (st : JacobianCursor K) (k : ℕ) =>
            writeLeaves OutputDimension SplineOrder offset entry weights1D D st
              (value * weights1D (k + D * (SplineOrder + 1)))) st = stm at hc hv hf ⊢
        have hmq : m * (SplineOrder + 1) ^ D + (SplineOrder + 1) ^ D ≤ B := by
          calc m * (SplineOrder + 1) ^ D + (SplineOrder + 1) ^ D
              = (m + 1) * (SplineOrder + 1) ^ D := by ring
            _ ≤ (SplineOrder + 1) * (SplineOrder + 1) ^ D := Nat.mul_le_mul_right _ hm
            _ = (SplineOrder + 1) ^ (D + 1) := by ring
            _ ≤ B := hrow
        obtain ⟨hc', hv', hf'⟩ := ih stm (value * weights1D (m + D * (SplineOrder + 1)))
          (by omega)
        refine ⟨?_, ?_, ?_⟩
        · rw [hc', hc]
          ring
        · intro i j hi hj
          by_cases hlt : i < m * (SplineOrder + 1) ^ D
          · rw [hf' _ (by
              intro r j' hr hj' heq
              rw [hc] at heq
              have h2 : i + offset j = (m * (SplineOrder + 1) ^ D + r) + offset j' := by omega
              have := (huniq i (m * (SplineOrder + 1) ^ D + r) j j' (by omega) (by omega)
                hj hj' h2).1
              omega), hv i j hlt hj]
          · have hge : m * (SplineOrder + 1) ^ D ≤ i := not_lt.mp hlt
            obtain ⟨r, rfl⟩ : ∃ r, i = m * (SplineOrder + 1) ^ D + r :=
              ⟨i - m * (SplineOrder + 1) ^ D, by omega⟩
            have hr : r < (SplineOrder + 1) ^ D := by
              rw [Nat.succ_mul] at hi
              omega
            have hpos := hv' r j hr hj
            have hposeq : stm.jacobians + r + offset j
                = st.jacobians + (m * (SplineOrder + 1) ^ D + r) + offset j := by
              rw [hc]
              ring
            rw [hposeq] at hpos
            rw [hpos]
            have hdiv : (m * (SplineOrder + 1) ^ D + r) / (SplineOrder + 1) ^ D = m := by
              rw [add_comm, Nat.add_mul_div_right _ _ hq, Nat.div_eq_of_lt hr, zero_add]
            rw [hdiv]
            have hprod : ∏ d in range D, weights1D
                  (leafDigit SplineOrder d (m * (SplineOrder + 1) ^ D + r)
                    + d * (SplineOrder + 1))
                = ∏ d in range D,
                    weights1D (leafDigit SplineOrder d r + d * (SplineOrder + 1)) :=
              Finset.prod_congr rfl (fun d hd => by
                rw [leafDigit_block_low SplineOrder D d m r (Finset.mem_range.mp hd)])
            rw [hprod]
        · intro pos hpos
          rw [hf' pos (by
              intro r j' hr hj'
              have := hpos (m * (SplineOrder + 1) ^ D + r) j'
                (by rw [Nat.succ_mul]; omega) hj'
              rw [hc]
              intro heq
              apply this
              rw [heq]
              ring),
            hf pos (by
              intro i j' hi hj'
              exact hpos i j' (by rw [Nat.succ_mul]; omega) hj')]
    obtain ⟨hc, hv, hf⟩ := hloop (SplineOrder + 1) le_rfl
    rw [← pow_succ'] at hc hv hf
    refine ⟨hc, ?_, hf⟩
    intro i j hi hj
    rw [hv i j hi hj, Finset.prod_range_succ, leafDigit_top_of_lt SplineOrder D i hi]
    congr 1
    ring

/-- C40 (counterexample): `SpaceDimension = 3`, `OutputDimension = 2`, `SplineOrder = 1`,
`BSplineNumberOfIndices = (1+1)^2 = 4`, all weights and the start value 1 and the image
gradient `(1, 2)`: for leaf `i = 0` and output dimension `j = 1` the entry
`imageJacobian[0 + 1*4]` holds 1, the product for leaf 4 and output dimension 0 that was
stored there later, whereas `movingImageGradient[1]` times the entry
`jacobians[0 + 1*4*(2+1)]` of `GetJacobian` is 2. -/
theorem EvaluateJacobianWithImageGradientProduct_counterexample :
    (RecursiveBSplineTransformImplementation2.EvaluateJacobianWithImageGradientProduct 2 1 4
        (fun j => (j : ℚ) + 1) (fun _ => 1) 3
        { memory := fun _ => 0, jacobians := 0 } 1).memory (0 + (0 + 1 * 4)) = 1 ∧
    (RecursiveBSplineTransformImplementation2.GetJacobian 2 1 4 (fun _ => (1 : ℚ)) 3
        { memory := fun _ => 0, jacobians := 0 } 1).memory (0 + (0 + 1 * 4 * (2 + 1))) = 1 ∧
    (RecursiveBSplineTransformImplementation2.EvaluateJacobianWithImageGradientProduct 2 1 4
        (fun j => (j : ℚ) + 1) (fun _ => 1) 3
        { memory := fun _ => 0, jacobians := 0 } 1).memory (0 + (0 + 1 * 4))
      ≠ (fun j : ℕ => (j : ℚ) + 1) 1
        * (RecursiveBSplineTransformImplementation2.GetJacobian 2 1 4 (fun _ => (1 : ℚ)) 3
            { memory := fun _ => 0, jacobians := 0 } 1).memory
            (0 + (0 + 1 * 4 * (2 + 1))) := by
  have hE : (RecursiveBSplineTransformImplementation2.EvaluateJacobianWithImageGradientProduct
        2 1 4 (fun j => (j : ℚ) + 1) (fun _ => 1) 3
        { memory := fun _ => 0, jacobians := 0 } 1).memory (0 + (0 + 1 * 4)) = 1 := by
    simp [RecursiveBSplineTransformImplementation2.EvaluateJacobianWithImageGradientProduct,
      List.range_succ, Function.update_apply, uintModulus]
  have hJ : (RecursiveBSplineTransformImplementation2.GetJacobian 2 1 4 (fun _ => (1 : ℚ)) 3
        { memory := fun _ => 0, jacobians := 0 } 1).memory (0 + (0 + 1 * 4 * (2 + 1))) = 1 := by
    simp [RecursiveBSplineTransformImplementation2.GetJacobian,
      List.range_succ, Function.update_apply, uintModulus]
  refine ⟨hE, hJ, ?_⟩
  rw [hE, hJ]
  norm_num

/-- C40 (amended): when a row of `BSplineNumberOfIndices` entries holds the leaves,
`(SplineOrder+1)^SpaceDimension <= BSplineNumberOfIndices` (the constant does not depend on
`SpaceDimension`), then for every leaf position `i` and output dimension `j`,
`EvaluateJacobianWithImageGradientProduct` writes at
`imageJacobian[i + j*BSplineNumberOfIndices]` the value `movingImageGradient[j]` times the
entry that the vector-form `GetJacobian`, run with the same weights and start value,
writes at `jacobians[i + j*BSplineNumberOfIndices*(OutputDimension+1)]` (the block-diagonal
position of row `j`), and both advance their cursor by `(SplineOrder+1)^SpaceDimension`.
The constant `BSplineNumberOfIndices` is an argument, and the offsets fit `unsigned int`. -/
theorem EvaluateJacobianWithImageGradientProduct_eq_gradient_mul_GetJacobian
    (OutputDimension SplineOrder BSplineNumberOfIndices SpaceDimension : ℕ)
    (movingImageGradient weights1D : ℕ → K) (imageJacobian jacobians : JacobianCursor K)
    (value : K)
    (hrow : (SplineOrder + 1) ^ SpaceDimension ≤ BSplineNumberOfIndices)
    (hfit : OutputDimension * BSplineNumberOfIndices * (OutputDimension + 1) ≤ uintModulus) :
    (RecursiveBSplineTransformImplementation2.EvaluateJacobianWithImageGradientProduct
        OutputDimension SplineOrder BSplineNumberOfIndices movingImageGradient weights1D
        SpaceDimension imageJacobian value).jacobians
      = imageJacobian.jacobians + (SplineOrder + 1) ^ SpaceDimension ∧
    (RecursiveBSplineTransformImplementation2.GetJacobian OutputDimension SplineOrder
        BSplineNumberOfIndices weights1D SpaceDimension jacobians value).jacobians
      = jacobians.jacobians + (SplineOrder + 1) ^ SpaceDimension ∧
    ∀ i j : ℕ, i < (SplineOrder + 1) ^ SpaceDimension → j < OutputDimension →
      (RecursiveBSplineTransformImplementation2.GetJacobian OutputDimension SplineOrder
          BSplineNumberOfIndices weights1D SpaceDimension jacobians value).memory
          (jacobians.jacobians + (i + j * BSplineNumberOfIndices * (OutputDimension + 1)))
        = value * ∏ d in range SpaceDimension,
            weights1D (leafDigit SplineOrder d i + d * (SplineOrder + 1)) ∧
      (RecursiveBSplineTransformImplementation2.EvaluateJacobianWithImageGradientProduct
          OutputDimension SplineOrder BSplineNumberOfIndices movingImageGradient weights1D
          SpaceDimension imageJacobian value).memory
          (imageJacobian.jacobians + (i + j * BSplineNumberOfIndices))
        = movingImageGradient j
          * (RecursiveBSplineTransformImplementation2.GetJacobian OutputDimension SplineOrder
              BSplineNumberOfIndices weights1D SpaceDimension jacobians value).memory
              (jacobians.jacobians
                + (i + j * BSplineNumberOfIndices * (OutputDimension + 1))) := by
  have hB : 0 < BSplineNumberOfIndices :=
    lt_of_lt_of_le (pow_pos (Nat.succ_pos _) SpaceDimension) hrow
  have hwide : ∀ j : ℕ, j < OutputDimension →
      j * BSplineNumberOfIndices * (OutputDimension + 1) < uintModulus := by
    intro j hj
    have h1 : (j + 1) * BSplineNumberOfIndices * (OutputDimension + 1)
        ≤ OutputDimension * BSplineNumberOfIndices * (OutputDimension + 1) :=
      Nat.mul_le_mul_right _ (Nat.mul_le_mul_right _ hj)
    have h2 : 0 < BSplineNumberOfIndices * (OutputDimension + 1) :=
      Nat.mul_pos hB (Nat.succ_pos _)
    have h3 : (j + 1) * BSplineNumberOfIndices * (OutputDimension + 1)
        = j * BSplineNumberOfIndices * (OutputDimension + 1)
          + BSplineNumberOfIndices * (OutputDimension + 1) := by ring
    omega
  have hnarrow : ∀ j : ℕ, j < OutputDimension → j * BSplineNumberOfIndices < uintModulus := by
    intro j hj
    have h1 : j * BSplineNumberOfIndices
        ≤ j * BSplineNumberOfIndices * (OutputDimension + 1) :=
      Nat.le_mul_of_pos_right _ (Nat.succ_pos _)
    exact lt_of_le_of_lt h1 (hwide j hj)
  have hle : BSplineNumberOfIndices ≤ BSplineNumberOfIndices * (OutputDimension + 1) :=
    Nat.le_mul_of_pos_right _ (Nat.succ_pos _)
  obtain ⟨hcJ, hvJ, -⟩ := writeLeaves_spec OutputDimension SplineOrder
    (fun j => j * BSplineNumberOfIndices * (OutputDimension + 1) % uintModulus)
    (fun _ v => v) weights1D BSplineNumberOfIndices
    (by
      intro i i' j j' hi hi' hj hj' h
      simp only [Nat.mod_eq_of_lt (hwide j hj), Nat.mod_eq_of_lt (hwide j' hj')] at h
      rw [Nat.mul_assoc, Nat.mul_assoc] at h
      exact add_mul_unique (BSplineNumberOfIndices * (OutputDimension + 1)) i i' j j'
        (lt_of_lt_of_le hi hle) (lt_of_lt_of_le hi' hle) h)
    SpaceDimension jacobians value hrow
  obtain ⟨hcE, hvE, -⟩ := writeLeaves_spec OutputDimension SplineOrder
    (fun j => j * BSplineNumberOfIndices % uintModulus)
    (fun j v => v * movingImageGradient j) weights1D BSplineNumberOfIndices
    (by
      intro i i' j j' hi hi' hj hj' h
      simp only [Nat.mod_eq_of_lt (hnarrow j hj), Nat.mod_eq_of_lt (hnarrow j' hj')] at h
      exact add_mul_unique BSplineNumberOfIndices i i' j j' hi hi' h)
    SpaceDimension imageJacobian value hrow
  rw [RecursiveBSplineTransformImplementation2.GetJacobian_eq_writeLeaves,
    RecursiveBSplineTransformImplementation2.EvaluateJacobianWithImageGradientProduct_eq]
  refine ⟨hcE, hcJ, ?_⟩
  intro i j hi hj
  have hJ := hvJ i j hi hj
  have hE := hvE i j hi hj
  simp only [Nat.mod_eq_of_lt (hwide j hj)] at hJ
  simp only [Nat.mod_eq_of_lt (hnarrow j hj)] at hE
  rw [Nat.add_assoc] at hJ hE
  rw [hJ, hE]
  exact ⟨rfl, mul_comm _ _⟩

theorem EvaluateJacobianWithImageGradientProduct_eq_gradient_mul_GetJacobian_witness :
    (RecursiveBSplineTransformImplementation2.EvaluateJacobianWithImageGradientProduct
        2 1 2 (fun j => (j : ℚ) + 3) (fun _ => 1 / 2) 1
        { memory := fun _ => 0, jacobians := 1 } 10).memory (1 + (1 + 1 * 2))
      = ((1 : ℕ) + 3 : ℚ)
        * (RecursiveBSplineTransformImplementation2.GetJacobian 2 1 2 (fun _ => (1 / 2 : ℚ)) 1
            { memory := fun _ => 0, jacobians := 5 } 10).memory (5 + (1 + 1 * 2 * (2 + 1))) :=
  ((EvaluateJacobianWithImageGradientProduct_eq_gradient_mul_GetJacobian 2 1 2 1
    (fun j => (j : ℚ) + 3) (fun _ => 1 / 2) { memory := fun _ => 0, jacobians := 1 }
    { memory := fun _ => 0, jacobians := 5 } 10 (by norm_num)
    (by norm_num [uintModulus])).2.2 1 1 (by norm_num) (by norm_num)).2
/-! ## The library flag -/

/-- Once the flag is initialised, every query returns its value and no call changes it. -/
lemma runFlagCalls_initialised (calls : List FlagCall) (value : Bool) :
    (runFlagCalls calls (some value)).2 = some value ∧
    ∀ returned ∈ (runFlagCalls calls (some value)).1, returned = value := by
  induction calls with
  | nil => simp [runFlagCalls]
  | cons call calls ih =>
    cases call with
    | IsElastixLibrary =>
      simp only [runFlagCalls, FlagCall.run, BaseComponent.IsElastixLibrary,
        IsElastixLibrary, List.mem_cons]
      refine ⟨ih.1, ?_⟩
      rintro returned (h | h)
      · exact h
      · exact ih.2 returned h
    | InitializeElastixExecutable =>
      simp only [runFlagCalls, FlagCall.run, BaseComponent.InitializeElastixExecutable,
        IsElastixLibrary]
      exact ih

/-- C39: the library/executable flag is decided once: `IsElastixLibrary()` returns `true`
unless `InitializeElastixExecutable()` was called before the first call of
`IsElastixLibrary()`, and after the first call of either operation the value returned by
`IsElastixLibrary()` never changes, so calling `InitializeElastixExecutable()` after a
query has no effect. -/
theorem IsElastixLibrary_decided_once (first : FlagCall) (calls : List FlagCall) :
    (first.run none).2
      = some (match first with
          | FlagCall.IsElastixLibrary => true
          | FlagCall.InitializeElastixExecutable => false) ∧
    (runFlagCalls (first :: calls) none).2 = (first.run none).2 ∧
    (∀ returned ∈ (runFlagCalls (first :: calls) none).1,
      some returned = (first.run none).2) ∧
    (∀ value : Bool,
      BaseComponent.InitializeElastixExecutable (some value) = some value ∧
      BaseComponent.IsElastixLibrary (some value) = (value, some value)) := by
  refine ⟨?_, ?_, ?_, fun value => ⟨rfl, rfl⟩⟩
  · cases first <;> rfl
  · cases first with
    | IsElastixLibrary =>
      simp only [runFlagCalls, FlagCall.run, BaseComponent.IsElastixLibrary, IsElastixLibrary]
      exact (runFlagCalls_initialised calls true).1
    | InitializeElastixExecutable =>
      simp only [runFlagCalls, FlagCall.run, BaseComponent.InitializeElastixExecutable,
        IsElastixLibrary]
      exact (runFlagCalls_initialised calls false).1
  · cases first with
    | IsElastixLibrary =>
      simp only [runFlagCalls, FlagCall.run, BaseComponent.IsElastixLibrary, IsElastixLibrary,
        List.mem_cons]
      rintro returned (h | h)
      · rw [h]
      · rw [(runFlagCalls_initialised calls true).2 returned h]
    | InitializeElastixExecutable =>
      simp only [runFlagCalls, FlagCall.run, BaseComponent.InitializeElastixExecutable,
        IsElastixLibrary]
      intro returned h
      rw [(runFlagCalls_initialised calls false).2 returned h]

/-! ## Elapsed time as text -/

lemma truncate_natCast (n : ℕ) : truncate (n : K) = (n : ℤ) := by
  unfold truncate
  rw [if_pos (Nat.cast_nonneg n), Int.floor_natCast]

lemma castToSizeT_natCast (n : ℕ) (hn : n < ulongModulus) : castToSizeT (n : K) = n := by
  unfold castToSizeT
  rw [truncate_natCast]
  have h : ((n : ℤ) % (ulongModulus : ℤ)) = (n : ℤ) :=
    Int.emod_eq_of_lt (Int.natCast_nonneg n) (by exact_mod_cast hn)
  rw [h, Int.toNat_natCast]

lemma fmod_natCast_sixty (n : ℕ) : fmod (n : K) 60 = ((n % 60 : ℕ) : K) := by
  unfold fmod truncate
  have hsplit : (n : K) = 60 * ((n / 60 : ℕ) : K) + ((n % 60 : ℕ) : K) := by
    exact_mod_cast (Nat.div_add_mod n 60).symm
  have hr : ((n % 60 : ℕ) : K) < 60 := by
    exact_mod_cast Nat.mod_lt n (by norm_num)
  have hr0 : (0 : K) ≤ ((n % 60 : ℕ) : K) := Nat.cast_nonneg _
  generalize n / 60 = q at hsplit
  generalize n % 60 = r at hsplit hr hr0 ⊢
  have hfloor : ⌊(n : K) / 60⌋ = (q : ℤ) := by
    rw [Int.floor_eq_iff, Int.cast_natCast]
    constructor
    · rw [le_div_iff₀ (by norm_num : (0 : K) < 60)]
      linarith
    · rw [div_lt_iff₀ (by norm_num : (0 : K) < 60)]
      linarith
  have hnonneg : (0 : K) ≤ (n : K) / 60 := div_nonneg (Nat.cast_nonneg n) (by norm_num)
  rw [if_pos hnonneg, hfloor, Int.cast_natCast]
  linarith

/-- C38 (counterexample): for `n = 2^64` seconds the conversion of the `double` to
`std::size_t` yields 0, so neither a days nor an hours nor a minutes field is shown,
although `2^64` seconds are more than a day: the output is the seconds field alone, and no
days, hours, minutes and seconds that add up to `n` give this output. -/
theorem ConvertSecondsToDHMS_counterexample :
    ConvertSecondsToDHMS (fun _ (_ : ℚ) => []) ((2 ^ 64 : ℕ) : ℚ) 0 = ['s'] ∧
    ¬ ∃ days hours minutes seconds : ℕ,
      2 ^ 64 = 86400 * days + 3600 * hours + 60 * minutes + seconds ∧
      hours < 24 ∧ minutes < 60 ∧ seconds < 60 ∧
      ConvertSecondsToDHMS (fun _ (_ : ℚ) => []) ((2 ^ 64 : ℕ) : ℚ) 0
        = (if days ≠ 0 then Nat.toDigits 10 days ++ ['d'] else [])
          ++ (if days ≠ 0 ∨ hours ≠ 0 then Nat.toDigits 10 hours ++ ['h'] else [])
          ++ (if days ≠ 0 ∨ hours ≠ 0 ∨ minutes ≠ 0 then Nat.toDigits 10 minutes ++ ['m']
              else [])
          ++ ((fun _ (_ : ℚ) => ([] : List Char)) 0 ((seconds : ℕ) : ℚ) ++ ['s']) := by
  have hcast : castToSizeT ((2 ^ 64 : ℕ) : ℚ) = 0 := by
    unfold castToSizeT
    rw [truncate_natCast]
    norm_num [ulongModulus]
  have hout : ConvertSecondsToDHMS (fun _ (_ : ℚ) => []) ((2 ^ 64 : ℕ) : ℚ) 0
      = ['s'] := by
    unfold ConvertSecondsToDHMS
    simp only [hcast]
    simp
  refine ⟨hout, ?_⟩
  rintro ⟨days, hours, minutes, seconds, hdec, hh, hm, hs, heq⟩
  rw [hout] at heq
  have hd : days ≠ 0 := by
    intro h0
    rw [h0] at hdec
    norm_num at hdec
    omega
  simp only [hd, ne_eq, not_false_eq_true, true_or, if_true] at heq
  have hlen := congrArg List.length heq
  simp only [List.length_append, List.length_cons, List.length_nil] at hlen
  omega

/-- C38 (amended): for every non-negative whole number of seconds `n` below `2^64`, the
range of the `std::size_t` to which the code converts the `double`,
`ConvertSecondsToDHMS` computes days, hours, minutes and seconds with
`n = 86400*days + 3600*hours + 60*minutes + seconds`, `hours < 24`, `minutes < 60` and
`seconds < 60`, and its output shows the days field iff `days != 0`, the hours field iff
`days != 0` or `hours != 0`, the minutes field iff days, hours or minutes is non-zero, and
always the seconds field, in that order. -/
theorem ConvertSecondsToDHMS_fields (showFixed : ℕ → K → List Char) (n precision : ℕ)
    (hn : n < ulongModulus) :
    ∃ days hours minutes seconds : ℕ,
      n = 86400 * days + 3600 * hours + 60 * minutes + seconds ∧
      hours < 24 ∧ minutes < 60 ∧ seconds < 60 ∧
      ConvertSecondsToDHMS showFixed (n : K) precision
        = (if days ≠ 0 then Nat.toDigits 10 days ++ ['d'] else [])
          ++ (if days ≠ 0 ∨ hours ≠ 0 then Nat.toDigits 10 hours ++ ['h'] else [])
          ++ (if days ≠ 0 ∨ hours ≠ 0 ∨ minutes ≠ 0 then Nat.toDigits 10 minutes ++ ['m']
              else [])
          ++ (showFixed precision (seconds : K) ++ ['s']) := by
  refine ⟨n / 86400, n % 86400 / 3600, n % 86400 % 3600 / 60, n % 60,
    by omega, by omega, by omega, by omega, ?_⟩
  unfold ConvertSecondsToDHMS
  simp only [castToSizeT_natCast n hn, fmod_natCast_sixty]
  have e1 : 24 * (60 * 60) = 86400 := by norm_num
  have e2 : 60 * 60 = 3600 := by norm_num
  simp only [e1, e2]
  by_cases hd : n / 86400 = 0
  · by_cases hh : n % 86400 / 3600 = 0
    · by_cases hm : n % 86400 % 3600 / 60 = 0
      · simp [hd, hh, hm]
      · simp [hd, hh, hm]
    · simp [hd, hh]
  · simp [hd]

theorem ConvertSecondsToDHMS_fields_witness :
    ∃ days hours minutes seconds : ℕ,
      90061 = 86400 * days + 3600 * hours + 60 * minutes + seconds ∧
      hours < 24 ∧ minutes < 60 ∧ seconds < 60 ∧
      ConvertSecondsToDHMS (fun _ (x : ℚ) => if x = 1 then ['1', '.', '0'] else [])
          ((90061 : ℕ) : ℚ) 1
        = (if days ≠ 0 then Nat.toDigits 10 days ++ ['d'] else [])
          ++ (if days ≠ 0 ∨ hours ≠ 0 then Nat.toDigits 10 hours ++ ['h'] else [])
          ++ (if days ≠ 0 ∨ hours ≠ 0 ∨ minutes ≠ 0 then Nat.toDigits 10 minutes ++ ['m']
              else [])
          ++ ((fun _ (x : ℚ) => if x = 1 then ['1', '.', '0'] else []) 1 ((seconds : ℕ) : ℚ)
              ++ ['s']) :=
  ConvertSecondsToDHMS_fields (fun _ (x : ℚ) => if x = 1 then ['1', '.', '0'] else [])
    90061 1 (by norm_num [ulongModulus])
end Engine

end Elastix
